import Mathlib

/-!
# Uniswap v4 SDK (Go): pools, routes, trades and the bounded ranked list

A shallow embedding of `entities/pool.go`, `entities/route.go`,
`entities/getPathCurrency.go`, `entities/trade.go`,
`entities/encodeRouteToPath.go`, `entities/v4Planner.go`, the function
`getActions` of `entities/v4BaseActionsParser.go`, `utils/hook.go`,
`utils/sortsBefore.go` and `utils/priceTickConversions.go`.

Conventions of the embedding:

* Go values are immutable Lean values; a slice is a `List`, a string a list of
  characters (a `String` where the code only hands it on).  Where a function
  changes a slice it shares with its caller (`EncodeRouteToPath`) or its receiver
  (`V4Planner.AddActions`), it returns that value as the call leaves it.
* A function returning `(T, error)` returns `Except Err T`.  A Go run-time panic
  (index out of range, nil dereference, an explicit `panic(err)`) is an `Err`
  constructor whose name starts with `panic`; it is never confused with a
  returned error value.
* `nil` is modelled (as `Option`) exactly where the source tests for it.
* The memoising private fields of `Trade`, `Route` and `Pool` are caches of pure
  functions of the public fields and are not part of these structures.  The
  price methods of a pool and the mid price of a route take the memoising fields
  as an argument and return them as the call leaves them (`PoolMemo`, the
  argument `midPrice` of `Route.MidPrice`); the methods of a trade are taken
  without them, and `V4Planner.AddTrade`, which reads two of the fields of a
  trade directly, takes them as its argument `TradeMemo`.
* `int`/`int64` and `big.Int` are `Int`; lengths and addresses are `Nat`.
* The types of the external core library (currencies, fractions, amounts) are
  modelled from their description.  The tick and swap mathematics, the ABI
  packing and the hash behind a pool id and the checksum of an address are the
  fields of `External`; the tick data provider is a field of the pool.  The tick
  mathematics of package `utils` is the parameter `TickMath`, the native flag of
  a token the parameter `isNative` of `SortsBefore`, and the ABI encoding of the
  parameters of an action the parameter `AbiPack`.
* The trade code sees a pool through the capability `Quoter`; `poolQuoter` is the
  one made of `Pool.GetOutputAmount` and `Pool.GetInputAmount`.
* The loop of `sort.Search`, the loop of `v3Swap` and the recursion of the two
  best-trade searches carry an explicit bound.  `searchLoop_bound_irrelevant` and
  the two `bound_irrelevant` theorems of the searches show that the bounds used
  there are never reached; the swap loop ends with `Err.recursionBound` when its
  bound runs out, and every property of a swap is stated for every bound.
-/

namespace UniswapV4

/-! ## Errors -/

/-- Error values declared by the package and by the libraries it calls, and the
run-time panics the code can raise. -/
inductive Err where
  | ErrTradeHasMultipleRoutes
  | ErrInvalidAmountForRoute
  | ErrInputCurrencyMismatch
  | ErrOutputCurrencyMismatch
  | ErrDuplicatePools
  | ErrInvalidSlippageTolerance
  | ErrNoPools
  | ErrInvalidMaxHops
  | ErrInvalidRecursion
  | ErrInvalidMaxSize
  | ErrMaxSizeExceeded
  | ErrProtocolUnknown
  | ErrRouteNoPools
  | ErrAllOnSameChain
  | ErrInputNotInvolved
  | ErrOutputNotInvolved
  | ErrPathNotContinuous
  | ErrFeeTooHigh
  | ErrInvalidSqrtRatio96
  | ErrHookNotEnabled
  | ErrTokenNotInvolved
  | ErrSqrtPriceLimitX96TooLow
  | ErrSqrtPriceLimitX96TooHigh
  | ErrUnsupportedHook
  | ErrExpectedPathCurrency
  | ErrDifferentChain
  | ErrCoreDifferentChain
  | ErrCoreSameAddress
  | ErrDifferentCurrencies
  | ErrOnlyOneSwap
  | ErrExternal (code : Nat)
  | panicIndexOutOfRange
  | panicNilDereference
  | panicInputCurrencyMismatch
  | panicOutputCurrencyMismatch
  | recursionBound
  deriving DecidableEq, Repr

/-! `Err.recursionBound` is not an error of the program: it marks the point where
the bound of an embedded loop or recursion runs out.  That does not happen for
the bounds used for `sort.Search` and the best-trade searches; the swap loop,
whose length depends on the external libraries, is given its bound by the
caller. -/

/-- The error of a result, if it is one. -/
def errorOf {α : Type} : Except Err α → Option Err
  | .error e => some e
  | .ok _ => none

/-- The value of a result, if it is one. -/
def valueOf {α : Type} : Except Err α → Option α
  | .error _ => none
  | .ok a => some a

/-! ## Currencies and amounts (external types) -/

/-- Modelled from the spec: the external `core.Token`, a currency whose identity
is its chain identifier and address. -/
structure Token where
  chainId : Nat
  Address : Nat
  deriving DecidableEq, Repr

/-- Modelled from the spec: the external `core.Currency` interface; a currency
is either native (it then names the wrapped token that stands for it in pools)
or a token. -/
inductive Currency where
  | native (chainId : Nat) (weth : Token)
  | token (t : Token)
  deriving DecidableEq, Repr

namespace Currency

/-- Modelled from the spec: `Currency.IsNative`. -/
def IsNative : Currency → Bool
  | native _ _ => true
  | token _ => false

/-- Modelled from the spec: `Currency.IsToken`. -/
def IsToken : Currency → Bool
  | native _ _ => false
  | token _ => true

/-- Modelled from the spec: `Currency.ChainId`. -/
def ChainId : Currency → Nat
  | native c _ => c
  | token t => t.chainId

/-- Modelled from the spec: `Currency.Wrapped`, the wrapped representation used
for pool matching. -/
def Wrapped : Currency → Token
  | native _ w => w
  | token t => t

/-- Modelled from the spec: `Currency.Equal`, identity by chain and address; two
native currencies are equal when they are on one chain. -/
def Equal : Currency → Currency → Bool
  | native c _, native d _ => decide (c = d)
  | token s, token t => decide (s.chainId = t.chainId ∧ s.Address = t.Address)
  | _, _ => false

end Currency

namespace Token

/-- Modelled from the spec: `Token.Equal` against any currency. -/
def Equal (t : Token) (other : Currency) : Bool :=
  (Currency.token t).Equal other

/-- Modelled from the spec: a token is its own wrapped form. -/
def Wrapped (t : Token) : Token := t

/-- Modelled from the spec: `Token.IsNative` is false for every token. -/
def IsNative (_ : Token) : Bool := false

/-- Modelled from the spec: `Token.ChainId`. -/
def ChainId (t : Token) : Nat := t.chainId

end Token

/-- Modelled from the spec: the external `core.Fraction`, an exact rational kept
as an arbitrary-precision numerator and denominator. -/
structure Fraction where
  Numerator : Int
  Denominator : Int
  deriving DecidableEq, Repr

namespace Fraction

/-- Modelled from the spec: `Fraction.EqualTo`, equality by cross
multiplication. -/
def EqualTo (f other : Fraction) : Bool :=
  decide (f.Numerator * other.Denominator = other.Numerator * f.Denominator)

/-- Modelled from the spec: `Fraction.LessThan`, comparison by cross
multiplication. -/
def LessThan (f other : Fraction) : Bool :=
  decide (f.Numerator * other.Denominator < other.Numerator * f.Denominator)

/-- Modelled from the spec: `Fraction.Add`. -/
def Add (f other : Fraction) : Fraction :=
  if f.Denominator = other.Denominator then
    ⟨f.Numerator + other.Numerator, f.Denominator⟩
  else
    ⟨f.Numerator * other.Denominator + other.Numerator * f.Denominator,
      f.Denominator * other.Denominator⟩

/-- Modelled from the spec: `Fraction.Quotient`, the integer quotient, which
rounds down for a positive denominator.  The library panics on a denominator of
zero; the properties that go through a quotient are stated for positive
denominators. -/
def Quotient (f : Fraction) : Int := f.Numerator / f.Denominator

/-- The rational number a fraction stands for. -/
def toRat (f : Fraction) : ℚ := (f.Numerator : ℚ) / (f.Denominator : ℚ)

end Fraction

/-- Modelled from the spec: the external `core.CurrencyAmount`, a fraction
tagged with a currency. -/
structure CurrencyAmount where
  Currency : Currency
  Fraction : Fraction
  deriving DecidableEq, Repr

namespace CurrencyAmount

/-- Modelled from the spec: `core.FromRawAmount`. -/
def FromRawAmount (currency : UniswapV4.Currency) (rawAmount : Int) : CurrencyAmount :=
  ⟨currency, ⟨rawAmount, 1⟩⟩

/-- Modelled from the spec: `core.FromFractionalAmount`. -/
def FromFractionalAmount (currency : UniswapV4.Currency) (numerator denominator : Int) :
    CurrencyAmount :=
  ⟨currency, ⟨numerator, denominator⟩⟩

/-- Modelled from the spec: `CurrencyAmount.Add`; the sum keeps the receiver's
currency. -/
def Add (ca other : CurrencyAmount) : CurrencyAmount :=
  ⟨ca.Currency, ca.Fraction.Add other.Fraction⟩

/-- Modelled from the spec: `CurrencyAmount.Wrapped`. -/
def Wrapped (ca : CurrencyAmount) : CurrencyAmount :=
  if ca.Currency.IsToken then ca
  else FromFractionalAmount (.token ca.Currency.Wrapped) ca.Fraction.Numerator
    ca.Fraction.Denominator

/-- Modelled from the spec: `CurrencyAmount.Quotient`. -/
def Quotient (ca : CurrencyAmount) : Int := ca.Fraction.Quotient

end CurrencyAmount

/-! ## Pools (`entities/pool.go`) -/

/-- Modelled from the spec: a tick record of the external tick data provider. -/
structure Tick where
  Index : Int
  LiquidityGross : Int
  LiquidityNet : Int
  deriving DecidableEq, Repr

/-- Modelled from the spec: the external tick data provider capability, with its
two operations `GetTick` and `NextInitializedTickIndex`. -/
structure TickDataProvider where
  GetTick : Int → Except Err Tick
  NextInitializedTickIndex : Int → Bool → Except Err (Int × Bool)

/-- The struct `PoolKey`. -/
structure PoolKey where
  Currency0 : Nat
  Currency1 : Nat
  Fee : Int
  TickSpacing : Int
  Hooks : Nat
  deriving DecidableEq, Repr

/-- The struct `Pool` (without its two memoising price fields). -/
structure Pool where
  Currency0 : Token
  Currency1 : Token
  Fee : Int
  TickSpacing : Int
  SqrtRatioX96 : Int
  Hooks : Nat
  Liquidity : Int
  TickCurrent : Int
  TickDataProvider : TickDataProvider
  PoolKey : PoolKey
  PoolId : List Nat

namespace Pool

/-- The method `Pool.InvolvesToken`. -/
def InvolvesToken (p : Pool) (currency : Token) : Bool :=
  p.Currency0.Equal (.token currency) || p.Currency1.Equal (.token currency)

/-- The method `Pool.ChainID`. -/
def ChainID (p : Pool) : Nat := p.Currency0.ChainId

end Pool

/-- The struct `GetOutputAmountResult`. -/
structure GetOutputAmountResult where
  ReturnedAmount : CurrencyAmount
  RemainingAmountIn : CurrencyAmount
  NewPoolState : Pool
  CrossInitTickLoops : Int

/-- The struct `GetInputAmountResult`. -/
structure GetInputAmountResult where
  ReturnedAmount : CurrencyAmount
  RemainingAmountOut : CurrencyAmount
  NewPoolState : Pool
  CrossInitTickLoops : Int

/-- The two pool quoting methods `Pool.GetOutputAmount` and
`Pool.GetInputAmount`, always called here with a nil price limit.  The code
above them only sees their results, so they are taken as a capability. -/
structure Quoter where
  GetOutputAmount : Pool → CurrencyAmount → Except Err GetOutputAmountResult
  GetInputAmount : Pool → CurrencyAmount → Except Err GetInputAmountResult

/-! ## Routes (`entities/route.go`, `entities/getPathCurrency.go`) -/

/-- The struct `Route` (without its memoising mid-price field).  `PathInput` and
`PathOutput` are pointers that `getPathCurrency` may leave nil. -/
structure Route where
  Pools : List Pool
  TokenPath : List Token
  Input : Currency
  Output : Currency
  PathInput : Option Token
  PathOutput : Option Token

/-- The function `getPathCurrency`; `none` is its nil result. -/
def getPathCurrency (currency : Token) (pool : Pool) : Option Token :=
  if pool.InvolvesToken currency then
    some currency
  else if pool.InvolvesToken currency.Wrapped then
    some currency.Wrapped
  else if pool.Currency0.Wrapped.Equal (.token currency) then
    some pool.Currency0
  else if pool.Currency1.Wrapped.Equal (.token currency) then
    some pool.Currency1
  else
    none

/-- The function `AmountWithPathCurrency`. -/
def AmountWithPathCurrency (amount : CurrencyAmount) (pool : Pool) :
    Except Err CurrencyAmount :=
  match getPathCurrency amount.Currency.Wrapped pool with
  | none => .error .ErrExpectedPathCurrency
  | some pathCurrency =>
    .ok (CurrencyAmount.FromFractionalAmount (.token pathCurrency)
      amount.Fraction.Numerator amount.Fraction.Denominator)

/-- The chain check of `NewRoute`: the first pool whose chain differs from
`chainId` makes the constructor fail. -/
def sameChainLoop (chainId : Nat) : List Pool → Except Err Unit
  | [] => .ok ()
  | pool :: rest =>
    if pool.ChainID ≠ chainId then .error .ErrAllOnSameChain
    else sameChainLoop chainId rest

/-- The path loop of `NewRoute`, from index `i` on, over the pools not yet
visited; `currencyPath` is the slice built so far. -/
def pathLoop : List Pool → Nat → List Token → Except Err (List Token)
  | [], _, currencyPath => .ok currencyPath
  | pool :: rest, i, currencyPath =>
    match currencyPath[i]? with
    | none => .error .panicIndexOutOfRange
    | some currencyInputCurrency =>
      if currencyInputCurrency.Equal (.token pool.Currency0)
          || currencyInputCurrency.Equal (.token pool.Currency1) then
        .error .ErrPathNotContinuous
      else
        let nextCurrency :=
          if currencyInputCurrency.Equal (.token pool.Currency0) then pool.Currency1
          else pool.Currency0
        pathLoop rest (i + 1) (currencyPath ++ [nextCurrency])

/-- The constructor `NewRoute`.  `output` is an interface value the source
compares with nil, but only after having called `Wrapped` on it.  When
`getPathCurrency` returns nil for the input, entry 0 of the path is a nil
pointer, which the first round of the path loop dereferences. -/
def NewRoute (pools : List Pool) (input : Currency) (output : Option Currency) :
    Except Err Route :=
  match pools with
  | [] => .error .ErrRouteNoPools
  | first :: _ => do
    let chainId := first.ChainID
    sameChainLoop chainId pools
    let pathInput := getPathCurrency input.Wrapped first
    match output with
    | none => .error .panicNilDereference
    | some out =>
      let last := pools.getLast?.getD first
      let pathOutput := getPathCurrency out.Wrapped last
      match pathInput with
      | none => .error .panicNilDereference
      | some start => do
        let currencyPath ← pathLoop pools 0 [start]
        if !last.InvolvesToken out.Wrapped then .error .ErrOutputNotInvolved
        else
          .ok { Pools := pools
                TokenPath := currencyPath
                Input := input
                Output := out
                PathInput := pathInput
                PathOutput := pathOutput }

/-! ## Trades (`entities/trade.go`) -/

/-- The trade type of the external core library. -/
inductive TradeType where
  | ExactInput
  | ExactOutput
  deriving DecidableEq, Repr

/-- The struct `Swap`. -/
structure Swap where
  Route : Route
  InputAmount : CurrencyAmount
  OutputAmount : CurrencyAmount

/-- The struct `Trade` (without its four memoising fields). -/
structure Trade where
  Swaps : List Swap
  TradeType : TradeType

/-- The struct `BestTradeOptions`. -/
structure BestTradeOptions where
  MaxNumResults : Int
  MaxHops : Int
  deriving DecidableEq, Repr

namespace Trade

/-- The method `Trade.InputAmount`: the sum of the swaps' input amounts in the
currency of the first swap; reading `Swaps[0]` of an empty trade panics. -/
def InputAmount (t : Trade) : Except Err CurrencyAmount :=
  match t.Swaps with
  | [] => .error .panicIndexOutOfRange
  | first :: _ =>
    .ok (t.Swaps.foldl (fun total swap => total.Add swap.InputAmount)
      (CurrencyAmount.FromRawAmount first.InputAmount.Currency 0))

/-- The method `Trade.OutputAmount`. -/
def OutputAmount (t : Trade) : Except Err CurrencyAmount :=
  match t.Swaps with
  | [] => .error .panicIndexOutOfRange
  | first :: _ =>
    .ok (t.Swaps.foldl (fun total swap => total.Add swap.OutputAmount)
      (CurrencyAmount.FromRawAmount first.OutputAmount.Currency 0))

/-- The hop count `tradeComparator` computes for a trade: the summed lengths of
its swaps' token paths. -/
def hops (t : Trade) : Int :=
  t.Swaps.foldl (fun total swap => total + (swap.Route.TokenPath.length : Int)) 0

end Trade

/-- The function `tradeComparator`. -/
def tradeComparator (a b : Trade) : Except Err Int := do
  let aIn ← a.InputAmount
  let bIn ← b.InputAmount
  if !aIn.Currency.Equal bIn.Currency then
    throw .panicInputCurrencyMismatch
  let aOut ← a.OutputAmount
  let bOut ← b.OutputAmount
  if !aOut.Currency.Equal bOut.Currency then
    throw .panicOutputCurrencyMismatch
  if aOut.Fraction.EqualTo bOut.Fraction then
    if aIn.Fraction.EqualTo bIn.Fraction then
      let aHops := a.hops
      let bHops := b.hops
      return aHops - bHops
    if aIn.Fraction.LessThan bIn.Fraction then
      return -1
    else
      return 1
  else
    if aOut.Fraction.LessThan bOut.Fraction then
      return 1
    else
      return -1

/-- The loop of Go's `sort.Search`: binary search on `[i, j)` for the least index
at which `f` holds, `h` being the midpoint `int(uint(i+j) >> 1)`.  The loop runs
at most `j - i` times; `fuel` bounds the number of iterations. -/
def searchLoop (f : Nat → Except Err Bool) : Nat → Nat → Nat → Except Err Nat
  | 0, i, _ => .ok i
  | fuel + 1, i, j =>
    if i < j then do
      let h := (i + j) / 2
      let found ← f h
      if !found then searchLoop f fuel (h + 1) j
      else searchLoop f fuel i h
    else .ok i

/-- Go's `sort.Search(n, f)`. -/
def Search (n : Nat) (f : Nat → Except Err Bool) : Except Err Nat :=
  searchLoop f n 0 n

/-- Lines 497 to 499 of `sortedInsert`: grow the slice by one, shift the
entries from `i` on one place up and store `add` at `i`. -/
def insertAt (items : List Trade) (i : Nat) (add : Trade) : List Trade :=
  items.take i ++ add :: items.drop i

/-- The closure `sortedInsert` hands to `sort.Search`:
`func(i int) bool { return comparator(add, items[i]) > 0 }`. -/
def searchPredicate (items : List Trade) (add : Trade)
    (comparator : Trade → Trade → Except Err Int) (i : Nat) : Except Err Bool :=
  match items[i]? with
  | none => .error .panicIndexOutOfRange
  | some item => do
    let c ← comparator add item
    pure (decide (c > 0))

/-- The function `sortedInsert`. -/
def sortedInsert (items : List Trade) (add : Trade) (maxSize : Int)
    (comparator : Trade → Trade → Except Err Int) : Except Err (List Trade) := do
  if maxSize ≤ 0 then
    throw .ErrInvalidMaxSize
  if (items.length : Int) > maxSize then
    throw .ErrMaxSizeExceeded
  let isFull : Bool := decide ((items.length : Int) = maxSize)
  let skip ←
    if isFull then
      match items[items.length - 1]? with
      | none => throw .panicIndexOutOfRange
      | some last => do
        let c ← comparator last add
        pure (decide (c ≤ 0))
    else pure false
  if skip then
    return items
  let i ← Search items.length (searchPredicate items add comparator)
  let items := insertAt items i add
  if isFull then
    return items.take maxSize.toNat
  return items

/-- The exact-input loop of `FromRoute`, `for i := 0; i < routeTokenPath; i++`,
with `remaining = routeTokenPath - i` rounds still to run. -/
def forwardLoop (q : Quoter) (pools : List Pool) :
    Nat → Nat → CurrencyAmount → Except Err CurrencyAmount
  | 0, _, tokenAmount => .ok tokenAmount
  | remaining + 1, i, tokenAmount =>
    match pools[i]? with
    | none => .error .panicIndexOutOfRange
    | some pool => do
      let outputAmountResult ← q.GetOutputAmount pool tokenAmount
      forwardLoop q pools remaining (i + 1) outputAmountResult.ReturnedAmount

/-- The exact-output loop of `FromRoute`, `for i := len(TokenPath) - 1; i > 0; i--`,
reading `Pools[i-1]`. -/
def backwardLoop (q : Quoter) (pools : List Pool) :
    Nat → CurrencyAmount → Except Err CurrencyAmount
  | 0, tokenAmount => .ok tokenAmount
  | i + 1, tokenAmount =>
    match pools[i]? with
    | none => .error .panicIndexOutOfRange
    | some pool => do
      let inputAmountResult ← q.GetInputAmount pool tokenAmount
      backwardLoop q pools i inputAmountResult.ReturnedAmount

/-- The function `FromRoute`. -/
def FromRoute (q : Quoter) (route : Route) (amount : CurrencyAmount)
    (tradeType : TradeType) : Except Err Trade := do
  let (inputAmount, outputAmount) ←
    (match tradeType with
    | .ExactInput => do
      if !amount.Currency.Equal route.Input then
        throw .ErrInvalidAmountForRoute
      match route.Pools[0]? with
      | none => throw .panicIndexOutOfRange
      | some firstPool =>
        let tokenAmount ← AmountWithPathCurrency amount firstPool
        let routeTokenPath := route.TokenPath.length
        let tokenAmount ← forwardLoop q route.Pools routeTokenPath 0 tokenAmount
        pure (CurrencyAmount.FromFractionalAmount route.Input amount.Fraction.Numerator
            amount.Fraction.Denominator,
          CurrencyAmount.FromFractionalAmount route.Output tokenAmount.Fraction.Numerator
            tokenAmount.Fraction.Denominator)
    | .ExactOutput => do
      if !amount.Currency.Equal route.Output then
        throw .ErrInvalidAmountForRoute
      match route.Pools.getLast? with
      | none => throw .panicIndexOutOfRange
      | some lastPool =>
        let tokenAmount ← AmountWithPathCurrency amount lastPool
        let tokenAmount ← backwardLoop q route.Pools (route.TokenPath.length - 1) tokenAmount
        pure (CurrencyAmount.FromFractionalAmount route.Input tokenAmount.Fraction.Numerator
            tokenAmount.Fraction.Denominator,
          CurrencyAmount.FromFractionalAmount route.Output amount.Fraction.Numerator
            amount.Fraction.Denominator) : Except Err (CurrencyAmount × CurrencyAmount))
  let swaps : List Swap :=
    [{ Route := route, InputAmount := inputAmount, OutputAmount := outputAmount }]
  return { Swaps := swaps, TradeType := tradeType }

/-- The method `Trade.ExecutionPrice`: the price `core.NewPrice` builds from the
quotient of the total input (its denominator) and the quotient of the total
output (its numerator). -/
def Trade.ExecutionPrice (t : Trade) : Except Err Fraction := do
  let inputAmount ← t.InputAmount
  let outputAmount ← t.OutputAmount
  return ⟨outputAmount.Quotient, inputAmount.Quotient⟩

/-- The default options of the two best-trade searches. -/
def defaultBestTradeOptions : BestTradeOptions := { MaxNumResults := 3, MaxHops := 3 }

/-- The type of a nested call of a best-trade search: the pools left, the
options, the pools of the current path, the amount carried to the frontier and
the best trades so far. -/
abbrev BestTradeCall :=
  List Pool → BestTradeOptions → List Pool → CurrencyAmount → List Trade →
    Except Err (List Trade)

/-- One round of the pool loop of `BestTradeExactIn`, for the pool at index `i`. -/
def exactInStep (q : Quoter) (recurse : BestTradeCall) (pools : List Pool)
    (currencyAmountIn : CurrencyAmount) (currencyOut : Currency) (opts : BestTradeOptions)
    (currentPools : List Pool) (amountIn : CurrencyAmount)
    (bestTrades : List Trade) (i : Nat) : Except Err (List Trade) :=
  match pools[i]? with
  | none => .error .panicIndexOutOfRange
  | some pool =>
    let tokenOut := currencyOut.Wrapped
    if !pool.Currency0.Equal amountIn.Currency && !pool.Currency1.Equal amountIn.Currency then
      .ok bestTrades
    else do
      let outputAmountResult ← q.GetOutputAmount pool amountIn
      let amountOut := outputAmountResult.ReturnedAmount
      if amountOut.Currency.Equal (.token tokenOut) && amountOut.Currency.IsToken then do
        let r ← NewRoute (currentPools ++ [pool]) currencyAmountIn.Currency (some currencyOut)
        let trade ← FromRoute q r currencyAmountIn .ExactInput
        sortedInsert bestTrades trade opts.MaxNumResults tradeComparator
      else if opts.MaxHops > 1 && pools.length > 1 then
        let poolsExcludingThisPool := pools.take i ++ pools.drop (i + 1)
        recurse poolsExcludingThisPool
          { MaxNumResults := opts.MaxNumResults, MaxHops := opts.MaxHops - 1 }
          (currentPools ++ [pool]) amountOut bestTrades
      else
        .ok bestTrades

/-- The body of `BestTradeExactIn`, its nested call being `recurse`. -/
def exactInBody (q : Quoter) (recurse : BestTradeCall) (pools : List Pool)
    (currencyAmountIn : CurrencyAmount) (currencyOut : Currency)
    (opts : Option BestTradeOptions) (currentPools : List Pool)
    (nextAmountIn : Option CurrencyAmount) (bestTrades : List Trade) :
    Except Err (List Trade) :=
  if pools.length ≤ 0 then .error .ErrNoPools
  else
    let opts := opts.getD defaultBestTradeOptions
    match nextAmountIn with
    | none => .error .ErrInvalidMaxHops
    | some nextAmountIn =>
      if !(currencyAmountIn.Fraction.EqualTo nextAmountIn.Fraction
          || decide (currentPools.length > 0)) then
        .error .ErrInvalidRecursion
      else
        let amountIn := nextAmountIn.Wrapped
        (List.range pools.length).foldlM
          (exactInStep q recurse pools currencyAmountIn currencyOut opts currentPools amountIn)
          bestTrades

/-- The function `BestTradeExactIn` with its recursion depth bounded by `depth`.
The unused parameter `currencyAmountOut` is left out. -/
def bestTradeExactInBounded (q : Quoter) (currencyAmountIn : CurrencyAmount)
    (currencyOut : Currency) : Nat → List Pool → Option BestTradeOptions → List Pool →
    Option CurrencyAmount → List Trade → Except Err (List Trade)
  | 0, pools, opts, currentPools, nextAmountIn, bestTrades =>
    exactInBody q (fun _ _ _ _ _ => .error .recursionBound) pools currencyAmountIn currencyOut
      opts currentPools nextAmountIn bestTrades
  | depth + 1, pools, opts, currentPools, nextAmountIn, bestTrades =>
    exactInBody q
      (fun pools' opts' currentPools' amount' bestTrades' =>
        bestTradeExactInBounded q currencyAmountIn currencyOut depth pools' (some opts')
          currentPools' (some amount') bestTrades')
      pools currencyAmountIn currencyOut opts currentPools nextAmountIn bestTrades

/-- The function `BestTradeExactIn`.  Every nested call removes one pool and is
made only while more than one pool is left, so the depth never exceeds the
number of pools. -/
def BestTradeExactIn (q : Quoter) (pools : List Pool) (currencyAmountIn : CurrencyAmount)
    (currencyOut : Currency) (opts : Option BestTradeOptions) (currentPools : List Pool)
    (nextAmountIn : Option CurrencyAmount) (bestTrades : List Trade) :
    Except Err (List Trade) :=
  bestTradeExactInBounded q currencyAmountIn currencyOut pools.length pools opts currentPools
    nextAmountIn bestTrades

/-- One round of the pool loop of `BestTradeExactOut`, for the pool at index `i`. -/
def exactOutStep (q : Quoter) (recurse : BestTradeCall) (pools : List Pool)
    (currencyIn : Currency) (currencyAmountOut : CurrencyAmount) (opts : BestTradeOptions)
    (currentPools : List Pool) (amountOut : CurrencyAmount)
    (bestTrades : List Trade) (i : Nat) : Except Err (List Trade) :=
  match pools[i]? with
  | none => .error .panicIndexOutOfRange
  | some pool =>
    if !pool.Currency0.Equal amountOut.Currency && !pool.Currency1.Equal amountOut.Currency then
      .ok bestTrades
    else do
      let inputAmountResult ← q.GetInputAmount pool amountOut
      let amountIn := inputAmountResult.ReturnedAmount
      if amountIn.Currency.Equal currencyIn then do
        let r ← NewRoute (pool :: currentPools) currencyIn (some currencyAmountOut.Currency)
        let trade ← FromRoute q r currencyAmountOut .ExactOutput
        sortedInsert bestTrades trade opts.MaxNumResults tradeComparator
      else if opts.MaxHops > 1 && pools.length > 1 then
        let poolsExcludingThisPool := pools.take i ++ pools.drop (i + 1)
        recurse poolsExcludingThisPool
          { MaxNumResults := opts.MaxNumResults, MaxHops := opts.MaxHops - 1 }
          (pool :: currentPools) amountIn bestTrades
      else
        .ok bestTrades

/-- The body of `BestTradeExactOut`, its nested call being `recurse`. -/
def exactOutBody (q : Quoter) (recurse : BestTradeCall) (pools : List Pool)
    (currencyIn : Currency) (currencyAmountOut : CurrencyAmount)
    (opts : Option BestTradeOptions) (currentPools : List Pool)
    (nextAmountOut : Option CurrencyAmount) (bestTrades : List Trade) :
    Except Err (List Trade) :=
  if pools.length ≤ 0 then .error .ErrNoPools
  else
    let opts := opts.getD defaultBestTradeOptions
    let nextAmountOut := nextAmountOut.getD currencyAmountOut
    if opts.MaxHops ≤ 0 then .error .ErrInvalidMaxHops
    else if !(currencyAmountOut.Fraction.EqualTo nextAmountOut.Fraction
        || decide (currentPools.length > 0)) then
      .error .ErrInvalidRecursion
    else
      let amountOut := nextAmountOut.Wrapped
      (List.range pools.length).foldlM
        (exactOutStep q recurse pools currencyIn currencyAmountOut opts currentPools amountOut)
        bestTrades

/-- The function `BestTradeExactOut` with its recursion depth bounded by
`depth`.  The unused parameter `currencyAmountIn` is left out. -/
def bestTradeExactOutBounded (q : Quoter) (currencyIn : Currency)
    (currencyAmountOut : CurrencyAmount) : Nat → List Pool → Option BestTradeOptions →
    List Pool → Option CurrencyAmount → List Trade → Except Err (List Trade)
  | 0, pools, opts, currentPools, nextAmountOut, bestTrades =>
    exactOutBody q (fun _ _ _ _ _ => .error .recursionBound) pools currencyIn currencyAmountOut
      opts currentPools nextAmountOut bestTrades
  | depth + 1, pools, opts, currentPools, nextAmountOut, bestTrades =>
    exactOutBody q
      (fun pools' opts' currentPools' amount' bestTrades' =>
        bestTradeExactOutBounded q currencyIn currencyAmountOut depth pools' (some opts')
          currentPools' (some amount') bestTrades')
      pools currencyIn currencyAmountOut opts currentPools nextAmountOut bestTrades

/-- The function `BestTradeExactOut`. -/
def BestTradeExactOut (q : Quoter) (pools : List Pool) (currencyIn : Currency)
    (currencyAmountOut : CurrencyAmount) (opts : Option BestTradeOptions)
    (currentPools : List Pool) (nextAmountOut : Option CurrencyAmount)
    (bestTrades : List Trade) : Except Err (List Trade) :=
  bestTradeExactOutBounded q currencyIn currencyAmountOut pools.length pools opts currentPools
    nextAmountOut bestTrades

/-! ## Hook permissions (`utils/hook.go`)

A Go string is a list of characters. -/

/-- The type `HookOption`, with its fourteen declared constants. -/
inductive HookOption where
  | AfterRemoveLiquidityReturnsDelta
  | AfterAddLiquidityReturnsDelta
  | AfterSwapReturnsDelta
  | BeforeSwapReturnsDelta
  | AfterDonate
  | BeforeDonate
  | AfterSwap
  | BeforeSwap
  | AfterRemoveLiquidity
  | BeforeRemoveLiquidity
  | AfterAddLiquidity
  | BeforeAddLiquidity
  | AfterInitialize
  | BeforeInitialize
  deriving DecidableEq, Repr

/-- The map `hookFlagIndex`; `none` is a failed lookup. -/
def hookFlagIndex : HookOption → Option Nat
  | .AfterRemoveLiquidityReturnsDelta => some 0
  | .AfterAddLiquidityReturnsDelta => some 1
  | .AfterSwapReturnsDelta => some 2
  | .BeforeSwapReturnsDelta => some 3
  | .AfterDonate => some 4
  | .BeforeDonate => some 5
  | .AfterSwap => some 6
  | .BeforeSwap => some 7
  | .AfterRemoveLiquidity => some 8
  | .BeforeRemoveLiquidity => some 9
  | .AfterAddLiquidity => some 10
  | .BeforeAddLiquidity => some 11
  | .AfterInitialize => some 12
  | .BeforeInitialize => some 13

/-- The errors of `utils/hook.go`, which are built from message strings. -/
inductive HookErr where
  | invalidAddress
  | unknownHookOption
  | failedToParse
  deriving DecidableEq, Repr

/-- The value of a hexadecimal digit, `none` for any other character. -/
def hexDigitValue (c : Char) : Option Nat :=
  if '0' ≤ c ∧ c ≤ '9' then some (c.toNat - '0'.toNat)
  else if 'a' ≤ c ∧ c ≤ 'f' then some (c.toNat - 'a'.toNat + 10)
  else if 'A' ≤ c ∧ c ≤ 'F' then some (c.toNat - 'A'.toNat + 10)
  else none

/-- The regular expression `^0x[0-9a-fA-F]{40}$` of `isAddressValid`. -/
def matchesAddressPattern (addr : List Char) : Bool :=
  match addr with
  | '0' :: 'x' :: digits =>
    decide (digits.length = 40) && digits.all (fun c => (hexDigitValue c).isSome)
  | _ => false

/-- The function `isAddressValid`. -/
def isAddressValid (addr : List Char) : Bool :=
  if !matchesAddressPattern addr then false
  else decide (addr.length > 2) && decide (addr.take 2 = ['0', 'x'])

/-- The function `_checkAddress`; `none` is the nil error. -/
def checkAddress (addr : List Char) : Option HookErr :=
  if !isAddressValid addr then some .invalidAddress else none

/-- Modelled from the spec: `big.Int.SetString(s, 16)` on a string of
hexadecimal digits; it fails on the empty string and on any other character.
The sign prefix the library accepts is left out: every caller has checked the
address pattern before. -/
def parseHex (s : List Char) : Option Nat :=
  if s.isEmpty then none
  else s.foldl (fun acc c => acc.bind (fun n => (hexDigitValue c).map (fun d => n * 16 + d)))
    (some 0)

/-- The function `_hasPermission`. -/
def hasPermission (addr : List Char) (hookOption : HookOption) : Except HookErr Bool :=
  match hookFlagIndex hookOption with
  | none => .error .unknownHookOption
  | some index =>
    let addr := if addr.length > 2 ∧ addr.take 2 = ['0', 'x'] then addr.drop 2 else addr
    match parseHex addr with
    | none => .error .failedToParse
    | some addrBig =>
      let mask := 1 <<< index
      let result := addrBig &&& mask
      .ok (decide (result ≠ 0))

/-- The method `Hook.HasPermission`. -/
def Hook.HasPermission (addr : List Char) (hookOption : HookOption) : Except HookErr Bool :=
  match checkAddress addr with
  | some err => .error err
  | none => hasPermission addr hookOption

/-- The method `Hook.HasSwapPermissions`. -/
def Hook.HasSwapPermissions (address : List Char) : Except HookErr Bool :=
  match checkAddress address with
  | some err => .error err
  | none =>
    match hasPermission address .BeforeSwap with
    | .error err1 => .error err1
    | .ok perm1 =>
      match hasPermission address .AfterSwap with
      | .error err2 => .error err2
      | .ok perm2 => .ok (perm1 || perm2)

/-- The character of a hexadecimal digit, in upper or lower case. -/
def hexDigitChar (upper : Bool) (d : Nat) : Char :=
  if d < 10 then Char.ofNat ('0'.toNat + d)
  else if upper then Char.ofNat ('A'.toNat + (d - 10))
  else Char.ofNat ('a'.toNat + (d - 10))

/-- The last `n` hexadecimal digits of `a`, most significant first; `upper`
tells for each place, counted from the right, whether its letter is a capital. -/
def hexDigits (upper : Nat → Bool) : Nat → Nat → List Char
  | 0, _ => []
  | n + 1, a => hexDigits upper n (a / 16) ++ [hexDigitChar (upper n) (a % 16)]

/-- Modelled from the spec: `common.Address.Hex`, the text `0x` followed by the
forty hexadecimal digits of the twenty-byte address.  Which letters are capitals
is decided by a checksum of the address, here the function `upper`. -/
def addressHex (upper : Nat → Bool) (address : Nat) : List Char :=
  '0' :: 'x' :: hexDigits upper 40 address

/-! ## The external libraries behind a pool -/

/-- Modelled from the spec: the external capabilities a pool consumes.  The tick
and swap mathematics of the v3 library (its four protocol bounds, the two
conversions between ticks and sqrt prices, the single-step swap formula
`ComputeSwapStep(current, target, liquidity, remaining, fee)` giving the new
price, amount in, amount out and fee, and `AddDelta`), the two calls of the
Ethereum library behind a pool id, and the checksum that decides the capitals of
an address in text form.  `PackPoolKey` is `Arguments.Pack` as `abiEncode` calls
it: against the types address, address, uint256, uint256, address, on the two
addresses, the fee as a `*big.Int`, the tick spacing as an `int64` and the hooks
address; it gives the packed bytes or fails.  `Keccak256` is `crypto.Keccak256`.
The errors of these libraries are values of their own packages, numbered here,
and reach the caller as `Err.ErrExternal`. -/
structure External where
  MinSqrtRatio : Int
  MaxSqrtRatio : Int
  MinTick : Int
  MaxTick : Int
  GetSqrtRatioAtTick : Int → Except Nat Int
  GetTickAtSqrtRatio : Int → Except Nat Int
  ComputeSwapStep : Int → Int → Int → Int → Int → Except Nat (Int × Int × Int × Int)
  AddDelta : Int → Int → Int
  PackPoolKey : Nat → Nat → Int → Int → Nat → Except Nat (List Nat)
  Keccak256 : List Nat → List Nat
  ChecksumUpper : Nat → Nat → Bool

/-- An error of an external library as the caller sees it. -/
def liftExternal {α : Type} : Except Nat α → Except Err α
  | .error code => .error (.ErrExternal code)
  | .ok a => .ok a

/-- Modelled from the spec: `core.Token.SortsBefore`, the canonical order of two
tokens by address; it fails for tokens on different chains and for one and the
same address. -/
def Token.SortsBefore (t other : Token) : Except Err Bool :=
  if t.chainId ≠ other.chainId then .error .ErrCoreDifferentChain
  else if t.Address = other.Address then .error .ErrCoreSameAddress
  else .ok (decide (t.Address < other.Address))

/-- The constant `constants.AddressZero`. -/
def AddressZero : Nat := 0

/-- The function `GetPoolKey`. -/
def GetPoolKey (currencyA currencyB : Token) (fee tickSpacing : Int) (hooks : Nat) :
    Except Err PoolKey := do
  let isSorted ← currencyA.SortsBefore currencyB
  let token0 := if !isSorted then currencyB else currencyA
  let token1 := if !isSorted then currencyA else currencyB
  let currency0Addr := if !token0.IsNative then token0.Wrapped.Address else AddressZero
  let currency1Addr := if !token1.IsNative then token1.Wrapped.Address else AddressZero
  return { Currency0 := currency0Addr, Currency1 := currency1Addr, Fee := fee,
           TickSpacing := tickSpacing, Hooks := hooks }

/-- The function `abiEncode`.  It drops the error of `Pack` and returns the bytes,
which are nil, the empty slice, when `Pack` has failed. -/
def abiEncode (env : External) (addressA addressB : Nat) (fee tickSpacing : Int)
    (hooks : Nat) : List Nat :=
  match env.PackPoolKey addressA addressB fee tickSpacing hooks with
  | .error _ => []
  | .ok bytes => bytes

/-- The function `GetPoolId`: the hash of the ABI encoding (`abiEncode`) of the
two sorted addresses, the fee, the tick spacing and the hooks address. -/
def GetPoolId (env : External) (currencyA currencyB : Token) (fee tickSpacing : Int)
    (hooks : Nat) : Except Err (List Nat) := do
  let isSorted ← currencyA.SortsBefore currencyB
  let token0 := if !isSorted then currencyB else currencyA
  let token1 := if !isSorted then currencyA else currencyB
  let currency0Addr := if !token0.IsNative then token0.Wrapped.Address else AddressZero
  let currency1Addr := if !token1.IsNative then token1.Wrapped.Address else AddressZero
  let salt := env.Keccak256 (abiEncode env currency0Addr currency1Addr fee tickSpacing hooks)
  return salt

/-- The constructor `NewPool`.  Its struct literal names every field of `Pool`
but `TickSpacing`, which is left at the zero value. -/
def NewPool (env : External) (tokenA tokenB : Token) (fee tickSpacing : Int) (hooks : Nat)
    (sqrtRatioX96 liquidity tickCurrent : Int) (ticks : TickDataProvider) :
    Except Err Pool := do
  if fee ≥ 1000000 then
    throw .ErrFeeTooHigh
  let tickCurrentSqrtRatioX96 ← liftExternal (env.GetSqrtRatioAtTick tickCurrent)
  let nextTickSqrtRatioX96 ← liftExternal (env.GetSqrtRatioAtTick (tickCurrent + 1))
  if sqrtRatioX96 < tickCurrentSqrtRatioX96 ∨ sqrtRatioX96 > nextTickSqrtRatioX96 then
    throw .ErrInvalidSqrtRatio96
  let isSorted ← tokenA.SortsBefore tokenB
  let token0 := if !isSorted then tokenB else tokenA
  let token1 := if !isSorted then tokenA else tokenB
  let poolKey ← GetPoolKey token0 token1 fee tickSpacing hooks
  let poolId ← GetPoolId env token0 token1 fee tickSpacing hooks
  return { Currency0 := token0, Currency1 := token1, Fee := fee, TickSpacing := 0,
           SqrtRatioX96 := sqrtRatioX96, Hooks := hooks, Liquidity := liquidity,
           TickCurrent := tickCurrent, TickDataProvider := ticks, PoolKey := poolKey,
           PoolId := poolId }

/-! ## The swap (`entities/pool.go`) -/

/-- The struct `SwapResult`. -/
structure SwapResult where
  AmountCalculated : Int
  SqrtRatioX96 : Int
  Liquidity : Int
  RemainingTargetAmount : Int
  CurrentTick : Int
  CrossInitTickLoops : Int
  deriving DecidableEq, Repr

/-- The running state of the loop of `v3Swap`: its local struct `state` and its
counter `crossInitTickLoops`. -/
structure SwapState where
  amountSpecifiedRemaining : Int
  amountCalculated : Int
  sqrtPriceX96 : Int
  tick : Int
  liquidity : Int
  crossInitTickLoops : Int
  deriving DecidableEq, Repr

/-- The method `Pool.hookImpactsSwap`: the swap permissions of the hooks address
in its text form, an error counting as no permission. -/
def Pool.hookImpactsSwap (env : External) (p : Pool) : Bool :=
  match Hook.HasSwapPermissions (addressHex (env.ChecksumUpper p.Hooks) p.Hooks) with
  | .error _ => false
  | .ok permission => permission

/-- The price-limit checks at the head of `v3Swap`; `none` when the limit
passes. -/
def priceLimitError (env : External) (p : Pool) (zeroForOne : Bool) (sqrtPriceLimitX96 : Int) :
    Option Err :=
  if zeroForOne then
    if sqrtPriceLimitX96 < env.MinSqrtRatio then some .ErrSqrtPriceLimitX96TooLow
    else if sqrtPriceLimitX96 ≥ p.SqrtRatioX96 then some .ErrSqrtPriceLimitX96TooHigh
    else none
  else
    if sqrtPriceLimitX96 > env.MaxSqrtRatio then some .ErrSqrtPriceLimitX96TooHigh
    else if sqrtPriceLimitX96 ≤ p.SqrtRatioX96 then some .ErrSqrtPriceLimitX96TooLow
    else none

/-- One round of the loop of `v3Swap`. -/
def swapStep (env : External) (p : Pool) (zeroForOne exactInput : Bool)
    (sqrtPriceLimitX96 : Int) (state : SwapState) : Except Err SwapState := do
  let sqrtPriceStartX96 := state.sqrtPriceX96
  let (tickNext, initialized) ← p.TickDataProvider.NextInitializedTickIndex state.tick zeroForOne
  let tickNext :=
    if tickNext < env.MinTick then env.MinTick
    else if tickNext > env.MaxTick then env.MaxTick
    else tickNext
  let sqrtPriceNextX96 ← liftExternal (env.GetSqrtRatioAtTick tickNext)
  let targetValue :=
    if zeroForOne then
      if sqrtPriceNextX96 < sqrtPriceLimitX96 then sqrtPriceLimitX96 else sqrtPriceNextX96
    else
      if sqrtPriceNextX96 > sqrtPriceLimitX96 then sqrtPriceLimitX96 else sqrtPriceNextX96
  let (sqrtPriceX96, amountIn, amountOut, feeAmount) ←
    liftExternal (env.ComputeSwapStep state.sqrtPriceX96 targetValue state.liquidity
      state.amountSpecifiedRemaining p.Fee)
  let amountSpecifiedRemaining :=
    if exactInput then state.amountSpecifiedRemaining - (amountIn + feeAmount)
    else state.amountSpecifiedRemaining + amountOut
  let amountCalculated :=
    if exactInput then state.amountCalculated - amountOut
    else state.amountCalculated + (amountIn + feeAmount)
  if sqrtPriceX96 = sqrtPriceNextX96 then
    let (liquidity, crossInitTickLoops) ←
      (if initialized then do
        let tick ← p.TickDataProvider.GetTick tickNext
        let liquidityNet := if zeroForOne then tick.LiquidityNet * (-1) else tick.LiquidityNet
        pure (env.AddDelta state.liquidity liquidityNet, state.crossInitTickLoops + 1)
      else pure (state.liquidity, state.crossInitTickLoops) : Except Err (Int × Int))
    return { amountSpecifiedRemaining := amountSpecifiedRemaining,
             amountCalculated := amountCalculated, sqrtPriceX96 := sqrtPriceX96,
             tick := if zeroForOne then tickNext - 1 else tickNext,
             liquidity := liquidity, crossInitTickLoops := crossInitTickLoops }
  else if sqrtPriceX96 ≠ sqrtPriceStartX96 then
    let tick ← liftExternal (env.GetTickAtSqrtRatio sqrtPriceX96)
    return { amountSpecifiedRemaining := amountSpecifiedRemaining,
             amountCalculated := amountCalculated, sqrtPriceX96 := sqrtPriceX96,
             tick := tick, liquidity := state.liquidity,
             crossInitTickLoops := state.crossInitTickLoops }
  else
    return { amountSpecifiedRemaining := amountSpecifiedRemaining,
             amountCalculated := amountCalculated, sqrtPriceX96 := sqrtPriceX96,
             tick := state.tick, liquidity := state.liquidity,
             crossInitTickLoops := state.crossInitTickLoops }

/-- The loop of `v3Swap`, run for at most `rounds` rounds: it goes on while an
amount remains and the price has not reached the limit. -/
def swapLoop (env : External) (p : Pool) (zeroForOne exactInput : Bool)
    (sqrtPriceLimitX96 : Int) : Nat → SwapState → Except Err SwapState
  | rounds, state =>
    if state.amountSpecifiedRemaining ≠ 0 ∧ state.sqrtPriceX96 ≠ sqrtPriceLimitX96 then
      match rounds with
      | 0 => .error .recursionBound
      | rounds + 1 => do
        let next ← swapStep env p zeroForOne exactInput sqrtPriceLimitX96 state
        swapLoop env p zeroForOne exactInput sqrtPriceLimitX96 rounds next
    else .ok state

/-- The price limit `v3Swap` uses when it is given none. -/
def defaultPriceLimit (env : External) (zeroForOne : Bool) : Int :=
  if zeroForOne then env.MinSqrtRatio + 1 else env.MaxSqrtRatio - 1

/-- The state in which `v3Swap` enters its loop. -/
def initialSwapState (p : Pool) (amountSpecified : Int) : SwapState :=
  { amountSpecifiedRemaining := amountSpecified, amountCalculated := 0,
    sqrtPriceX96 := p.SqrtRatioX96, tick := p.TickCurrent, liquidity := p.Liquidity,
    crossInitTickLoops := 0 }

/-- The `SwapResult` that `v3Swap` builds from the state in which its loop ends. -/
def SwapState.toResult (state : SwapState) : SwapResult :=
  { AmountCalculated := state.amountCalculated, SqrtRatioX96 := state.sqrtPriceX96,
    Liquidity := state.liquidity, CurrentTick := state.tick,
    RemainingTargetAmount := state.amountSpecifiedRemaining,
    CrossInitTickLoops := state.crossInitTickLoops }

/-- The method `Pool.v3Swap`, its loop bounded by `rounds`. -/
def Pool.v3Swap (env : External) (rounds : Nat) (p : Pool) (zeroForOne : Bool)
    (amountSpecified : Int) (sqrtPriceLimitX96 : Option Int) : Except Err SwapResult :=
  let sqrtPriceLimitX96 :=
    match sqrtPriceLimitX96 with
    | none => defaultPriceLimit env zeroForOne
    | some limit => limit
  match priceLimitError env p zeroForOne sqrtPriceLimitX96 with
  | some err => .error err
  | none =>
    let exactInput := decide (amountSpecified ≥ 0)
    (swapLoop env p zeroForOne exactInput sqrtPriceLimitX96 rounds
      (initialSwapState p amountSpecified)).map SwapState.toResult

/-- The method `Pool.swap`. -/
def Pool.swap (env : External) (rounds : Nat) (p : Pool) (zeroForOne : Bool)
    (amountSpecified : Int) (sqrtPriceLimitX96 : Option Int) : Except Err SwapResult :=
  if !p.hookImpactsSwap env then
    p.v3Swap env rounds zeroForOne amountSpecified sqrtPriceLimitX96
  else
    .error .ErrUnsupportedHook

/-- The method `Pool.GetOutputAmount`. -/
def Pool.GetOutputAmount (env : External) (rounds : Nat) (p : Pool)
    (inputAmount : CurrencyAmount) (sqrtPriceLimitX96 : Option Int) :
    Except Err GetOutputAmountResult := do
  if !(inputAmount.Currency.IsToken && p.InvolvesToken inputAmount.Currency.Wrapped) then
    throw .ErrTokenNotInvolved
  let zeroForOne := inputAmount.Currency.Equal (.token p.Currency0)
  let swapResult ← p.swap env rounds zeroForOne inputAmount.Quotient sqrtPriceLimitX96
  let outputToken := if zeroForOne then p.Currency1 else p.Currency0
  let pool ← NewPool env p.Currency0 p.Currency1 p.Fee p.TickSpacing p.Hooks
    swapResult.SqrtRatioX96 swapResult.Liquidity swapResult.CurrentTick p.TickDataProvider
  return { ReturnedAmount :=
             CurrencyAmount.FromRawAmount (.token outputToken) (swapResult.AmountCalculated * (-1)),
           RemainingAmountIn :=
             CurrencyAmount.FromRawAmount inputAmount.Currency swapResult.RemainingTargetAmount,
           NewPoolState := pool,
           CrossInitTickLoops := swapResult.CrossInitTickLoops }

/-- The method `Pool.GetInputAmount`. -/
def Pool.GetInputAmount (env : External) (rounds : Nat) (p : Pool)
    (outputAmount : CurrencyAmount) (sqrtPriceLimitX96 : Option Int) :
    Except Err GetInputAmountResult := do
  if !(outputAmount.Currency.IsToken && p.InvolvesToken outputAmount.Currency.Wrapped) then
    throw .ErrTokenNotInvolved
  let zeroForOne := outputAmount.Currency.Equal (.token p.Currency1)
  let swapResult ← p.swap env rounds zeroForOne (outputAmount.Quotient * (-1)) sqrtPriceLimitX96
  let inputToken := if zeroForOne then p.Currency0 else p.Currency1
  let pool ← NewPool env p.Currency0 p.Currency1 p.Fee p.TickSpacing p.Hooks
    swapResult.SqrtRatioX96 swapResult.Liquidity swapResult.CurrentTick p.TickDataProvider
  return { ReturnedAmount :=
             CurrencyAmount.FromRawAmount (.token inputToken) swapResult.AmountCalculated,
           RemainingAmountOut :=
             CurrencyAmount.FromRawAmount outputAmount.Currency swapResult.RemainingTargetAmount,
           NewPoolState := pool,
           CrossInitTickLoops := swapResult.CrossInitTickLoops }

/-- The quoting capability the trade code is given: the two pool methods over
the external libraries `env`, with a nil price limit. -/
def poolQuoter (env : External) (rounds : Nat) : Quoter :=
  { GetOutputAmount := fun pool amount => pool.GetOutputAmount env rounds amount none
    GetInputAmount := fun pool amount => pool.GetInputAmount env rounds amount none }

/-! ## Slippage bounds (`entities/trade.go`) -/

/-- Modelled from the spec: `Fraction.Multiply`. -/
def Fraction.Multiply (f other : Fraction) : Fraction :=
  ⟨f.Numerator * other.Numerator, f.Denominator * other.Denominator⟩

/-- Modelled from the spec: `Fraction.Invert`. -/
def Fraction.Invert (f : Fraction) : Fraction :=
  ⟨f.Denominator, f.Numerator⟩

/-- Modelled from the spec: the constant `PercentZero` of the v3 library; a
percent is a fraction. -/
def PercentZero : Fraction := ⟨0, 1⟩

/-- The method `Trade.MininumAmountOut`; `amountOut` is a pointer the source
replaces by the trade's total output when it is nil. -/
def Trade.MininumAmountOut (t : Trade) (slippageTolerance : Fraction)
    (amountOut : Option CurrencyAmount) : Except Err CurrencyAmount := do
  let amountOut ←
    (match amountOut with
    | none => t.OutputAmount
    | some amount => pure amount : Except Err CurrencyAmount)
  if slippageTolerance.LessThan PercentZero then
    throw .ErrInvalidSlippageTolerance
  if t.TradeType = .ExactOutput then
    return amountOut
  else
    let slippageAdjustedAmountOut :=
      ((((⟨1, 1⟩ : Fraction).Add slippageTolerance).Invert).Multiply amountOut.Fraction).Quotient
    return CurrencyAmount.FromRawAmount amountOut.Currency slippageAdjustedAmountOut

/-- The method `Trade.MaximumAmountIn`; `amountIn` is a pointer the source
replaces by the trade's total input when it is nil. -/
def Trade.MaximumAmountIn (t : Trade) (slippageTolerance : Fraction)
    (amountIn : Option CurrencyAmount) : Except Err CurrencyAmount := do
  let amountIn ←
    (match amountIn with
    | none => t.InputAmount
    | some amount => pure amount : Except Err CurrencyAmount)
  if slippageTolerance.LessThan PercentZero then
    throw .ErrInvalidSlippageTolerance
  if t.TradeType = .ExactInput then
    return amountIn
  else
    let slippageAdjustedAmountIn :=
      (((⟨1, 1⟩ : Fraction).Add slippageTolerance).Multiply amountIn.Fraction).Quotient
    return CurrencyAmount.FromRawAmount amountIn.Currency slippageAdjustedAmountIn

/-! ## Prices (external type) and the prices of a pool (`entities/pool.go`) -/

/-- Modelled from the spec: `Fraction.Subtract`. -/
def Fraction.Subtract (f other : Fraction) : Fraction :=
  if f.Denominator = other.Denominator then
    ⟨f.Numerator - other.Numerator, f.Denominator⟩
  else
    ⟨f.Numerator * other.Denominator - other.Numerator * f.Denominator,
      f.Denominator * other.Denominator⟩

/-- Modelled from the spec: `Fraction.Divide`, the product with the inverse. -/
def Fraction.Divide (f other : Fraction) : Fraction :=
  ⟨f.Numerator * other.Denominator, f.Denominator * other.Numerator⟩

/-- Modelled from the spec: `CurrencyAmount.Subtract`; the difference keeps the
receiver's currency. -/
def CurrencyAmount.Subtract (ca other : CurrencyAmount) : CurrencyAmount :=
  ⟨ca.Currency, ca.Fraction.Subtract other.Fraction⟩

/-- Modelled from the spec: `CurrencyAmount.Divide` by a fraction. -/
def CurrencyAmount.Divide (ca : CurrencyAmount) (other : UniswapV4.Fraction) :
    CurrencyAmount :=
  ⟨ca.Currency, ca.Fraction.Divide other⟩

/-- Modelled from the spec: `core.NewPercent`; a percent is a fraction. -/
def NewPercent (numerator denominator : Int) : Fraction := ⟨numerator, denominator⟩

/-- Modelled from the spec: the external `core.Price`, the amount of quote
currency one unit of base currency buys, as a fraction (the scalar that only
serves the decimal display is left out). -/
structure Price where
  Fraction : Fraction
  BaseCurrency : Currency
  QuoteCurrency : Currency
  deriving DecidableEq, Repr

/-- Modelled from the spec: `core.NewPrice(base, quote, denominator, numerator)`. -/
def NewPrice (baseCurrency quoteCurrency : Currency) (denominator numerator : Int) : Price :=
  { Fraction := ⟨numerator, denominator⟩, BaseCurrency := baseCurrency,
    QuoteCurrency := quoteCurrency }

/-- Modelled from the spec: `Price.Multiply`; the other price must have this
price's quote currency as its base. -/
def Price.Multiply (p other : Price) : Except Err Price :=
  if !other.BaseCurrency.Equal p.QuoteCurrency then .error .ErrDifferentCurrencies
  else
    let fraction := p.Fraction.Multiply other.Fraction
    .ok (NewPrice p.BaseCurrency other.QuoteCurrency fraction.Denominator fraction.Numerator)

/-- Modelled from the spec: `Price.Quote`, the amount of quote currency for an
amount of the base currency. -/
def Price.Quote (p : Price) (currencyAmount : CurrencyAmount) : Except Err CurrencyAmount :=
  if !currencyAmount.Currency.Equal p.BaseCurrency then .error .ErrDifferentCurrencies
  else
    let result := p.Fraction.Multiply currencyAmount.Fraction
    .ok (CurrencyAmount.FromFractionalAmount p.QuoteCurrency result.Numerator result.Denominator)

/-- Modelled from the spec: the constant `Q192` of the v3 library, `2^192`. -/
def Q192 : Int := 6277101735386680763835789423207666416102355444464034512896

/-- The two memoising fields of a `Pool`, `token0Price` and `token1Price`; both are
nil in a pool that `NewPool` returns. -/
structure PoolMemo where
  token0Price : Option Price
  token1Price : Option Price
  deriving DecidableEq, Repr

/-- The memoising fields of a pool no price of which has been asked for. -/
def PoolMemo.unset : PoolMemo := ⟨none, none⟩

/-- The method `Pool.Token0Price`, given the memoising fields of the pool as they
are before the call and returning them as they are after it. -/
def Pool.Token0Price (p : Pool) (memo : PoolMemo) : Price × PoolMemo :=
  match memo.token0Price with
  | some price => (price, memo)
  | none =>
    let price := NewPrice (.token p.Currency0) (.token p.Currency1) Q192
      (p.SqrtRatioX96 * p.SqrtRatioX96)
    (price, { memo with token0Price := some price })

/-- The method `Pool.Token1Price`. -/
def Pool.Token1Price (p : Pool) (memo : PoolMemo) : Price × PoolMemo :=
  match memo.token1Price with
  | some price => (price, memo)
  | none =>
    let price := NewPrice (.token p.Currency1) (.token p.Currency0)
      (p.SqrtRatioX96 * p.SqrtRatioX96) Q192
    (price, { memo with token1Price := some price })

/-- The method `Pool.PriceOf`. -/
def Pool.PriceOf (p : Pool) (memo : PoolMemo) (token : Token) : Except Err (Price × PoolMemo) :=
  if !p.InvolvesToken token then .error .ErrTokenNotInvolved
  else if p.Currency0.Equal (.token token) then .ok (p.Token0Price memo)
  else .ok (p.Token1Price memo)

/-! ## The mid price of a route (`entities/route.go`)

The pools of a route are read here with their memoising fields unset:
`Token0Price_written_memo` and `Token1Price_written_memo` show that a pool whose
fields were written by its own methods returns the same prices. -/

/-- The function `reducePrice`. -/
def reducePrice (nextInput : Token) (price : Price) : List Pool → Except Err Price
  | [] => .ok price
  | p :: rest =>
    if nextInput.Equal (.token p.Currency0) then do
      let price ← price.Multiply (p.Token0Price PoolMemo.unset).1
      reducePrice p.Currency1 price rest
    else do
      let price ← price.Multiply (p.Token1Price PoolMemo.unset).1
      reducePrice p.Currency0 price rest

/-- The method `Route.MidPrice`, given the memoising field `midPrice` of the route
as it is before the call and returning it as it is after; reading `Pools[0]` of a
route without pools panics. -/
def Route.MidPrice (r : Route) (midPrice : Option Price) : Except Err (Price × Option Price) :=
  match midPrice with
  | some price => .ok (price, some price)
  | none =>
    match r.Pools with
    | [] => .error .panicIndexOutOfRange
    | first :: rest => do
      let nextInput := if first.Currency0.Equal r.Input then first.Currency1 else first.Currency0
      let price :=
        if first.Currency0.Equal r.Input then (first.Token0Price PoolMemo.unset).1
        else (first.Token1Price PoolMemo.unset).1
      let price ← reducePrice nextInput price rest
      let result := NewPrice r.Input r.Output price.Fraction.Denominator price.Fraction.Numerator
      .ok (result, some result)

/-! ## Price impact and the unchecked constructors (`entities/trade.go`) -/

/-- One round of the loop of `Trade.PriceImpact`: the swap's input amount quoted
at the mid price of its route is added to the spot output so far.  The route is
read with its memoising field unset; a field the method has set holds the price
it returns then. -/
def spotStep (spotOutputAmount : CurrencyAmount) (swap : Swap) : Except Err CurrencyAmount := do
  let (midPrice, _) ← swap.Route.MidPrice none
  let quotePrice ← midPrice.Quote swap.InputAmount
  pure (spotOutputAmount.Add quotePrice)

/-- The method `Trade.PriceImpact` (without its memoising field). -/
def Trade.PriceImpact (t : Trade) : Except Err Fraction := do
  let outputAmount ← t.OutputAmount
  let spotOutputAmount ←
    t.Swaps.foldlM spotStep (CurrencyAmount.FromRawAmount outputAmount.Currency 0)
  let priceImpact := (spotOutputAmount.Subtract outputAmount).Divide spotOutputAmount.Fraction
  return NewPercent priceImpact.Fraction.Numerator priceImpact.Fraction.Denominator

/-- The first loop of `newTrade`: the route of every swap must start at the
currency of the first swap's input amount and end at the currency of its output
amount, both compared in wrapped form; the input is tested before the output. -/
def currencyLoop (inputCurrency outputCurrency : Currency) : List Swap → Except Err Unit
  | [] => .ok ()
  | route :: rest =>
    if !inputCurrency.Wrapped.Equal (.token route.Route.Input.Wrapped) then
      .error .ErrInputCurrencyMismatch
    else if !outputCurrency.Wrapped.Equal (.token route.Route.Output.Wrapped) then
      .error .ErrOutputCurrencyMismatch
    else currencyLoop inputCurrency outputCurrency rest

/-- The assignment `poolAddressSet[key] = true` of `newTrade`.  The map, whose
values are all `true`, is the list of its keys, and `len(poolAddressSet)` the
length of that list. -/
def setKey (poolAddressSet : List (List Nat)) (key : List Nat) : List (List Nat) :=
  if key ∈ poolAddressSet then poolAddressSet else key :: poolAddressSet

/-- The inner loop of the third loop of `newTrade`, over the pools of one route. -/
def poolIdLoop (env : External) : List Pool → List (List Nat) → Except Err (List (List Nat))
  | [], poolAddressSet => .ok poolAddressSet
  | p :: rest, poolAddressSet => do
    let poolid ← GetPoolId env p.Currency0 p.Currency1 p.Fee p.TickSpacing p.Hooks
    poolIdLoop env rest (setKey poolAddressSet poolid)

/-- The third loop of `newTrade`, over the swaps. -/
def routeIdLoop (env : External) : List Swap → List (List Nat) → Except Err (List (List Nat))
  | [], poolAddressSet => .ok poolAddressSet
  | route :: rest, poolAddressSet => do
    let poolAddressSet ← poolIdLoop env route.Route.Pools poolAddressSet
    routeIdLoop env rest poolAddressSet

/-- The function `newTrade`; reading `routes[0]` of an empty list panics. -/
def newTrade (env : External) (routes : List Swap) (tradeType : TradeType) :
    Except Err Trade :=
  match routes with
  | [] => .error .panicIndexOutOfRange
  | first :: _ => do
    let inputCurrency := first.InputAmount.Currency
    let outputCurrency := first.OutputAmount.Currency
    currencyLoop inputCurrency outputCurrency routes
    let numPools := routes.foldl (fun numPools route => numPools + route.Route.Pools.length) 0
    let poolAddressSet ← routeIdLoop env routes []
    if poolAddressSet.length ≠ numPools then
      throw .ErrDuplicatePools
    return { Swaps := routes, TradeType := tradeType }

/-- The function `CreateUncheckedTradeWithMultipleRoutes`. -/
def CreateUncheckedTradeWithMultipleRoutes (env : External) (routes : List Swap)
    (tradeType : TradeType) : Except Err Trade :=
  newTrade env routes tradeType

/-! ## The path of a route (`entities/encodeRouteToPath.go`) -/

/-- The struct `PathKey`; addresses are numbers and the hook data is a list of
bytes. -/
structure PathKey where
  IntermediateCurrency : Nat
  Fee : Int
  TickSpacing : Int
  Hooks : Nat
  HookData : List Nat
  deriving DecidableEq, Repr

/-- The function `reflect.Swapper` returns for a slice: it exchanges the entries
at `i` and `j` of the slice, in place.  Both indices are within the slice wherever
`reverse` calls it. -/
def swapper {α : Type} (s : List α) (i j : Nat) : List α :=
  match s[i]?, s[j]? with
  | some a, some b => (s.set i b).set j a
  | _, _ => s

/-- The loop of `reverse`, `for i, j := 0, n-1; i < j; i, j = i+1, j-1`, for at most
`rounds` rounds. -/
def reverseLoop {α : Type} : Nat → Nat → Nat → List α → List α
  | 0, _, _, s => s
  | rounds + 1, i, j, s =>
    if i < j then reverseLoop rounds (i + 1) (j - 1) (swapper s i j) else s

/-- The function `reverse`: the slice it is given, as the call leaves it.  The
loop runs less than `n` times. -/
def reverse {α : Type} (s : List α) : List α :=
  reverseLoop s.length 0 (s.length - 1) s

/-- The bytes of the text `0x`, the hook data of every path key. -/
def hookDataNone : List Nat := [48, 120]

/-- The loop of `EncodeRouteToPath` over the pools, `startingCurrency` being the
interface value the source calls `Equal` on: a nil pointer in it makes that call
panic. -/
def pathKeyLoop : Option Token → List Pool → List PathKey → Except Err (List PathKey)
  | _, [], pathKeys => .ok pathKeys
  | startingCurrency, pool :: rest, pathKeys =>
    match startingCurrency with
    | none => .error .panicNilDereference
    | some starting =>
      let nextCurrency :=
        if starting.Equal (.token pool.Currency0) then pool.Currency1 else pool.Currency0
      let pathKey : PathKey :=
        { IntermediateCurrency := nextCurrency.Address, Fee := pool.Fee,
          TickSpacing := pool.TickSpacing, Hooks := pool.Hooks, HookData := hookDataNone }
      pathKeyLoop (some nextCurrency) rest (pathKeys ++ [pathKey])

/-- The function `EncodeRouteToPath`.  Its local `pools` is the slice
`route.Pools` itself, not a copy, so what `reverse(pools)` does to it is done to
the route: the result holds the path keys and the route as the call leaves it. -/
def EncodeRouteToPath (route : Route) (exactOutput : Bool) :
    Except Err (List PathKey × Route) := do
  let pools := if exactOutput then reverse route.Pools else route.Pools
  let route := { route with Pools := pools }
  let startingCurrency := if exactOutput then route.PathOutput else route.PathInput
  let pathKeys ← pathKeyLoop startingCurrency pools []
  let pathKeys := if exactOutput then reverse pathKeys else pathKeys
  return (pathKeys, route)

/-! ## The permission map of a hook (`utils/hook.go`) -/

/-- The method `Hook.Permissions`.  The map it returns has the fourteen declared
options as its keys and is read here as a function of the option. -/
def Hook.Permissions (addr : List Char) : Except HookErr (HookOption → Bool) :=
  match checkAddress addr with
  | some err => .error err
  | none =>
    let getPerm := fun (opt : HookOption) =>
      match hasPermission addr opt with
      | .error _ => false
      | .ok perm => perm
    .ok (fun key =>
      match key with
      | .BeforeInitialize => getPerm .BeforeInitialize
      | .AfterInitialize => getPerm .AfterInitialize
      | .BeforeAddLiquidity => getPerm .BeforeAddLiquidity
      | .AfterAddLiquidity => getPerm .AfterAddLiquidity
      | .BeforeRemoveLiquidity => getPerm .BeforeRemoveLiquidity
      | .AfterRemoveLiquidity => getPerm .AfterRemoveLiquidity
      | .BeforeSwap => getPerm .BeforeSwap
      | .AfterSwap => getPerm .AfterSwap
      | .BeforeDonate => getPerm .BeforeDonate
      | .AfterDonate => getPerm .AfterDonate
      | .BeforeSwapReturnsDelta => getPerm .BeforeSwapReturnsDelta
      | .AfterSwapReturnsDelta => getPerm .AfterSwapReturnsDelta
      | .AfterAddLiquidityReturnsDelta => getPerm .AfterAddLiquidityReturnsDelta
      | .AfterRemoveLiquidityReturnsDelta => getPerm .AfterRemoveLiquidityReturnsDelta)

/-! ## The order of two tokens (`utils/sortsBefore.go`) -/

/-- Modelled from the spec: the last `n` bytes of an integer, most significant
first; a `common.Address` is the twenty bytes of its value. -/
def beBytes : Nat → Nat → List Nat
  | 0, _ => []
  | n + 1, a => beBytes n (a / 256) ++ [a % 256]

/-- Modelled from the spec: the slice `address[:]` of the twenty bytes of an
address. -/
def addressBytes (address : Nat) : List Nat := beBytes 20 address

/-- Modelled from the spec: `bytes.Compare`, the lexicographic comparison of two
byte slices with the results -1, 0 and 1. -/
def bytesCompare : List Nat → List Nat → Int
  | [], [] => 0
  | [], _ :: _ => -1
  | _ :: _, [] => 1
  | a :: as, b :: bs => if a < b then -1 else if b < a then 1 else bytesCompare as bs

/-- The function `SortsBefore` of package `utils`.  Whether a token is native is
recorded in the base currency the external library embeds in it; that record is
the parameter `isNative`. -/
def SortsBefore (isNative : Token → Bool) (currencyA currencyB : Token) : Except Err Bool :=
  if isNative currencyA then .ok true
  else if isNative currencyB then .ok false
  else if currencyA.ChainId ≠ currencyB.ChainId then .error .ErrDifferentChain
  else if currencyA.Address = currencyB.Address then .ok false
  else .ok (decide (bytesCompare (addressBytes currencyA.Address)
    (addressBytes currencyB.Address) < 0))

/-! ## Prices and ticks (`utils/priceTickConversions.go`) -/

/-- Modelled from the spec: `Fraction.GreaterThan`, comparison by cross
multiplication. -/
def Fraction.GreaterThan (f other : Fraction) : Bool :=
  decide (f.Numerator * other.Denominator > other.Numerator * f.Denominator)

/-- Modelled from the spec: the three functions of package `utils` that
`priceTickConversions.go` calls and whose files are not among the sources: the
two conversions between ticks and sqrt prices and the encoding of a ratio of two
amounts as a sqrt price.  Their errors are numbered and reach the caller as
`Err.ErrExternal`. -/
structure TickMath where
  GetSqrtRatioAtTick : Int → Except Nat Int
  GetTickAtSqrtRatio : Int → Except Nat Int
  EncodeSqrtRatioX96 : Int → Int → Int

/-- The function `TickToPrice`. -/
def TickToPrice (math : TickMath) (isNative : Token → Bool) (baseToken quoteToken : Token)
    (tick : Int) : Except Err Price :=
  match liftExternal (math.GetSqrtRatioAtTick tick) with
  | .error err => .error err
  | .ok sqrtRatioX96 =>
    let ratioX192 := sqrtRatioX96 * sqrtRatioX96
    match SortsBefore isNative baseToken quoteToken with
    | .error err => .error err
    | .ok sorted =>
      if sorted then .ok (NewPrice (.token baseToken) (.token quoteToken) Q192 ratioX192)
      else .ok (NewPrice (.token baseToken) (.token quoteToken) ratioX192 Q192)

/-- The function `PriceToClosestTick`. -/
def PriceToClosestTick (math : TickMath) (isNative : Token → Bool) (price : Price)
    (baseToken quoteToken : Token) : Except Err Int :=
  match SortsBefore isNative baseToken quoteToken with
  | .error _ => .ok 0
  | .ok sorted =>
    let sqrtRatioX96 :=
      if sorted then math.EncodeSqrtRatioX96 price.Fraction.Numerator price.Fraction.Denominator
      else math.EncodeSqrtRatioX96 price.Fraction.Denominator price.Fraction.Numerator
    match liftExternal (math.GetTickAtSqrtRatio sqrtRatioX96) with
    | .error err => .error err
    | .ok tick =>
      match TickToPrice math isNative baseToken quoteToken (tick + 1) with
      | .error err => .error err
      | .ok nextTickPrice =>
        if sorted then
          if !price.Fraction.LessThan nextTickPrice.Fraction then .ok (tick + 1) else .ok tick
        else
          if !price.Fraction.GreaterThan nextTickPrice.Fraction then .ok (tick + 1) else .ok tick

/-! ## The rounds of a swap (`entities/pool.go`) -/

/-- The struct `StepComputations`, the record `step` of one round of the loop of
`v3Swap`. -/
structure StepComputations where
  SqrtPriceStartX96 : Int
  TickNext : Int
  Initialized : Bool
  SqrtPriceNextX96 : Int
  AmountIn : Int
  AmountOut : Int
  FeeAmount : Int
  deriving DecidableEq, Repr

/-- One round of the loop of `v3Swap` as it is seen from outside: the running
state on entry, the record `step` as the round leaves it, and the running state
at the end of the round. -/
structure SwapRound where
  before : SwapState
  step : StepComputations
  after : SwapState
  deriving DecidableEq, Repr

/-- One round of the loop of `v3Swap`, the same statements as `swapStep`, with
the record `step` kept. -/
def swapStepRecord (env : External) (p : Pool) (zeroForOne exactInput : Bool)
    (sqrtPriceLimitX96 : Int) (state : SwapState) : Except Err SwapRound :=
  match p.TickDataProvider.NextInitializedTickIndex state.tick zeroForOne with
  | .error err => .error err
  | .ok (tickNext, initialized) =>
    let tickNext :=
      if tickNext < env.MinTick then env.MinTick
      else if tickNext > env.MaxTick then env.MaxTick
      else tickNext
    match liftExternal (env.GetSqrtRatioAtTick tickNext) with
    | .error err => .error err
    | .ok sqrtPriceNextX96 =>
      let targetValue :=
        if zeroForOne then
          if sqrtPriceNextX96 < sqrtPriceLimitX96 then sqrtPriceLimitX96 else sqrtPriceNextX96
        else
          if sqrtPriceNextX96 > sqrtPriceLimitX96 then sqrtPriceLimitX96 else sqrtPriceNextX96
      match liftExternal (env.ComputeSwapStep state.sqrtPriceX96 targetValue state.liquidity
          state.amountSpecifiedRemaining p.Fee) with
      | .error err => .error err
      | .ok (sqrtPriceX96, amountIn, amountOut, feeAmount) =>
        let step : StepComputations :=
          { SqrtPriceStartX96 := state.sqrtPriceX96, TickNext := tickNext,
            Initialized := initialized, SqrtPriceNextX96 := sqrtPriceNextX96,
            AmountIn := amountIn, AmountOut := amountOut, FeeAmount := feeAmount }
        let amountSpecifiedRemaining :=
          if exactInput then state.amountSpecifiedRemaining - (amountIn + feeAmount)
          else state.amountSpecifiedRemaining + amountOut
        let amountCalculated :=
          if exactInput then state.amountCalculated - amountOut
          else state.amountCalculated + (amountIn + feeAmount)
        if sqrtPriceX96 = sqrtPriceNextX96 then
          if initialized then
            match p.TickDataProvider.GetTick tickNext with
            | .error err => .error err
            | .ok tick =>
              let liquidityNet :=
                if zeroForOne then tick.LiquidityNet * (-1) else tick.LiquidityNet
              .ok { before := state, step := step,
                    after :=
                      { amountSpecifiedRemaining := amountSpecifiedRemaining,
                        amountCalculated := amountCalculated, sqrtPriceX96 := sqrtPriceX96,
                        tick := if zeroForOne then tickNext - 1 else tickNext,
                        liquidity := env.AddDelta state.liquidity liquidityNet,
                        crossInitTickLoops := state.crossInitTickLoops + 1 } }
          else
            .ok { before := state, step := step,
                  after :=
                    { amountSpecifiedRemaining := amountSpecifiedRemaining,
                      amountCalculated := amountCalculated, sqrtPriceX96 := sqrtPriceX96,
                      tick := if zeroForOne then tickNext - 1 else tickNext,
                      liquidity := state.liquidity,
                      crossInitTickLoops := state.crossInitTickLoops } }
        else if sqrtPriceX96 ≠ state.sqrtPriceX96 then
          match liftExternal (env.GetTickAtSqrtRatio sqrtPriceX96) with
          | .error err => .error err
          | .ok tick =>
            .ok { before := state, step := step,
                  after :=
                    { amountSpecifiedRemaining := amountSpecifiedRemaining,
                      amountCalculated := amountCalculated, sqrtPriceX96 := sqrtPriceX96,
                      tick := tick, liquidity := state.liquidity,
                      crossInitTickLoops := state.crossInitTickLoops } }
        else
          .ok { before := state, step := step,
                after :=
                  { amountSpecifiedRemaining := amountSpecifiedRemaining,
                    amountCalculated := amountCalculated, sqrtPriceX96 := sqrtPriceX96,
                    tick := state.tick, liquidity := state.liquidity,
                    crossInitTickLoops := state.crossInitTickLoops } }

/-- The loop of `v3Swap`, run for at most `rounds` rounds, with the rounds it
runs listed in order. -/
def swapLoopRounds (env : External) (p : Pool) (zeroForOne exactInput : Bool)
    (sqrtPriceLimitX96 : Int) : Nat → SwapState → Except Err (List SwapRound × SwapState)
  | rounds, state =>
    if state.amountSpecifiedRemaining ≠ 0 ∧ state.sqrtPriceX96 ≠ sqrtPriceLimitX96 then
      match rounds with
      | 0 => .error .recursionBound
      | rounds + 1 =>
        match swapStepRecord env p zeroForOne exactInput sqrtPriceLimitX96 state with
        | .error err => .error err
        | .ok round =>
          match swapLoopRounds env p zeroForOne exactInput sqrtPriceLimitX96 rounds
              round.after with
          | .error err => .error err
          | .ok (list, final) => .ok (round :: list, final)
    else .ok ([], state)

/-- The rounds of `Pool.v3Swap` and the state in which its loop ends: the checks
and the initial state of `Pool.v3Swap`, followed by the loop with its rounds
listed. -/
def Pool.v3SwapRounds (env : External) (rounds : Nat) (p : Pool) (zeroForOne : Bool)
    (amountSpecified : Int) (sqrtPriceLimitX96 : Option Int) :
    Except Err (List SwapRound × SwapState) :=
  let sqrtPriceLimitX96 :=
    match sqrtPriceLimitX96 with
    | none => defaultPriceLimit env zeroForOne
    | some limit => limit
  match priceLimitError env p zeroForOne sqrtPriceLimitX96 with
  | some err => .error err
  | none =>
    let exactInput := decide (amountSpecified ≥ 0)
    swapLoopRounds env p zeroForOne exactInput sqrtPriceLimitX96 rounds
      (initialSwapState p amountSpecified)

/-! ## The planner (`entities/v4Planner.go`, `entities/v4BaseActionsParser.go`) -/

/-- The constants of type `Actions`, a byte. -/
def INCREASE_LIQUIDITY : Nat := 0x00

/-- The action `DECREASE_LIQUIDITY`. -/
def DECREASE_LIQUIDITY : Nat := 0x01

/-- The action `MINT_POSITION`. -/
def MINT_POSITION : Nat := 0x02

/-- The action `BURN_POSITION`. -/
def BURN_POSITION : Nat := 0x03

/-- The action `SWAP_EXACT_IN_SINGLE`. -/
def SWAP_EXACT_IN_SINGLE : Nat := 0x06

/-- The action `SWAP_EXACT_IN`. -/
def SWAP_EXACT_IN : Nat := 0x07

/-- The action `SWAP_EXACT_OUT_SINGLE`. -/
def SWAP_EXACT_OUT_SINGLE : Nat := 0x08

/-- The action `SWAP_EXACT_OUT`. -/
def SWAP_EXACT_OUT : Nat := 0x09

/-- The action `SETTLE`. -/
def SETTLE : Nat := 0x0b

/-- The action `SETTLE_ALL`. -/
def SETTLE_ALL : Nat := 0x0c

/-- The action `SETTLE_PAIR`. -/
def SETTLE_PAIR : Nat := 0x0d

/-- The action `TAKE`. -/
def TAKE : Nat := 0x0e

/-- The action `TAKE_ALL`. -/
def TAKE_ALL : Nat := 0x0f

/-- The action `TAKE_PORTION`. -/
def TAKE_PORTION : Nat := 0x10

/-- The action `TAKE_PAIR`. -/
def TAKE_PAIR : Nat := 0x11

/-- The action `CLOSE_CURRENCY`. -/
def CLOSE_CURRENCY : Nat := 0x12

/-- The action `SWEEP`. -/
def SWEEP : Nat := 0x14

/-- The action `UNWRAP`. -/
def UNWRAP : Nat := 0x16

/-- The struct `ParamType`; its field `Type` is `Typ` here, and its field
`Subparser`, which only the parser of call data reads, is left out. -/
structure ParamType where
  Name : String
  Typ : String
  deriving DecidableEq, Repr

/-- The constant `POOL_KEY_STRUCT`. -/
def POOL_KEY_STRUCT : String :=
  "(address currency0,address currency1,uint24 fee,int24 tickSpacing,address hooks)"

/-- The constant `PATH_KEY_STRUCT`. -/
def PATH_KEY_STRUCT : String :=
  "(address intermediateCurrency,uint256 fee,int24 tickSpacing,address hooks,bytes hookData)"

/-- The constant `SWAP_EXACT_IN_SINGLE_STRUCT`. -/
def SWAP_EXACT_IN_SINGLE_STRUCT : String :=
  "(" ++ POOL_KEY_STRUCT
    ++ " poolKey,bool zeroForOne,uint128 amountIn,uint128 amountOutMinimum,bytes hookData)"

/-- The constant `SWAP_EXACT_IN_STRUCT`. -/
def SWAP_EXACT_IN_STRUCT : String :=
  "(address currencyIn," ++ PATH_KEY_STRUCT
    ++ "[] path,uint128 amountIn,uint128 amountOutMinimum)"

/-- The constant `SWAP_EXACT_OUT_SINGLE_STRUCT`. -/
def SWAP_EXACT_OUT_SINGLE_STRUCT : String :=
  "(" ++ POOL_KEY_STRUCT
    ++ " poolKey,bool zeroForOne,uint128 amountOut,uint128 amountInMaximum,bytes hookData)"

/-- The constant `SWAP_EXACT_OUT_STRUCT`. -/
def SWAP_EXACT_OUT_STRUCT : String :=
  "(address currencyOut," ++ PATH_KEY_STRUCT
    ++ "[] path,uint128 amountOut,uint128 amountInMaximum)"

/-- The map `V4_BASE_ACTIONS_ABI_DEFINITION`; an action that is not a key of the
map has the empty list, as a failed lookup of a Go map of slices gives. -/
def V4_BASE_ACTIONS_ABI_DEFINITION (action : Nat) : List ParamType :=
  if action = INCREASE_LIQUIDITY then
    [⟨"tokenId", "uint256"⟩, ⟨"liquidity", "uint256"⟩, ⟨"amount0Max", "uint128"⟩,
     ⟨"amount1Max", "uint128"⟩, ⟨"hookData", "bytes"⟩]
  else if action = DECREASE_LIQUIDITY then
    [⟨"tokenId", "uint256"⟩, ⟨"liquidity", "uint256"⟩, ⟨"amount0Min", "uint128"⟩,
     ⟨"amount1Min", "uint128"⟩, ⟨"hookData", "bytes"⟩]
  else if action = MINT_POSITION then
    [⟨"poolKey", POOL_KEY_STRUCT⟩, ⟨"tickLower", "int24"⟩, ⟨"tickUpper", "int24"⟩,
     ⟨"liquidity", "uint256"⟩, ⟨"amount0Max", "uint128"⟩, ⟨"amount1Max", "uint128"⟩,
     ⟨"owner", "address"⟩, ⟨"hookData", "bytes"⟩]
  else if action = BURN_POSITION then
    [⟨"tokenId", "uint256"⟩, ⟨"amount0Min", "uint128"⟩, ⟨"amount1Min", "uint128"⟩,
     ⟨"hookData", "bytes"⟩]
  else if action = SWAP_EXACT_IN_SINGLE then [⟨"swap", SWAP_EXACT_IN_SINGLE_STRUCT⟩]
  else if action = SWAP_EXACT_IN then [⟨"swap", SWAP_EXACT_IN_STRUCT⟩]
  else if action = SWAP_EXACT_OUT_SINGLE then [⟨"swap", SWAP_EXACT_OUT_SINGLE_STRUCT⟩]
  else if action = SWAP_EXACT_OUT then [⟨"swap", SWAP_EXACT_OUT_STRUCT⟩]
  else if action = SETTLE then
    [⟨"currency", "address"⟩, ⟨"amount", "uint256"⟩, ⟨"payerIsUser", "bool"⟩]
  else if action = SETTLE_ALL then [⟨"currency", "address"⟩, ⟨"maxAmount", "uint256"⟩]
  else if action = SETTLE_PAIR then [⟨"currency0", "address"⟩, ⟨"currency1", "address"⟩]
  else if action = TAKE then
    [⟨"currency", "address"⟩, ⟨"recipient", "address"⟩, ⟨"amount", "uint256"⟩]
  else if action = TAKE_ALL then [⟨"currency", "address"⟩, ⟨"minAmount", "uint256"⟩]
  else if action = TAKE_PORTION then
    [⟨"currency", "address"⟩, ⟨"recipient", "address"⟩, ⟨"bips", "uint256"⟩]
  else if action = TAKE_PAIR then
    [⟨"currency0", "address"⟩, ⟨"currency1", "address"⟩, ⟨"recipient", "address"⟩]
  else if action = CLOSE_CURRENCY then [⟨"currency", "address"⟩]
  else if action = SWEEP then [⟨"currency", "address"⟩, ⟨"recipient", "address"⟩]
  else if action = UNWRAP then [⟨"amount", "uint256"⟩]
  else []

/-- The values the package puts into the parameter list `[]interface{}` of an
action: an address, a list of path keys, a currency amount, the decimal text of
an integer (`big.Int.String`), an integer and a boolean. -/
inductive ParamValue where
  | address (value : Nat)
  | path (keys : List PathKey)
  | amount (value : CurrencyAmount)
  | decimalText (value : Int)
  | integer (value : Int)
  | boolean (value : Bool)

/-- Modelled from the spec: the ABI encoding of the external Ethereum library as
`createAction` uses it: `abi.NewType` on every type string, then
`Arguments.Pack` of the parameters against these types.  It gives the packed
bytes or fails; its errors are numbered and reach the caller as
`Err.ErrExternal`. -/
abbrev AbiPack := List String → List ParamValue → Except Nat (List Nat)

/-- The struct `RouterAction`. -/
structure RouterAction where
  action : Nat
  encodedInput : List Nat
  deriving DecidableEq, Repr

/-- The function `createAction`. -/
def createAction (pack : AbiPack) (action : Nat) (parameters : List ParamValue) :
    Except Err RouterAction :=
  let paramTypes := V4_BASE_ACTIONS_ABI_DEFINITION action
  let typeStrings := paramTypes.map (fun v => v.Typ)
  match liftExternal (pack typeStrings parameters) with
  | .error err => .error err
  | .ok encodeInput => .ok { action := action, encodedInput := encodeInput }

/-- The struct `V4Planner`. -/
structure V4Planner where
  Actions : List Nat
  Params : List (List Nat)
  deriving DecidableEq, Repr

/-- The constant `EmptyBytes` of package `constants`, the text `0x`. -/
def EmptyBytes : List Char := ['0', 'x']

/-- The conversion `[]byte(s)` of a string of ASCII characters. -/
def bytesOf (s : List Char) : List Nat := s.map Char.toNat

/-- The function `NewV4Planner`. -/
def NewV4Planner : V4Planner := { Actions := bytesOf EmptyBytes, Params := [] }

/-- The method `V4Planner.AddActions`: the error it returns (`none` for nil) and
its receiver as the call leaves it.  When there is no error the planner it
returns is that receiver. -/
def V4Planner.AddActions (pack : AbiPack) (p : V4Planner) (typ : Nat)
    (parameters : List ParamValue) : Option Err × V4Planner :=
  match createAction pack typ parameters with
  | .error err => (some err, p)
  | .ok command =>
    (none, { Params := p.Params ++ [command.encodedInput],
             Actions := p.Actions ++ [command.action] })

/-- The function `getActions`: the bytes of `actions` from index 2 on. -/
def getActions (actions : List Nat) : List Nat :=
  (List.range' 2 (actions.length - 2)).foldl
    (fun actionTypes i =>
      match actions[i]? with
      | some b => actionTypes ++ [b]
      | none => actionTypes)
    []

/-- The function `currencyAddress`, on a path currency of a route; a nil path
currency is dereferenced. -/
def currencyAddress (curr : Option Token) : Except Err Nat :=
  match curr with
  | none => .error .panicNilDereference
  | some token => if token.IsNative then .ok AddressZero else .ok token.Wrapped.Address

/-- The method `Trade.Route`. -/
def Trade.Route (t : Trade) : Except Err Route :=
  match t.Swaps with
  | [swap] => .ok swap.Route
  | _ => .error .ErrTradeHasMultipleRoutes

/-- The private fields `inputAmount` and `outputAmount` of a trade as a call of
`AddTrade` finds them: nil until `InputAmount` or `OutputAmount` has been called
on the trade. -/
structure TradeMemo where
  inputAmount : Option CurrencyAmount
  outputAmount : Option CurrencyAmount

/-- The method `V4Planner.AddTrade`: the planner it returns, which is its
receiver as the call leaves it.  The trade is passed by value, so what the
methods called here store in its private fields stays in the copy: the call of
`MaximumAmountIn` fills `inputAmount` only and the call of `MininumAmountOut`
fills `outputAmount` only, and the field read directly afterwards is as `memo`
has it.  `InputAmount` and `OutputAmount` return the field when it is set, which
is what handing the field to `MaximumAmountIn` and `MininumAmountOut` as the
amount does. -/
def V4Planner.AddTrade (pack : AbiPack) (p : V4Planner) (trade : Trade) (memo : TradeMemo)
    (slippageTolerance : Option Fraction) : Except Err V4Planner :=
  let exactOutput := if trade.TradeType = .ExactOutput then false else true
  let invalidTolerance :=
    match slippageTolerance with
    | none => true
    | some tolerance => tolerance.LessThan PercentZero
  if exactOutput && invalidTolerance then .error .ErrInvalidSlippageTolerance
  else if trade.Swaps.length ≠ 1 then .error .ErrOnlyOneSwap
  else
    let actionType := if exactOutput then SWAP_EXACT_OUT else SWAP_EXACT_IN
    match trade.Route with
    | .error err => .error err
    | .ok r =>
      match currencyAddress r.PathInput with
      | .error err => .error err
      | .ok currencyIn =>
        match currencyAddress r.PathOutput with
        | .error err => .error err
        | .ok currencyOut =>
          match EncodeRouteToPath r exactOutput with
          | .error err => .error err
          | .ok (encoded, _) =>
            if !exactOutput then
              match slippageTolerance with
              | none => .error .panicNilDereference
              | some tolerance =>
                match trade.MaximumAmountIn tolerance memo.inputAmount with
                | .error err => .error err
                | .ok amountInMax =>
                  match memo.outputAmount with
                  | none => .error .panicNilDereference
                  | some outputAmount =>
                    match p.AddActions pack actionType
                        [.address currencyOut, .path encoded, .amount amountInMax,
                         .decimalText outputAmount.Quotient] with
                    | (some err, _) => .error err
                    | (none, act) => .ok act
            else
              match slippageTolerance with
              | none => .error .panicNilDereference
              | some tolerance =>
                match trade.MininumAmountOut tolerance memo.outputAmount with
                | .error err => .error err
                | .ok amountOutMin =>
                  match memo.inputAmount with
                  | none => .error .panicNilDereference
                  | some inputAmount =>
                    match p.AddActions pack actionType
                        [.address currencyIn, .path encoded,
                         .decimalText inputAmount.Quotient, .amount amountOutMin] with
                    | (some err, _) => .error err
                    | (none, act) => .ok act

/-! ## Predicates used to state the properties -/

/-- Two trades share their input currency and their output currency: both have
total amounts, and `tradeComparator` raises neither of its two panics on them. -/
def SameCurrencies (a b : Trade) : Prop :=
  ∃ ai bi ao bo, a.InputAmount = .ok ai ∧ b.InputAmount = .ok bi ∧
    a.OutputAmount = .ok ao ∧ b.OutputAmount = .ok bo ∧
    ai.Currency.Equal bi.Currency = true ∧ ao.Currency.Equal bo.Currency = true

/-- Every swap amount of the trade is a fraction with a positive denominator. -/
def PositiveDenominators (t : Trade) : Prop :=
  ∀ s ∈ t.Swaps, 0 < s.InputAmount.Fraction.Denominator ∧
    0 < s.OutputAmount.Fraction.Denominator

/-- The value `tradeComparator` returns on total amounts `aIn`, `aOut` and hop
count `aHops` against `bIn`, `bOut`, `bHops`. -/
def comparatorValue (aIn aOut : Fraction) (aHops : Int) (bIn bOut : Fraction) (bHops : Int) :
    Int :=
  if aOut.EqualTo bOut then
    if aIn.EqualTo bIn then aHops - bHops
    else if aIn.LessThan bIn then -1 else 1
  else if aOut.LessThan bOut then 1 else -1

/-- The list is sorted per the comparator: `comparator(items[i], items[j]) <= 0`
for all `i < j`. -/
def SortedPer (comparator : Trade → Trade → Except Err Int) (items : List Trade) : Prop :=
  items.Pairwise (fun a b => ∃ c, comparator a b = .ok c ∧ c ≤ 0)

/-- The tick data provider of the pool never returns the given error. -/
def ProviderNeverReturns (p : Pool) (e : Err) : Prop :=
  (∀ tick lte, p.TickDataProvider.NextInitializedTickIndex tick lte ≠ .error e) ∧
    (∀ tick, p.TickDataProvider.GetTick tick ≠ .error e)

/-- The pool `NewPool` returns when none of its checks fails: the two tokens in
address order, the pool key and pool id of the given fee, tick spacing and hooks,
and a `TickSpacing` field of zero. -/
def builtPool (env : External) (tokenA tokenB : Token) (fee tickSpacing : Int) (hooks : Nat)
    (sqrtRatioX96 liquidity tickCurrent : Int) (ticks : TickDataProvider) : Pool :=
  let token0 := if tokenA.Address < tokenB.Address then tokenA else tokenB
  let token1 := if tokenA.Address < tokenB.Address then tokenB else tokenA
  { Currency0 := token0, Currency1 := token1, Fee := fee, TickSpacing := 0,
    SqrtRatioX96 := sqrtRatioX96, Hooks := hooks, Liquidity := liquidity,
    TickCurrent := tickCurrent, TickDataProvider := ticks,
    PoolKey := { Currency0 := token0.Address, Currency1 := token1.Address, Fee := fee,
                 TickSpacing := tickSpacing, Hooks := hooks },
    PoolId :=
      env.Keccak256 (abiEncode env token0.Address token1.Address fee tickSpacing hooks) }

/-- The trade has a single route, and that route has at most `h` pools. -/
def SingleRouteWithin (h : Int) (t : Trade) : Prop :=
  ∃ s, t.Swaps = [s] ∧ (s.Route.Pools.length : Int) ≤ h

/-- The memoising fields of the pool are as its own methods leave them: unset in
a new pool, then written by calls of `Token0Price` and `Token1Price` (the only
code that writes them). -/
inductive PoolMemo.WrittenBy (p : Pool) : PoolMemo → Prop
  | unset : PoolMemo.WrittenBy p PoolMemo.unset
  | token0Price {memo : PoolMemo} :
      PoolMemo.WrittenBy p memo → PoolMemo.WrittenBy p (p.Token0Price memo).2
  | token1Price {memo : PoolMemo} :
      PoolMemo.WrittenBy p memo → PoolMemo.WrittenBy p (p.Token1Price memo).2

/-- The pool connects the two tokens: they are its two currencies, in either
order. -/
def connects (pool : Pool) (t t2 : Token) : Bool :=
  (decide (t = pool.Currency0) && decide (t2 = pool.Currency1))
    || (decide (t = pool.Currency1) && decide (t2 = pool.Currency0))

/-- The continuity of a route: the token path has one entry more than there are
pools, and pool `i` connects the entries `i` and `i + 1`. -/
def continuousPath : List Pool → List Token → Bool
  | [], path => decide (path.length = 1)
  | pool :: rest, t :: t2 :: path => connects pool t t2 && continuousPath rest (t2 :: path)
  | _ :: _, _ => false

/-- The price of a token in a pool as the property words it: the pool's
`Token0Price` when the token is its currency0, its `Token1Price` otherwise. -/
def directionalPrice (pool : Pool) (token : Token) : Fraction :=
  if token = pool.Currency0 then (pool.Token0Price PoolMemo.unset).1.Fraction
  else (pool.Token1Price PoolMemo.unset).1.Fraction

/-- The product over `i` of the price of path entry `i` in pool `i`. -/
def pathPrice : List Pool → List Token → Fraction
  | pool :: rest, t :: path => (directionalPrice pool t).Multiply (pathPrice rest path)
  | _, _ => ⟨1, 1⟩

/-- The spot quote of a swap: its input amount at the mid price of its own
route. -/
def spotQuote (swap : Swap) : Except Err CurrencyAmount := do
  let (midPrice, _) ← swap.Route.MidPrice none
  midPrice.Quote swap.InputAmount

/-- Every swap of the trade has a spot quote, a fraction with a positive
denominator. -/
def SpotQuoted (t : Trade) : Prop :=
  ∀ s ∈ t.Swaps, ∃ q, spotQuote s = .ok q ∧ 0 < q.Fraction.Denominator

/-- The spot quote of a swap as a rational number. -/
def spotQuoteRat (swap : Swap) : ℚ :=
  match spotQuote swap with
  | .ok q => q.Fraction.toRat
  | .error _ => 0

/-- The summed spot quote of a trade: the sum over its swaps of the swap's input
amount at the mid price of the swap's route. -/
def summedSpotQuote (t : Trade) : ℚ :=
  (t.Swaps.map spotQuoteRat).sum

/-- The route of swap `s` starts at the currency of the input amount of the swap
`first`, both in wrapped form. -/
def inputAgrees (first s : Swap) : Bool :=
  first.InputAmount.Currency.Wrapped.Equal (.token s.Route.Input.Wrapped)

/-- The route of swap `s` ends at the currency of the output amount of the swap
`first`, both in wrapped form. -/
def outputAgrees (first s : Swap) : Bool :=
  first.OutputAmount.Currency.Wrapped.Equal (.token s.Route.Output.Wrapped)

/-- All pools of the routes of all swaps, in order. -/
def allPools (swaps : List Swap) : List Pool :=
  swaps.flatMap (fun s => s.Route.Pools)

/-- The pool invariant that the two currencies are different tokens of one
chain. -/
def hasDistinctCurrencies (p : Pool) : Prop :=
  p.Currency0.chainId = p.Currency1.chainId ∧ p.Currency0.Address ≠ p.Currency1.Address

/-- The pool id `newTrade` computes for a pool: the hash of its two addresses in
order, its fee, its `TickSpacing` field and its hooks address. -/
def poolIdOf (env : External) (p : Pool) : List Nat :=
  env.Keccak256 (abiEncode env (min p.Currency0.Address p.Currency1.Address)
    (max p.Currency0.Address p.Currency1.Address) p.Fee p.TickSpacing p.Hooks)

/-- The number of distinct pool ids over all pools of the routes of all swaps. -/
def distinctPoolIds (env : External) (swaps : List Swap) : Nat :=
  ((allPools swaps).map (poolIdOf env)).toFinset.card

/-- The path key of a pool and an intermediate currency: the address of the
currency, the fee, tick spacing and hooks of the pool, and the hook data `0x`. -/
def pathKeyOf (pool : Pool) (currency : Token) : PathKey :=
  { IntermediateCurrency := currency.Address, Fee := pool.Fee, TickSpacing := pool.TickSpacing,
    Hooks := pool.Hooks, HookData := hookDataNone }

/-- The hexadecimal digits, in both cases. -/
def isHexDigit (c : Char) : Bool :=
  decide (c ∈ ['0', '1', '2', '3', '4', '5', '6', '7', '8', '9', 'a', 'b', 'c', 'd', 'e', 'f',
    'A', 'B', 'C', 'D', 'E', 'F'])

/-- A string of the form `0x` followed by exactly forty hexadecimal digits. -/
def isAddressText (addr : List Char) : Bool :=
  match addr with
  | '0' :: 'x' :: digits => decide (digits.length = 40) && digits.all isHexDigit
  | _ => false

/-- The digits of a string after its first two characters, read as an integer
in base sixteen, most significant digit first. -/
def addressValue (addr : List Char) : Nat :=
  (addr.drop 2).foldl (fun n c => n * 16 + (hexDigitValue c).getD 0) 0

/-- The fourteen hook options in the order of their flag bits, bit 0 first. -/
def hookOptionsByBit : List HookOption :=
  [.AfterRemoveLiquidityReturnsDelta, .AfterAddLiquidityReturnsDelta, .AfterSwapReturnsDelta,
   .BeforeSwapReturnsDelta, .AfterDonate, .BeforeDonate, .AfterSwap, .BeforeSwap,
   .AfterRemoveLiquidity, .BeforeRemoveLiquidity, .AfterAddLiquidity, .BeforeAddLiquidity,
   .AfterInitialize, .BeforeInitialize]

/-- The byte-wise order of two byte strings: at the first place where they
differ, the first one has the smaller byte. -/
def bytewiseSmaller (x y : List Nat) : Bool :=
  (List.range x.length).any (fun i =>
    decide (i < y.length) && decide (x.take i = y.take i) && decide (x.getD i 0 < y.getD i 0))

/-- The integer a list of bytes stands for, most significant byte first. -/
def beValue : List Nat → Nat
  | [] => 0
  | d :: ds => d * 256 ^ ds.length + beValue ds

/-- A round crosses an initialized tick: the price it ends with is the price of
the next tick boundary, and the tick data provider reported that tick as
initialized. -/
def SwapRound.crossesInitializedTick (r : SwapRound) : Bool :=
  decide (r.after.sqrtPriceX96 = r.step.SqrtPriceNextX96) && r.step.Initialized

/-- The sum of the input amounts and fees of a list of rounds. -/
def sumInAndFee (list : List SwapRound) : Int :=
  (list.map (fun r => r.step.AmountIn + r.step.FeeAmount)).sum

/-- The sum of the output amounts of a list of rounds. -/
def sumOut (list : List SwapRound) : Int :=
  (list.map (fun r => r.step.AmountOut)).sum

/-- The next tick reported by the provider, kept within the tick bounds. -/
def clampTick (env : External) (tick : Int) : Int :=
  if tick < env.MinTick then env.MinTick
  else if tick > env.MaxTick then env.MaxTick
  else tick

/-- Whether a currency is one of the two currencies of a pool. -/
def Pool.hasCurrency (p : Pool) (currency : Currency) : Prop :=
  currency = .token p.Currency0 ∨ currency = .token p.Currency1

/-- The currency of a pool that is not the given one: currency 1 for currency 0,
and currency 0 otherwise. -/
def Pool.otherCurrency (p : Pool) (currency : Currency) : Currency :=
  if currency = .token p.Currency0 then .token p.Currency1 else .token p.Currency0

/-- The rounds of a list follow one another: the first starts in the given state,
each next one starts in the state the one before it ended in, and the last one
ends in the final state. -/
def consecutiveRounds : SwapState → List SwapRound → SwapState → Prop
  | start, [], final => final = start
  | start, r :: rest, final => r.before = start ∧ consecutiveRounds r.after rest final

/-- The nested call of `BestTradeExactIn`: the search itself, on the pools that
are left. -/
def exactInRecurse (q : Quoter) (currencyAmountIn : CurrencyAmount) (currencyOut : Currency) :
    BestTradeCall :=
  fun pools opts currentPools amount bestTrades =>
    BestTradeExactIn q pools currencyAmountIn currencyOut (some opts) currentPools (some amount)
      bestTrades

/-- The nested call of `BestTradeExactOut`: the search itself, on the pools that
are left. -/
def exactOutRecurse (q : Quoter) (currencyIn : Currency) (currencyAmountOut : CurrencyAmount) :
    BestTradeCall :=
  fun pools opts currentPools amount bestTrades =>
    BestTradeExactOut q pools currencyIn currencyAmountOut (some opts) currentPools
      (some amount) bestTrades

/-- The pool touches the frontier currency: one of its two currencies is the
currency of the amount carried to the frontier. -/
def touchesCurrency (pool : Pool) (amount : CurrencyAmount) : Bool :=
  pool.Currency0.Equal amount.Currency || pool.Currency1.Equal amount.Currency

/-- The pool loop of a call of `BestTradeExactIn` comes to the pool at index `i`
with the list `reached`: the rounds for the pools before it have all returned. -/
def exactInReaches (q : Quoter) (pools : List Pool) (currencyAmountIn : CurrencyAmount)
    (currencyOut : Currency) (opts : BestTradeOptions) (currentPools : List Pool)
    (amountIn : CurrencyAmount) (bestTrades : List Trade) (i : Nat) (reached : List Trade) :
    Prop :=
  (List.range i).foldlM
    (exactInStep q (exactInRecurse q currencyAmountIn currencyOut) pools currencyAmountIn
      currencyOut opts currentPools amountIn) bestTrades = .ok reached

/-- The pool loop of a call of `BestTradeExactOut` comes to the pool at index `i`
with the list `reached`. -/
def exactOutReaches (q : Quoter) (pools : List Pool) (currencyIn : Currency)
    (currencyAmountOut : CurrencyAmount) (opts : BestTradeOptions) (currentPools : List Pool)
    (amountOut : CurrencyAmount) (bestTrades : List Trade) (i : Nat) (reached : List Trade) :
    Prop :=
  (List.range i).foldlM
    (exactOutStep q (exactOutRecurse q currencyIn currencyAmountOut) pools currencyIn
      currencyAmountOut opts currentPools amountOut) bestTrades = .ok reached

/-- The options of a nested call of a best-trade search: one hop less. -/
def nestedOptions (opts : BestTradeOptions) : BestTradeOptions :=
  { MaxNumResults := opts.MaxNumResults, MaxHops := opts.MaxHops - 1 }

/-- The pools without the one at index `i`. -/
def poolsExcluding (pools : List Pool) (i : Nat) : List Pool :=
  pools.take i ++ pools.drop (i + 1)

/-- A sequence of calls of `AddActions` on one planner, the planner going on as
each call leaves it. -/
def addAll (pack : AbiPack) : V4Planner → List (Nat × List ParamValue) → V4Planner
  | p, [] => p
  | p, call :: rest => addAll pack (p.AddActions pack call.1 call.2).2 rest

/-- The actions of the calls of a sequence that `createAction` accepts, in
order. -/
def successfulActions (pack : AbiPack) (calls : List (Nat × List ParamValue)) :
    List RouterAction :=
  calls.filterMap (fun call => valueOf (createAction pack call.1 call.2))

/-- The body of `BestTradeExactIn` with its nested calls written out `depth`
levels deep, and the call `stub` in place of every call nested deeper. -/
def exactInNested (q : Quoter) (currencyAmountIn : CurrencyAmount) (currencyOut : Currency)
    (stub : BestTradeCall) : Nat → List Pool → Option BestTradeOptions → List Pool →
    Option CurrencyAmount → List Trade → Except Err (List Trade)
  | 0, pools, opts, currentPools, nextAmountIn, bestTrades =>
    exactInBody q stub pools currencyAmountIn currencyOut opts currentPools nextAmountIn
      bestTrades
  | depth + 1, pools, opts, currentPools, nextAmountIn, bestTrades =>
    exactInBody q
      (fun pools' opts' currentPools' amount' bestTrades' =>
        exactInNested q currencyAmountIn currencyOut stub depth pools' (some opts')
          currentPools' (some amount') bestTrades')
      pools currencyAmountIn currencyOut opts currentPools nextAmountIn bestTrades

/-- The body of `BestTradeExactOut` with its nested calls written out `depth`
levels deep, and the call `stub` in place of every call nested deeper. -/
def exactOutNested (q : Quoter) (currencyIn : Currency) (currencyAmountOut : CurrencyAmount)
    (stub : BestTradeCall) : Nat → List Pool → Option BestTradeOptions → List Pool →
    Option CurrencyAmount → List Trade → Except Err (List Trade)
  | 0, pools, opts, currentPools, nextAmountOut, bestTrades =>
    exactOutBody q stub pools currencyIn currencyAmountOut opts currentPools nextAmountOut
      bestTrades
  | depth + 1, pools, opts, currentPools, nextAmountOut, bestTrades =>
    exactOutBody q
      (fun pools' opts' currentPools' amount' bestTrades' =>
        exactOutNested q currencyIn currencyAmountOut stub depth pools' (some opts')
          currentPools' (some amount') bestTrades')
      pools currencyIn currencyAmountOut opts currentPools nextAmountOut bestTrades

/-- The type of the call that builds a route from the pools of a path, where the
searches call `NewRoute`. -/
abbrev RouteCall := List Pool → Currency → Option Currency → Except Err Route

/-- The type of the call that builds a trade from a route, where the searches call
`FromRoute`. -/
abbrev TradeCall := Route → CurrencyAmount → TradeType → Except Err Trade

/-- A route the call returns holds the pools it was given, as one of `NewRoute`
does. -/
def RouteCall.keepsPools (newRoute : RouteCall) : Prop :=
  ∀ pools input output r, newRoute pools input output = .ok r → r.Pools = pools

/-- A trade the call returns has one swap, over the route it was given, as one
of `FromRoute` does. -/
def TradeCall.keepsRoute (fromRoute : TradeCall) : Prop :=
  ∀ route amount tradeType t, fromRoute route amount tradeType = .ok t →
    ∃ s, t.Swaps = [s] ∧ s.Route = route

/-- The statements of `exactInStep`, with `newRoute` where it calls `NewRoute` and
`fromRoute` where it calls `FromRoute`. -/
def exactInStepWith (newRoute : RouteCall) (fromRoute : TradeCall) (q : Quoter)
    (recurse : BestTradeCall) (pools : List Pool)
    (currencyAmountIn : CurrencyAmount) (currencyOut : Currency) (opts : BestTradeOptions)
    (currentPools : List Pool) (amountIn : CurrencyAmount)
    (bestTrades : List Trade) (i : Nat) : Except Err (List Trade) :=
  match pools[i]? with
  | none => .error .panicIndexOutOfRange
  | some pool =>
    let tokenOut := currencyOut.Wrapped
    if !pool.Currency0.Equal amountIn.Currency && !pool.Currency1.Equal amountIn.Currency then
      .ok bestTrades
    else do
      let outputAmountResult ← q.GetOutputAmount pool amountIn
      let amountOut := outputAmountResult.ReturnedAmount
      if amountOut.Currency.Equal (.token tokenOut) && amountOut.Currency.IsToken then do
        let r ← newRoute (currentPools ++ [pool]) currencyAmountIn.Currency (some currencyOut)
        let trade ← fromRoute r currencyAmountIn .ExactInput
        sortedInsert bestTrades trade opts.MaxNumResults tradeComparator
      else if opts.MaxHops > 1 && pools.length > 1 then
        let poolsExcludingThisPool := pools.take i ++ pools.drop (i + 1)
        recurse poolsExcludingThisPool
          { MaxNumResults := opts.MaxNumResults, MaxHops := opts.MaxHops - 1 }
          (currentPools ++ [pool]) amountOut bestTrades
      else
        .ok bestTrades

/-- The statements of `exactInBody`, over `exactInStepWith`. -/
def exactInBodyWith (newRoute : RouteCall) (fromRoute : TradeCall) (q : Quoter)
    (recurse : BestTradeCall) (pools : List Pool)
    (currencyAmountIn : CurrencyAmount) (currencyOut : Currency)
    (opts : Option BestTradeOptions) (currentPools : List Pool)
    (nextAmountIn : Option CurrencyAmount) (bestTrades : List Trade) :
    Except Err (List Trade) :=
  if pools.length ≤ 0 then .error .ErrNoPools
  else
    let opts := opts.getD defaultBestTradeOptions
    match nextAmountIn with
    | none => .error .ErrInvalidMaxHops
    | some nextAmountIn =>
      if !(currencyAmountIn.Fraction.EqualTo nextAmountIn.Fraction
          || decide (currentPools.length > 0)) then
        .error .ErrInvalidRecursion
      else
        let amountIn := nextAmountIn.Wrapped
        (List.range pools.length).foldlM
          (exactInStepWith newRoute fromRoute q recurse pools currencyAmountIn currencyOut opts
            currentPools amountIn)
          bestTrades

/-- The recursion of `bestTradeExactInBounded`, over `exactInBodyWith`. -/
def bestTradeExactInBoundedWith (newRoute : RouteCall) (fromRoute : TradeCall) (q : Quoter)
    (currencyAmountIn : CurrencyAmount) (currencyOut : Currency) :
    Nat → List Pool → Option BestTradeOptions → List Pool →
    Option CurrencyAmount → List Trade → Except Err (List Trade)
  | 0, pools, opts, currentPools, nextAmountIn, bestTrades =>
    exactInBodyWith newRoute fromRoute q (fun _ _ _ _ _ => .error .recursionBound) pools
      currencyAmountIn currencyOut opts currentPools nextAmountIn bestTrades
  | depth + 1, pools, opts, currentPools, nextAmountIn, bestTrades =>
    exactInBodyWith newRoute fromRoute q
      (fun pools' opts' currentPools' amount' bestTrades' =>
        bestTradeExactInBoundedWith newRoute fromRoute q currencyAmountIn currencyOut depth
          pools' (some opts') currentPools' (some amount') bestTrades')
      pools currencyAmountIn currencyOut opts currentPools nextAmountIn bestTrades

/-- The search `BestTradeExactIn` with `newRoute` where it calls `NewRoute` and
`fromRoute` where it calls `FromRoute`. -/
def BestTradeExactInWith (newRoute : RouteCall) (fromRoute : TradeCall) (q : Quoter)
    (pools : List Pool) (currencyAmountIn : CurrencyAmount)
    (currencyOut : Currency) (opts : Option BestTradeOptions) (currentPools : List Pool)
    (nextAmountIn : Option CurrencyAmount) (bestTrades : List Trade) :
    Except Err (List Trade) :=
  bestTradeExactInBoundedWith newRoute fromRoute q currencyAmountIn currencyOut pools.length
    pools opts currentPools nextAmountIn bestTrades

/-- The statements of `exactOutStep`, with `newRoute` where it calls `NewRoute`
and `fromRoute` where it calls `FromRoute`. -/
def exactOutStepWith (newRoute : RouteCall) (fromRoute : TradeCall) (q : Quoter)
    (recurse : BestTradeCall) (pools : List Pool)
    (currencyIn : Currency) (currencyAmountOut : CurrencyAmount) (opts : BestTradeOptions)
    (currentPools : List Pool) (amountOut : CurrencyAmount)
    (bestTrades : List Trade) (i : Nat) : Except Err (List Trade) :=
  match pools[i]? with
  | none => .error .panicIndexOutOfRange
  | some pool =>
    if !pool.Currency0.Equal amountOut.Currency && !pool.Currency1.Equal amountOut.Currency then
      .ok bestTrades
    else do
      let inputAmountResult ← q.GetInputAmount pool amountOut
      let amountIn := inputAmountResult.ReturnedAmount
      if amountIn.Currency.Equal currencyIn then do
        let r ← newRoute (pool :: currentPools) currencyIn (some currencyAmountOut.Currency)
        let trade ← fromRoute r currencyAmountOut .ExactOutput
        sortedInsert bestTrades trade opts.MaxNumResults tradeComparator
      else if opts.MaxHops > 1 && pools.length > 1 then
        let poolsExcludingThisPool := pools.take i ++ pools.drop (i + 1)
        recurse poolsExcludingThisPool
          { MaxNumResults := opts.MaxNumResults, MaxHops := opts.MaxHops - 1 }
          (pool :: currentPools) amountIn bestTrades
      else
        .ok bestTrades

/-- The statements of `exactOutBody`, over `exactOutStepWith`. -/
def exactOutBodyWith (newRoute : RouteCall) (fromRoute : TradeCall) (q : Quoter)
    (recurse : BestTradeCall) (pools : List Pool)
    (currencyIn : Currency) (currencyAmountOut : CurrencyAmount)
    (opts : Option BestTradeOptions) (currentPools : List Pool)
    (nextAmountOut : Option CurrencyAmount) (bestTrades : List Trade) :
    Except Err (List Trade) :=
  if pools.length ≤ 0 then .error .ErrNoPools
  else
    let opts := opts.getD defaultBestTradeOptions
    let nextAmountOut := nextAmountOut.getD currencyAmountOut
    if opts.MaxHops ≤ 0 then .error .ErrInvalidMaxHops
    else if !(currencyAmountOut.Fraction.EqualTo nextAmountOut.Fraction
        || decide (currentPools.length > 0)) then
      .error .ErrInvalidRecursion
    else
      let amountOut := nextAmountOut.Wrapped
      (List.range pools.length).foldlM
        (exactOutStepWith newRoute fromRoute q recurse pools currencyIn currencyAmountOut opts
          currentPools amountOut)
        bestTrades

/-- The recursion of `bestTradeExactOutBounded`, over `exactOutBodyWith`. -/
def bestTradeExactOutBoundedWith (newRoute : RouteCall) (fromRoute : TradeCall) (q : Quoter)
    (currencyIn : Currency) (currencyAmountOut : CurrencyAmount) :
    Nat → List Pool → Option BestTradeOptions →
    List Pool → Option CurrencyAmount → List Trade → Except Err (List Trade)
  | 0, pools, opts, currentPools, nextAmountOut, bestTrades =>
    exactOutBodyWith newRoute fromRoute q (fun _ _ _ _ _ => .error .recursionBound) pools
      currencyIn currencyAmountOut opts currentPools nextAmountOut bestTrades
  | depth + 1, pools, opts, currentPools, nextAmountOut, bestTrades =>
    exactOutBodyWith newRoute fromRoute q
      (fun pools' opts' currentPools' amount' bestTrades' =>
        bestTradeExactOutBoundedWith newRoute fromRoute q currencyIn currencyAmountOut depth
          pools' (some opts') currentPools' (some amount') bestTrades')
      pools currencyIn currencyAmountOut opts currentPools nextAmountOut bestTrades

/-- The search `BestTradeExactOut` with `newRoute` where it calls `NewRoute` and
`fromRoute` where it calls `FromRoute`. -/
def BestTradeExactOutWith (newRoute : RouteCall) (fromRoute : TradeCall) (q : Quoter)
    (pools : List Pool) (currencyIn : Currency)
    (currencyAmountOut : CurrencyAmount) (opts : Option BestTradeOptions)
    (currentPools : List Pool) (nextAmountOut : Option CurrencyAmount)
    (bestTrades : List Trade) : Except Err (List Trade) :=
  bestTradeExactOutBoundedWith newRoute fromRoute q currencyIn currencyAmountOut pools.length
    pools opts currentPools nextAmountOut bestTrades

/-! ## Sample values -/

/-- Token A of the samples. -/
def tokenA : Token := { chainId := 1, Address := 0xA }

/-- Token B of the samples. -/
def tokenB : Token := { chainId := 1, Address := 0xB }

/-- Token C of the samples. -/
def tokenC : Token := { chainId := 1, Address := 0xC }

/-- Token D of the samples. -/
def tokenD : Token := { chainId := 1, Address := 0xD }

/-- A tick data provider without any initialized tick. -/
def noTicks : TickDataProvider :=
  { GetTick := fun _ => .error (.ErrExternal 0)
    NextInitializedTickIndex := fun tick lte => .ok (if lte then tick - 1 else tick + 1, false) }

/-- A zero-fee pool of two tokens, hooks at the zero address. -/
def samplePool (currency0 currency1 : Token) : Pool :=
  { Currency0 := currency0, Currency1 := currency1, Fee := 0, TickSpacing := 1,
    SqrtRatioX96 := 2 ^ 96, Hooks := 0, Liquidity := 10 ^ 30, TickCurrent := 0,
    TickDataProvider := noTicks,
    PoolKey := { Currency0 := currency0.Address, Currency1 := currency1.Address, Fee := 0,
                 TickSpacing := 1, Hooks := 0 },
    PoolId := [] }

/-- The pool of A and B. -/
def poolAB : Pool := samplePool tokenA tokenB

/-- The pool of B and C. -/
def poolBC : Pool := samplePool tokenB tokenC

/-- The pool of C and D. -/
def poolCD : Pool := samplePool tokenC tokenD

/-- The whole-number price of the sample quoter: one A buys two B in a pool whose
currency0 is A, and one unit of currency0 buys three of currency1 in every other
pool. -/
def spotPrice (pool : Pool) : Int :=
  if pool.Currency0 = tokenA then 2 else 3

/-- The sample quoter's `GetOutputAmount`: every order is filled at the fixed
price, with no fee and no leftover, and the pool is left as it is. -/
def spotOutput (pool : Pool) (amount : CurrencyAmount) : Except Err GetOutputAmountResult :=
  if pool.Currency0.Equal amount.Currency then
    .ok { ReturnedAmount :=
            CurrencyAmount.FromRawAmount (.token pool.Currency1)
              (amount.Quotient * spotPrice pool),
          RemainingAmountIn := CurrencyAmount.FromRawAmount amount.Currency 0,
          NewPoolState := pool, CrossInitTickLoops := 0 }
  else if pool.Currency1.Equal amount.Currency then
    .ok { ReturnedAmount :=
            CurrencyAmount.FromRawAmount (.token pool.Currency0)
              (amount.Quotient / spotPrice pool),
          RemainingAmountIn := CurrencyAmount.FromRawAmount amount.Currency 0,
          NewPoolState := pool, CrossInitTickLoops := 0 }
  else .error .ErrTokenNotInvolved

/-- The sample quoter's `GetInputAmount`. -/
def spotInput (pool : Pool) (amount : CurrencyAmount) : Except Err GetInputAmountResult :=
  if pool.Currency1.Equal amount.Currency then
    .ok { ReturnedAmount :=
            CurrencyAmount.FromRawAmount (.token pool.Currency0)
              (amount.Quotient / spotPrice pool),
          RemainingAmountOut := CurrencyAmount.FromRawAmount amount.Currency 0,
          NewPoolState := pool, CrossInitTickLoops := 0 }
  else if pool.Currency0.Equal amount.Currency then
    .ok { ReturnedAmount :=
            CurrencyAmount.FromRawAmount (.token pool.Currency1)
              (amount.Quotient * spotPrice pool),
          RemainingAmountOut := CurrencyAmount.FromRawAmount amount.Currency 0,
          NewPoolState := pool, CrossInitTickLoops := 0 }
  else .error .ErrTokenNotInvolved

/-- The sample quoter. -/
def spotQuoter : Quoter :=
  { GetOutputAmount := spotOutput, GetInputAmount := spotInput }

/-- The one-pool route from A to B, as a correct constructor would build it. -/
def routeAB : Route :=
  { Pools := [poolAB], TokenPath := [tokenA, tokenB], Input := .token tokenA,
    Output := .token tokenB, PathInput := some tokenA, PathOutput := some tokenB }

/-- The two-pool route from A over B to C, as a correct constructor would build
it. -/
def routeABC : Route :=
  { Pools := [poolAB, poolBC], TokenPath := [tokenA, tokenB, tokenC], Input := .token tokenA,
    Output := .token tokenC, PathInput := some tokenA, PathOutput := some tokenC }

/-- A whole amount of a token. -/
def amountOf (token : Token) (raw : Int) : CurrencyAmount :=
  CurrencyAmount.FromRawAmount (.token token) raw

/-- A single-swap exact-input trade over the route from A to B with the given
whole input and output amounts. -/
def sampleTrade (input output : Int) : Trade :=
  { Swaps := [{ Route := routeAB, InputAmount := amountOf tokenA input,
                OutputAmount := amountOf tokenB output }],
    TradeType := .ExactInput }

/-! ## Sample pools over the external libraries -/

/-- A table of the tick-to-price conversion of the v3 library around tick 0:
`sqrtRatioAt(-1)`, `sqrtRatioAt(0) = 2^96`, `sqrtRatioAt(1)` and
`sqrtRatioAt(2)`. -/
def sampleSqrtRatioAtTick (tick : Int) : Except Nat Int :=
  if tick = -1 then .ok 79224201403219477170569942574
  else if tick = 0 then .ok 79228162514264337593543950336
  else if tick = 1 then .ok 79232123823359799118286999568
  else if tick = 2 then .ok 79236085330515764027303304732
  else .error 1

/-- Sample external libraries: the protocol bounds of the v3 library, the
conversion table above, a swap step that never succeeds, the sum as `AddDelta`,
a stand-in `Pack` that accepts its arguments and lists them, a stand-in hash that
returns its bytes, and lower-case addresses. -/
def sampleEnv : External :=
  { MinSqrtRatio := 4295128739
    MaxSqrtRatio := 1461446703485210103287273052203988822378723970342
    MinTick := -887272
    MaxTick := 887272
    GetSqrtRatioAtTick := sampleSqrtRatioAtTick
    GetTickAtSqrtRatio := fun _ => .error 2
    ComputeSwapStep := fun _ _ _ _ _ => .error 3
    AddDelta := fun x y => x + y
    PackPoolKey := fun currency0 currency1 fee tickSpacing hooks =>
      .ok [currency0, currency1, fee.toNat, tickSpacing.toNat, hooks]
    Keccak256 := fun bytes => bytes
    ChecksumUpper := fun _ _ => false }

/-- A single-swap exact-output trade over the route from A to B with the given
whole input and output amounts. -/
def sampleTradeOut (input output : Int) : Trade :=
  { Swaps := [{ Route := routeAB, InputAmount := amountOf tokenA input,
                OutputAmount := amountOf tokenB output }],
    TradeType := .ExactOutput }

/-- Token E of the samples, on another chain. -/
def tokenE : Token := { chainId := 5, Address := 0xE }

/-- Token F of the samples, on the chain of E. -/
def tokenF : Token := { chainId := 5, Address := 0xF }

/-- The pool of E and F. -/
def poolEF : Pool := samplePool tokenE tokenF

/-- A swap over the route from A to B with the given whole amounts. -/
def swapAB (input output : Int) : Swap :=
  { Route := routeAB, InputAmount := amountOf tokenA input, OutputAmount := amountOf tokenB output }

/-- A second pool of A and B, with a fee of 3000. -/
def poolAB3000 : Pool := { samplePool tokenA tokenB with Fee := 3000 }

/-- A swap from A to B through the second pool of A and B. -/
def swapAB3000 (input output : Int) : Swap :=
  { Route := { routeAB with Pools := [poolAB3000] }, InputAmount := amountOf tokenA input,
    OutputAmount := amountOf tokenB output }

/-- A swap over the route from A over B to C. -/
def swapABC (input output : Int) : Swap :=
  { Route := routeABC, InputAmount := amountOf tokenA input, OutputAmount := amountOf tokenC output }

/-- A swap from B to C through the pool of B and C. -/
def swapBC (input output : Int) : Swap :=
  { Route := { Pools := [poolBC], TokenPath := [tokenB, tokenC], Input := .token tokenB,
               Output := .token tokenC, PathInput := some tokenB, PathOutput := some tokenC },
    InputAmount := amountOf tokenB input, OutputAmount := amountOf tokenC output }

/-- A swap from A to B through the given pool alone. -/
def swapThrough (pool : Pool) (input output : Int) : Swap :=
  { Route := { routeAB with Pools := [pool] }, InputAmount := amountOf tokenA input,
    OutputAmount := amountOf tokenB output }

/-- A native flag for the samples: the token at the zero address stands for the
native currency. -/
def zeroAddressIsNative (t : Token) : Bool := decide (t.Address = 0)

/-- A token that carries the native flag of `zeroAddressIsNative`. -/
def tokenNative : Token := { chainId := 1, Address := 0 }

/-- Tick mathematics for the samples: the table `sampleSqrtRatioAtTick`, every
sqrt price read as tick 0, every ratio encoded as `2 ^ 96`. -/
def sampleTickMath : TickMath :=
  { GetSqrtRatioAtTick := sampleSqrtRatioAtTick
    GetTickAtSqrtRatio := fun _ => .ok 0
    EncodeSqrtRatioX96 := fun _ _ => 79228162514264337593543950336 }

/-- A tick data provider with one initialized tick, tick 1 with net liquidity 5:
upwards it reports tick 1 from below it and the next tick above it, downwards
the tick below. -/
def oneTickAbove : TickDataProvider :=
  { GetTick := fun tick =>
      if tick = 1 then .ok { Index := 1, LiquidityGross := 5, LiquidityNet := 5 }
      else .error (.ErrExternal 0)
    NextInitializedTickIndex := fun tick lte =>
      if lte then .ok (tick - 1, false)
      else if tick < 1 then .ok (1, true)
      else .ok (tick + 1, false) }

/-- The pool of A and B over the provider `oneTickAbove`. -/
def poolTicked : Pool := { samplePool tokenA tokenB with TickDataProvider := oneTickAbove }

/-- A swap step for the samples.  With an amount of 10 or more to put in, or of 8
or more to take out, it moves the price to the target for 9 in, 8 out and a fee
of 1; with less it leaves the price and settles what remains. -/
def sampleSwapStep (current target _liquidity remaining _fee : Int) :
    Except Nat (Int × Int × Int × Int) :=
  if remaining ≥ 10 then .ok (target, 9, 8, 1)
  else if remaining ≥ 0 then .ok (current, remaining, remaining - 1, 0)
  else if remaining ≤ -8 then .ok (target, 9, 8, 1)
  else .ok (current, 1 - remaining, -remaining, 0)

/-- Sample external libraries with the working swap step `sampleSwapStep`. -/
def steppingEnv : External :=
  { sampleEnv with ComputeSwapStep := sampleSwapStep, GetTickAtSqrtRatio := fun _ => .ok 0 }

/-- A quoter that fails on the pool of B and C with the external error 7 and
quotes every other pool as `spotQuoter` does. -/
def brokenQuoter : Quoter :=
  { GetOutputAmount := fun pool amount =>
      if pool.Currency0 = tokenB ∧ pool.Currency1 = tokenC then .error (.ErrExternal 7)
      else spotOutput pool amount
    GetInputAmount := fun pool amount =>
      if pool.Currency0 = tokenB ∧ pool.Currency1 = tokenC then .error (.ErrExternal 7)
      else spotInput pool amount }

/-- The numbers a parameter value is listed as by the sample encoders. -/
def ParamValue.listing : ParamValue → List Nat
  | .address value => [value]
  | .path keys => keys.map (fun key => key.IntermediateCurrency)
  | .amount value => [value.Quotient.toNat]
  | .decimalText value => [value.toNat]
  | .integer value => [value.toNat]
  | .boolean value => [if value then 1 else 0]

/-- A stand-in encoder that accepts every parameter list and lists its values. -/
def listingPack : AbiPack :=
  fun _ parameters => .ok (parameters.flatMap ParamValue.listing)

/-- A stand-in encoder that refuses a parameter list whose length is not the
number of types, with the external error 4, and lists the values otherwise. -/
def countingPack : AbiPack :=
  fun types parameters =>
    if types.length = parameters.length then .ok (parameters.flatMap ParamValue.listing)
    else .error 4

/-- Sample external libraries whose `Pack` refuses the pool key, as the Ethereum
library refuses an `int64` handed over for a `uint256`, with the external
error 5. -/
def refusingEnv : External :=
  { sampleEnv with PackPoolKey := fun _ _ _ _ _ => .error 5 }

/-- A single-swap exact-input trade over the route from A to B with the input
1 A and an output amount of B given as a fraction, numerator over denominator. -/
def fractionTrade (numerator denominator : Int) : Trade :=
  { Swaps := [{ Route := routeAB, InputAmount := amountOf tokenA 1,
                OutputAmount := ⟨.token tokenB, ⟨numerator, denominator⟩⟩ }],
    TradeType := .ExactInput }

/-- A stand-in for `NewRoute` that returns a route over every list of pools. -/
def acceptingRoute : RouteCall :=
  fun pools input output =>
    .ok { Pools := pools, TokenPath := [], Input := input, Output := output.getD input,
          PathInput := none, PathOutput := none }

/-- A stand-in for `FromRoute` that returns a trade of one swap over every route. -/
def acceptingTrade : TradeCall :=
  fun route amount tradeType =>
    .ok { Swaps := [{ Route := route, InputAmount := amount, OutputAmount := amount }],
          TradeType := tradeType }

/-- The trade `acceptingTrade` returns over the route `acceptingRoute` returns. -/
def acceptedTrade (pools : List Pool) (input output : Token) (amount : CurrencyAmount)
    (tradeType : TradeType) : Trade :=
  { Swaps := [{ Route := { Pools := pools, TokenPath := [], Input := .token input,
                           Output := .token output, PathInput := none, PathOutput := none },
                InputAmount := amount, OutputAmount := amount }],
    TradeType := tradeType }

/-- The options with three results and the given number of hops. -/
def hopsOf (maxHops : Int) : Option BestTradeOptions :=
  some { MaxNumResults := 3, MaxHops := maxHops }

/-- A nested call that fails, to stand where no nested call is made. -/
def noCall : BestTradeCall := fun _ _ _ _ _ => .error .ErrInvalidRecursion

/-! ## The comparator -/

theorem Currency.Equal_symm (a b : Currency) : a.Equal b = b.Equal a := by
  cases a <;> cases b <;> simp [Currency.Equal, eq_comm]

theorem Currency.Equal_trans {a b c : Currency} (h1 : a.Equal b = true)
    (h2 : b.Equal c = true) : a.Equal c = true := by
  cases a <;> cases b <;> cases c <;> simp_all [Currency.Equal]

theorem tradeComparator_value {a b : Trade} {ai bi ao bo : CurrencyAmount}
    (h1 : a.InputAmount = .ok ai) (h2 : b.InputAmount = .ok bi)
    (h3 : a.OutputAmount = .ok ao) (h4 : b.OutputAmount = .ok bo)
    (hi : ai.Currency.Equal bi.Currency = true) (ho : ao.Currency.Equal bo.Currency = true) :
    tradeComparator a b =
      .ok (comparatorValue ai.Fraction ao.Fraction a.hops bi.Fraction bo.Fraction b.hops) := by
  simp only [tradeComparator, h1, h2, h3, h4, hi, ho, bind, Except.bind, pure, Except.pure,
    Bool.not_true, Bool.false_eq_true, if_false, comparatorValue]
  split_ifs <;> rfl

theorem comparatorValue_antisymm (aIn aOut : Fraction) (aHops : Int) (bIn bOut : Fraction)
    (bHops : Int) :
    (comparatorValue aIn aOut aHops bIn bOut bHops < 0 ↔
        0 < comparatorValue bIn bOut bHops aIn aOut aHops) ∧
      (comparatorValue aIn aOut aHops bIn bOut bHops = 0 ↔
        comparatorValue bIn bOut bHops aIn aOut aHops = 0) := by
  simp only [comparatorValue, Fraction.EqualTo, Fraction.LessThan, decide_eq_true_eq]
  generalize aIn.Numerator * bIn.Denominator = p
  generalize bIn.Numerator * aIn.Denominator = q
  generalize aOut.Numerator * bOut.Denominator = r
  generalize bOut.Numerator * aOut.Denominator = s
  split_ifs <;> first | omega | decide

theorem Fraction.EqualTo_iff_toRat {f g : Fraction} (hf : 0 < f.Denominator)
    (hg : 0 < g.Denominator) : f.EqualTo g = true ↔ f.toRat = g.toRat := by
  have hf' : (f.Denominator : ℚ) ≠ 0 := by exact_mod_cast hf.ne'
  have hg' : (g.Denominator : ℚ) ≠ 0 := by exact_mod_cast hg.ne'
  simp only [Fraction.EqualTo, Fraction.toRat, decide_eq_true_eq]
  rw [div_eq_div_iff hf' hg']
  constructor <;> intro h <;> exact_mod_cast h

theorem Fraction.LessThan_iff_toRat {f g : Fraction} (hf : 0 < f.Denominator)
    (hg : 0 < g.Denominator) : f.LessThan g = true ↔ f.toRat < g.toRat := by
  have hf' : (0 : ℚ) < (f.Denominator : ℚ) := by exact_mod_cast hf
  have hg' : (0 : ℚ) < (g.Denominator : ℚ) := by exact_mod_cast hg
  simp only [Fraction.LessThan, Fraction.toRat, decide_eq_true_eq]
  rw [div_lt_div_iff₀ hf' hg']
  constructor <;> intro h <;> exact_mod_cast h

theorem Fraction.Add_denominator_pos {f g : Fraction} (hf : 0 < f.Denominator)
    (hg : 0 < g.Denominator) : 0 < (f.Add g).Denominator := by
  unfold Fraction.Add
  split_ifs
  · exact hf
  · exact Int.mul_pos hf hg

theorem foldl_Add_denominator_pos (g : Swap → CurrencyAmount) (l : List Swap)
    (init : CurrencyAmount) (hinit : 0 < init.Fraction.Denominator)
    (hl : ∀ s ∈ l, 0 < (g s).Fraction.Denominator) :
    0 < (l.foldl (fun total swap => total.Add (g swap)) init).Fraction.Denominator := by
  induction l generalizing init with
  | nil => simpa using hinit
  | cons s rest ih =>
    simp only [List.foldl_cons]
    apply ih
    · exact Fraction.Add_denominator_pos hinit (hl s (List.mem_cons_self _ _))
    · intro s' hs'
      exact hl s' (List.mem_cons_of_mem _ hs')

theorem InputAmount_denominator_pos {t : Trade} {ai : CurrencyAmount}
    (h : t.InputAmount = .ok ai) (hp : PositiveDenominators t) :
    0 < ai.Fraction.Denominator := by
  unfold Trade.InputAmount at h
  split at h
  · cases h
  · cases h
    apply foldl_Add_denominator_pos (fun s => s.InputAmount)
    · simp [CurrencyAmount.FromRawAmount]
    · intro s hs
      exact (hp s hs).1

theorem OutputAmount_denominator_pos {t : Trade} {ao : CurrencyAmount}
    (h : t.OutputAmount = .ok ao) (hp : PositiveDenominators t) :
    0 < ao.Fraction.Denominator := by
  unfold Trade.OutputAmount at h
  split at h
  · cases h
  · cases h
    apply foldl_Add_denominator_pos (fun s => s.OutputAmount)
    · simp [CurrencyAmount.FromRawAmount]
    · intro s hs
      exact (hp s hs).2

/-- The sign of the comparator's value, read on the rational values of the total
amounts: lexicographic by output (descending), input (ascending) and hop count
(ascending). -/
theorem comparatorValue_sign {aIn aOut bIn bOut : Fraction} (aHops bHops : Int)
    (h1 : 0 < aIn.Denominator) (h2 : 0 < aOut.Denominator)
    (h3 : 0 < bIn.Denominator) (h4 : 0 < bOut.Denominator) :
    (comparatorValue aIn aOut aHops bIn bOut bHops < 0 ↔
      bOut.toRat < aOut.toRat ∨ (aOut.toRat = bOut.toRat ∧
        (aIn.toRat < bIn.toRat ∨ (aIn.toRat = bIn.toRat ∧ aHops < bHops)))) ∧
    (comparatorValue aIn aOut aHops bIn bOut bHops = 0 ↔
      aOut.toRat = bOut.toRat ∧ aIn.toRat = bIn.toRat ∧ aHops = bHops) ∧
    (0 < comparatorValue aIn aOut aHops bIn bOut bHops ↔
      aOut.toRat < bOut.toRat ∨ (aOut.toRat = bOut.toRat ∧
        (bIn.toRat < aIn.toRat ∨ (aIn.toRat = bIn.toRat ∧ bHops < aHops)))) := by
  have eo := Fraction.EqualTo_iff_toRat h2 h4
  have lo := Fraction.LessThan_iff_toRat h2 h4
  have ei := Fraction.EqualTo_iff_toRat h1 h3
  have li := Fraction.LessThan_iff_toRat h1 h3
  unfold comparatorValue
  by_cases c1 : aOut.EqualTo bOut = true
  · have c1' := eo.1 c1
    rw [if_pos c1]
    by_cases c2 : aIn.EqualTo bIn = true
    · have c2' := ei.1 c2
      rw [if_pos c2]
      simp only [c1', c2', lt_irrefl, true_and, false_or]
      omega
    · have c2' : ¬ aIn.toRat = bIn.toRat := fun h => c2 (ei.2 h)
      rw [if_neg c2]
      by_cases c3 : aIn.LessThan bIn = true
      · have c3' := li.1 c3
        rw [if_pos c3]
        simp only [c1', c2', c3', lt_irrefl, true_and, false_or, false_and, or_false,
          not_lt_of_gt c3']
        decide
      · have c3' : ¬ aIn.toRat < bIn.toRat := fun h => c3 (li.2 h)
        have c4 : bIn.toRat < aIn.toRat := lt_of_le_of_ne (not_lt.1 c3') (Ne.symm c2')
        rw [if_neg c3]
        simp only [c1', c2', c3', c4, lt_irrefl, true_and, false_or, false_and, or_false]
        decide
  · have c1' : ¬ aOut.toRat = bOut.toRat := fun h => c1 (eo.2 h)
    rw [if_neg c1]
    by_cases c3 : aOut.LessThan bOut = true
    · have c3' := lo.1 c3
      rw [if_pos c3]
      simp only [c1', c3', false_and, or_false, not_lt_of_gt c3', true_or]
      decide
    · have c3' : ¬ aOut.toRat < bOut.toRat := fun h => c3 (lo.2 h)
      have c4 : bOut.toRat < aOut.toRat := lt_of_le_of_ne (not_lt.1 c3') (Ne.symm c1')
      rw [if_neg c3]
      simp only [c1', c3', c4, false_and, or_false, true_or]
      decide


/-- C5: `tradeComparator` is antisymmetric.  For all trades `a` and `b` with equal
input currencies and equal output currencies, both `tradeComparator(a, b)` and
`tradeComparator(b, a)` return, the first is negative exactly when the second is
positive, and the first is zero exactly when the second is zero. -/
theorem tradeComparator_antisymm (a b : Trade) (h : SameCurrencies a b) :
    ∃ x y, tradeComparator a b = .ok x ∧ tradeComparator b a = .ok y ∧
      (x < 0 ↔ 0 < y) ∧ (x = 0 ↔ y = 0) := by
  obtain ⟨ai, bi, ao, bo, h1, h2, h3, h4, hi, ho⟩ := h
  refine ⟨_, _, tradeComparator_value h1 h2 h3 h4 hi ho,
    tradeComparator_value h2 h1 h4 h3 ?_ ?_, comparatorValue_antisymm _ _ _ _ _ _⟩
  · rw [Currency.Equal_symm]; exact hi
  · rw [Currency.Equal_symm]; exact ho

theorem sampleTrade_sameCurrencies (i o j p : Int) :
    SameCurrencies (sampleTrade i o) (sampleTrade j p) :=
  ⟨_, _, _, _, rfl, rfl, rfl, rfl, rfl, rfl⟩

theorem sampleTrade_positiveDenominators (i o : Int) :
    PositiveDenominators (sampleTrade i o) := by
  intro s hs
  simp only [sampleTrade, List.mem_singleton] at hs
  subst hs
  exact ⟨Int.one_pos, Int.one_pos⟩

/-- Witness of C5 on two sample trades that differ in their output. -/
theorem tradeComparator_antisymm_witness :
    SameCurrencies (sampleTrade 1 10) (sampleTrade 1 5) ∧
      ∃ x y, tradeComparator (sampleTrade 1 10) (sampleTrade 1 5) = .ok x ∧
        tradeComparator (sampleTrade 1 5) (sampleTrade 1 10) = .ok y ∧
        (x < 0 ↔ 0 < y) ∧ (x = 0 ↔ y = 0) :=
  ⟨sampleTrade_sameCurrencies 1 10 1 5,
    tradeComparator_antisymm _ _ (sampleTrade_sameCurrencies 1 10 1 5)⟩

/-- C6, amended: `tradeComparator` is transitive.  For all trades `a`, `b`, `c`
sharing one input and one output currency, whose amounts are fractions with positive
denominators, the three comparisons return, and `tradeComparator(a, b) < 0` with
`tradeComparator(b, c) < 0` gives `tradeComparator(a, c) < 0`, and likewise for
`= 0`. -/
theorem tradeComparator_trans (a b c : Trade) (hab : SameCurrencies a b)
    (hbc : SameCurrencies b c) (pa : PositiveDenominators a) (pb : PositiveDenominators b)
    (pc : PositiveDenominators c) :
    ∃ x y z, tradeComparator a b = .ok x ∧ tradeComparator b c = .ok y ∧
      tradeComparator a c = .ok z ∧ (x < 0 → y < 0 → z < 0) ∧ (x = 0 → y = 0 → z = 0) := by
  obtain ⟨ai, bi, ao, bo, h1, h2, h3, h4, hi, ho⟩ := hab
  obtain ⟨bi', ci, bo', co, k1, k2, k3, k4, ki, ko⟩ := hbc
  rw [h2] at k1
  rw [h4] at k3
  cases k1
  cases k3
  have dai := InputAmount_denominator_pos h1 pa
  have dao := OutputAmount_denominator_pos h3 pa
  have dbi := InputAmount_denominator_pos h2 pb
  have dbo := OutputAmount_denominator_pos h4 pb
  have dci := InputAmount_denominator_pos k2 pc
  have dco := OutputAmount_denominator_pos k4 pc
  refine ⟨_, _, _, tradeComparator_value h1 h2 h3 h4 hi ho,
    tradeComparator_value h2 k2 h4 k4 ki ko,
    tradeComparator_value h1 k2 h3 k4 (Currency.Equal_trans hi ki) (Currency.Equal_trans ho ko),
    ?_, ?_⟩
  · intro hx hy
    rw [(comparatorValue_sign a.hops b.hops dai dao dbi dbo).1] at hx
    rw [(comparatorValue_sign b.hops c.hops dbi dbo dci dco).1] at hy
    rw [(comparatorValue_sign a.hops c.hops dai dao dci dco).1]
    rcases hx with h | ⟨h, h' | ⟨h', h''⟩⟩ <;> rcases hy with k | ⟨k, k' | ⟨k', k''⟩⟩ <;>
      first
        | (left; linarith)
        | (right; refine ⟨by linarith, ?_⟩
           first
             | (left; linarith)
             | (right; exact ⟨by linarith, by omega⟩))
  · intro hx hy
    rw [(comparatorValue_sign a.hops b.hops dai dao dbi dbo).2.1] at hx
    rw [(comparatorValue_sign b.hops c.hops dbi dbo dci dco).2.1] at hy
    rw [(comparatorValue_sign a.hops c.hops dai dao dci dco).2.1]
    exact ⟨hx.1.trans hy.1, hx.2.1.trans hy.2.1, hx.2.2.trans hy.2.2⟩

/-- Witness of C6 on three sample trades of decreasing output. -/
theorem tradeComparator_trans_witness :
    ∃ x y z, tradeComparator (sampleTrade 1 30) (sampleTrade 1 20) = .ok x ∧
      tradeComparator (sampleTrade 1 20) (sampleTrade 1 10) = .ok y ∧
      tradeComparator (sampleTrade 1 30) (sampleTrade 1 10) = .ok z ∧
      (x < 0 → y < 0 → z < 0) ∧ (x = 0 → y = 0 → z = 0) :=
  tradeComparator_trans _ _ _ (sampleTrade_sameCurrencies 1 30 1 20)
    (sampleTrade_sameCurrencies 1 20 1 10) (sampleTrade_positiveDenominators 1 30)
    (sampleTrade_positiveDenominators 1 20) (sampleTrade_positiveDenominators 1 10)

/-- C7, amended: the sign of `tradeComparator(a, b)` is the lexicographic
comparison of total output (descending), total input (ascending) and total hops (ascending).
For trades `a` and `b` sharing one input and one output currency, with amounts of
positive denominators, total amounts `aIn`, `aOut`, `bIn`, `bOut` and the hop
counts the comparator sums: the result is negative exactly when `a` has the
higher output, or equal outputs and the lower input, or equal outputs and inputs
and fewer hops; it is zero exactly when all three are equal; it is positive in
the mirrored cases. -/
theorem tradeComparator_lexicographic (a b : Trade) (aIn bIn aOut bOut : CurrencyAmount)
    (h1 : a.InputAmount = .ok aIn) (h2 : b.InputAmount = .ok bIn)
    (h3 : a.OutputAmount = .ok aOut) (h4 : b.OutputAmount = .ok bOut)
    (hi : aIn.Currency.Equal bIn.Currency = true) (ho : aOut.Currency.Equal bOut.Currency = true)
    (pa : PositiveDenominators a) (pb : PositiveDenominators b) :
    ∃ x, tradeComparator a b = .ok x ∧
      (x < 0 ↔ bOut.Fraction.toRat < aOut.Fraction.toRat ∨
        (aOut.Fraction.toRat = bOut.Fraction.toRat ∧
          (aIn.Fraction.toRat < bIn.Fraction.toRat ∨
            (aIn.Fraction.toRat = bIn.Fraction.toRat ∧ a.hops < b.hops)))) ∧
      (x = 0 ↔ aOut.Fraction.toRat = bOut.Fraction.toRat ∧
        aIn.Fraction.toRat = bIn.Fraction.toRat ∧ a.hops = b.hops) ∧
      (0 < x ↔ aOut.Fraction.toRat < bOut.Fraction.toRat ∨
        (aOut.Fraction.toRat = bOut.Fraction.toRat ∧
          (bIn.Fraction.toRat < aIn.Fraction.toRat ∨
            (aIn.Fraction.toRat = bIn.Fraction.toRat ∧ b.hops < a.hops)))) :=
  ⟨_, tradeComparator_value h1 h2 h3 h4 hi ho,
    comparatorValue_sign a.hops b.hops (InputAmount_denominator_pos h1 pa)
      (OutputAmount_denominator_pos h3 pa) (InputAmount_denominator_pos h2 pb)
      (OutputAmount_denominator_pos h4 pb)⟩

/-- Witness of C7 on two sample trades with equal outputs and different inputs. -/
theorem tradeComparator_lexicographic_witness :
    ∃ x, tradeComparator (sampleTrade 1 10) (sampleTrade 2 10) = .ok x ∧
      (x < 0 ↔ (amountOf tokenB 10).Fraction.toRat < (amountOf tokenB 10).Fraction.toRat ∨
        ((amountOf tokenB 10).Fraction.toRat = (amountOf tokenB 10).Fraction.toRat ∧
          ((amountOf tokenA 1).Fraction.toRat < (amountOf tokenA 2).Fraction.toRat ∨
            ((amountOf tokenA 1).Fraction.toRat = (amountOf tokenA 2).Fraction.toRat ∧
              (sampleTrade 1 10).hops < (sampleTrade 2 10).hops)))) ∧
      (x = 0 ↔ (amountOf tokenB 10).Fraction.toRat = (amountOf tokenB 10).Fraction.toRat ∧
        (amountOf tokenA 1).Fraction.toRat = (amountOf tokenA 2).Fraction.toRat ∧
        (sampleTrade 1 10).hops = (sampleTrade 2 10).hops) ∧
      (0 < x ↔ (amountOf tokenB 10).Fraction.toRat < (amountOf tokenB 10).Fraction.toRat ∨
        ((amountOf tokenB 10).Fraction.toRat = (amountOf tokenB 10).Fraction.toRat ∧
          ((amountOf tokenA 2).Fraction.toRat < (amountOf tokenA 1).Fraction.toRat ∨
            ((amountOf tokenA 1).Fraction.toRat = (amountOf tokenA 2).Fraction.toRat ∧
              (sampleTrade 2 10).hops < (sampleTrade 1 10).hops)))) :=
  tradeComparator_lexicographic (sampleTrade 1 10) (sampleTrade 2 10) (amountOf tokenA 1)
    (amountOf tokenA 2) (amountOf tokenB 10) (amountOf tokenB 10) rfl rfl rfl rfl rfl rfl
    (sampleTrade_positiveDenominators 1 10) (sampleTrade_positiveDenominators 2 10)

/-! ## The bounded ranked list -/

theorem searchLoop_ok (f : Nat → Except Err Bool) (n : Nat)
    (hf : ∀ h, h < n → ∃ b, f h = .ok b) :
    ∀ fuel i j, i ≤ j → j ≤ n → ∃ r, searchLoop f fuel i j = .ok r ∧ i ≤ r ∧ r ≤ j := by
  intro fuel
  induction fuel with
  | zero =>
    intro i j hij _
    exact ⟨i, rfl, le_refl _, hij⟩
  | succ fuel ih =>
    intro i j hij hj
    unfold searchLoop
    by_cases hlt : i < j
    · rw [if_pos hlt]
      obtain ⟨b, hb⟩ := hf ((i + j) / 2) (by omega)
      simp only [hb, bind, Except.bind]
      cases b
      · obtain ⟨r, hr, h1, h2⟩ := ih ((i + j) / 2 + 1) j (by omega) hj
        exact ⟨r, by simpa using hr, by omega, h2⟩
      · obtain ⟨r, hr, h1, h2⟩ := ih i ((i + j) / 2) (by omega) (by omega)
        exact ⟨r, by simpa using hr, h1, by omega⟩
    · rw [if_neg hlt]
      exact ⟨i, rfl, le_refl _, hij⟩

theorem Search_ok (f : Nat → Except Err Bool) (n : Nat)
    (hf : ∀ h, h < n → ∃ b, f h = .ok b) : ∃ r, Search n f = .ok r ∧ r ≤ n := by
  obtain ⟨r, hr, _, h2⟩ := searchLoop_ok f n hf n 0 n (Nat.zero_le _) (le_refl _)
  exact ⟨r, hr, h2⟩

theorem insertAt_length (items : List Trade) (i : Nat) (add : Trade) :
    (insertAt items i add).length = items.length + 1 := by
  simp only [insertAt, List.length_append, List.length_cons, List.length_take,
    List.length_drop]
  omega

/-- C9: for every `K >= 1` and every list of `n <= K` trades, `sortedInsert`
returns without error a list of length `min(n+1, K)`, provided the comparator
returns on the trades involved; with `K <= 0` it returns `ErrInvalidMaxSize`, and
with `K >= 1` and `n > K` it returns `ErrMaxSizeExceeded`. -/
theorem sortedInsert_length (items : List Trade) (add : Trade) (K : Int)
    (cmp : Trade → Trade → Except Err Int) :
    (K ≤ 0 → sortedInsert items add K cmp = .error .ErrInvalidMaxSize) ∧
    (1 ≤ K → K < (items.length : Int) →
      sortedInsert items add K cmp = .error .ErrMaxSizeExceeded) ∧
    (1 ≤ K → (items.length : Int) ≤ K →
      (∀ a ∈ add :: items, ∀ b ∈ add :: items, ∃ c, cmp a b = .ok c) →
      ∃ r, sortedInsert items add K cmp = .ok r ∧
        (r.length : Int) = min ((items.length : Int) + 1) K) := by
  refine ⟨?_, ?_, ?_⟩
  · intro hK
    simp [sortedInsert, hK, bind, Except.bind, throw, throwThe, MonadExceptOf.throw]
  · intro hK hn
    have h0 : ¬ K ≤ 0 := by omega
    simp [sortedInsert, h0, hn, bind, Except.bind, throw, throwThe, MonadExceptOf.throw, pure,
      Except.pure]
  · intro hK hn hcmp
    have h0 : ¬ K ≤ 0 := by omega
    have h1 : ¬ (items.length : Int) > K := by omega
    have hsearch : ∃ i, Search items.length (searchPredicate items add cmp) = .ok i ∧
        i ≤ items.length := by
      apply Search_ok
      intro h hh
      have hget : items[h]? = some items[h] := List.getElem?_eq_getElem hh
      obtain ⟨c, hc⟩ := hcmp add (List.mem_cons_self _ _) items[h]
        (List.mem_cons_of_mem _ (List.getElem_mem _))
      exact ⟨decide (c > 0), by
        simp [searchPredicate, hget, hc, bind, Except.bind, pure, Except.pure]⟩
    obtain ⟨i, hi, _⟩ := hsearch
    by_cases hfull : (items.length : Int) = K
    · have hpos : items.length - 1 < items.length := by omega
      have hget : items[items.length - 1]? = some items[items.length - 1] :=
        List.getElem?_eq_getElem hpos
      obtain ⟨c, hc⟩ := hcmp items[items.length - 1]
        (List.mem_cons_of_mem _ (List.getElem_mem _)) add (List.mem_cons_self _ _)
      by_cases hle : c ≤ 0
      · refine ⟨items, ?_, by omega⟩
        simp [sortedInsert, h0, hfull, hget, hc, hle, bind, Except.bind, pure, Except.pure]
      · refine ⟨(insertAt items i add).take K.toNat, ?_, ?_⟩
        · simp [sortedInsert, h0, hfull, hget, hc, hle, hi, bind, Except.bind, pure,
            Except.pure]
        · rw [List.length_take, insertAt_length]
          omega
    · refine ⟨insertAt items i add, ?_, ?_⟩
      · simp [sortedInsert, h0, h1, hfull, hi, bind, Except.bind, pure, Except.pure]
      · rw [insertAt_length]
        omega

theorem sampleTrade_comparator_returns (l : List (Int × Int)) :
    ∀ a ∈ l.map (fun p => sampleTrade p.1 p.2), ∀ b ∈ l.map (fun p => sampleTrade p.1 p.2),
      ∃ c, tradeComparator a b = .ok c := by
  intro a ha b hb
  obtain ⟨p, _, rfl⟩ := List.mem_map.1 ha
  obtain ⟨r, _, rfl⟩ := List.mem_map.1 hb
  exact ⟨_, @tradeComparator_value (sampleTrade p.1 p.2) (sampleTrade r.1 r.2) _ _ _ _
    rfl rfl rfl rfl rfl rfl⟩

/-- Witness of C9: capacity 0, a list longer than its capacity, and an insertion
into a list of one trade with capacity 3. -/
theorem sortedInsert_length_witness :
    sortedInsert [sampleTrade 1 10] (sampleTrade 1 5) 0 tradeComparator
        = .error .ErrInvalidMaxSize ∧
      sortedInsert [sampleTrade 1 10, sampleTrade 1 5] (sampleTrade 1 7) 1 tradeComparator
        = .error .ErrMaxSizeExceeded ∧
      ∃ r, sortedInsert [sampleTrade 1 10] (sampleTrade 1 5) 3 tradeComparator = .ok r ∧
        (r.length : Int) = min ((([sampleTrade 1 10].length : Nat) : Int) + 1) 3 :=
  ⟨(sortedInsert_length _ _ 0 _).1 (by decide),
    (sortedInsert_length _ _ 1 _).2.1 (by decide) (by decide),
    (sortedInsert_length [sampleTrade 1 10] (sampleTrade 1 5) 3 tradeComparator).2.2
      (by decide) (by decide) (sampleTrade_comparator_returns [(1, 5), (1, 10)])⟩

/-- C1: a sorted list and one more trade, all sharing one input and one output
currency, after which `sortedInsert` returns a list that is not sorted per
`tradeComparator`.  Inserting the trade with output 5 into the list holding the
trade with output 10, capacity 3, puts the worse trade first. -/
theorem sortedInsert_result_not_sorted :
    SameCurrencies (sampleTrade 1 10) (sampleTrade 1 5) ∧
      SortedPer tradeComparator [sampleTrade 1 10] ∧
      sortedInsert [sampleTrade 1 10] (sampleTrade 1 5) 3 tradeComparator
        = .ok [sampleTrade 1 5, sampleTrade 1 10] ∧
      tradeComparator (sampleTrade 1 5) (sampleTrade 1 10) = .ok 1 ∧
      ¬ SortedPer tradeComparator [sampleTrade 1 5, sampleTrade 1 10] := by
  refine ⟨sampleTrade_sameCurrencies 1 10 1 5, ?_, rfl, rfl, ?_⟩
  · simp [SortedPer]
  · intro h
    simp only [SortedPer, List.pairwise_cons, List.mem_singleton, forall_eq] at h
    obtain ⟨⟨c, hc, hle⟩, _⟩ := h
    have h1 : tradeComparator (sampleTrade 1 5) (sampleTrade 1 10) = .ok 1 := rfl
    rw [h1] at hc
    cases hc
    omega

/-! ## Routes -/

theorem getPathCurrency_involved {currency start : Token} {pool : Pool}
    (h : getPathCurrency currency pool = some start) :
    (start.Equal (.token pool.Currency0) || start.Equal (.token pool.Currency1)) = true := by
  have hsymm : ∀ s t : Token, s.Equal (.token t) = t.Equal (.token s) := fun s t =>
    Currency.Equal_symm _ _
  have hrefl : ∀ t : Token, t.Equal (.token t) = true := fun t => by
    simp [Token.Equal, Currency.Equal]
  unfold getPathCurrency at h
  simp only [Pool.InvolvesToken, Token.Wrapped] at h
  split_ifs at h with h1 h2 h3
  · rw [← Option.some.inj h, hsymm currency pool.Currency0, hsymm currency pool.Currency1]
    exact h1
  · rw [← Option.some.inj h]
    simp [hrefl]
  · rw [← Option.some.inj h]
    simp [hrefl]

/-- The path loop rejects every path whose next pool contains the currency
reached so far. -/
theorem pathLoop_rejects_connected (pool : Pool) (rest : List Pool) (i : Nat)
    (currencyPath : List Token) (current : Token) (hget : currencyPath[i]? = some current)
    (h : (current.Equal (.token pool.Currency0) || current.Equal (.token pool.Currency1)) = true) :
    pathLoop (pool :: rest) i currencyPath = .error .ErrPathNotContinuous := by
  simp only [pathLoop, hget, h, if_true]

/-- The constructor `NewRoute` returns an error on every input. -/
theorem NewRoute_never_succeeds (pools : List Pool) (input : Currency)
    (output : Option Currency) : ∃ e, NewRoute pools input output = .error e := by
  unfold NewRoute
  cases pools with
  | nil => exact ⟨_, rfl⟩
  | cons first rest =>
    simp only [bind, Except.bind]
    cases hchain : sameChainLoop first.ChainID (first :: rest) with
    | error e => exact ⟨e, rfl⟩
    | ok u =>
      cases output with
      | none => exact ⟨_, rfl⟩
      | some out =>
        cases hin : getPathCurrency input.Wrapped first with
        | none => exact ⟨_, rfl⟩
        | some start =>
          have hloop := pathLoop_rejects_connected first rest 0 [start] start rfl
            (getPathCurrency_involved hin)
          simp only [hloop]
          exact ⟨_, rfl⟩

theorem sameChainLoop_ok (chainId : Nat) (pools : List Pool)
    (h : ∀ p ∈ pools, p.ChainID = chainId) : sameChainLoop chainId pools = .ok () := by
  induction pools with
  | nil => rfl
  | cons p rest ih =>
    have hp : p.ChainID = chainId := h p (List.mem_cons_self _ _)
    simp only [sameChainLoop, hp, ne_eq, not_true_eq_false, if_false]
    exact ih (fun p' hp' => h p' (List.mem_cons_of_mem _ hp'))

/-- On every non-empty pool list on one chain whose first pool contains the
(wrapped) input currency, and for every output currency, `NewRoute` fails with
`ErrPathNotContinuous`, whether or not the pools connect. -/
theorem NewRoute_rejects_connected_path (first : Pool) (rest : List Pool) (input output : Currency)
    (hchain : ∀ p ∈ first :: rest, p.ChainID = first.ChainID)
    (hin : first.InvolvesToken input.Wrapped = true) :
    NewRoute (first :: rest) input (some output) = .error .ErrPathNotContinuous := by
  have hpath : getPathCurrency input.Wrapped first = some input.Wrapped := by
    simp [getPathCurrency, hin]
  have hloop := pathLoop_rejects_connected first rest 0 [input.Wrapped] input.Wrapped rfl
    (getPathCurrency_involved hpath)
  simp only [NewRoute, sameChainLoop_ok first.ChainID (first :: rest) hchain, hpath, hloop, bind,
    Except.bind]

/-- C2: on the claim's own witness, one pool of A and B with input A and output B,
`NewRoute` does not return the route with path `[A, B]`: it fails with
`ErrPathNotContinuous`, although the pool contains the input currency. -/
theorem NewRoute_single_pool_fails :
    poolAB.InvolvesToken tokenA = true ∧ poolAB.InvolvesToken tokenB = true ∧
      NewRoute [poolAB] (.token tokenA) (some (.token tokenB)) = .error .ErrPathNotContinuous :=
  ⟨rfl, rfl, rfl⟩

/-! ## Trades built from a route -/

/-- The exact-input loop run for more rounds than there are pools left ends in an
error: a quote that failed, or the index panic of reading past the pools. -/
theorem forwardLoop_overrun (q : Quoter) (pools : List Pool) :
    ∀ (remaining i : Nat) (tokenAmount : CurrencyAmount), i ≤ pools.length →
      pools.length < i + remaining →
      ∃ e, forwardLoop q pools remaining i tokenAmount = .error e := by
  intro remaining
  induction remaining with
  | zero =>
    intro i tokenAmount hi h
    omega
  | succ remaining ih =>
    intro i tokenAmount hi h
    unfold forwardLoop
    cases hget : pools[i]? with
    | none => exact ⟨_, rfl⟩
    | some pool =>
      have hlt : i < pools.length := by
        by_contra hge
        rw [List.getElem?_eq_none (by omega)] at hget
        cases hget
      simp only [bind, Except.bind]
      cases hq : q.GetOutputAmount pool tokenAmount with
      | error e => exact ⟨e, rfl⟩
      | ok res => exact ih (i + 1) res.ReturnedAmount (by omega) (by omega)


/-- The exact-input loop run for `r1 + r2` rounds is its run for `r1` rounds
followed by its run for `r2` rounds from index `i + r1`. -/
theorem forwardLoop_add (q : Quoter) (pools : List Pool) :
    ∀ (r1 r2 i : Nat) (tokenAmount : CurrencyAmount),
      forwardLoop q pools (r1 + r2) i tokenAmount =
        (forwardLoop q pools r1 i tokenAmount).bind (forwardLoop q pools r2 (i + r1)) := by
  intro r1
  induction r1 with
  | zero =>
    intro r2 i tokenAmount
    simp [forwardLoop, Except.bind]
  | succ r1 ih =>
    intro r2 i tokenAmount
    have hsucc : r1 + 1 + r2 = (r1 + r2) + 1 := by omega
    rw [hsucc]
    unfold forwardLoop
    cases hget : pools[i]? with
    | none => rfl
    | some pool =>
      simp only [bind]
      cases hq : q.GetOutputAmount pool tokenAmount with
      | error e => rfl
      | ok res =>
        simp only [Except.bind]
        rw [ih r2 (i + 1) res.ReturnedAmount]
        have hidx : i + 1 + r1 = i + (r1 + 1) := by omega
        rw [hidx]
        rfl

/-- Run over exactly the pools from index `i` on, the exact-input loop quotes them
in order, each fed the amount the previous pool returned. -/
theorem forwardLoop_eq_foldlM (q : Quoter) (pools : List Pool) :
    ∀ (k i : Nat) (tokenAmount : CurrencyAmount), i + k = pools.length →
      forwardLoop q pools k i tokenAmount =
        (pools.drop i).foldlM
          (fun amount pool => (q.GetOutputAmount pool amount).map (fun r => r.ReturnedAmount))
          tokenAmount := by
  intro k
  induction k with
  | zero =>
    intro i tokenAmount h
    have hdrop : pools.drop i = [] := List.drop_eq_nil_of_le (by omega)
    rw [hdrop]
    rfl
  | succ k ih =>
    intro i tokenAmount h
    have hlt : i < pools.length := by omega
    have hdrop : pools.drop i = pools[i] :: pools.drop (i + 1) := List.drop_eq_getElem_cons hlt
    have hget : pools[i]? = some pools[i] := List.getElem?_eq_getElem hlt
    rw [hdrop, List.foldlM_cons]
    unfold forwardLoop
    simp only [hget, bind]
    cases hq : q.GetOutputAmount pools[i] tokenAmount with
    | error e => rfl
    | ok res =>
      simp only [Except.bind, Except.map]
      exact ih (i + 1) res.ReturnedAmount (by omega)

/-- Run for one round more than there are pools, as `FromRoute` does on a route of
`n` pools and `n + 1` path entries, the exact-input loop first quotes all pools in
order and then reads `Pools[n]`, which panics. -/
theorem forwardLoop_one_past_end (q : Quoter) (pools : List Pool)
    (tokenAmount : CurrencyAmount) :
    forwardLoop q pools (pools.length + 1) 0 tokenAmount =
      (pools.foldlM
        (fun amount pool => (q.GetOutputAmount pool amount).map (fun r => r.ReturnedAmount))
        tokenAmount).bind (fun _ => .error .panicIndexOutOfRange) := by
  rw [forwardLoop_add, forwardLoop_eq_foldlM q pools pools.length 0 tokenAmount (by omega)]
  simp only [List.drop_zero, Nat.zero_add]
  congr 1
  funext amount
  have hnone : pools[pools.length]? = none := List.getElem?_eq_none (le_refl _)
  simp [forwardLoop, hnone]

/-- On a route with more path entries than pools, in particular one of `n` pools
and `n + 1` path entries, `FromRoute` never returns a trade for an exact-input
amount. -/
theorem FromRoute_exactInput_never_succeeds (q : Quoter) (route : Route)
    (amount : CurrencyAmount) (h : route.Pools.length < route.TokenPath.length) :
    ∃ e, FromRoute q route amount .ExactInput = .error e := by
  unfold FromRoute
  simp only [bind, Except.bind, throw, throwThe, MonadExceptOf.throw, pure, Except.pure]
  by_cases hcur : amount.Currency.Equal route.Input = true
  · simp only [hcur, Bool.not_true, Bool.false_eq_true, if_false]
    cases hfirst : route.Pools[0]? with
    | none => exact ⟨_, rfl⟩
    | some firstPool =>
      simp only []
      cases hpath : AmountWithPathCurrency amount firstPool with
      | error e => exact ⟨e, rfl⟩
      | ok tokenAmount =>
        obtain ⟨e, he⟩ := forwardLoop_overrun q route.Pools route.TokenPath.length 0 tokenAmount
          (Nat.zero_le _) (by omega)
        simp only [he]
        exact ⟨e, rfl⟩
  · simp only [hcur, Bool.not_false, if_true]
    exact ⟨_, rfl⟩

/-- C3: on a route of one pool and two path entries, with an amount in the route's
input currency and a pool that quotes, `FromRoute` for an exact input quotes
`Pools[0]` and then reads `Pools[1]`, an index equal to the number of pools: the
call ends in the index-out-of-range panic instead of returning a trade. -/
theorem FromRoute_exactInput_reads_past_last_pool :
    routeAB.Pools.length = 1 ∧ routeAB.TokenPath.length = 2 ∧
      (amountOf tokenA 100).Currency.Equal routeAB.Input = true ∧
      valueOf ((spotQuoter.GetOutputAmount poolAB (amountOf tokenA 100)).map
        (fun r => r.ReturnedAmount)) = some (amountOf tokenB 200) ∧
      routeAB.Pools[1]? = none ∧
      FromRoute spotQuoter routeAB (amountOf tokenA 100) .ExactInput
        = .error .panicIndexOutOfRange :=
  ⟨rfl, rfl, rfl, rfl, rfl, rfl⟩

/-- C4: the two-pool route from A over B to C, pool of A and B priced 1 : 2 and
pool of B and C priced 1 : 3, with no fee.  `NewRoute` rejects the route with
`ErrPathNotContinuous`; on the same route built by hand, `FromRoute` with an exact
input of 100 A ends in the index-out-of-range panic, after the two pools have
turned 100 A into 600 C.  No trade with output 600 C is returned. -/
theorem two_pool_exact_input_yields_no_trade :
    NewRoute [poolAB, poolBC] (.token tokenA) (some (.token tokenC))
        = .error .ErrPathNotContinuous ∧
      routeABC.Pools = [poolAB, poolBC] ∧
      forwardLoop spotQuoter routeABC.Pools 2 0 (amountOf tokenA 100)
        = .ok (amountOf tokenC 600) ∧
      FromRoute spotQuoter routeABC (amountOf tokenA 100) .ExactInput
        = .error .panicIndexOutOfRange :=
  ⟨rfl, rfl, rfl, rfl⟩

/-! ## The ranked list under repeated insertion -/

/-- C8: with capacity 1, inserting the trade with output 10 and then the strictly
better trade with output 20 leaves the list holding the first-inserted, worse
trade; with capacity 2, inserting outputs 10, 20 and 30 in turn leaves the two
worst, worst first. -/
theorem sortedInsert_keeps_first_inserted :
    sortedInsert [] (sampleTrade 1 10) 1 tradeComparator = .ok [sampleTrade 1 10] ∧
      tradeComparator (sampleTrade 1 20) (sampleTrade 1 10) = .ok (-1) ∧
      sortedInsert [sampleTrade 1 10] (sampleTrade 1 20) 1 tradeComparator
        = .ok [sampleTrade 1 10] ∧
      sortedInsert [] (sampleTrade 1 10) 2 tradeComparator = .ok [sampleTrade 1 10] ∧
      sortedInsert [sampleTrade 1 10] (sampleTrade 1 20) 2 tradeComparator
        = .ok [sampleTrade 1 10, sampleTrade 1 20] ∧
      tradeComparator (sampleTrade 1 30) (sampleTrade 1 20) = .ok (-1) ∧
      tradeComparator (sampleTrade 1 30) (sampleTrade 1 10) = .ok (-1) ∧
      sortedInsert [sampleTrade 1 10, sampleTrade 1 20] (sampleTrade 1 30) 2 tradeComparator
        = .ok [sampleTrade 1 10, sampleTrade 1 20] :=
  ⟨rfl, rfl, rfl, rfl, rfl, rfl, rfl, rfl⟩

/-! ## The entry checks of the best-trade searches -/

theorem BestTradeExactIn_no_pools (q : Quoter) (currencyAmountIn : CurrencyAmount)
    (currencyOut : Currency) (opts : Option BestTradeOptions) (currentPools : List Pool)
    (nextAmountIn : Option CurrencyAmount) (bestTrades : List Trade) :
    BestTradeExactIn q [] currencyAmountIn currencyOut opts currentPools nextAmountIn bestTrades
      = .error .ErrNoPools := rfl

theorem BestTradeExactOut_no_pools (q : Quoter) (currencyIn : Currency)
    (currencyAmountOut : CurrencyAmount) (opts : Option BestTradeOptions)
    (currentPools : List Pool) (nextAmountOut : Option CurrencyAmount)
    (bestTrades : List Trade) :
    BestTradeExactOut q [] currencyIn currencyAmountOut opts currentPools nextAmountOut bestTrades
      = .error .ErrNoPools := rfl

/-- With a non-empty pool set `BestTradeExactIn` returns `ErrInvalidMaxHops`
whenever it is given no carried amount, whatever `MaxHops` is. -/
theorem BestTradeExactIn_nil_amount (q : Quoter) (pool : Pool) (pools : List Pool)
    (currencyAmountIn : CurrencyAmount) (currencyOut : Currency)
    (opts : Option BestTradeOptions) (currentPools : List Pool) (bestTrades : List Trade) :
    BestTradeExactIn q (pool :: pools) currencyAmountIn currencyOut opts currentPools none
      bestTrades = .error .ErrInvalidMaxHops := by
  simp [BestTradeExactIn, bestTradeExactInBounded, exactInBody]

/-- With a non-empty pool set `BestTradeExactOut` returns `ErrInvalidMaxHops`
whenever the (defaulted) `MaxHops` is not positive. -/
theorem BestTradeExactOut_invalid_max_hops (q : Quoter) (pool : Pool) (pools : List Pool)
    (currencyIn : Currency) (currencyAmountOut : CurrencyAmount)
    (opts : Option BestTradeOptions) (currentPools : List Pool)
    (nextAmountOut : Option CurrencyAmount) (bestTrades : List Trade)
    (h : (opts.getD defaultBestTradeOptions).MaxHops ≤ 0) :
    BestTradeExactOut q (pool :: pools) currencyIn currencyAmountOut opts currentPools
      nextAmountOut bestTrades = .error .ErrInvalidMaxHops := by
  simp [BestTradeExactOut, bestTradeExactOutBounded, exactOutBody, h]

/-- C10: `BestTradeExactIn` on one pool with `MaxHops = 3` and no carried amount
(the way a search is started) fails with `ErrInvalidMaxHops`; with `MaxHops = 0`
and the carried amount given it does not fail at all, where `BestTradeExactOut`
on the same pool fails with `ErrInvalidMaxHops`. -/
theorem BestTradeExactIn_max_hops_not_checked :
    BestTradeExactIn spotQuoter [poolAB] (amountOf tokenA 100) (.token tokenC)
        (some { MaxNumResults := 3, MaxHops := 3 }) [] none []
        = .error .ErrInvalidMaxHops ∧
      BestTradeExactIn spotQuoter [poolAB] (amountOf tokenA 100) (.token tokenC)
        (some { MaxNumResults := 3, MaxHops := 0 }) [] (some (amountOf tokenA 100)) []
        = .ok [] ∧
      BestTradeExactOut spotQuoter [poolAB] (.token tokenC) (amountOf tokenA 100)
        (some { MaxNumResults := 3, MaxHops := 0 }) [] (some (amountOf tokenA 100)) []
        = .error .ErrInvalidMaxHops ∧
      BestTradeExactOut spotQuoter [poolAB] (.token tokenC) (amountOf tokenA 100)
        (some { MaxNumResults := 3, MaxHops := 3 }) [] none []
        = .ok [] :=
  ⟨rfl, rfl, rfl, rfl⟩


/-! ## The bounds of the embedding are never reached -/

/-- The bound on the rounds of `sort.Search` is never reached: with at least
`j - i` rounds allowed the loop gives one and the same result. -/
theorem searchLoop_bound_irrelevant (f : Nat → Except Err Bool) :
    ∀ (fuel1 fuel2 i j : Nat), j - i ≤ fuel1 → j - i ≤ fuel2 →
      searchLoop f fuel1 i j = searchLoop f fuel2 i j := by
  intro fuel1
  induction fuel1 with
  | zero =>
    intro fuel2 i j h1 _
    have hij : ¬ i < j := by omega
    cases fuel2 with
    | zero => rfl
    | succ fuel2 => simp [searchLoop, hij]
  | succ fuel1 ih =>
    intro fuel2 i j h1 h2
    by_cases hij : i < j
    · cases fuel2 with
      | zero => omega
      | succ fuel2 =>
        simp only [searchLoop, hij, if_true, bind, Except.bind]
        cases hf : f ((i + j) / 2) with
        | error e => rfl
        | ok found =>
          cases found
          · simp only [Bool.not_false, if_true]
            exact ih fuel2 _ _ (by omega) (by omega)
          · simp only [Bool.not_true, Bool.false_eq_true, if_false]
            exact ih fuel2 _ _ (by omega) (by omega)
    · cases fuel2 with
      | zero => simp [searchLoop, hij]
      | succ fuel2 => simp [searchLoop, hij]

theorem exactInStep_congr (q : Quoter) (r1 r2 : BestTradeCall) (pools : List Pool)
    (h : ∀ pools' opts' currentPools' amount' bestTrades', pools'.length + 1 = pools.length →
      r1 pools' opts' currentPools' amount' bestTrades'
        = r2 pools' opts' currentPools' amount' bestTrades')
    (currencyAmountIn : CurrencyAmount) (currencyOut : Currency) (opts : BestTradeOptions)
    (currentPools : List Pool) (amountIn : CurrencyAmount) (bestTrades : List Trade) (i : Nat) :
    exactInStep q r1 pools currencyAmountIn currencyOut opts currentPools amountIn bestTrades i
      = exactInStep q r2 pools currencyAmountIn currencyOut opts currentPools amountIn
          bestTrades i := by
  unfold exactInStep
  cases hget : pools[i]? with
  | none => rfl
  | some pool =>
    have hlt : i < pools.length := by
      by_contra hge
      rw [List.getElem?_eq_none (by omega)] at hget
      cases hget
    have hlen : (pools.take i ++ pools.drop (i + 1)).length + 1 = pools.length := by
      simp only [List.length_append, List.length_take, List.length_drop]
      omega
    simp only [h _ _ _ _ _ hlen]

theorem exactInBody_congr (q : Quoter) (r1 r2 : BestTradeCall) (pools : List Pool)
    (h : ∀ pools' opts' currentPools' amount' bestTrades', pools'.length + 1 = pools.length →
      r1 pools' opts' currentPools' amount' bestTrades'
        = r2 pools' opts' currentPools' amount' bestTrades')
    (currencyAmountIn : CurrencyAmount) (currencyOut : Currency)
    (opts : Option BestTradeOptions) (currentPools : List Pool)
    (nextAmountIn : Option CurrencyAmount) (bestTrades : List Trade) :
    exactInBody q r1 pools currencyAmountIn currencyOut opts currentPools nextAmountIn bestTrades
      = exactInBody q r2 pools currencyAmountIn currencyOut opts currentPools nextAmountIn
          bestTrades := by
  unfold exactInBody
  have hstep : ∀ o a,
      exactInStep q r1 pools currencyAmountIn currencyOut o currentPools a
        = exactInStep q r2 pools currencyAmountIn currencyOut o currentPools a := by
    intro o a
    funext bt i
    exact exactInStep_congr q r1 r2 pools h currencyAmountIn currencyOut o currentPools a bt i
  simp only [hstep]

/-- The bound on the depth of `BestTradeExactIn` is never reached: with a depth of
at least the number of pools the search gives one and the same result. -/
theorem bestTradeExactInBounded_bound_irrelevant (q : Quoter)
    (currencyAmountIn : CurrencyAmount) (currencyOut : Currency) :
    ∀ (n d1 d2 : Nat) (pools : List Pool) (opts : Option BestTradeOptions)
      (currentPools : List Pool) (nextAmountIn : Option CurrencyAmount)
      (bestTrades : List Trade), pools.length = n → n ≤ d1 → n ≤ d2 →
      bestTradeExactInBounded q currencyAmountIn currencyOut d1 pools opts currentPools
          nextAmountIn bestTrades
        = bestTradeExactInBounded q currencyAmountIn currencyOut d2 pools opts currentPools
          nextAmountIn bestTrades := by
  intro n
  induction n with
  | zero =>
    intro d1 d2 pools opts currentPools nextAmountIn bestTrades hlen _ _
    have hnil : pools = [] := List.length_eq_zero.1 hlen
    subst hnil
    cases d1 <;> cases d2 <;> rfl
  | succ n ih =>
    intro d1 d2 pools opts currentPools nextAmountIn bestTrades hlen h1 h2
    cases d1 with
    | zero => omega
    | succ d1 =>
      cases d2 with
      | zero => omega
      | succ d2 =>
        simp only [bestTradeExactInBounded]
        apply exactInBody_congr
        intro pools' opts' currentPools' amount' bestTrades' hlen'
        exact ih d1 d2 pools' (some opts') currentPools' (some amount') bestTrades'
          (by omega) (by omega) (by omega)

theorem exactOutStep_congr (q : Quoter) (r1 r2 : BestTradeCall) (pools : List Pool)
    (h : ∀ pools' opts' currentPools' amount' bestTrades', pools'.length + 1 = pools.length →
      r1 pools' opts' currentPools' amount' bestTrades'
        = r2 pools' opts' currentPools' amount' bestTrades')
    (currencyIn : Currency) (currencyAmountOut : CurrencyAmount) (opts : BestTradeOptions)
    (currentPools : List Pool) (amountOut : CurrencyAmount) (bestTrades : List Trade) (i : Nat) :
    exactOutStep q r1 pools currencyIn currencyAmountOut opts currentPools amountOut bestTrades i
      = exactOutStep q r2 pools currencyIn currencyAmountOut opts currentPools amountOut
          bestTrades i := by
  unfold exactOutStep
  cases hget : pools[i]? with
  | none => rfl
  | some pool =>
    have hlt : i < pools.length := by
      by_contra hge
      rw [List.getElem?_eq_none (by omega)] at hget
      cases hget
    have hlen : (pools.take i ++ pools.drop (i + 1)).length + 1 = pools.length := by
      simp only [List.length_append, List.length_take, List.length_drop]
      omega
    simp only [h _ _ _ _ _ hlen]

theorem exactOutBody_congr (q : Quoter) (r1 r2 : BestTradeCall) (pools : List Pool)
    (h : ∀ pools' opts' currentPools' amount' bestTrades', pools'.length + 1 = pools.length →
      r1 pools' opts' currentPools' amount' bestTrades'
        = r2 pools' opts' currentPools' amount' bestTrades')
    (currencyIn : Currency) (currencyAmountOut : CurrencyAmount)
    (opts : Option BestTradeOptions) (currentPools : List Pool)
    (nextAmountOut : Option CurrencyAmount) (bestTrades : List Trade) :
    exactOutBody q r1 pools currencyIn currencyAmountOut opts currentPools nextAmountOut
        bestTrades
      = exactOutBody q r2 pools currencyIn currencyAmountOut opts currentPools nextAmountOut
          bestTrades := by
  unfold exactOutBody
  have hstep : ∀ o a,
      exactOutStep q r1 pools currencyIn currencyAmountOut o currentPools a
        = exactOutStep q r2 pools currencyIn currencyAmountOut o currentPools a := by
    intro o a
    funext bt i
    exact exactOutStep_congr q r1 r2 pools h currencyIn currencyAmountOut o currentPools a bt i
  simp only [hstep]

/-- The bound on the depth of `BestTradeExactOut` is never reached. -/
theorem bestTradeExactOutBounded_bound_irrelevant (q : Quoter) (currencyIn : Currency)
    (currencyAmountOut : CurrencyAmount) :
    ∀ (n d1 d2 : Nat) (pools : List Pool) (opts : Option BestTradeOptions)
      (currentPools : List Pool) (nextAmountOut : Option CurrencyAmount)
      (bestTrades : List Trade), pools.length = n → n ≤ d1 → n ≤ d2 →
      bestTradeExactOutBounded q currencyIn currencyAmountOut d1 pools opts currentPools
          nextAmountOut bestTrades
        = bestTradeExactOutBounded q currencyIn currencyAmountOut d2 pools opts currentPools
          nextAmountOut bestTrades := by
  intro n
  induction n with
  | zero =>
    intro d1 d2 pools opts currentPools nextAmountOut bestTrades hlen _ _
    have hnil : pools = [] := List.length_eq_zero.1 hlen
    subst hnil
    cases d1 <;> cases d2 <;> rfl
  | succ n ih =>
    intro d1 d2 pools opts currentPools nextAmountOut bestTrades hlen h1 h2
    cases d1 with
    | zero => omega
    | succ d1 =>
      cases d2 with
      | zero => omega
      | succ d2 =>
        simp only [bestTradeExactOutBounded]
        apply exactOutBody_congr
        intro pools' opts' currentPools' amount' bestTrades' hlen'
        exact ih d1 d2 pools' (some opts') currentPools' (some amount') bestTrades'
          (by omega) (by omega) (by omega)

/-! ## Which calls of the searches fail with `ErrInvalidMaxHops` -/

/-- The errors `NewRoute` returns. -/
theorem NewRoute_error_cases (pools : List Pool) (input : Currency) (output : Option Currency) :
    ∃ e, NewRoute pools input output = .error e ∧
      (e = .ErrRouteNoPools ∨ e = .ErrAllOnSameChain ∨ e = .panicNilDereference ∨
        e = .ErrPathNotContinuous) := by
  unfold NewRoute
  cases pools with
  | nil => exact ⟨_, rfl, Or.inl rfl⟩
  | cons first rest =>
    simp only [bind, Except.bind]
    cases hchain : sameChainLoop first.ChainID (first :: rest) with
    | error e =>
      refine ⟨e, rfl, Or.inr (Or.inl ?_)⟩
      clear input output
      generalize first.ChainID = chainId at hchain
      generalize first :: rest = l at hchain
      induction l with
      | nil => cases hchain
      | cons p l ih =>
        unfold sameChainLoop at hchain
        split_ifs at hchain
        · cases hchain
          rfl
        · exact ih hchain
    | ok u =>
      cases output with
      | none => exact ⟨_, rfl, Or.inr (Or.inr (Or.inl rfl))⟩
      | some out =>
        cases hin : getPathCurrency input.Wrapped first with
        | none => exact ⟨_, rfl, Or.inr (Or.inr (Or.inl rfl))⟩
        | some start =>
          have hloop := pathLoop_rejects_connected first rest 0 [start] start rfl
            (getPathCurrency_involved hin)
          simp only [hloop]
          exact ⟨_, rfl, Or.inr (Or.inr (Or.inr rfl))⟩

theorem foldlM_error_from_step {σ ι : Type} (f : σ → ι → Except Err σ) (e : Err) :
    ∀ (l : List ι) (init : σ), l.foldlM f init = .error e → ∃ s i, f s i = .error e := by
  intro l
  induction l with
  | nil =>
    intro init h
    cases h
  | cons x rest ih =>
    intro init h
    rw [List.foldlM_cons] at h
    cases hx : f init x with
    | error e' =>
      rw [hx] at h
      cases h
      exact ⟨init, x, hx⟩
    | ok s =>
      rw [hx] at h
      exact ih s h

theorem exactInStep_not_max_hops (q : Quoter)
    (hq : ∀ p a, q.GetOutputAmount p a ≠ .error .ErrInvalidMaxHops) (recurse : BestTradeCall)
    (hrec : ∀ pools' opts' currentPools' amount' bestTrades',
      recurse pools' opts' currentPools' amount' bestTrades' ≠ .error .ErrInvalidMaxHops)
    (pools : List Pool) (currencyAmountIn : CurrencyAmount) (currencyOut : Currency)
    (opts : BestTradeOptions) (currentPools : List Pool) (amountIn : CurrencyAmount)
    (bestTrades : List Trade) (i : Nat) :
    exactInStep q recurse pools currencyAmountIn currencyOut opts currentPools amountIn
      bestTrades i ≠ .error .ErrInvalidMaxHops := by
  unfold exactInStep
  cases hget : pools[i]? with
  | none => simp
  | some pool =>
    simp only []
    split
    · simp
    · cases hquote : q.GetOutputAmount pool amountIn with
      | error e =>
        intro h
        have he : e = .ErrInvalidMaxHops := by
          simpa [bind, Except.bind] using h
        exact hq pool amountIn (by rw [hquote, he])
      | ok res =>
        simp only [bind, Except.bind]
        split
        · obtain ⟨e, he, hcases⟩ := NewRoute_error_cases (currentPools ++ [pool])
            currencyAmountIn.Currency (some currencyOut)
          rw [he]
          intro h
          cases h
          rcases hcases with h | h | h | h <;> cases h
        · split
          · exact hrec _ _ _ _ _
          · simp

theorem bestTradeExactInBounded_not_max_hops (q : Quoter)
    (hq : ∀ p a, q.GetOutputAmount p a ≠ .error .ErrInvalidMaxHops)
    (currencyAmountIn : CurrencyAmount) (currencyOut : Currency) :
    ∀ (depth : Nat) (pools : List Pool) (opts : Option BestTradeOptions)
      (currentPools : List Pool) (nextAmountIn : CurrencyAmount) (bestTrades : List Trade),
      bestTradeExactInBounded q currencyAmountIn currencyOut depth pools opts currentPools
        (some nextAmountIn) bestTrades ≠ .error .ErrInvalidMaxHops := by
  have hbody : ∀ (recurse : BestTradeCall),
      (∀ pools' opts' currentPools' amount' bestTrades',
        recurse pools' opts' currentPools' amount' bestTrades' ≠ .error .ErrInvalidMaxHops) →
      ∀ (pools : List Pool) (opts : Option BestTradeOptions) (currentPools : List Pool)
        (nextAmountIn : CurrencyAmount) (bestTrades : List Trade),
        exactInBody q recurse pools currencyAmountIn currencyOut opts currentPools
          (some nextAmountIn) bestTrades ≠ .error .ErrInvalidMaxHops := by
    intro recurse hrec pools opts currentPools nextAmountIn bestTrades
    unfold exactInBody
    split
    · simp
    · simp only []
      split
      · simp
      · intro h
        obtain ⟨s, i, hs⟩ := foldlM_error_from_step _ _ _ _ h
        exact exactInStep_not_max_hops q hq recurse hrec pools currencyAmountIn currencyOut _
          currentPools _ s i hs
  intro depth
  induction depth with
  | zero =>
    intro pools opts currentPools nextAmountIn bestTrades
    exact hbody _ (fun _ _ _ _ _ => by simp) pools opts currentPools nextAmountIn bestTrades
  | succ depth ih =>
    intro pools opts currentPools nextAmountIn bestTrades
    exact hbody _ (fun pools' opts' currentPools' amount' bestTrades' =>
      ih pools' (some opts') currentPools' amount' bestTrades') pools opts currentPools
      nextAmountIn bestTrades

/-- What `BestTradeExactIn` does in place of the check of `MaxHops`: on a
non-empty pool set, with a quoter that does not itself return
`ErrInvalidMaxHops`, the call fails with `ErrInvalidMaxHops` exactly when it is
given no carried amount. -/
theorem BestTradeExactIn_invalid_max_hops_iff (q : Quoter)
    (hq : ∀ p a, q.GetOutputAmount p a ≠ .error .ErrInvalidMaxHops) (pool : Pool)
    (pools : List Pool) (currencyAmountIn : CurrencyAmount) (currencyOut : Currency)
    (opts : Option BestTradeOptions) (currentPools : List Pool)
    (nextAmountIn : Option CurrencyAmount) (bestTrades : List Trade) :
    BestTradeExactIn q (pool :: pools) currencyAmountIn currencyOut opts currentPools
      nextAmountIn bestTrades = .error .ErrInvalidMaxHops ↔ nextAmountIn = none := by
  constructor
  · intro h
    cases nextAmountIn with
    | none => rfl
    | some amount =>
      exact absurd h (bestTradeExactInBounded_not_max_hops q hq currencyAmountIn currencyOut _ _
        _ _ _ _)
  · intro h
    subst h
    exact BestTradeExactIn_nil_amount q pool pools currencyAmountIn currencyOut opts
      currentPools bestTrades

theorem exactOutStep_not_max_hops (q : Quoter)
    (hq : ∀ p a, q.GetInputAmount p a ≠ .error .ErrInvalidMaxHops) (recurse : BestTradeCall)
    (opts : BestTradeOptions)
    (hrec : ∀ pools' currentPools' amount' bestTrades', 1 < opts.MaxHops →
      recurse pools' { MaxNumResults := opts.MaxNumResults, MaxHops := opts.MaxHops - 1 }
        currentPools' amount' bestTrades' ≠ .error .ErrInvalidMaxHops)
    (pools : List Pool) (currencyIn : Currency) (currencyAmountOut : CurrencyAmount)
    (currentPools : List Pool) (amountOut : CurrencyAmount)
    (bestTrades : List Trade) (i : Nat) :
    exactOutStep q recurse pools currencyIn currencyAmountOut opts currentPools amountOut
      bestTrades i ≠ .error .ErrInvalidMaxHops := by
  unfold exactOutStep
  cases hget : pools[i]? with
  | none => simp
  | some pool =>
    simp only []
    split
    · simp
    · cases hquote : q.GetInputAmount pool amountOut with
      | error e =>
        intro h
        have he : e = .ErrInvalidMaxHops := by
          simpa [bind, Except.bind] using h
        exact hq pool amountOut (by rw [hquote, he])
      | ok res =>
        simp only [bind, Except.bind]
        split
        · obtain ⟨e, he, hcases⟩ := NewRoute_error_cases (pool :: currentPools) currencyIn
            (some currencyAmountOut.Currency)
          rw [he]
          intro h
          cases h
          rcases hcases with h | h | h | h <;> cases h
        · split
          · rename_i h3
            have hgt : 1 < opts.MaxHops := by
              simp only [Bool.and_eq_true, decide_eq_true_eq] at h3
              exact h3.1
            exact hrec _ _ _ _ hgt
          · simp

theorem bestTradeExactOutBounded_not_max_hops (q : Quoter)
    (hq : ∀ p a, q.GetInputAmount p a ≠ .error .ErrInvalidMaxHops) (currencyIn : Currency)
    (currencyAmountOut : CurrencyAmount) :
    ∀ (depth : Nat) (pools : List Pool) (opts : Option BestTradeOptions)
      (currentPools : List Pool) (nextAmountOut : Option CurrencyAmount)
      (bestTrades : List Trade), 0 < (opts.getD defaultBestTradeOptions).MaxHops →
      bestTradeExactOutBounded q currencyIn currencyAmountOut depth pools opts currentPools
        nextAmountOut bestTrades ≠ .error .ErrInvalidMaxHops := by
  have hbody : ∀ (recurse : BestTradeCall),
      (∀ pools' opts' currentPools' amount' bestTrades', 0 < opts'.MaxHops →
        recurse pools' opts' currentPools' amount' bestTrades' ≠ .error .ErrInvalidMaxHops) →
      ∀ (pools : List Pool) (opts : Option BestTradeOptions) (currentPools : List Pool)
        (nextAmountOut : Option CurrencyAmount) (bestTrades : List Trade),
        0 < (opts.getD defaultBestTradeOptions).MaxHops →
        exactOutBody q recurse pools currencyIn currencyAmountOut opts currentPools
          nextAmountOut bestTrades ≠ .error .ErrInvalidMaxHops := by
    intro recurse hrec pools opts currentPools nextAmountOut bestTrades hpos
    unfold exactOutBody
    have hnot : ¬ (opts.getD defaultBestTradeOptions).MaxHops ≤ 0 := by omega
    split
    · simp
    · simp only [hnot, if_false]
      split
      · simp
      · intro h
        obtain ⟨s, i, hs⟩ := foldlM_error_from_step _ _ _ _ h
        exact exactOutStep_not_max_hops q hq recurse _
          (fun pools' currentPools' amount' bestTrades' hgt =>
            hrec pools' _ currentPools' amount' bestTrades' (by simp only []; omega))
          pools currencyIn currencyAmountOut currentPools _ s i hs
  intro depth
  induction depth with
  | zero =>
    intro pools opts currentPools nextAmountOut bestTrades hpos
    exact hbody _ (fun _ _ _ _ _ _ => by simp) pools opts currentPools nextAmountOut bestTrades
      hpos
  | succ depth ih =>
    intro pools opts currentPools nextAmountOut bestTrades hpos
    exact hbody _ (fun pools' opts' currentPools' amount' bestTrades' hpos' =>
      ih pools' (some opts') currentPools' (some amount') bestTrades' hpos') pools opts
      currentPools nextAmountOut bestTrades hpos

/-- The sibling search checks `MaxHops` as documented: on a non-empty pool set,
with a quoter that does not itself return `ErrInvalidMaxHops`, `BestTradeExactOut`
fails with `ErrInvalidMaxHops` exactly when the (defaulted) `MaxHops` is not
positive. -/
theorem BestTradeExactOut_invalid_max_hops_iff (q : Quoter)
    (hq : ∀ p a, q.GetInputAmount p a ≠ .error .ErrInvalidMaxHops) (pool : Pool)
    (pools : List Pool) (currencyIn : Currency) (currencyAmountOut : CurrencyAmount)
    (opts : Option BestTradeOptions) (currentPools : List Pool)
    (nextAmountOut : Option CurrencyAmount) (bestTrades : List Trade) :
    BestTradeExactOut q (pool :: pools) currencyIn currencyAmountOut opts currentPools
      nextAmountOut bestTrades = .error .ErrInvalidMaxHops ↔
      (opts.getD defaultBestTradeOptions).MaxHops ≤ 0 := by
  constructor
  · intro h
    by_contra hpos
    exact bestTradeExactOutBounded_not_max_hops q hq currencyIn currencyAmountOut _ _ _ _ _ _
      (by omega) h
  · exact BestTradeExactOut_invalid_max_hops q pool pools currencyIn currencyAmountOut opts
      currentPools nextAmountOut bestTrades

/-! ## Hook permissions of an address -/

theorem hexDigitValue_hexDigitChar (upper : Bool) (d : Nat) (h : d < 16) :
    hexDigitValue (hexDigitChar upper d) = some d := by
  interval_cases d <;> cases upper <;> rfl

theorem hexDigits_length (upper : Nat → Bool) (n a : Nat) :
    (hexDigits upper n a).length = n := by
  induction n generalizing a with
  | zero => rfl
  | succ n ih => simp [hexDigits, ih]

theorem hexDigits_all_hex (upper : Nat → Bool) (n a : Nat) :
    (hexDigits upper n a).all (fun c => (hexDigitValue c).isSome) = true := by
  induction n generalizing a with
  | zero => rfl
  | succ n ih =>
    simp only [hexDigits, List.all_append, ih, Bool.true_and, List.all_cons, List.all_nil,
      Bool.and_true]
    rw [hexDigitValue_hexDigitChar _ _ (Nat.mod_lt _ (by decide))]
    rfl

theorem hexDigits_foldl (upper : Nat → Bool) (n a : Nat) :
    (hexDigits upper n a).foldl
      (fun acc c => acc.bind (fun m => (hexDigitValue c).map (fun d => m * 16 + d))) (some 0)
      = some (a % 16 ^ n) := by
  induction n generalizing a with
  | zero => simp [hexDigits, Nat.mod_one]
  | succ n ih =>
    simp only [hexDigits, List.foldl_append, ih, List.foldl_cons, List.foldl_nil,
      Option.some_bind]
    rw [hexDigitValue_hexDigitChar _ _ (Nat.mod_lt _ (by decide))]
    simp only [Option.map_some']
    congr 1
    rw [pow_succ', Nat.mod_mul]
    ring

theorem parseHex_hexDigits (upper : Nat → Bool) (n a : Nat) (hn : 0 < n) :
    parseHex (hexDigits upper n a) = some (a % 16 ^ n) := by
  have hne : (hexDigits upper n a).isEmpty = false := by
    cases h : hexDigits upper n a with
    | nil =>
      have := hexDigits_length upper n a
      rw [h] at this
      simp at this
      omega
    | cons c cs => rfl
  simp only [parseHex, hne, Bool.false_eq_true, if_false]
  exact hexDigits_foldl upper n a

theorem checkAddress_addressHex (upper : Nat → Bool) (a : Nat) :
    checkAddress (addressHex upper a) = none := by
  have hm : matchesAddressPattern ('0' :: 'x' :: hexDigits upper 40 a) = true := by
    simp only [matchesAddressPattern, hexDigits_length, hexDigits_all_hex, decide_True,
      Bool.and_self]
  simp only [checkAddress, isAddressValid, addressHex, hm, Bool.not_true, Bool.false_eq_true,
    if_false, List.length_cons, hexDigits_length, List.take_succ_cons, List.take_zero,
    gt_iff_lt, Nat.lt_add_left_iff_pos, Nat.lt_add_one, decide_True, Bool.and_self, Bool.not_true,
    Nat.zero_lt_succ, Nat.reduceLT, Nat.reduceAdd]

theorem and_shiftLeft_ne_zero (n i : Nat) : decide (n &&& (1 <<< i) ≠ 0) = n.testBit i := by
  rw [Nat.one_shiftLeft, Nat.and_two_pow]
  cases n.testBit i <;> simp

theorem hasPermission_addressHex (upper : Nat → Bool) (a : Nat) (opt : HookOption)
    (index : Nat) (hidx : hookFlagIndex opt = some index) (hlt : index < 160) :
    hasPermission (addressHex upper a) opt = .ok (a.testBit index) := by
  have hlen : (addressHex upper a).length > 2 ∧ (addressHex upper a).take 2 = ['0', 'x'] := by
    simp [addressHex, hexDigits_length]
  have hdrop : (addressHex upper a).drop 2 = hexDigits upper 40 a := by
    simp [addressHex]
  have hpow : (16 : Nat) ^ 40 = 2 ^ 160 := by norm_num
  simp only [hasPermission, hidx, hlen, and_self, if_true, hdrop,
    parseHex_hexDigits upper 40 a (by decide), and_shiftLeft_ne_zero, hpow,
    Nat.testBit_mod_two_pow, hlt, decide_True, Bool.true_and]

/-- The swap permissions of an address in its text form are bit 7 (`beforeSwap`)
and bit 6 (`afterSwap`) of the address. -/
theorem HasSwapPermissions_addressHex (upper : Nat → Bool) (a : Nat) :
    Hook.HasSwapPermissions (addressHex upper a) = .ok (a.testBit 7 || a.testBit 6) := by
  simp only [Hook.HasSwapPermissions, checkAddress_addressHex,
    hasPermission_addressHex upper a .BeforeSwap 7 rfl (by decide),
    hasPermission_addressHex upper a .AfterSwap 6 rfl (by decide)]

theorem hookImpactsSwap_eq (env : External) (p : Pool) :
    p.hookImpactsSwap env = (p.Hooks.testBit 7 || p.Hooks.testBit 6) := by
  unfold Pool.hookImpactsSwap
  rw [HasSwapPermissions_addressHex]

/-! ## The checks at the head of a swap -/

/-- C12: the price limit of `v3Swap`.  For a zeroForOne swap with limit `L` and
current sqrt price `P`: the limit passes exactly when `MinSqrtRatio <= L < P`, the
swap fails with `ErrSqrtPriceLimitX96TooLow` when `L < MinSqrtRatio` and, that
check made first, with `ErrSqrtPriceLimitX96TooHigh` when `L >= P`; for a
one-for-zero swap the limit passes exactly when `P < L <= MaxSqrtRatio`, the swap
fails with `ErrSqrtPriceLimitX96TooHigh` when `L > MaxSqrtRatio` and then with
`ErrSqrtPriceLimitX96TooLow` when `L <= P`.  A rejected limit fails whatever the
external libraries and the bound on the rounds are; a limit that passes hands the
swap to its loop. -/
theorem v3Swap_price_limit (env : External) (rounds : Nat) (p : Pool) (amountSpecified L : Int) :
    ((priceLimitError env p true L = none ↔ env.MinSqrtRatio ≤ L ∧ L < p.SqrtRatioX96) ∧
      (L < env.MinSqrtRatio →
        p.v3Swap env rounds true amountSpecified (some L) = .error .ErrSqrtPriceLimitX96TooLow) ∧
      (env.MinSqrtRatio ≤ L → p.SqrtRatioX96 ≤ L →
        p.v3Swap env rounds true amountSpecified (some L) = .error .ErrSqrtPriceLimitX96TooHigh) ∧
      (env.MinSqrtRatio ≤ L → L < p.SqrtRatioX96 →
        p.v3Swap env rounds true amountSpecified (some L) =
          (swapLoop env p true (decide (amountSpecified ≥ 0)) L rounds
            (initialSwapState p amountSpecified)).map SwapState.toResult)) ∧
    ((priceLimitError env p false L = none ↔ p.SqrtRatioX96 < L ∧ L ≤ env.MaxSqrtRatio) ∧
      (env.MaxSqrtRatio < L →
        p.v3Swap env rounds false amountSpecified (some L) = .error .ErrSqrtPriceLimitX96TooHigh) ∧
      (L ≤ env.MaxSqrtRatio → L ≤ p.SqrtRatioX96 →
        p.v3Swap env rounds false amountSpecified (some L) = .error .ErrSqrtPriceLimitX96TooLow) ∧
      (L ≤ env.MaxSqrtRatio → p.SqrtRatioX96 < L →
        p.v3Swap env rounds false amountSpecified (some L) =
          (swapLoop env p false (decide (amountSpecified ≥ 0)) L rounds
            (initialSwapState p amountSpecified)).map SwapState.toResult)) := by
  refine ⟨⟨?_, ?_, ?_, ?_⟩, ⟨?_, ?_, ?_, ?_⟩⟩
  · simp only [priceLimitError, if_true]
    constructor
    · intro h
      split_ifs at h with h1 h2
      exact ⟨by omega, by omega⟩
    · rintro ⟨h1, h2⟩
      rw [if_neg (by omega), if_neg (by omega)]
  · intro h
    simp [Pool.v3Swap, priceLimitError, h]
  · intro h1 h2
    have h1' : ¬ L < env.MinSqrtRatio := by omega
    simp [Pool.v3Swap, priceLimitError, h1', h2]
  · intro h1 h2
    have h1' : ¬ L < env.MinSqrtRatio := by omega
    have h2' : ¬ L ≥ p.SqrtRatioX96 := by omega
    simp only [Pool.v3Swap, priceLimitError, h1', h2', if_true, if_false]
  · simp only [priceLimitError, Bool.false_eq_true, if_false]
    constructor
    · intro h
      split_ifs at h with h1 h2
      exact ⟨by omega, by omega⟩
    · rintro ⟨h1, h2⟩
      rw [if_neg (by omega), if_neg (by omega)]
  · intro h
    simp [Pool.v3Swap, priceLimitError, h]
  · intro h1 h2
    have h1' : ¬ L > env.MaxSqrtRatio := by omega
    simp [Pool.v3Swap, priceLimitError, h1', h2]
  · intro h1 h2
    have h1' : ¬ L > env.MaxSqrtRatio := by omega
    have h2' : ¬ L ≤ p.SqrtRatioX96 := by omega
    simp only [Pool.v3Swap, priceLimitError, h1', h2', Bool.false_eq_true, if_false]

/-- Witness of C12 on the pool of A and B (sqrt price `2^96`): the zeroForOne
limits 0 and `2^96` are rejected and `MinSqrtRatio` passes; the one-for-zero
limits `MaxSqrtRatio + 1` and `2^96` are rejected and `MaxSqrtRatio` passes. -/
theorem v3Swap_price_limit_witness :
    poolAB.v3Swap sampleEnv 0 true 5 (some 0) = .error .ErrSqrtPriceLimitX96TooLow ∧
      poolAB.v3Swap sampleEnv 0 true 5 (some (2 ^ 96)) = .error .ErrSqrtPriceLimitX96TooHigh ∧
      poolAB.v3Swap sampleEnv 0 true 0 (some 4295128739) =
        (swapLoop sampleEnv poolAB true (decide ((0 : Int) ≥ 0)) 4295128739 0
          (initialSwapState poolAB 0)).map SwapState.toResult ∧
      poolAB.v3Swap sampleEnv 0 false 5
          (some (1461446703485210103287273052203988822378723970342 + 1))
        = .error .ErrSqrtPriceLimitX96TooHigh ∧
      poolAB.v3Swap sampleEnv 0 false 5 (some (2 ^ 96)) = .error .ErrSqrtPriceLimitX96TooLow ∧
      poolAB.v3Swap sampleEnv 0 false 0
          (some 1461446703485210103287273052203988822378723970342) =
        (swapLoop sampleEnv poolAB false (decide ((0 : Int) ≥ 0))
          1461446703485210103287273052203988822378723970342 0
          (initialSwapState poolAB 0)).map SwapState.toResult :=
  ⟨(v3Swap_price_limit sampleEnv 0 poolAB 5 0).1.2.1 (by norm_num [sampleEnv]),
    (v3Swap_price_limit sampleEnv 0 poolAB 5 (2 ^ 96)).1.2.2.1 (by norm_num [sampleEnv])
      (by norm_num [poolAB, samplePool]),
    (v3Swap_price_limit sampleEnv 0 poolAB 0 4295128739).1.2.2.2 (by norm_num [sampleEnv])
      (by norm_num [poolAB, samplePool]),
    (v3Swap_price_limit sampleEnv 0 poolAB 5
      (1461446703485210103287273052203988822378723970342 + 1)).2.2.1 (by norm_num [sampleEnv]),
    (v3Swap_price_limit sampleEnv 0 poolAB 5 (2 ^ 96)).2.2.2.1 (by norm_num [sampleEnv])
      (by norm_num [poolAB, samplePool]),
    (v3Swap_price_limit sampleEnv 0 poolAB 0
      1461446703485210103287273052203988822378723970342).2.2.2.2 (by norm_num [sampleEnv])
      (by norm_num [poolAB, samplePool])⟩

/-- C14: a swap called with no price limit returns exactly the result of the same
swap called with limit `MinSqrtRatio + 1` when zeroForOne and `MaxSqrtRatio - 1`
otherwise, both for `v3Swap` and for `swap`. -/
theorem swap_default_price_limit (env : External) (rounds : Nat) (p : Pool)
    (amountSpecified : Int) :
    p.v3Swap env rounds true amountSpecified none
        = p.v3Swap env rounds true amountSpecified (some (env.MinSqrtRatio + 1)) ∧
      p.v3Swap env rounds false amountSpecified none
        = p.v3Swap env rounds false amountSpecified (some (env.MaxSqrtRatio - 1)) ∧
      p.swap env rounds true amountSpecified none
        = p.swap env rounds true amountSpecified (some (env.MinSqrtRatio + 1)) ∧
      p.swap env rounds false amountSpecified none
        = p.swap env rounds false amountSpecified (some (env.MaxSqrtRatio - 1)) :=
  ⟨rfl, rfl, rfl, rfl⟩

theorem liftExternal_error {α : Type} {x : Except Nat α} {e : Err}
    (h : liftExternal x = .error e) : ∃ code, e = .ErrExternal code := by
  cases x with
  | error code =>
    simp only [liftExternal] at h
    cases h
    exact ⟨code, rfl⟩
  | ok a => simp [liftExternal] at h

/-- An error of one round of the swap loop comes from the tick data provider or
from an external library. -/
theorem swapStep_error_source (env : External) (p : Pool) (zeroForOne exactInput : Bool)
    (limit : Int) (state : SwapState) (e : Err)
    (h : swapStep env p zeroForOne exactInput limit state = .error e) :
    (∃ tick lte, p.TickDataProvider.NextInitializedTickIndex tick lte = .error e) ∨
      (∃ tick, p.TickDataProvider.GetTick tick = .error e) ∨ (∃ code, e = .ErrExternal code) := by
  unfold swapStep at h
  simp only [bind, Except.bind, pure, Except.pure] at h
  cases hnext : p.TickDataProvider.NextInitializedTickIndex state.tick zeroForOne with
  | error e1 =>
    rw [hnext] at h
    cases h
    exact Or.inl ⟨_, _, hnext⟩
  | ok next =>
    rw [hnext] at h
    obtain ⟨tickNext, initialized⟩ := next
    simp only [] at h
    split at h
    · rename_i e1 hsqrt
      cases h
      exact Or.inr (Or.inr (liftExternal_error hsqrt))
    · split at h
      · rename_i e2 hstep
        cases h
        exact Or.inr (Or.inr (liftExternal_error hstep))
      · rename_i stepResult hstep
        obtain ⟨sqrtPriceX96, amountIn, amountOut, feeAmount⟩ := stepResult
        simp only [] at h
        split at h
        · split at h
          · rename_i e3 hinner
            cases h
            split at hinner
            · split at hinner
              · rename_i e4 hget
                cases hinner
                exact Or.inr (Or.inl ⟨_, hget⟩)
              · cases hinner
            · cases hinner
          · cases h
        · split at h
          · split at h
            · rename_i e5 htick
              cases h
              exact Or.inr (Or.inr (liftExternal_error htick))
            · cases h
          · cases h

theorem swapLoop_error_source (env : External) (p : Pool) (zeroForOne exactInput : Bool)
    (limit : Int) (e : Err) :
    ∀ (rounds : Nat) (state : SwapState),
      swapLoop env p zeroForOne exactInput limit rounds state = .error e →
      e = .recursionBound ∨
        (∃ tick lte, p.TickDataProvider.NextInitializedTickIndex tick lte = .error e) ∨
        (∃ tick, p.TickDataProvider.GetTick tick = .error e) ∨ (∃ code, e = .ErrExternal code) := by
  intro rounds
  induction rounds with
  | zero =>
    intro state h
    unfold swapLoop at h
    split at h
    · cases h
      exact Or.inl rfl
    · cases h
  | succ rounds ih =>
    intro state h
    unfold swapLoop at h
    split at h
    · simp only [bind, Except.bind] at h
      cases hstep : swapStep env p zeroForOne exactInput limit state with
      | error e1 =>
        rw [hstep] at h
        cases h
        exact Or.inr (swapStep_error_source env p zeroForOne exactInput limit state e hstep)
      | ok next =>
        rw [hstep] at h
        exact ih next h
    · cases h

/-- The swap without the hook check never fails with the unsupported-hook error,
unless the tick data provider returns that error itself. -/
theorem v3Swap_not_unsupported_hook (env : External) (rounds : Nat) (p : Pool)
    (zeroForOne : Bool) (amountSpecified : Int) (limit : Option Int)
    (hp : ProviderNeverReturns p .ErrUnsupportedHook) :
    p.v3Swap env rounds zeroForOne amountSpecified limit ≠ .error .ErrUnsupportedHook := by
  intro h
  unfold Pool.v3Swap at h
  simp only [] at h
  generalize (match limit with
    | none => defaultPriceLimit env zeroForOne
    | some l => l) = L at h
  split at h
  · rename_i err herr
    cases h
    unfold priceLimitError at herr
    split_ifs at herr <;> cases herr
  · cases hloop : swapLoop env p zeroForOne (decide (amountSpecified ≥ 0)) L rounds
      (initialSwapState p amountSpecified) with
    | error e =>
      rw [hloop] at h
      simp only [Except.map] at h
      cases h
      rcases swapLoop_error_source _ _ _ _ _ _ _ _ hloop with h1 | ⟨t, l, h2⟩ | ⟨t, h3⟩ | ⟨c, h4⟩
      · cases h1
      · exact hp.1 t l h2
      · exact hp.2 t h3
      · cases h4
    | ok st =>
      rw [hloop] at h
      simp [Except.map] at h

/-- C13: `Pool.swap` fails with the unsupported-hook error when the hooks address
has bit 7 (`beforeSwap`) or bit 6 (`afterSwap`) set, whatever the external
libraries and the bound on the rounds are; for every other hooks address its
result is that of `v3Swap` on the same arguments, which is not the
unsupported-hook error as long as the tick data provider does not return that
error itself. -/
theorem swap_unsupported_hook (env : External) (rounds : Nat) (p : Pool) (zeroForOne : Bool)
    (amountSpecified : Int) (limit : Option Int) :
    ((p.Hooks.testBit 7 || p.Hooks.testBit 6) = true →
        p.swap env rounds zeroForOne amountSpecified limit = .error .ErrUnsupportedHook) ∧
      ((p.Hooks.testBit 7 || p.Hooks.testBit 6) = false →
        p.swap env rounds zeroForOne amountSpecified limit
          = p.v3Swap env rounds zeroForOne amountSpecified limit) ∧
      (ProviderNeverReturns p .ErrUnsupportedHook →
        (p.swap env rounds zeroForOne amountSpecified limit = .error .ErrUnsupportedHook ↔
          (p.Hooks.testBit 7 || p.Hooks.testBit 6) = true)) := by
  have hswap : p.swap env rounds zeroForOne amountSpecified limit =
      if !(p.Hooks.testBit 7 || p.Hooks.testBit 6) then
        p.v3Swap env rounds zeroForOne amountSpecified limit
      else .error .ErrUnsupportedHook := by
    unfold Pool.swap
    rw [hookImpactsSwap_eq]
  refine ⟨?_, ?_, ?_⟩
  · intro h
    rw [hswap, h]
    rfl
  · intro h
    rw [hswap, h]
    rfl
  · intro hp
    constructor
    · intro h
      by_contra hbits
      have hfalse : (p.Hooks.testBit 7 || p.Hooks.testBit 6) = false := by
        simpa using hbits
      rw [hswap, hfalse] at h
      exact v3Swap_not_unsupported_hook env rounds p zeroForOne amountSpecified limit hp h
    · intro h
      rw [hswap, h]
      rfl

theorem noTicks_never_returns_hook_error (p : Pool) (h : p.TickDataProvider = noTicks) :
    ProviderNeverReturns p .ErrUnsupportedHook := by
  constructor
  · intro tick lte
    rw [h]
    simp [noTicks]
  · intro tick
    rw [h]
    simp [noTicks]

/-- Witness of C13: the zero hooks address swaps as `v3Swap` does, the hooks
address `0x80` (bit 7) is refused. -/
theorem swap_unsupported_hook_witness :
    poolAB.swap sampleEnv 0 true 0 none = poolAB.v3Swap sampleEnv 0 true 0 none ∧
      ({ poolAB with Hooks := 0x80 } : Pool).swap sampleEnv 0 true 0 none
        = .error .ErrUnsupportedHook ∧
      (({ poolAB with Hooks := 0x40 } : Pool).swap sampleEnv 0 true 0 none
          = .error .ErrUnsupportedHook ↔
        ((0x40 : Nat).testBit 7 || (0x40 : Nat).testBit 6) = true) :=
  ⟨(swap_unsupported_hook sampleEnv 0 poolAB true 0 none).2.1 (by decide),
    (swap_unsupported_hook sampleEnv 0 { poolAB with Hooks := 0x80 } true 0 none).1 (by decide),
    (swap_unsupported_hook sampleEnv 0 { poolAB with Hooks := 0x40 } true 0 none).2.2
      (noTicks_never_returns_hook_error _ rfl)⟩

/-! ## The pool constructor -/

theorem GetPoolKey_sorted (a b : Token) (fee tickSpacing : Int) (hooks : Nat)
    (hchain : a.chainId = b.chainId) (hlt : a.Address < b.Address) :
    GetPoolKey a b fee tickSpacing hooks = .ok ⟨a.Address, b.Address, fee, tickSpacing, hooks⟩ ∧
      GetPoolKey b a fee tickSpacing hooks
        = .ok ⟨a.Address, b.Address, fee, tickSpacing, hooks⟩ := by
  have h1 : ¬ a.Address = b.Address := by omega
  have h2 : ¬ b.Address = a.Address := by omega
  have h3 : ¬ b.Address < a.Address := by omega
  constructor
  · simp [GetPoolKey, Token.SortsBefore, hchain, h1, hlt, bind, Except.bind, pure, Except.pure,
      Token.IsNative, Token.Wrapped]
  · simp [GetPoolKey, Token.SortsBefore, hchain, h2, h3, bind, Except.bind, pure, Except.pure,
      Token.IsNative, Token.Wrapped]

theorem GetPoolId_sorted (env : External) (a b : Token) (fee tickSpacing : Int) (hooks : Nat)
    (hchain : a.chainId = b.chainId) (hlt : a.Address < b.Address) :
    GetPoolId env a b fee tickSpacing hooks
        = .ok (env.Keccak256 (abiEncode env a.Address b.Address fee tickSpacing hooks)) ∧
      GetPoolId env b a fee tickSpacing hooks
        = .ok (env.Keccak256 (abiEncode env a.Address b.Address fee tickSpacing hooks)) := by
  have h1 : ¬ a.Address = b.Address := by omega
  have h2 : ¬ b.Address = a.Address := by omega
  have h3 : ¬ b.Address < a.Address := by omega
  constructor
  · simp [GetPoolId, Token.SortsBefore, hchain, h1, hlt, bind, Except.bind, pure, Except.pure,
      Token.IsNative, Token.Wrapped]
  · simp [GetPoolId, Token.SortsBefore, hchain, h2, h3, bind, Except.bind, pure, Except.pure,
      Token.IsNative, Token.Wrapped]

/-- What `NewPool` returns, check by check. -/
theorem NewPool_cases (env : External) (tokenA tokenB : Token) (fee tickSpacing : Int)
    (hooks : Nat) (sqrtRatioX96 liquidity tickCurrent : Int) (ticks : TickDataProvider) :
    NewPool env tokenA tokenB fee tickSpacing hooks sqrtRatioX96 liquidity tickCurrent ticks =
      if fee ≥ 1000000 then .error .ErrFeeTooHigh
      else
        match env.GetSqrtRatioAtTick tickCurrent with
        | .error code => .error (.ErrExternal code)
        | .ok lower =>
          match env.GetSqrtRatioAtTick (tickCurrent + 1) with
          | .error code => .error (.ErrExternal code)
          | .ok upper =>
            if sqrtRatioX96 < lower ∨ sqrtRatioX96 > upper then .error .ErrInvalidSqrtRatio96
            else if tokenA.chainId ≠ tokenB.chainId then .error .ErrCoreDifferentChain
            else if tokenA.Address = tokenB.Address then .error .ErrCoreSameAddress
            else
              .ok (builtPool env tokenA tokenB fee tickSpacing hooks sqrtRatioX96 liquidity
                tickCurrent ticks) := by
  unfold NewPool
  by_cases hfee : fee ≥ 1000000
  · simp [hfee, bind, Except.bind, throw, throwThe, MonadExceptOf.throw]
  · simp only [hfee, if_false, bind, Except.bind, pure, Except.pure]
    cases hlo : env.GetSqrtRatioAtTick tickCurrent with
    | error code => rfl
    | ok lower =>
      cases hhi : env.GetSqrtRatioAtTick (tickCurrent + 1) with
      | error code => rfl
      | ok upper =>
        simp only [liftExternal]
        by_cases hrange : sqrtRatioX96 < lower ∨ sqrtRatioX96 > upper
        · simp [hrange, throw, throwThe, MonadExceptOf.throw]
        · simp only [hrange, if_false]
          by_cases hchain : tokenA.chainId ≠ tokenB.chainId
          · simp [Token.SortsBefore, hchain]
          · have hchain' : tokenA.chainId = tokenB.chainId := by
              simpa using hchain
            by_cases haddr : tokenA.Address = tokenB.Address
            · simp [Token.SortsBefore, hchain', haddr]
            · rcases Nat.lt_or_gt_of_ne haddr with hlt | hgt
              · have hk := (GetPoolKey_sorted tokenA tokenB fee tickSpacing hooks hchain' hlt).1
                have hi := (GetPoolId_sorted env tokenA tokenB fee tickSpacing hooks hchain'
                  hlt).1
                simp [Token.SortsBefore, hchain', haddr, hlt, hk, hi, builtPool]
              · have hk := (GetPoolKey_sorted tokenB tokenA fee tickSpacing hooks hchain'.symm
                  hgt).1
                have hi := (GetPoolId_sorted env tokenB tokenA fee tickSpacing hooks
                  hchain'.symm hgt).1
                have hnlt : ¬ tokenA.Address < tokenB.Address := by omega
                simp [Token.SortsBefore, hchain', haddr, hnlt, hk, hi, builtPool]

/-- C16: `NewPool` fails with `ErrFeeTooHigh` if and only if `fee >= 1,000,000`,
whatever its other arguments are, so the check precedes every other validation;
every pool it returns has `Fee < 1,000,000`. -/
theorem NewPool_fee_too_high (env : External) (tokenA tokenB : Token) (fee tickSpacing : Int)
    (hooks : Nat) (sqrtRatioX96 liquidity tickCurrent : Int) (ticks : TickDataProvider) :
    (NewPool env tokenA tokenB fee tickSpacing hooks sqrtRatioX96 liquidity tickCurrent ticks
        = .error .ErrFeeTooHigh ↔ fee ≥ 1000000) ∧
      (∀ p, NewPool env tokenA tokenB fee tickSpacing hooks sqrtRatioX96 liquidity tickCurrent
        ticks = .ok p → p.Fee = fee ∧ p.Fee < 1000000) := by
  rw [NewPool_cases]
  by_cases hfee : fee ≥ 1000000
  · simp [hfee]
  · simp only [hfee, if_false, iff_false]
    constructor
    · split
      · simp
      · split
        · simp
        · split_ifs <;> simp
    · intro p hp
      split at hp
      · cases hp
      · split at hp
        · cases hp
        · split_ifs at hp
          cases hp
          exact ⟨rfl, by simp only [builtPool]; omega⟩

/-- Witness of C16: a fee of 1,000,000 is refused even with a tick that has no
price, and the pool built with fee 3000 carries that fee. -/
theorem NewPool_fee_too_high_witness :
    (NewPool sampleEnv tokenA tokenB 1000000 60 0 0 0 5 noTicks = .error .ErrFeeTooHigh ↔
        (1000000 : Int) ≥ 1000000) ∧
      ((builtPool sampleEnv tokenA tokenB 3000 60 0 79228162514264337593543950336 0 0
          noTicks).Fee = 3000 ∧
        (builtPool sampleEnv tokenA tokenB 3000 60 0 79228162514264337593543950336 0 0
          noTicks).Fee < 1000000) :=
  ⟨(NewPool_fee_too_high sampleEnv tokenA tokenB 1000000 60 0 0 0 5 noTicks).1,
    (NewPool_fee_too_high sampleEnv tokenA tokenB 3000 60 0 79228162514264337593543950336 0 0
      noTicks).2 _ (by rw [NewPool_cases]; rfl)⟩

/-- C15, counterexample: with fee 3000 and tick 0, whose two conversions succeed,
a sqrt price equal to `sqrtRatioAt(1)` is not refused: `NewPool` returns a pool
with that price, which lies outside the half-open range
`[sqrtRatioAt(0), sqrtRatioAt(1))`. -/
theorem NewPool_accepts_next_tick_price :
    sampleEnv.GetSqrtRatioAtTick 0 = .ok 79228162514264337593543950336 ∧
      sampleEnv.GetSqrtRatioAtTick (0 + 1) = .ok 79232123823359799118286999568 ∧
      (79232123823359799118286999568 : Int) ≥ 79232123823359799118286999568 ∧
      NewPool sampleEnv tokenA tokenB 3000 60 0 79232123823359799118286999568 (10 ^ 18) 0 noTicks
        ≠ .error .ErrInvalidSqrtRatio96 ∧
      (NewPool sampleEnv tokenA tokenB 3000 60 0 79232123823359799118286999568 (10 ^ 18) 0
        noTicks).map (fun p => p.SqrtRatioX96) = .ok 79232123823359799118286999568 := by
  refine ⟨rfl, rfl, le_refl _, ?_, ?_⟩
  · rw [NewPool_cases]
    intro h
    cases h
  · rw [NewPool_cases]
    rfl

/-- C15, amended: for `fee < 1,000,000` and a tick for which both tick-to-price
conversions succeed, `NewPool` fails with `ErrInvalidSqrtRatio96` if and only if
`sqrtRatioX96 < sqrtRatioAt(tickCurrent)` or
`sqrtRatioX96 > sqrtRatioAt(tickCurrent + 1)`; every pool it returns has its sqrt
price in the closed range `[sqrtRatioAt(tick), sqrtRatioAt(tick + 1)]`. -/
theorem NewPool_sqrt_ratio_range (env : External) (tokenA tokenB : Token)
    (fee tickSpacing : Int) (hooks : Nat) (sqrtRatioX96 liquidity tickCurrent : Int)
    (ticks : TickDataProvider) (lower upper : Int) (hfee : fee < 1000000)
    (hlower : env.GetSqrtRatioAtTick tickCurrent = .ok lower)
    (hupper : env.GetSqrtRatioAtTick (tickCurrent + 1) = .ok upper) :
    (NewPool env tokenA tokenB fee tickSpacing hooks sqrtRatioX96 liquidity tickCurrent ticks
        = .error .ErrInvalidSqrtRatio96 ↔ sqrtRatioX96 < lower ∨ sqrtRatioX96 > upper) ∧
      (∀ p, NewPool env tokenA tokenB fee tickSpacing hooks sqrtRatioX96 liquidity tickCurrent
        ticks = .ok p → p.TickCurrent = tickCurrent ∧ lower ≤ p.SqrtRatioX96 ∧
          p.SqrtRatioX96 ≤ upper) := by
  have hfee' : ¬ fee ≥ 1000000 := by omega
  rw [NewPool_cases]
  simp only [hfee', if_false, hlower, hupper]
  by_cases hrange : sqrtRatioX96 < lower ∨ sqrtRatioX96 > upper
  · simp [hrange]
  · simp only [hrange, if_false, iff_false]
    constructor
    · split_ifs <;> simp
    · intro p hp
      split_ifs at hp
      cases hp
      have h1 : lower ≤ sqrtRatioX96 := by omega
      have h2 : sqrtRatioX96 ≤ upper := by omega
      exact ⟨rfl, h1, h2⟩

/-- Witness of C15 as amended, on tick 0 with the sqrt price `sqrtRatioAt(1)`. -/
theorem NewPool_sqrt_ratio_range_witness :
    (NewPool sampleEnv tokenA tokenB 3000 60 0 79232123823359799118286999568 (10 ^ 18) 0 noTicks
        = .error .ErrInvalidSqrtRatio96 ↔
      (79232123823359799118286999568 : Int) < 79228162514264337593543950336 ∨
        (79232123823359799118286999568 : Int) > 79232123823359799118286999568) ∧
      (∀ p, NewPool sampleEnv tokenA tokenB 3000 60 0 79232123823359799118286999568 (10 ^ 18) 0
          noTicks = .ok p →
        p.TickCurrent = 0 ∧ 79228162514264337593543950336 ≤ p.SqrtRatioX96 ∧
          p.SqrtRatioX96 ≤ 79232123823359799118286999568) :=
  NewPool_sqrt_ratio_range sampleEnv tokenA tokenB 3000 60 0 79232123823359799118286999568
    (10 ^ 18) 0 noTicks 79228162514264337593543950336 79232123823359799118286999568
    (by decide) rfl rfl

/-- C18: for every two distinct tokens on one chain and every fee, tick spacing
and hooks, `GetPoolKey` returns one and the same key for both orders of the two
tokens, and `GetPoolId` one and the same id. -/
theorem GetPoolKey_GetPoolId_order_invariant (env : External) (a b : Token)
    (fee tickSpacing : Int) (hooks : Nat) (hchain : a.chainId = b.chainId) (hne : a ≠ b) :
    ∃ key id, GetPoolKey a b fee tickSpacing hooks = .ok key ∧
      GetPoolKey b a fee tickSpacing hooks = .ok key ∧
      GetPoolId env a b fee tickSpacing hooks = .ok id ∧
      GetPoolId env b a fee tickSpacing hooks = .ok id := by
  have haddr : a.Address ≠ b.Address := by
    intro h
    apply hne
    cases a
    cases b
    simp_all
  rcases Nat.lt_or_gt_of_ne haddr with hlt | hgt
  · have hk := GetPoolKey_sorted a b fee tickSpacing hooks hchain hlt
    have hi := GetPoolId_sorted env a b fee tickSpacing hooks hchain hlt
    exact ⟨_, _, hk.1, hk.2, hi.1, hi.2⟩
  · have hk := GetPoolKey_sorted b a fee tickSpacing hooks hchain.symm hgt
    have hi := GetPoolId_sorted env b a fee tickSpacing hooks hchain.symm hgt
    exact ⟨_, _, hk.2, hk.1, hi.2, hi.1⟩

/-- Witness of C18 on the tokens A and B. -/
theorem GetPoolKey_GetPoolId_order_invariant_witness :
    ∃ key id, GetPoolKey tokenA tokenB 3000 60 0 = .ok key ∧
      GetPoolKey tokenB tokenA 3000 60 0 = .ok key ∧
      GetPoolId sampleEnv tokenA tokenB 3000 60 0 = .ok id ∧
      GetPoolId sampleEnv tokenB tokenA 3000 60 0 = .ok id :=
  GetPoolKey_GetPoolId_order_invariant sampleEnv tokenA tokenB 3000 60 0 rfl (by decide)

/-! ## The pool a quote returns -/

/-- A pool `NewPool` has built is `builtPool`: its `TickSpacing` field is zero,
and its pool key carries the tick spacing given to the constructor. -/
theorem NewPool_ok_eq_builtPool (env : External) (tokenA tokenB : Token)
    (fee tickSpacing : Int) (hooks : Nat) (sqrtRatioX96 liquidity tickCurrent : Int)
    (ticks : TickDataProvider) (p : Pool)
    (h : NewPool env tokenA tokenB fee tickSpacing hooks sqrtRatioX96 liquidity tickCurrent ticks
      = .ok p) :
    p = builtPool env tokenA tokenB fee tickSpacing hooks sqrtRatioX96 liquidity tickCurrent
      ticks := by
  rw [NewPool_cases] at h
  split at h
  · cases h
  · split at h
    · cases h
    · split at h
      · cases h
      · split at h
        · cases h
        · split at h
          · cases h
          · split at h
            · cases h
            · cases h
              rfl

/-- The new pool state of a successful `GetOutputAmount` is built by `NewPool`
from the pool's own `TickSpacing` field. -/
theorem GetOutputAmount_new_pool_state (env : External) (rounds : Nat) (p : Pool)
    (amount : CurrencyAmount) (limit : Option Int) (r : GetOutputAmountResult)
    (h : p.GetOutputAmount env rounds amount limit = .ok r) :
    ∃ sqrtRatioX96 liquidity tick,
      r.NewPoolState = builtPool env p.Currency0 p.Currency1 p.Fee p.TickSpacing p.Hooks
        sqrtRatioX96 liquidity tick p.TickDataProvider := by
  unfold Pool.GetOutputAmount at h
  dsimp only at h
  generalize p.swap env rounds (amount.Currency.Equal (.token p.Currency0)) amount.Quotient
    limit = swapped at h
  simp only [bind, Except.bind, pure, Except.pure, throw, throwThe, MonadExceptOf.throw] at h
  split at h
  · cases h
  · split at h
    · cases h
    · rename_i swapResult hswap
      split at h
      · cases h
      · rename_i pool hpool
        cases h
        exact ⟨_, _, _, NewPool_ok_eq_builtPool _ _ _ _ _ _ _ _ _ _ _ hpool⟩

/-- The new pool state of a successful `GetInputAmount` is built by `NewPool` from
the pool's own `TickSpacing` field. -/
theorem GetInputAmount_new_pool_state (env : External) (rounds : Nat) (p : Pool)
    (amount : CurrencyAmount) (limit : Option Int) (r : GetInputAmountResult)
    (h : p.GetInputAmount env rounds amount limit = .ok r) :
    ∃ sqrtRatioX96 liquidity tick,
      r.NewPoolState = builtPool env p.Currency0 p.Currency1 p.Fee p.TickSpacing p.Hooks
        sqrtRatioX96 liquidity tick p.TickDataProvider := by
  unfold Pool.GetInputAmount at h
  dsimp only at h
  generalize p.swap env rounds (amount.Currency.Equal (.token p.Currency1))
    (amount.Quotient * (-1)) limit = swapped at h
  simp only [bind, Except.bind, pure, Except.pure, throw, throwThe, MonadExceptOf.throw] at h
  split at h
  · cases h
  · split at h
    · cases h
    · rename_i swapResult hswap
      split at h
      · cases h
      · rename_i pool hpool
        cases h
        exact ⟨_, _, _, NewPool_ok_eq_builtPool _ _ _ _ _ _ _ _ _ _ _ hpool⟩

/-- For a pool built by `NewPool` with a tick spacing other than zero, the new
pool state of every successful quote has a pool key that differs from the
pool's. -/
theorem quote_changes_pool_key (env : External) (tokenA tokenB : Token)
    (fee tickSpacing : Int) (hooks : Nat) (sqrtRatioX96 liquidity tickCurrent : Int)
    (ticks : TickDataProvider) (p : Pool) (htick : tickSpacing ≠ 0)
    (hp : NewPool env tokenA tokenB fee tickSpacing hooks sqrtRatioX96 liquidity tickCurrent
      ticks = .ok p) (rounds : Nat) (amount : CurrencyAmount) (limit : Option Int) :
    p.TickSpacing = 0 ∧ p.PoolKey.TickSpacing = tickSpacing ∧
      (∀ r, p.GetOutputAmount env rounds amount limit = .ok r →
        r.NewPoolState.PoolKey.TickSpacing = 0 ∧ r.NewPoolState.PoolKey ≠ p.PoolKey) ∧
      (∀ r, p.GetInputAmount env rounds amount limit = .ok r →
        r.NewPoolState.PoolKey.TickSpacing = 0 ∧ r.NewPoolState.PoolKey ≠ p.PoolKey) := by
  have hbuilt := NewPool_ok_eq_builtPool _ _ _ _ _ _ _ _ _ _ _ hp
  have h0 : p.TickSpacing = 0 := by rw [hbuilt]; rfl
  have hkey : p.PoolKey.TickSpacing = tickSpacing := by rw [hbuilt]; rfl
  refine ⟨h0, hkey, ?_, ?_⟩
  · intro r hr
    obtain ⟨s, l, t, hnew⟩ := GetOutputAmount_new_pool_state env rounds p amount limit r hr
    have hts : r.NewPoolState.PoolKey.TickSpacing = 0 := by rw [hnew, h0]; rfl
    refine ⟨hts, ?_⟩
    intro heq
    rw [heq, hkey] at hts
    exact htick hts
  · intro r hr
    obtain ⟨s, l, t, hnew⟩ := GetInputAmount_new_pool_state env rounds p amount limit r hr
    have hts : r.NewPoolState.PoolKey.TickSpacing = 0 := by rw [hnew, h0]; rfl
    refine ⟨hts, ?_⟩
    intro heq
    rw [heq, hkey] at hts
    exact htick hts

set_option maxRecDepth 8000 in
/-- C17: the pool built by `NewPool` for the tokens A and B with fee 3000 and tick
spacing 60 has `TickSpacing = 0`, not 60, while its pool key has tick spacing 60;
after a successful `GetOutputAmount` on it the new pool state has a pool key with
tick spacing 0 and the pool id of that key, both other than the pool's. -/
theorem NewPool_loses_tick_spacing :
    (NewPool sampleEnv tokenA tokenB 3000 60 0 79228162514264337593543950336 (10 ^ 18) 0
        noTicks).map (fun p => (p.TickSpacing, p.PoolKey, p.PoolId))
        = .ok (0, ⟨0xA, 0xB, 3000, 60, 0⟩, [0xA, 0xB, 3000, 60, 0]) ∧
      ((NewPool sampleEnv tokenA tokenB 3000 60 0 79228162514264337593543950336 (10 ^ 18) 0
        noTicks).bind (fun p => p.GetOutputAmount sampleEnv 0 (amountOf tokenA 0) none)).map
          (fun r => (r.NewPoolState.TickSpacing, r.NewPoolState.PoolKey, r.NewPoolState.PoolId))
        = .ok (0, ⟨0xA, 0xB, 3000, 0, 0⟩, [0xA, 0xB, 3000, 0, 0]) := by
  constructor
  · rw [NewPool_cases]
    rfl
  · rw [NewPool_cases]
    rfl

/-! ## Slippage bounds -/

theorem Fraction.Quotient_eq_floor (f : Fraction) (h : 0 < f.Denominator) :
    f.Quotient = ⌊f.toRat⌋ := by
  obtain ⟨d, hd⟩ := Int.eq_ofNat_of_zero_le h.le
  simp only [Fraction.Quotient, Fraction.toRat, hd]
  rw [← Rat.floor_intCast_div_natCast]
  norm_cast

theorem Fraction.one_add_toRat (tol : Fraction) (h : 0 < tol.Denominator) :
    ((⟨1, 1⟩ : Fraction).Add tol).toRat = 1 + tol.toRat ∧
      0 < ((⟨1, 1⟩ : Fraction).Add tol).Denominator := by
  have hd : (tol.Denominator : ℚ) ≠ 0 := by exact_mod_cast h.ne'
  unfold Fraction.Add
  by_cases h1 : (1 : Int) = tol.Denominator
  · simp only [h1, if_true, Fraction.toRat]
    refine ⟨?_, h⟩
    rw [← h1]
    push_cast
    ring
  · simp only [h1, if_false, Fraction.toRat]
    refine ⟨?_, by omega⟩
    push_cast
    field_simp

theorem Fraction.Multiply_toRat (f g : Fraction) :
    (f.Multiply g).toRat = f.toRat * g.toRat := by
  simp only [Fraction.Multiply, Fraction.toRat]
  push_cast
  rw [mul_div_mul_comm]

theorem Fraction.Invert_toRat (f : Fraction) : f.Invert.toRat = (f.toRat)⁻¹ := by
  simp only [Fraction.Invert, Fraction.toRat, inv_div]

theorem Fraction.toRat_nonneg (f : Fraction) (hn : 0 ≤ f.Numerator) (hd : 0 < f.Denominator) :
    0 ≤ f.toRat := by
  have h1 : (0 : ℚ) ≤ (f.Numerator : ℚ) := by exact_mod_cast hn
  have h2 : (0 : ℚ) < (f.Denominator : ℚ) := by exact_mod_cast hd
  exact div_nonneg h1 h2.le

/-- The tolerance passes the slippage check when its numerator is not negative. -/
theorem slippage_check_passes (tol : Fraction) (hn : 0 ≤ tol.Numerator) :
    tol.LessThan PercentZero = false := by
  simp only [Fraction.LessThan, PercentZero, mul_one, zero_mul, decide_eq_false_iff_not, not_lt]
  exact hn

/-- C19, amended: for every slippage tolerance `>= 0`, `MininumAmountOut` returns
the output amount unchanged for an exact-output trade, and for an exact-input trade
returns the whole amount `floor(amountOut / (1 + tolerance))` in the same
currency, which is never greater than `amountOut`.  The amount is the one passed
in, or the total output of the trade; the tolerance and the amount are fractions
with positive denominators, and the amount is not negative. -/
theorem MininumAmountOut_spec (t : Trade) (tol : Fraction) (given : Option CurrencyAmount)
    (amountOut : CurrencyAmount)
    (hamount : given = some amountOut ∨ (given = none ∧ t.OutputAmount = .ok amountOut))
    (htol : 0 ≤ tol.Numerator) (htold : 0 < tol.Denominator)
    (hd : 0 < amountOut.Fraction.Denominator) (hn : 0 ≤ amountOut.Fraction.Numerator) :
    (t.TradeType = .ExactOutput → t.MininumAmountOut tol given = .ok amountOut) ∧
      (t.TradeType = .ExactInput →
        t.MininumAmountOut tol given =
            .ok (CurrencyAmount.FromRawAmount amountOut.Currency
              ⌊amountOut.Fraction.toRat / (1 + tol.toRat)⌋) ∧
          ((⌊amountOut.Fraction.toRat / (1 + tol.toRat)⌋ : Int) : ℚ)
            ≤ amountOut.Fraction.toRat) := by
  have hcheck := slippage_check_passes tol htol
  have hgiven : (match given with
      | none => t.OutputAmount
      | some amount => (Except.ok amount : Except Err CurrencyAmount)) = .ok amountOut := by
    rcases hamount with h | ⟨h, h'⟩
    · rw [h]
    · rw [h]; exact h'
  have hone := Fraction.one_add_toRat tol htold
  have htolnn : 0 ≤ tol.toRat := Fraction.toRat_nonneg tol htol htold
  have hann : 0 ≤ amountOut.Fraction.toRat := Fraction.toRat_nonneg _ hn hd
  have hnum : 0 < ((⟨1, 1⟩ : Fraction).Add tol).Numerator := by
    unfold Fraction.Add
    split_ifs with h1
    · simp only []; omega
    · simp only [one_mul, mul_one]; omega
  have hq : ((((⟨1, 1⟩ : Fraction).Add tol).Invert).Multiply amountOut.Fraction).Quotient
      = ⌊amountOut.Fraction.toRat / (1 + tol.toRat)⌋ := by
    rw [Fraction.Quotient_eq_floor, Fraction.Multiply_toRat, Fraction.Invert_toRat, hone.1]
    · congr 1
      rw [div_eq_mul_inv, mul_comm]
    · simp only [Fraction.Multiply, Fraction.Invert]
      exact Int.mul_pos hnum hd
  constructor
  · intro hty
    simp only [Trade.MininumAmountOut, hgiven, hcheck, hty, bind, Except.bind, pure, Except.pure,
      Bool.false_eq_true, if_false, if_true]
  · intro hty
    constructor
    · simp only [Trade.MininumAmountOut, hgiven, hcheck, hty, bind, Except.bind, pure,
        Except.pure, Bool.false_eq_true, if_false, hq, reduceCtorEq]
    · calc ((⌊amountOut.Fraction.toRat / (1 + tol.toRat)⌋ : Int) : ℚ)
          ≤ amountOut.Fraction.toRat / (1 + tol.toRat) := Int.floor_le _
        _ ≤ amountOut.Fraction.toRat := div_le_self hann (by linarith)

/-- Witness of C19: with a tolerance of one percent, the exact-input sample trade
with output 100 B has a minimum output of 99 B, and the exact-output sample trade
keeps its output. -/
theorem MininumAmountOut_spec_witness :
    (sampleTradeOut 1 100).MininumAmountOut ⟨1, 100⟩ none = .ok (amountOf tokenB 100) ∧
      ((sampleTrade 1 100).MininumAmountOut ⟨1, 100⟩ none =
          .ok (CurrencyAmount.FromRawAmount (amountOf tokenB 100).Currency
            ⌊(amountOf tokenB 100).Fraction.toRat / (1 + (⟨1, 100⟩ : Fraction).toRat)⌋) ∧
        ((⌊(amountOf tokenB 100).Fraction.toRat / (1 + (⟨1, 100⟩ : Fraction).toRat)⌋ : Int) : ℚ)
          ≤ (amountOf tokenB 100).Fraction.toRat) ∧
      (sampleTrade 1 100).MininumAmountOut ⟨1, 100⟩ none = .ok (amountOf tokenB 99) :=
  ⟨(MininumAmountOut_spec (sampleTradeOut 1 100) ⟨1, 100⟩ none (amountOf tokenB 100)
      (Or.inr ⟨rfl, rfl⟩) (by decide) (by decide) (by decide) (by decide)).1 rfl,
    (MininumAmountOut_spec (sampleTrade 1 100) ⟨1, 100⟩ none (amountOf tokenB 100)
      (Or.inr ⟨rfl, rfl⟩) (by decide) (by decide) (by decide) (by decide)).2 rfl,
    rfl⟩

/-- C20, counterexample: for the exact-output sample trade, a tolerance of one
percent and the input amount 1/2 of A, `MaximumAmountIn` returns 0 A, which is
less than the amount. -/
theorem MaximumAmountIn_below_fractional_amount :
    (sampleTradeOut 1 1).TradeType = .ExactOutput ∧
      (sampleTradeOut 1 1).MaximumAmountIn ⟨1, 100⟩ (some ⟨.token tokenA, ⟨1, 2⟩⟩)
        = .ok (amountOf tokenA 0) ∧
      (amountOf tokenA 0).Fraction.toRat < (⟨1, 2⟩ : Fraction).toRat := by
  refine ⟨rfl, rfl, ?_⟩
  simp only [amountOf, CurrencyAmount.FromRawAmount, Fraction.toRat]
  norm_num

/-- C20, amended: for every slippage tolerance `>= 0` and every input amount that
is not negative, both fractions with positive denominators, `MaximumAmountIn`
returns the input amount unchanged for an exact-input trade, and for an
exact-output trade returns the whole amount `floor((1 + tolerance) * amountIn)`
in the same currency, which is never less than `floor(amountIn)`, and so never
less than `amountIn` when the amount has denominator 1.  The amount is the one
passed in, or the total input of the trade. -/
theorem MaximumAmountIn_spec (t : Trade) (tol : Fraction) (given : Option CurrencyAmount)
    (amountIn : CurrencyAmount)
    (hamount : given = some amountIn ∨ (given = none ∧ t.InputAmount = .ok amountIn))
    (htol : 0 ≤ tol.Numerator) (htold : 0 < tol.Denominator)
    (hd : 0 < amountIn.Fraction.Denominator) (hn : 0 ≤ amountIn.Fraction.Numerator) :
    (t.TradeType = .ExactInput → t.MaximumAmountIn tol given = .ok amountIn) ∧
      (t.TradeType = .ExactOutput →
        t.MaximumAmountIn tol given =
            .ok (CurrencyAmount.FromRawAmount amountIn.Currency
              ⌊(1 + tol.toRat) * amountIn.Fraction.toRat⌋) ∧
          ⌊amountIn.Fraction.toRat⌋ ≤ ⌊(1 + tol.toRat) * amountIn.Fraction.toRat⌋ ∧
          (amountIn.Fraction.Denominator = 1 →
            amountIn.Fraction.toRat
              ≤ ((⌊(1 + tol.toRat) * amountIn.Fraction.toRat⌋ : Int) : ℚ))) := by
  have hcheck := slippage_check_passes tol htol
  have hgiven : (match given with
      | none => t.InputAmount
      | some amount => (Except.ok amount : Except Err CurrencyAmount)) = .ok amountIn := by
    rcases hamount with h | ⟨h, h'⟩
    · rw [h]
    · rw [h]; exact h'
  have hone := Fraction.one_add_toRat tol htold
  have htolnn : 0 ≤ tol.toRat := Fraction.toRat_nonneg tol htol htold
  have hann : 0 ≤ amountIn.Fraction.toRat := Fraction.toRat_nonneg _ hn hd
  have hq : (((⟨1, 1⟩ : Fraction).Add tol).Multiply amountIn.Fraction).Quotient
      = ⌊(1 + tol.toRat) * amountIn.Fraction.toRat⌋ := by
    rw [Fraction.Quotient_eq_floor, Fraction.Multiply_toRat, hone.1]
    simp only [Fraction.Multiply]
    exact Int.mul_pos hone.2 hd
  have hmono : amountIn.Fraction.toRat ≤ (1 + tol.toRat) * amountIn.Fraction.toRat := by
    nlinarith
  constructor
  · intro hty
    simp only [Trade.MaximumAmountIn, hgiven, hcheck, hty, bind, Except.bind, pure, Except.pure,
      Bool.false_eq_true, if_false, if_true]
  · intro hty
    refine ⟨?_, Int.floor_mono hmono, ?_⟩
    · simp only [Trade.MaximumAmountIn, hgiven, hcheck, hty, bind, Except.bind, pure,
        Except.pure, Bool.false_eq_true, if_false, hq, reduceCtorEq]
    · intro hwhole
      have hint : amountIn.Fraction.toRat = ((amountIn.Fraction.Numerator : Int) : ℚ) := by
        simp [Fraction.toRat, hwhole]
      have hle : amountIn.Fraction.Numerator
          ≤ ⌊(1 + tol.toRat) * amountIn.Fraction.toRat⌋ := by
        rw [Int.le_floor, ← hint]
        exact hmono
      calc amountIn.Fraction.toRat = ((amountIn.Fraction.Numerator : Int) : ℚ) := hint
        _ ≤ ((⌊(1 + tol.toRat) * amountIn.Fraction.toRat⌋ : Int) : ℚ) := by exact_mod_cast hle

/-- Witness of C20 as amended: with a tolerance of one percent, the exact-output
sample trade with input 100 A has a maximum input of 101 A, and the exact-input
sample trade keeps its input. -/
theorem MaximumAmountIn_spec_witness :
    (sampleTrade 100 1).MaximumAmountIn ⟨1, 100⟩ none = .ok (amountOf tokenA 100) ∧
      ((sampleTradeOut 100 1).MaximumAmountIn ⟨1, 100⟩ none =
          .ok (CurrencyAmount.FromRawAmount (amountOf tokenA 100).Currency
            ⌊(1 + (⟨1, 100⟩ : Fraction).toRat) * (amountOf tokenA 100).Fraction.toRat⌋) ∧
        ⌊(amountOf tokenA 100).Fraction.toRat⌋
          ≤ ⌊(1 + (⟨1, 100⟩ : Fraction).toRat) * (amountOf tokenA 100).Fraction.toRat⌋ ∧
        ((amountOf tokenA 100).Fraction.Denominator = 1 →
          (amountOf tokenA 100).Fraction.toRat
            ≤ ((⌊(1 + (⟨1, 100⟩ : Fraction).toRat) * (amountOf tokenA 100).Fraction.toRat⌋
              : Int) : ℚ))) ∧
      (sampleTradeOut 100 1).MaximumAmountIn ⟨1, 100⟩ none = .ok (amountOf tokenA 101) :=
  ⟨(MaximumAmountIn_spec (sampleTrade 100 1) ⟨1, 100⟩ none (amountOf tokenA 100)
      (Or.inr ⟨rfl, rfl⟩) (by decide) (by decide) (by decide) (by decide)).1 rfl,
    (MaximumAmountIn_spec (sampleTradeOut 100 1) ⟨1, 100⟩ none (amountOf tokenA 100)
      (Or.inr ⟨rfl, rfl⟩) (by decide) (by decide) (by decide) (by decide)).2 rfl,
    rfl⟩

/-! ## The hop bound of the best-trade searches -/

theorem insertAt_mem (items : List Trade) (i : Nat) (add t : Trade)
    (h : t ∈ insertAt items i add) : t ∈ items ∨ t = add := by
  simp only [insertAt, List.mem_append, List.mem_cons] at h
  rcases h with h | h | h
  · exact Or.inl (List.mem_of_mem_take h)
  · exact Or.inr h
  · exact Or.inl (List.mem_of_mem_drop h)

/-- Every trade of the list `sortedInsert` returns is a trade of the list it was
given or the trade added. -/
theorem sortedInsert_mem (items : List Trade) (add : Trade) (maxSize : Int)
    (cmp : Trade → Trade → Except Err Int) (l : List Trade)
    (h : sortedInsert items add maxSize cmp = .ok l) : ∀ t ∈ l, t ∈ items ∨ t = add := by
  unfold sortedInsert at h
  simp only [bind, Except.bind, pure, Except.pure, throw, throwThe, MonadExceptOf.throw] at h
  intro t ht
  repeat' split at h
  all_goals first
    | (cases h; done)
    | (cases h; exact Or.inl ht)
    | (cases h; exact insertAt_mem _ _ _ _ ht)
    | (cases h; exact insertAt_mem _ _ _ _ (List.mem_of_mem_take ht))

/-- A route `NewRoute` returns holds the pools it was given. -/
theorem NewRoute_ok_pools (pools : List Pool) (input : Currency) (output : Option Currency)
    (r : Route) (h : NewRoute pools input output = .ok r) : r.Pools = pools := by
  unfold NewRoute at h
  split at h
  · cases h
  · simp only [bind, Except.bind] at h
    split at h
    · cases h
    · split at h
      · cases h
      · split at h
        · cases h
        · split at h
          · cases h
          · split at h
            · cases h
            · cases h
              rfl

/-- A trade `FromRoute` returns has one swap, over the route it was given. -/
theorem FromRoute_ok_single_swap (q : Quoter) (route : Route) (amount : CurrencyAmount)
    (tradeType : TradeType) (t : Trade) (h : FromRoute q route amount tradeType = .ok t) :
    ∃ s, t.Swaps = [s] ∧ s.Route = route := by
  unfold FromRoute at h
  simp only [bind, Except.bind, pure, Except.pure] at h
  split at h
  · cases h
  · cases h
    exact ⟨_, rfl, rfl⟩

theorem foldlM_invariant {σ ι : Type} (f : σ → ι → Except Err σ) (Inv : σ → Prop)
    (hstep : ∀ s i s', f s i = .ok s' → Inv s → Inv s') :
    ∀ (l : List ι) (init r : σ), l.foldlM f init = .ok r → Inv init → Inv r := by
  intro l
  induction l with
  | nil =>
    intro init r h hinit
    cases h
    exact hinit
  | cons x rest ih =>
    intro init r h hinit
    rw [List.foldlM_cons] at h
    cases hx : f init x with
    | error e =>
      rw [hx] at h
      cases h
    | ok s =>
      rw [hx] at h
      exact ih s r h (hstep init x s hx hinit)

theorem exactInStep_hop_bound (q : Quoter) (recurse : BestTradeCall) (h : Int)
    (hrec : ∀ pools' opts' currentPools' amount' bestTrades' l', 1 ≤ opts'.MaxHops →
      (currentPools'.length : Int) + opts'.MaxHops ≤ h →
      (∀ t ∈ bestTrades', SingleRouteWithin h t) →
      recurse pools' opts' currentPools' amount' bestTrades' = .ok l' →
      ∀ t ∈ l', SingleRouteWithin h t)
    (pools : List Pool) (currencyAmountIn : CurrencyAmount) (currencyOut : Currency)
    (opts : BestTradeOptions) (currentPools : List Pool) (amountIn : CurrencyAmount)
    (hhops : 1 ≤ opts.MaxHops) (hlen : (currentPools.length : Int) + opts.MaxHops ≤ h)
    (bestTrades : List Trade) (i : Nat) (l : List Trade)
    (hl : exactInStep q recurse pools currencyAmountIn currencyOut opts currentPools amountIn
      bestTrades i = .ok l)
    (hbest : ∀ t ∈ bestTrades, SingleRouteWithin h t) : ∀ t ∈ l, SingleRouteWithin h t := by
  unfold exactInStep at hl
  split at hl
  · cases hl
  · rename_i pool hget
    simp only [] at hl
    split at hl
    · cases hl
      exact hbest
    · simp only [bind, Except.bind] at hl
      split at hl
      · cases hl
      · rename_i res hres
        split at hl
        · split at hl
          · cases hl
          · rename_i r hr
            split at hl
            · cases hl
            · rename_i trade htrade
              intro t ht
              rcases sortedInsert_mem _ _ _ _ _ hl t ht with hmem | heq
              · exact hbest t hmem
              · obtain ⟨s, hs, hroute⟩ := FromRoute_ok_single_swap _ _ _ _ _ htrade
                refine ⟨s, by rw [heq]; exact hs, ?_⟩
                rw [hroute, NewRoute_ok_pools _ _ _ _ hr]
                simp only [List.length_append, List.length_singleton]
                push_cast
                omega
        · split at hl
          · rename_i hcond
            have hgt : 1 < opts.MaxHops := by
              simp only [Bool.and_eq_true, decide_eq_true_eq] at hcond
              exact hcond.1
            refine hrec _ _ _ _ _ l ?_ ?_ hbest hl
            · simp only []
              omega
            · simp only [List.length_append, List.length_singleton]
              push_cast
              omega
          · cases hl
            exact hbest

theorem exactOutStep_hop_bound (q : Quoter) (recurse : BestTradeCall) (h : Int)
    (hrec : ∀ pools' opts' currentPools' amount' bestTrades' l', 1 ≤ opts'.MaxHops →
      (currentPools'.length : Int) + opts'.MaxHops ≤ h →
      (∀ t ∈ bestTrades', SingleRouteWithin h t) →
      recurse pools' opts' currentPools' amount' bestTrades' = .ok l' →
      ∀ t ∈ l', SingleRouteWithin h t)
    (pools : List Pool) (currencyIn : Currency) (currencyAmountOut : CurrencyAmount)
    (opts : BestTradeOptions) (currentPools : List Pool) (amountOut : CurrencyAmount)
    (hhops : 1 ≤ opts.MaxHops) (hlen : (currentPools.length : Int) + opts.MaxHops ≤ h)
    (bestTrades : List Trade) (i : Nat) (l : List Trade)
    (hl : exactOutStep q recurse pools currencyIn currencyAmountOut opts currentPools amountOut
      bestTrades i = .ok l)
    (hbest : ∀ t ∈ bestTrades, SingleRouteWithin h t) : ∀ t ∈ l, SingleRouteWithin h t := by
  unfold exactOutStep at hl
  split at hl
  · cases hl
  · rename_i pool hget
    simp only [] at hl
    split at hl
    · cases hl
      exact hbest
    · simp only [bind, Except.bind] at hl
      split at hl
      · cases hl
      · rename_i res hres
        split at hl
        · split at hl
          · cases hl
          · rename_i r hr
            split at hl
            · cases hl
            · rename_i trade htrade
              intro t ht
              rcases sortedInsert_mem _ _ _ _ _ hl t ht with hmem | heq
              · exact hbest t hmem
              · obtain ⟨s, hs, hroute⟩ := FromRoute_ok_single_swap _ _ _ _ _ htrade
                refine ⟨s, by rw [heq]; exact hs, ?_⟩
                rw [hroute, NewRoute_ok_pools _ _ _ _ hr]
                simp only [List.length_cons]
                push_cast
                omega
        · split at hl
          · rename_i hcond
            have hgt : 1 < opts.MaxHops := by
              simp only [Bool.and_eq_true, decide_eq_true_eq] at hcond
              exact hcond.1
            refine hrec _ _ _ _ _ l ?_ ?_ hbest hl
            · simp only []
              omega
            · simp only [List.length_cons]
              push_cast
              omega
          · cases hl
            exact hbest

theorem bestTradeExactInBounded_hop_bound (q : Quoter) (currencyAmountIn : CurrencyAmount)
    (currencyOut : Currency) (h : Int) :
    ∀ (depth : Nat) (pools : List Pool) (opts : Option BestTradeOptions)
      (currentPools : List Pool) (nextAmountIn : Option CurrencyAmount)
      (bestTrades l : List Trade),
      1 ≤ (opts.getD defaultBestTradeOptions).MaxHops →
      (currentPools.length : Int) + (opts.getD defaultBestTradeOptions).MaxHops ≤ h →
      (∀ t ∈ bestTrades, SingleRouteWithin h t) →
      bestTradeExactInBounded q currencyAmountIn currencyOut depth pools opts currentPools
        nextAmountIn bestTrades = .ok l →
      ∀ t ∈ l, SingleRouteWithin h t := by
  have hbody : ∀ (recurse : BestTradeCall),
      (∀ pools' opts' currentPools' amount' bestTrades' l', 1 ≤ opts'.MaxHops →
        (currentPools'.length : Int) + opts'.MaxHops ≤ h →
        (∀ t ∈ bestTrades', SingleRouteWithin h t) →
        recurse pools' opts' currentPools' amount' bestTrades' = .ok l' →
        ∀ t ∈ l', SingleRouteWithin h t) →
      ∀ (pools : List Pool) (opts : Option BestTradeOptions) (currentPools : List Pool)
        (nextAmountIn : Option CurrencyAmount) (bestTrades l : List Trade),
        1 ≤ (opts.getD defaultBestTradeOptions).MaxHops →
        (currentPools.length : Int) + (opts.getD defaultBestTradeOptions).MaxHops ≤ h →
        (∀ t ∈ bestTrades, SingleRouteWithin h t) →
        exactInBody q recurse pools currencyAmountIn currencyOut opts currentPools nextAmountIn
          bestTrades = .ok l →
        ∀ t ∈ l, SingleRouteWithin h t := by
    intro recurse hrec pools opts currentPools nextAmountIn bestTrades l hhops hlen hbest hl
    unfold exactInBody at hl
    split at hl
    · cases hl
    · simp only [] at hl
      split at hl
      · cases hl
      · split at hl
        · cases hl
        · exact foldlM_invariant _ (fun bt => ∀ t ∈ bt, SingleRouteWithin h t)
            (fun s i s' hs hinv =>
              exactInStep_hop_bound q recurse h hrec pools currencyAmountIn currencyOut _
                currentPools _ hhops hlen s i s' hs hinv)
            _ _ _ hl hbest
  intro depth
  induction depth with
  | zero =>
    intro pools opts currentPools nextAmountIn bestTrades l hhops hlen hbest hl
    exact hbody _ (fun _ _ _ _ _ _ _ _ _ hcall => by cases hcall) pools opts currentPools
      nextAmountIn bestTrades l hhops hlen hbest hl
  | succ depth ih =>
    intro pools opts currentPools nextAmountIn bestTrades l hhops hlen hbest hl
    exact hbody _ (fun pools' opts' currentPools' amount' bestTrades' l' h1 h2 h3 hcall =>
      ih pools' (some opts') currentPools' (some amount') bestTrades' l' h1 h2 h3 hcall)
      pools opts currentPools nextAmountIn bestTrades l hhops hlen hbest hl

theorem bestTradeExactOutBounded_hop_bound (q : Quoter) (currencyIn : Currency)
    (currencyAmountOut : CurrencyAmount) (h : Int) :
    ∀ (depth : Nat) (pools : List Pool) (opts : Option BestTradeOptions)
      (currentPools : List Pool) (nextAmountOut : Option CurrencyAmount)
      (bestTrades l : List Trade),
      1 ≤ (opts.getD defaultBestTradeOptions).MaxHops →
      (currentPools.length : Int) + (opts.getD defaultBestTradeOptions).MaxHops ≤ h →
      (∀ t ∈ bestTrades, SingleRouteWithin h t) →
      bestTradeExactOutBounded q currencyIn currencyAmountOut depth pools opts currentPools
        nextAmountOut bestTrades = .ok l →
      ∀ t ∈ l, SingleRouteWithin h t := by
  have hbody : ∀ (recurse : BestTradeCall),
      (∀ pools' opts' currentPools' amount' bestTrades' l', 1 ≤ opts'.MaxHops →
        (currentPools'.length : Int) + opts'.MaxHops ≤ h →
        (∀ t ∈ bestTrades', SingleRouteWithin h t) →
        recurse pools' opts' currentPools' amount' bestTrades' = .ok l' →
        ∀ t ∈ l', SingleRouteWithin h t) →
      ∀ (pools : List Pool) (opts : Option BestTradeOptions) (currentPools : List Pool)
        (nextAmountOut : Option CurrencyAmount) (bestTrades l : List Trade),
        1 ≤ (opts.getD defaultBestTradeOptions).MaxHops →
        (currentPools.length : Int) + (opts.getD defaultBestTradeOptions).MaxHops ≤ h →
        (∀ t ∈ bestTrades, SingleRouteWithin h t) →
        exactOutBody q recurse pools currencyIn currencyAmountOut opts currentPools
          nextAmountOut bestTrades = .ok l →
        ∀ t ∈ l, SingleRouteWithin h t := by
    intro recurse hrec pools opts currentPools nextAmountOut bestTrades l hhops hlen hbest hl
    unfold exactOutBody at hl
    split at hl
    · cases hl
    · simp only [] at hl
      split at hl
      · cases hl
      · split at hl
        · cases hl
        · exact foldlM_invariant _ (fun bt => ∀ t ∈ bt, SingleRouteWithin h t)
            (fun s i s' hs hinv =>
              exactOutStep_hop_bound q recurse h hrec pools currencyIn currencyAmountOut _
                currentPools _ hhops hlen s i s' hs hinv)
            _ _ _ hl hbest
  intro depth
  induction depth with
  | zero =>
    intro pools opts currentPools nextAmountOut bestTrades l hhops hlen hbest hl
    exact hbody _ (fun _ _ _ _ _ _ _ _ _ hcall => by cases hcall) pools opts currentPools
      nextAmountOut bestTrades l hhops hlen hbest hl
  | succ depth ih =>
    intro pools opts currentPools nextAmountOut bestTrades l hhops hlen hbest hl
    exact hbody _ (fun pools' opts' currentPools' amount' bestTrades' l' h1 h2 h3 hcall =>
      ih pools' (some opts') currentPools' (some amount') bestTrades' l' h1 h2 h3 hcall)
      pools opts currentPools nextAmountOut bestTrades l hhops hlen hbest hl

/-- Since `NewRoute` returns no route, a search that returns hands back the list
of best trades it was given: no trade is ever added. -/
theorem bestTradeExactInBounded_adds_nothing (q : Quoter) (currencyAmountIn : CurrencyAmount)
    (currencyOut : Currency) :
    ∀ (depth : Nat) (pools : List Pool) (opts : Option BestTradeOptions)
      (currentPools : List Pool) (nextAmountIn : Option CurrencyAmount)
      (bestTrades l : List Trade),
      bestTradeExactInBounded q currencyAmountIn currencyOut depth pools opts currentPools
        nextAmountIn bestTrades = .ok l → l = bestTrades := by
  have hstep : ∀ (recurse : BestTradeCall),
      (∀ pools' opts' currentPools' amount' bestTrades' l',
        recurse pools' opts' currentPools' amount' bestTrades' = .ok l' → l' = bestTrades') →
      ∀ (pools : List Pool) (opts : BestTradeOptions) (currentPools : List Pool)
        (amountIn : CurrencyAmount) (bestTrades : List Trade) (i : Nat) (l : List Trade),
        exactInStep q recurse pools currencyAmountIn currencyOut opts currentPools amountIn
          bestTrades i = .ok l → l = bestTrades := by
    intro recurse hrec pools opts currentPools amountIn bestTrades i l hl
    unfold exactInStep at hl
    split at hl
    · cases hl
    · simp only [] at hl
      split at hl
      · cases hl
        rfl
      · simp only [bind, Except.bind] at hl
        split at hl
        · cases hl
        · split at hl
          · obtain ⟨e, he⟩ := NewRoute_never_succeeds (currentPools ++ [_])
              currencyAmountIn.Currency (some currencyOut)
            rw [he] at hl
            cases hl
          · split at hl
            · exact hrec _ _ _ _ _ _ hl
            · cases hl
              rfl
  have hbody : ∀ (recurse : BestTradeCall),
      (∀ pools' opts' currentPools' amount' bestTrades' l',
        recurse pools' opts' currentPools' amount' bestTrades' = .ok l' → l' = bestTrades') →
      ∀ (pools : List Pool) (opts : Option BestTradeOptions) (currentPools : List Pool)
        (nextAmountIn : Option CurrencyAmount) (bestTrades l : List Trade),
        exactInBody q recurse pools currencyAmountIn currencyOut opts currentPools nextAmountIn
          bestTrades = .ok l → l = bestTrades := by
    intro recurse hrec pools opts currentPools nextAmountIn bestTrades l hl
    unfold exactInBody at hl
    split at hl
    · cases hl
    · simp only [] at hl
      split at hl
      · cases hl
      · split at hl
        · cases hl
        · exact foldlM_invariant _ (fun bt => bt = bestTrades)
            (fun s i s' hs hinv => by
              rw [hstep recurse hrec pools _ currentPools _ s i s' hs]
              exact hinv)
            _ _ _ hl rfl
  intro depth
  induction depth with
  | zero =>
    intro pools opts currentPools nextAmountIn bestTrades l hl
    exact hbody _ (fun _ _ _ _ _ _ hcall => by cases hcall) pools opts currentPools
      nextAmountIn bestTrades l hl
  | succ depth ih =>
    intro pools opts currentPools nextAmountIn bestTrades l hl
    exact hbody _ (fun pools' opts' currentPools' amount' bestTrades' l' hcall =>
      ih pools' (some opts') currentPools' (some amount') bestTrades' l' hcall)
      pools opts currentPools nextAmountIn bestTrades l hl

/-- The same for `BestTradeExactOut`. -/
theorem bestTradeExactOutBounded_adds_nothing (q : Quoter) (currencyIn : Currency)
    (currencyAmountOut : CurrencyAmount) :
    ∀ (depth : Nat) (pools : List Pool) (opts : Option BestTradeOptions)
      (currentPools : List Pool) (nextAmountOut : Option CurrencyAmount)
      (bestTrades l : List Trade),
      bestTradeExactOutBounded q currencyIn currencyAmountOut depth pools opts currentPools
        nextAmountOut bestTrades = .ok l → l = bestTrades := by
  have hstep : ∀ (recurse : BestTradeCall),
      (∀ pools' opts' currentPools' amount' bestTrades' l',
        recurse pools' opts' currentPools' amount' bestTrades' = .ok l' → l' = bestTrades') →
      ∀ (pools : List Pool) (opts : BestTradeOptions) (currentPools : List Pool)
        (amountOut : CurrencyAmount) (bestTrades : List Trade) (i : Nat) (l : List Trade),
        exactOutStep q recurse pools currencyIn currencyAmountOut opts currentPools amountOut
          bestTrades i = .ok l → l = bestTrades := by
    intro recurse hrec pools opts currentPools amountOut bestTrades i l hl
    unfold exactOutStep at hl
    split at hl
    · cases hl
    · simp only [] at hl
      split at hl
      · cases hl
        rfl
      · simp only [bind, Except.bind] at hl
        split at hl
        · cases hl
        · split at hl
          · obtain ⟨e, he⟩ := NewRoute_never_succeeds (_ :: currentPools) currencyIn
              (some currencyAmountOut.Currency)
            rw [he] at hl
            cases hl
          · split at hl
            · exact hrec _ _ _ _ _ _ hl
            · cases hl
              rfl
  have hbody : ∀ (recurse : BestTradeCall),
      (∀ pools' opts' currentPools' amount' bestTrades' l',
        recurse pools' opts' currentPools' amount' bestTrades' = .ok l' → l' = bestTrades') →
      ∀ (pools : List Pool) (opts : Option BestTradeOptions) (currentPools : List Pool)
        (nextAmountOut : Option CurrencyAmount) (bestTrades l : List Trade),
        exactOutBody q recurse pools currencyIn currencyAmountOut opts currentPools
          nextAmountOut bestTrades = .ok l → l = bestTrades := by
    intro recurse hrec pools opts currentPools nextAmountOut bestTrades l hl
    unfold exactOutBody at hl
    split at hl
    · cases hl
    · simp only [] at hl
      split at hl
      · cases hl
      · split at hl
        · cases hl
        · exact foldlM_invariant _ (fun bt => bt = bestTrades)
            (fun s i s' hs hinv => by
              rw [hstep recurse hrec pools _ currentPools _ s i s' hs]
              exact hinv)
            _ _ _ hl rfl
  intro depth
  induction depth with
  | zero =>
    intro pools opts currentPools nextAmountOut bestTrades l hl
    exact hbody _ (fun _ _ _ _ _ _ hcall => by cases hcall) pools opts currentPools
      nextAmountOut bestTrades l hl
  | succ depth ih =>
    intro pools opts currentPools nextAmountOut bestTrades l hl
    exact hbody _ (fun pools' opts' currentPools' amount' bestTrades' l' hcall =>
      ih pools' (some opts') currentPools' (some amount') bestTrades' l' hcall)
      pools opts currentPools nextAmountOut bestTrades l hl

/-! ## The sign of the slippage tolerance -/

theorem Fraction.toRat_neg_iff (f : Fraction) (hd : 0 < f.Denominator) :
    f.toRat < 0 ↔ f.Numerator < 0 := by
  have h2 : (0 : ℚ) < (f.Denominator : ℚ) := by exact_mod_cast hd
  unfold Fraction.toRat
  rw [div_neg_iff]
  constructor
  · rintro (⟨_, h⟩ | ⟨h, _⟩)
    · linarith
    · exact_mod_cast h
  · intro h
    exact Or.inr ⟨by exact_mod_cast h, h2⟩

/-- The tolerance fails the slippage check when its numerator is negative. -/
theorem slippage_check_fails (tol : Fraction) (hn : tol.Numerator < 0) :
    tol.LessThan PercentZero = true := by
  simp only [Fraction.LessThan, PercentZero, mul_one, zero_mul, decide_eq_true_eq]
  exact hn

/-- C21, amended: for every trade of either trade type that has the amount asked
about (the one passed in, or its own total) and every slippage tolerance with a
positive denominator: when the tolerance is negative, `MininumAmountOut` and
`MaximumAmountIn` both fail with `ErrInvalidSlippageTolerance`, so return no
amount; when it is not negative, both return an amount, the amounts being
fractions with positive denominators. -/
theorem slippage_tolerance_sign (t : Trade) (tol : Fraction)
    (givenOut givenIn : Option CurrencyAmount) (amountOut amountIn : CurrencyAmount)
    (hout : givenOut = some amountOut ∨ (givenOut = none ∧ t.OutputAmount = .ok amountOut))
    (hin : givenIn = some amountIn ∨ (givenIn = none ∧ t.InputAmount = .ok amountIn))
    (htold : 0 < tol.Denominator) :
    (tol.toRat < 0 →
        t.MininumAmountOut tol givenOut = .error .ErrInvalidSlippageTolerance ∧
          t.MaximumAmountIn tol givenIn = .error .ErrInvalidSlippageTolerance) ∧
      (0 ≤ tol.toRat → 0 < amountOut.Fraction.Denominator →
        0 < amountIn.Fraction.Denominator →
        (∃ a, t.MininumAmountOut tol givenOut = .ok a) ∧
          (∃ a, t.MaximumAmountIn tol givenIn = .ok a)) := by
  have hgout : (match givenOut with
      | none => t.OutputAmount
      | some amount => (Except.ok amount : Except Err CurrencyAmount)) = .ok amountOut := by
    rcases hout with h | ⟨h, h'⟩
    · rw [h]
    · rw [h]; exact h'
  have hgin : (match givenIn with
      | none => t.InputAmount
      | some amount => (Except.ok amount : Except Err CurrencyAmount)) = .ok amountIn := by
    rcases hin with h | ⟨h, h'⟩
    · rw [h]
    · rw [h]; exact h'
  constructor
  · intro hneg
    have hcheck := slippage_check_fails tol ((Fraction.toRat_neg_iff tol htold).1 hneg)
    constructor
    · simp only [Trade.MininumAmountOut, hgout, hcheck, bind, Except.bind, pure, Except.pure,
        throw, throwThe, MonadExceptOf.throw, if_true]
    · simp only [Trade.MaximumAmountIn, hgin, hcheck, bind, Except.bind, pure, Except.pure,
        throw, throwThe, MonadExceptOf.throw, if_true]
  · intro hnn _ _
    have hnum : 0 ≤ tol.Numerator := by
      by_contra hlt
      have := (Fraction.toRat_neg_iff tol htold).2 (by omega)
      linarith
    have hcheck := slippage_check_passes tol hnum
    constructor
    · cases hty : t.TradeType <;>
        simp [Trade.MininumAmountOut, hgout, hcheck, hty, bind, Except.bind, pure, Except.pure]
    · cases hty : t.TradeType <;>
        simp [Trade.MaximumAmountIn, hgin, hcheck, hty, bind, Except.bind, pure, Except.pure]

/-- Witness of C21: on the sample trades of both trade types, a tolerance of minus
one percent is refused by both methods and a tolerance of one percent by
neither. -/
theorem slippage_tolerance_sign_witness :
    ((sampleTrade 100 100).MininumAmountOut ⟨-1, 100⟩ none
          = .error .ErrInvalidSlippageTolerance ∧
        (sampleTrade 100 100).MaximumAmountIn ⟨-1, 100⟩ none
          = .error .ErrInvalidSlippageTolerance) ∧
      ((sampleTradeOut 100 100).MininumAmountOut ⟨-1, 100⟩ none
          = .error .ErrInvalidSlippageTolerance ∧
        (sampleTradeOut 100 100).MaximumAmountIn ⟨-1, 100⟩ none
          = .error .ErrInvalidSlippageTolerance) ∧
      ((∃ a, (sampleTrade 100 100).MininumAmountOut ⟨1, 100⟩ none = .ok a) ∧
        (∃ a, (sampleTrade 100 100).MaximumAmountIn ⟨1, 100⟩ none = .ok a)) ∧
      ((∃ a, (sampleTradeOut 100 100).MininumAmountOut ⟨1, 100⟩ none = .ok a) ∧
        (∃ a, (sampleTradeOut 100 100).MaximumAmountIn ⟨1, 100⟩ none = .ok a)) :=
  ⟨(slippage_tolerance_sign (sampleTrade 100 100) ⟨-1, 100⟩ none none (amountOf tokenB 100)
      (amountOf tokenA 100) (Or.inr ⟨rfl, rfl⟩) (Or.inr ⟨rfl, rfl⟩) (by decide)).1
      (by norm_num [Fraction.toRat]),
    (slippage_tolerance_sign (sampleTradeOut 100 100) ⟨-1, 100⟩ none none (amountOf tokenB 100)
      (amountOf tokenA 100) (Or.inr ⟨rfl, rfl⟩) (Or.inr ⟨rfl, rfl⟩) (by decide)).1
      (by norm_num [Fraction.toRat]),
    (slippage_tolerance_sign (sampleTrade 100 100) ⟨1, 100⟩ none none (amountOf tokenB 100)
      (amountOf tokenA 100) (Or.inr ⟨rfl, rfl⟩) (Or.inr ⟨rfl, rfl⟩) (by decide)).2
      (by norm_num [Fraction.toRat]) (by decide) (by decide),
    (slippage_tolerance_sign (sampleTradeOut 100 100) ⟨1, 100⟩ none none (amountOf tokenB 100)
      (amountOf tokenA 100) (Or.inr ⟨rfl, rfl⟩) (Or.inr ⟨rfl, rfl⟩) (by decide)).2
      (by norm_num [Fraction.toRat]) (by decide) (by decide)⟩

/-! ## The amount check of `FromRoute` -/

/-- C24: `FromRoute` returns `ErrInvalidAmountForRoute` whenever the trade type is
exact-input and the amount's currency differs from the route's input, or the
trade type is exact-output and the amount's currency differs from the route's
output.  The result is the same whatever the pools would quote, and whatever the
route holds: no pool is read and no swap simulated. -/
theorem FromRoute_invalid_amount (q : Quoter) (route : Route) (amount : CurrencyAmount) :
    (amount.Currency.Equal route.Input = false →
        FromRoute q route amount .ExactInput = .error .ErrInvalidAmountForRoute) ∧
      (amount.Currency.Equal route.Output = false →
        FromRoute q route amount .ExactOutput = .error .ErrInvalidAmountForRoute) := by
  constructor
  · intro h
    simp only [FromRoute, h, bind, Except.bind, throw, throwThe, MonadExceptOf.throw,
      Bool.not_false, if_true]
  · intro h
    simp only [FromRoute, h, bind, Except.bind, throw, throwThe, MonadExceptOf.throw,
      Bool.not_false, if_true]

/-- Witness of C24: on the route from A to B, an exact input of 100 B and an exact
output of 100 A are refused, also by a quoter that would fill the order. -/
theorem FromRoute_invalid_amount_witness :
    FromRoute spotQuoter routeAB (amountOf tokenB 100) .ExactInput
        = .error .ErrInvalidAmountForRoute ∧
      FromRoute spotQuoter routeAB (amountOf tokenA 100) .ExactOutput
        = .error .ErrInvalidAmountForRoute :=
  ⟨(FromRoute_invalid_amount spotQuoter routeAB (amountOf tokenB 100)).1 (by decide),
    (FromRoute_invalid_amount spotQuoter routeAB (amountOf tokenA 100)).2 (by decide)⟩

/-! ## The checks of `NewRoute` -/

theorem sameChainLoop_error (chainId : Nat) (pools : List Pool)
    (h : ∃ p ∈ pools, p.ChainID ≠ chainId) :
    sameChainLoop chainId pools = .error .ErrAllOnSameChain := by
  induction pools with
  | nil =>
    obtain ⟨p, hp, _⟩ := h
    cases hp
  | cons p rest ih =>
    by_cases hp : p.ChainID = chainId
    · simp only [sameChainLoop, hp, ne_eq, not_true_eq_false, if_false]
      obtain ⟨p', hp', hne⟩ := h
      rcases List.mem_cons.1 hp' with rfl | hmem
      · exact absurd hp hne
      · exact ih ⟨p', hmem, hne⟩
    · simp only [sameChainLoop, ne_eq, hp, not_false_eq_true, if_true]

/-- C25: for every pool list on one chain whose first pool contains the (wrapped)
input currency, and every output currency, `NewRoute` fails with
`ErrPathNotContinuous`; so it does when a later pool shares no currency with the
path reached so far, as in the list of the pools (A, B) and (C, D) with input A and
output D. -/
theorem NewRoute_path_not_continuous (first : Pool) (rest : List Pool)
    (input output : Currency)
    (hchain : ∀ p ∈ first :: rest, p.ChainID = first.ChainID)
    (hin : first.InvolvesToken input.Wrapped = true) :
    NewRoute (first :: rest) input (some output) = .error .ErrPathNotContinuous :=
  NewRoute_rejects_connected_path first rest input output hchain hin

/-- Witness of C25: the pools (A, B) and (C, D), input A, output D. -/
theorem NewRoute_path_not_continuous_witness :
    poolCD.InvolvesToken tokenA = false ∧ poolCD.InvolvesToken tokenB = false ∧
      NewRoute [poolAB, poolCD] (.token tokenA) (some (.token tokenD))
        = .error .ErrPathNotContinuous :=
  ⟨rfl, rfl, NewRoute_path_not_continuous poolAB [poolCD] (.token tokenA) (.token tokenD)
    (by decide) rfl⟩

/-- C26: `NewRoute` fails with `ErrRouteNoPools` when the pool list is empty, and
with `ErrAllOnSameChain` for every non-empty pool list that contains a pool whose
chain identifier differs from that of `pools[0]`, whatever the input and output
currencies are and whether or not the pools connect: both checks come before the
continuity check. -/
theorem NewRoute_entry_checks (pools : List Pool) (input : Currency) (output : Option Currency) :
    (pools = [] → NewRoute pools input output = .error .ErrRouteNoPools) ∧
      (∀ first rest, pools = first :: rest → (∃ p ∈ pools, p.ChainID ≠ first.ChainID) →
        NewRoute pools input output = .error .ErrAllOnSameChain) := by
  constructor
  · intro h
    rw [h]
    rfl
  · intro first rest h hchain
    subst h
    simp only [NewRoute, sameChainLoop_error first.ChainID (first :: rest) hchain, bind,
      Except.bind]

/-- Witness of C26: the empty list, and the pool of A and B followed by a pool on
another chain. -/
theorem NewRoute_entry_checks_witness :
    NewRoute [] (.token tokenA) (some (.token tokenB)) = .error .ErrRouteNoPools ∧
      NewRoute [poolAB, poolEF] (.token tokenA) (some (.token tokenB))
        = .error .ErrAllOnSameChain :=
  ⟨(NewRoute_entry_checks [] (.token tokenA) (some (.token tokenB))).1 rfl,
    (NewRoute_entry_checks [poolAB, poolEF] (.token tokenA) (some (.token tokenB))).2
      poolAB [poolEF] rfl ⟨poolEF, by simp, by decide⟩⟩

/-! ## The prices of a pool -/

theorem Token.Equal_token_iff (s t : Token) : s.Equal (.token t) = true ↔ s = t := by
  cases s
  cases t
  simp [Token.Equal, Currency.Equal]

theorem Q192_eq : Q192 = 2 ^ 192 := by
  norm_num [Q192]

/-- Memoising fields written by the pool's own methods hold nothing but the prices
the methods compute. -/
theorem PoolMemo.WrittenBy.sound {p : Pool} {memo : PoolMemo} (h : memo.WrittenBy p) :
    (memo.token0Price = none ∨ memo.token0Price = some (p.Token0Price PoolMemo.unset).1) ∧
      (memo.token1Price = none ∨ memo.token1Price = some (p.Token1Price PoolMemo.unset).1) := by
  induction h with
  | unset => exact ⟨Or.inl rfl, Or.inl rfl⟩
  | token0Price _ ih =>
    rcases ih with ⟨h0 | h0, h1⟩
    · refine ⟨Or.inr ?_, ?_⟩
      · simp only [Pool.Token0Price, h0, PoolMemo.unset]
      · simpa only [Pool.Token0Price, h0] using h1
    · refine ⟨Or.inr ?_, ?_⟩
      · simp only [Pool.Token0Price, h0]
      · simpa only [Pool.Token0Price, h0] using h1
  | token1Price _ ih =>
    rcases ih with ⟨h0, h1 | h1⟩
    · refine ⟨?_, Or.inr ?_⟩
      · simpa only [Pool.Token1Price, h1] using h0
      · simp only [Pool.Token1Price, h1, PoolMemo.unset]
    · refine ⟨?_, Or.inr ?_⟩
      · simpa only [Pool.Token1Price, h1] using h0
      · simp only [Pool.Token1Price, h1]

/-- Whatever the pool's methods have written to the memoising fields before,
`Token0Price` returns the price it computes for a new pool. -/
theorem Token0Price_written_memo {p : Pool} {memo : PoolMemo} (h : memo.WrittenBy p) :
    (p.Token0Price memo).1 = (p.Token0Price PoolMemo.unset).1 := by
  rcases h.sound.1 with h0 | h0
  · simp only [Pool.Token0Price, h0, PoolMemo.unset]
  · simp only [Pool.Token0Price, h0]

/-- Whatever the pool's methods have written to the memoising fields before,
`Token1Price` returns the price it computes for a new pool. -/
theorem Token1Price_written_memo {p : Pool} {memo : PoolMemo} (h : memo.WrittenBy p) :
    (p.Token1Price memo).1 = (p.Token1Price PoolMemo.unset).1 := by
  rcases h.sound.2 with h1 | h1
  · simp only [Pool.Token1Price, h1, PoolMemo.unset]
  · simp only [Pool.Token1Price, h1]

/-- C30: for every pool with sqrt price `s > 0` and two different currencies,
whatever its methods have written to its memoising fields: `Token0Price` is the
rational `s^2 / 2^192` with base currency0 and quote currency1, `Token1Price` is
`2^192 / s^2` with base currency1 and quote currency0, and their product is
exactly 1; both return the price they return on a new pool, and leave the fields
written by the pool's methods, so that every repeated call returns the same
value; `PriceOf` returns `Token0Price` for currency0, `Token1Price` for currency1
and `ErrTokenNotInvolved` for every other token. -/
theorem pool_prices (p : Pool) (memo : PoolMemo) (hmemo : memo.WrittenBy p)
    (hs : 0 < p.SqrtRatioX96) (hne : p.Currency0 ≠ p.Currency1) :
    ((p.Token0Price memo).1.Fraction.toRat = (p.SqrtRatioX96 : ℚ) ^ 2 / 2 ^ 192 ∧
        (p.Token0Price memo).1.BaseCurrency = .token p.Currency0 ∧
        (p.Token0Price memo).1.QuoteCurrency = .token p.Currency1) ∧
      ((p.Token1Price memo).1.Fraction.toRat = 2 ^ 192 / (p.SqrtRatioX96 : ℚ) ^ 2 ∧
        (p.Token1Price memo).1.BaseCurrency = .token p.Currency1 ∧
        (p.Token1Price memo).1.QuoteCurrency = .token p.Currency0) ∧
      ((p.Token0Price memo).1.Fraction.toRat * (p.Token1Price memo).1.Fraction.toRat = 1 ∧
        ∃ product, (p.Token0Price memo).1.Multiply (p.Token1Price memo).1 = .ok product ∧
          product.Fraction.toRat = 1) ∧
      ((p.Token0Price memo).1 = (p.Token0Price PoolMemo.unset).1 ∧
        (p.Token1Price memo).1 = (p.Token1Price PoolMemo.unset).1 ∧
        (p.Token0Price memo).2.WrittenBy p ∧ (p.Token1Price memo).2.WrittenBy p ∧
        p.Token0Price (p.Token0Price memo).2 = p.Token0Price memo ∧
        p.Token1Price (p.Token1Price memo).2 = p.Token1Price memo) ∧
      (p.PriceOf memo p.Currency0 = .ok (p.Token0Price memo) ∧
        p.PriceOf memo p.Currency1 = .ok (p.Token1Price memo) ∧
        ∀ token, token ≠ p.Currency0 → token ≠ p.Currency1 →
          p.PriceOf memo token = .error .ErrTokenNotInvolved) := by
  have h0 := Token0Price_written_memo hmemo
  have h1 := Token1Price_written_memo hmemo
  have hsq : ((p.SqrtRatioX96 : ℚ)) ≠ 0 := by
    have : (0 : ℚ) < (p.SqrtRatioX96 : ℚ) := by exact_mod_cast hs
    exact this.ne'
  have hq : ((Q192 : Int) : ℚ) = 2 ^ 192 := by
    rw [Q192_eq]
    norm_cast
  have hf0 : (p.Token0Price PoolMemo.unset).1.Fraction.toRat
      = (p.SqrtRatioX96 : ℚ) ^ 2 / 2 ^ 192 := by
    simp only [Pool.Token0Price, PoolMemo.unset, NewPrice, Fraction.toRat, hq]
    push_cast
    ring
  have hf1 : (p.Token1Price PoolMemo.unset).1.Fraction.toRat
      = 2 ^ 192 / (p.SqrtRatioX96 : ℚ) ^ 2 := by
    simp only [Pool.Token1Price, PoolMemo.unset, NewPrice, Fraction.toRat, hq]
    push_cast
    ring
  have hprod :
      (p.SqrtRatioX96 : ℚ) ^ 2 / 2 ^ 192 * (2 ^ 192 / (p.SqrtRatioX96 : ℚ) ^ 2) = 1 := by
    field_simp
  have hrefl : ∀ t : Token, t.Equal (.token t) = true := fun t =>
    (Token.Equal_token_iff t t).2 rfl
  have hne01 : p.Currency0.Equal (.token p.Currency1) = false := by
    rw [Bool.eq_false_iff]
    intro h
    exact hne ((Token.Equal_token_iff _ _).1 h)
  refine ⟨⟨?_, ?_, ?_⟩, ⟨?_, ?_, ?_⟩, ⟨?_, ?_⟩,
    ⟨h0, h1, hmemo.token0Price, hmemo.token1Price, ?_, ?_⟩, ?_, ?_, ?_⟩
  · rw [h0, hf0]
  · rw [h0]; rfl
  · rw [h0]; rfl
  · rw [h1, hf1]
  · rw [h1]; rfl
  · rw [h1]; rfl
  · rw [h0, h1, hf0, hf1, hprod]
  · rw [h0, h1]
    have hmul : (p.Token0Price PoolMemo.unset).1.Multiply (p.Token1Price PoolMemo.unset).1
        = .ok (NewPrice (.token p.Currency0) (.token p.Currency0)
            (((p.Token0Price PoolMemo.unset).1.Fraction.Multiply
              (p.Token1Price PoolMemo.unset).1.Fraction).Denominator)
            (((p.Token0Price PoolMemo.unset).1.Fraction.Multiply
              (p.Token1Price PoolMemo.unset).1.Fraction).Numerator)) := by
      simp only [Price.Multiply, Pool.Token0Price, Pool.Token1Price, PoolMemo.unset, NewPrice,
        Currency.Equal, and_self, decide_True, Bool.not_true, Bool.false_eq_true, if_false]
    refine ⟨_, hmul, ?_⟩
    have hm := Fraction.Multiply_toRat (p.Token0Price PoolMemo.unset).1.Fraction
      (p.Token1Price PoolMemo.unset).1.Fraction
    rw [hf0, hf1, hprod] at hm
    exact hm
  · cases hm : memo.token0Price <;> simp [Pool.Token0Price, hm]
  · cases hm : memo.token1Price <;> simp [Pool.Token1Price, hm]
  · simp only [Pool.PriceOf, Pool.InvolvesToken, hrefl, Bool.true_or, Bool.not_true,
      Bool.false_eq_true, if_false, if_true]
  · simp only [Pool.PriceOf, Pool.InvolvesToken, hrefl, hne01, Bool.or_true, Bool.not_true,
      Bool.false_eq_true, if_false]
  · intro token h0' h1'
    have e0 : p.Currency0.Equal (.token token) = false := by
      rw [Bool.eq_false_iff]
      intro h
      exact h0' ((Token.Equal_token_iff _ _).1 h).symm
    have e1 : p.Currency1.Equal (.token token) = false := by
      rw [Bool.eq_false_iff]
      intro h
      exact h1' ((Token.Equal_token_iff _ _).1 h).symm
    simp only [Pool.PriceOf, Pool.InvolvesToken, e0, e1, Bool.or_false, Bool.not_false, if_true]

/-- Witness of C30: the pool of A and B, at sqrt price `2^96`, new and after a
call of `Token0Price`. -/
theorem pool_prices_witness :
    (poolAB.Token0Price PoolMemo.unset).1.Fraction.toRat
        * (poolAB.Token1Price PoolMemo.unset).1.Fraction.toRat = 1 ∧
      poolAB.PriceOf (poolAB.Token0Price PoolMemo.unset).2 tokenB
        = .ok (poolAB.Token1Price (poolAB.Token0Price PoolMemo.unset).2) ∧
      poolAB.PriceOf PoolMemo.unset tokenC = .error .ErrTokenNotInvolved :=
  ⟨(pool_prices poolAB PoolMemo.unset .unset (by norm_num [poolAB, samplePool])
      (by decide)).2.2.1.1,
    (pool_prices poolAB (poolAB.Token0Price PoolMemo.unset).2 (.token0Price .unset)
      (by norm_num [poolAB, samplePool]) (by decide)).2.2.2.2.2.1,
    (pool_prices poolAB PoolMemo.unset .unset (by norm_num [poolAB, samplePool])
      (by decide)).2.2.2.2.2.2 tokenC (by decide) (by decide)⟩

/-! ## The mid price of a route -/

theorem connects_cases {pool : Pool} {t t2 : Token} (h : connects pool t t2 = true) :
    (t = pool.Currency0 ∧ t2 = pool.Currency1) ∨
      (t = pool.Currency1 ∧ t2 = pool.Currency0) := by
  simpa only [connects, Bool.or_eq_true, Bool.and_eq_true, decide_eq_true_eq] using h

/-- Along a continuous path, `reducePrice` multiplies the price it is given by
the directional prices of the pools, in order. -/
theorem reducePrice_continuous (pools : List Pool) :
    ∀ (t : Token) (path : List Token) (price : Price),
      continuousPath pools (t :: path) = true → price.QuoteCurrency = .token t →
      ∃ result, reducePrice t price pools = .ok result ∧
        result.Fraction.Numerator
          = price.Fraction.Numerator * (pathPrice pools (t :: path)).Numerator ∧
        result.Fraction.Denominator
          = price.Fraction.Denominator * (pathPrice pools (t :: path)).Denominator := by
  induction pools with
  | nil =>
    intro t path price _ _
    exact ⟨price, rfl, by simp [pathPrice], by simp [pathPrice]⟩
  | cons p rest ih =>
    intro t path price hcont hquote
    cases path with
    | nil => simp [continuousPath] at hcont
    | cons t2 path =>
      simp only [continuousPath, Bool.and_eq_true] at hcont
      obtain ⟨hconn, hrest⟩ := hcont
      have hrefl : ∀ c : Currency, c.Equal c = true := fun c => by
        cases c <;> simp [Currency.Equal]
      by_cases h0 : t = p.Currency0
      · have ht2 : t2 = p.Currency1 := by
          rcases connects_cases hconn with ⟨_, h⟩ | ⟨h1, h⟩
          · exact h
          · rw [h, ← h0, h1]
        have heq : t.Equal (.token p.Currency0) = true := (Token.Equal_token_iff _ _).2 h0
        have hmul : price.Multiply (p.Token0Price PoolMemo.unset).1
            = .ok (NewPrice price.BaseCurrency (.token p.Currency1)
                (price.Fraction.Multiply (p.Token0Price PoolMemo.unset).1.Fraction).Denominator
                (price.Fraction.Multiply (p.Token0Price PoolMemo.unset).1.Fraction).Numerator) := by
          simp only [Price.Multiply, Pool.Token0Price, PoolMemo.unset, NewPrice, hquote, h0, hrefl,
            Bool.not_true, Bool.false_eq_true, if_false]
        obtain ⟨result, hres, hn, hd⟩ := ih t2 path
          (NewPrice price.BaseCurrency (.token p.Currency1)
            (price.Fraction.Multiply (p.Token0Price PoolMemo.unset).1.Fraction).Denominator
            (price.Fraction.Multiply (p.Token0Price PoolMemo.unset).1.Fraction).Numerator)
          hrest (by rw [ht2]; rfl)
        refine ⟨result, ?_, ?_, ?_⟩
        · simp only [reducePrice, heq, if_true, hmul, bind, Except.bind]
          rw [ht2] at hres
          exact hres
        · rw [hn]
          simp only [pathPrice, directionalPrice, h0, if_true, NewPrice, Fraction.Multiply]
          ring
        · rw [hd]
          simp only [pathPrice, directionalPrice, h0, if_true, NewPrice, Fraction.Multiply]
          ring
      · have ht : t = p.Currency1 ∧ t2 = p.Currency0 := by
          rcases connects_cases hconn with ⟨h, _⟩ | h
          · exact absurd h h0
          · exact h
        have heq : t.Equal (.token p.Currency0) = false := by
          rw [Bool.eq_false_iff]
          intro h
          exact h0 ((Token.Equal_token_iff _ _).1 h)
        have hmul : price.Multiply (p.Token1Price PoolMemo.unset).1
            = .ok (NewPrice price.BaseCurrency (.token p.Currency0)
                (price.Fraction.Multiply (p.Token1Price PoolMemo.unset).1.Fraction).Denominator
                (price.Fraction.Multiply (p.Token1Price PoolMemo.unset).1.Fraction).Numerator) := by
          simp only [Price.Multiply, Pool.Token1Price, PoolMemo.unset, NewPrice, hquote, ht.1,
            hrefl, Bool.not_true, Bool.false_eq_true, if_false]
        obtain ⟨result, hres, hn, hd⟩ := ih t2 path
          (NewPrice price.BaseCurrency (.token p.Currency0)
            (price.Fraction.Multiply (p.Token1Price PoolMemo.unset).1.Fraction).Denominator
            (price.Fraction.Multiply (p.Token1Price PoolMemo.unset).1.Fraction).Numerator)
          hrest (by rw [ht.2]; rfl)
        refine ⟨result, ?_, ?_, ?_⟩
        · simp only [reducePrice, heq, Bool.false_eq_true, if_false, hmul, bind, Except.bind]
          rw [ht.2] at hres
          exact hres
        · rw [hn]
          simp only [pathPrice, directionalPrice, h0, if_false, NewPrice, Fraction.Multiply]
          ring
        · rw [hd]
          simp only [pathPrice, directionalPrice, h0, if_false, NewPrice, Fraction.Multiply]
          ring

/-- The mid price of a route with a continuous token path that starts at the
route's input: the product of the directional prices, from the route's input to
its output. -/
theorem MidPrice_continuous (r : Route) (start : Token)
    (hcont : continuousPath r.Pools r.TokenPath = true) (hpools : r.Pools ≠ [])
    (hstart : r.TokenPath.head? = some start) (hinput : r.Input = .token start) :
    r.MidPrice none
      = .ok (NewPrice r.Input r.Output (pathPrice r.Pools r.TokenPath).Denominator
              (pathPrice r.Pools r.TokenPath).Numerator,
            some (NewPrice r.Input r.Output (pathPrice r.Pools r.TokenPath).Denominator
              (pathPrice r.Pools r.TokenPath).Numerator)) := by
  cases hp : r.Pools with
  | nil => exact absurd hp hpools
  | cons first rest =>
    cases hT : r.TokenPath with
    | nil => rw [hT] at hstart; cases hstart
    | cons t path =>
      rw [hT] at hstart
      have hts : t = start := Option.some.inj hstart
      subst hts
      rw [hp, hT] at hcont
      cases path with
      | nil => simp [continuousPath] at hcont
      | cons t2 path =>
        simp only [continuousPath, Bool.and_eq_true] at hcont
        obtain ⟨hconn, hrest⟩ := hcont
        by_cases h0 : t = first.Currency0
        · have ht2 : t2 = first.Currency1 := by
            rcases connects_cases hconn with ⟨_, h⟩ | ⟨h1, h⟩
            · exact h
            · rw [h, ← h0, h1]
          have heq : first.Currency0.Equal r.Input = true := by
            rw [hinput]
            exact (Token.Equal_token_iff _ _).2 h0.symm
          obtain ⟨result, hres, hn, hd⟩ := reducePrice_continuous rest t2 path
            (first.Token0Price PoolMemo.unset).1 hrest (by rw [ht2]; rfl)
          rw [ht2] at hres
          simp only [Route.MidPrice, hp, heq, if_true, hres, bind, Except.bind, hn, hd]
          simp only [pathPrice, directionalPrice, h0, if_true, Fraction.Multiply]
        · have ht : t = first.Currency1 ∧ t2 = first.Currency0 := by
            rcases connects_cases hconn with ⟨h, _⟩ | h
            · exact absurd h h0
            · exact h
          have heq : first.Currency0.Equal r.Input = false := by
            rw [hinput, Bool.eq_false_iff]
            intro h
            exact h0 ((Token.Equal_token_iff _ _).1 h).symm
          obtain ⟨result, hres, hn, hd⟩ := reducePrice_continuous rest t2 path
            (first.Token1Price PoolMemo.unset).1 hrest (by rw [ht.2]; rfl)
          rw [ht.2] at hres
          simp only [Route.MidPrice, hp, heq, Bool.false_eq_true, if_false, hres, bind,
            Except.bind, hn, hd]
          simp only [pathPrice, directionalPrice, h0, if_false, Fraction.Multiply]

/-- C29: for every route with pools `p[0..n-1]`, `n >= 1`, and a continuous token
path `T[0..n]` whose input is `T[0]`, `MidPrice` returns the price with the
route's input as base, its output as quote, and as value the product over `i` of
the price of `T[i]` in pool `p[i]` (`Token0Price` when `T[i]` is the pool's
currency0, `Token1Price` otherwise); it stores that price in the route, and a
second call returns the same price. -/
theorem MidPrice_product (r : Route) (start : Token)
    (hcont : continuousPath r.Pools r.TokenPath = true) (hpools : r.Pools ≠ [])
    (hstart : r.TokenPath.head? = some start) (hinput : r.Input = .token start) :
    ∃ price, r.MidPrice none = .ok (price, some price) ∧
      price.BaseCurrency = r.Input ∧ price.QuoteCurrency = r.Output ∧
      price.Fraction = pathPrice r.Pools r.TokenPath ∧
      r.MidPrice (some price) = .ok (price, some price) :=
  ⟨_, MidPrice_continuous r start hcont hpools hstart hinput, rfl, rfl, rfl, rfl⟩

/-- Witness of C29: the route from A over B to C. -/
theorem MidPrice_product_witness :
    ∃ price, routeABC.MidPrice none = .ok (price, some price) ∧
      price.BaseCurrency = .token tokenA ∧ price.QuoteCurrency = .token tokenC ∧
      price.Fraction = pathPrice [poolAB, poolBC] [tokenA, tokenB, tokenC] ∧
      routeABC.MidPrice (some price) = .ok (price, some price) :=
  MidPrice_product routeABC tokenA rfl (by simp [routeABC]) rfl rfl

/-! ## Price impact -/

theorem Fraction.Add_toRat (f g : Fraction) (hf : 0 < f.Denominator) (hg : 0 < g.Denominator) :
    (f.Add g).toRat = f.toRat + g.toRat := by
  have hf' : (f.Denominator : ℚ) ≠ 0 := by exact_mod_cast hf.ne'
  have hg' : (g.Denominator : ℚ) ≠ 0 := by exact_mod_cast hg.ne'
  unfold Fraction.Add
  split_ifs with h
  · simp only [Fraction.toRat]
    rw [← h]
    push_cast
    rw [add_div]
  · simp only [Fraction.toRat]
    push_cast
    rw [div_add_div _ _ hf' hg']
    ring

theorem Fraction.Subtract_toRat (f g : Fraction) (hf : 0 < f.Denominator)
    (hg : 0 < g.Denominator) :
    (f.Subtract g).toRat = f.toRat - g.toRat ∧ 0 < (f.Subtract g).Denominator := by
  have hf' : (f.Denominator : ℚ) ≠ 0 := by exact_mod_cast hf.ne'
  have hg' : (g.Denominator : ℚ) ≠ 0 := by exact_mod_cast hg.ne'
  unfold Fraction.Subtract
  split_ifs with h
  · simp only [Fraction.toRat]
    refine ⟨?_, hf⟩
    rw [← h]
    push_cast
    rw [sub_div]
  · simp only [Fraction.toRat]
    refine ⟨?_, Int.mul_pos hf hg⟩
    push_cast
    rw [div_sub_div _ _ hf' hg']
    ring

theorem Fraction.Divide_toRat (f g : Fraction) : (f.Divide g).toRat = f.toRat / g.toRat := by
  simp only [Fraction.Divide, Fraction.toRat]
  push_cast
  rw [div_div_div_eq]

/-- One round of the loop of `PriceImpact` adds the spot quote of the swap. -/
theorem spotStep_eq (acc : CurrencyAmount) (swap : Swap) :
    spotStep acc swap = (spotQuote swap).map (fun q => acc.Add q) := by
  unfold spotStep spotQuote
  simp only [bind, Except.bind, pure, Except.pure]
  cases swap.Route.MidPrice none with
  | error e => rfl
  | ok r =>
    simp only []
    cases r.1.Quote swap.InputAmount with
    | error e => rfl
    | ok q => rfl

/-- The loop of `PriceImpact` over swaps that all have a spot quote returns the
amount it started from plus the sum of the spot quotes. -/
theorem spotLoop_sum (swaps : List Swap) :
    ∀ acc : CurrencyAmount,
      (∀ s ∈ swaps, ∃ q, spotQuote s = .ok q ∧ 0 < q.Fraction.Denominator) →
      0 < acc.Fraction.Denominator →
      ∃ spot, swaps.foldlM spotStep acc = .ok spot ∧ 0 < spot.Fraction.Denominator ∧
        spot.Fraction.toRat = acc.Fraction.toRat + (swaps.map spotQuoteRat).sum := by
  induction swaps with
  | nil =>
    intro acc _ hacc
    exact ⟨acc, rfl, hacc, by simp⟩
  | cons s rest ih =>
    intro acc hq hacc
    obtain ⟨q, hsq, hqd⟩ := hq s (List.mem_cons_self _ _)
    have hstep : spotStep acc s = .ok (acc.Add q) := by
      rw [spotStep_eq, hsq]
      rfl
    have hadd : 0 < (acc.Add q).Fraction.Denominator := Fraction.Add_denominator_pos hacc hqd
    obtain ⟨spot, hspot, hd, hsum⟩ := ih (acc.Add q)
      (fun s' hs' => hq s' (List.mem_cons_of_mem _ hs')) hadd
    refine ⟨spot, ?_, hd, ?_⟩
    · rw [List.foldlM_cons, hstep]
      exact hspot
    · rw [hsum]
      have hrat : spotQuoteRat s = q.Fraction.toRat := by
        simp only [spotQuoteRat, hsq]
      simp only [List.map_cons, List.sum_cons, hrat, CurrencyAmount.Add]
      rw [Fraction.Add_toRat _ _ hacc hqd]
      ring

/-- C22: for every trade with at least one swap, all of whose swaps have a spot
quote (the swap's input amount at the mid price of the swap's own route), all
amounts being fractions with positive denominators, and whose summed spot quote
`S` is not zero: `PriceImpact` returns a fraction with a denominator other than
zero that equals `(S - total output amount) / S`. -/
theorem PriceImpact_spec (t : Trade) (hswaps : t.Swaps ≠ []) (hquoted : SpotQuoted t)
    (hpos : PositiveDenominators t) (hS : summedSpotQuote t ≠ 0) :
    ∃ output impact, t.OutputAmount = .ok output ∧ t.PriceImpact = .ok impact ∧
      impact.Denominator ≠ 0 ∧
      impact.toRat = (summedSpotQuote t - output.Fraction.toRat) / summedSpotQuote t := by
  obtain ⟨output, hout⟩ : ∃ output, t.OutputAmount = .ok output := by
    cases hsw : t.Swaps with
    | nil => exact absurd hsw hswaps
    | cons first rest =>
      refine ⟨t.Swaps.foldl (fun total swap => total.Add swap.OutputAmount)
        (CurrencyAmount.FromRawAmount first.OutputAmount.Currency 0), ?_⟩
      simp only [Trade.OutputAmount, hsw]
  have houtd := OutputAmount_denominator_pos hout hpos
  obtain ⟨spot, hspot, hspotd, hsum⟩ := spotLoop_sum t.Swaps
    (CurrencyAmount.FromRawAmount output.Currency 0) hquoted
    (by simp [CurrencyAmount.FromRawAmount])
  have hS' : spot.Fraction.toRat = summedSpotQuote t := by
    rw [hsum]
    simp [CurrencyAmount.FromRawAmount, Fraction.toRat, summedSpotQuote]
  have hnum : spot.Fraction.Numerator ≠ 0 := by
    intro h0
    apply hS
    rw [← hS']
    simp [Fraction.toRat, h0]
  have hsub := Fraction.Subtract_toRat spot.Fraction output.Fraction hspotd houtd
  refine ⟨output, (spot.Fraction.Subtract output.Fraction).Divide spot.Fraction, hout,
    ?_, ?_, ?_⟩
  · simp only [Trade.PriceImpact, hout, hspot, bind, Except.bind, pure, Except.pure]
    rfl
  · simp only [Fraction.Divide]
    exact Int.mul_ne_zero hsub.2.ne' hnum
  · have hdiv := Fraction.Divide_toRat (spot.Fraction.Subtract output.Fraction) spot.Fraction
    rw [hsub.1, hS'] at hdiv
    exact hdiv

theorem pathPrice_pos (pools : List Pool) (hs : ∀ p ∈ pools, 0 < p.SqrtRatioX96) :
    ∀ path : List Token,
      0 < (pathPrice pools path).Numerator ∧ 0 < (pathPrice pools path).Denominator := by
  induction pools with
  | nil =>
    intro path
    simp [pathPrice]
  | cons p rest ih =>
    intro path
    cases path with
    | nil => simp [pathPrice]
    | cons t path =>
      have hp : 0 < p.SqrtRatioX96 := hs p (List.mem_cons_self _ _)
      have hsq : 0 < p.SqrtRatioX96 * p.SqrtRatioX96 := Int.mul_pos hp hp
      have hq : 0 < Q192 := by norm_num [Q192]
      have hrest := ih (fun p' hp' => hs p' (List.mem_cons_of_mem _ hp')) path
      simp only [pathPrice, directionalPrice, Fraction.Multiply]
      split_ifs
      · exact ⟨Int.mul_pos hsq hrest.1, Int.mul_pos hq hrest.2⟩
      · exact ⟨Int.mul_pos hq hrest.1, Int.mul_pos hsq hrest.2⟩

/-- The spot quote of a swap over a route with a continuous token path that
starts at the route's input, for an input amount in the route's input currency:
the input amount times the product of the directional prices, in the route's
output currency. -/
theorem spotQuote_continuous (s : Swap) (start : Token)
    (hcont : continuousPath s.Route.Pools s.Route.TokenPath = true)
    (hpools : s.Route.Pools ≠ []) (hstart : s.Route.TokenPath.head? = some start)
    (hinput : s.Route.Input = .token start)
    (hcur : s.InputAmount.Currency.Equal s.Route.Input = true) :
    spotQuote s = .ok (CurrencyAmount.FromFractionalAmount s.Route.Output
      (((pathPrice s.Route.Pools s.Route.TokenPath).Multiply s.InputAmount.Fraction).Numerator)
      (((pathPrice s.Route.Pools s.Route.TokenPath).Multiply
        s.InputAmount.Fraction).Denominator)) := by
  simp only [spotQuote, MidPrice_continuous s.Route start hcont hpools hstart hinput, bind,
    Except.bind, Price.Quote, NewPrice, hcur, Bool.not_true, Bool.false_eq_true, if_false]

/-- A trade whose swaps run over routes with a continuous token path that starts
at the route's input, through pools with a positive sqrt price, and have their
input amount in the route's input currency, has a spot quote for every swap. -/
theorem SpotQuoted_of_continuous (t : Trade) (hpos : PositiveDenominators t)
    (h : ∀ s ∈ t.Swaps, continuousPath s.Route.Pools s.Route.TokenPath = true ∧
      s.Route.Pools ≠ [] ∧ (∃ start, s.Route.TokenPath.head? = some start ∧
        s.Route.Input = .token start) ∧
      s.InputAmount.Currency.Equal s.Route.Input = true ∧
      ∀ p ∈ s.Route.Pools, 0 < p.SqrtRatioX96) :
    SpotQuoted t ∧
      ∀ s ∈ t.Swaps, spotQuoteRat s
        = (pathPrice s.Route.Pools s.Route.TokenPath).toRat * s.InputAmount.Fraction.toRat := by
  constructor
  · intro s hs
    obtain ⟨hcont, hpools, ⟨start, hstart, hinput⟩, hcur, hsqrt⟩ := h s hs
    refine ⟨_, spotQuote_continuous s start hcont hpools hstart hinput hcur, ?_⟩
    simp only [CurrencyAmount.FromFractionalAmount, Fraction.Multiply]
    exact Int.mul_pos (pathPrice_pos _ hsqrt _).2 (hpos s hs).1
  · intro s hs
    obtain ⟨hcont, hpools, ⟨start, hstart, hinput⟩, hcur, hsqrt⟩ := h s hs
    simp only [spotQuoteRat, spotQuote_continuous s start hcont hpools hstart hinput hcur,
      CurrencyAmount.FromFractionalAmount]
    exact Fraction.Multiply_toRat _ _

/-- The sample trade from A to B has a spot quote, its input amount at the price
of one B for one A. -/
theorem sampleTrade_spotQuoted (i o : Int) :
    SpotQuoted (sampleTrade i o) ∧ summedSpotQuote (sampleTrade i o) = i := by
  have h := SpotQuoted_of_continuous (sampleTrade i o) (sampleTrade_positiveDenominators i o)
    (by
      intro s hs
      simp only [sampleTrade, List.mem_singleton] at hs
      subst hs
      refine ⟨rfl, by simp [routeAB], ⟨tokenA, rfl, rfl⟩, rfl, ?_⟩
      intro p hp
      simp only [routeAB, List.mem_singleton] at hp
      subst hp
      norm_num [poolAB, samplePool])
  refine ⟨h.1, ?_⟩
  have hs := h.2 _ (List.mem_singleton.2 rfl : _ ∈ (sampleTrade i o).Swaps)
  simp only [summedSpotQuote, sampleTrade, List.map_cons, List.map_nil, List.sum_cons,
    List.sum_nil, add_zero] at hs ⊢
  rw [hs]
  simp only [routeAB, pathPrice, directionalPrice, poolAB, samplePool, Pool.Token0Price,
    PoolMemo.unset, NewPrice, Fraction.Multiply, Fraction.toRat, amountOf,
    CurrencyAmount.FromRawAmount, if_true, Q192]
  norm_num

/-- Witness of C22: the sample trade from A to B with input 100 A, quoted at 100 B
by the pool's price, and output 90 B has a price impact of one tenth. -/
theorem PriceImpact_spec_witness :
    summedSpotQuote (sampleTrade 100 90) = 100 ∧
      ∃ impact, (sampleTrade 100 90).PriceImpact = .ok impact ∧ impact.Denominator ≠ 0 ∧
        impact.toRat = 1 / 10 := by
  refine ⟨by rw [(sampleTrade_spotQuoted 100 90).2]; norm_num, ?_⟩
  obtain ⟨output, impact, hout, himpact, hden, hrat⟩ :=
    PriceImpact_spec (sampleTrade 100 90) (by simp [sampleTrade])
      (sampleTrade_spotQuoted 100 90).1 (sampleTrade_positiveDenominators 100 90)
      (by rw [(sampleTrade_spotQuoted 100 90).2]; norm_num)
  have hout' : (sampleTrade 100 90).OutputAmount = .ok (amountOf tokenB 90) := rfl
  rw [hout'] at hout
  cases hout
  refine ⟨impact, himpact, hden, ?_⟩
  rw [hrat, (sampleTrade_spotQuoted 100 90).2]
  norm_num [amountOf, CurrencyAmount.FromRawAmount, Fraction.toRat]

/-! ## The unchecked constructor for several routes -/

theorem currencyLoop_ok (first : Swap) (swaps : List Swap)
    (h : ∀ s ∈ swaps, inputAgrees first s = true ∧ outputAgrees first s = true) :
    currencyLoop first.InputAmount.Currency first.OutputAmount.Currency swaps = .ok () := by
  induction swaps with
  | nil => rfl
  | cons s rest ih =>
    have hs := h s (List.mem_cons_self _ _)
    simp only [inputAgrees, outputAgrees] at hs
    simp only [currencyLoop, hs.1, hs.2, Bool.not_true, Bool.false_eq_true, if_false]
    exact ih (fun s' hs' => h s' (List.mem_cons_of_mem _ hs'))

/-- The first loop of `newTrade` fails at the first swap that disagrees, with the
input error when its route's input disagrees and with the output error
otherwise. -/
theorem currencyLoop_first_mismatch (first : Swap) (pre : List Swap) (s : Swap)
    (post : List Swap)
    (h : ∀ x ∈ pre, inputAgrees first x = true ∧ outputAgrees first x = true) :
    (inputAgrees first s = false →
        currencyLoop first.InputAmount.Currency first.OutputAmount.Currency (pre ++ s :: post)
          = .error .ErrInputCurrencyMismatch) ∧
      (inputAgrees first s = true → outputAgrees first s = false →
        currencyLoop first.InputAmount.Currency first.OutputAmount.Currency (pre ++ s :: post)
          = .error .ErrOutputCurrencyMismatch) := by
  induction pre with
  | nil =>
    constructor
    · intro hi
      simp only [inputAgrees] at hi
      simp only [List.nil_append, currencyLoop, hi, Bool.not_false, if_true]
    · intro hi ho
      simp only [inputAgrees, outputAgrees] at hi ho
      simp only [List.nil_append, currencyLoop, hi, ho, Bool.not_true, Bool.not_false,
        Bool.false_eq_true, if_false, if_true]
  | cons x pre ih =>
    have hx := h x (List.mem_cons_self _ _)
    simp only [inputAgrees, outputAgrees] at hx
    have ih' := ih (fun y hy => h y (List.mem_cons_of_mem _ hy))
    simp only [List.cons_append, currencyLoop, hx.1, hx.2, Bool.not_true, Bool.false_eq_true,
      if_false]
    exact ih'

theorem GetPoolId_distinct (env : External) (p : Pool) (h : hasDistinctCurrencies p) :
    GetPoolId env p.Currency0 p.Currency1 p.Fee p.TickSpacing p.Hooks
      = .ok (poolIdOf env p) := by
  obtain ⟨hchain, hne⟩ := h
  rcases Nat.lt_or_gt_of_ne hne with hlt | hgt
  · rw [(GetPoolId_sorted env p.Currency0 p.Currency1 p.Fee p.TickSpacing p.Hooks hchain hlt).1,
      poolIdOf, min_eq_left hlt.le, max_eq_right hlt.le]
  · rw [(GetPoolId_sorted env p.Currency1 p.Currency0 p.Fee p.TickSpacing p.Hooks hchain.symm
      hgt).2, poolIdOf, min_eq_right hgt.le, max_eq_left hgt.le]

theorem poolIdLoop_distinct (env : External) (pools : List Pool) :
    ∀ set : List (List Nat), (∀ p ∈ pools, hasDistinctCurrencies p) →
      poolIdLoop env pools set
        = .ok ((pools.map (poolIdOf env)).foldl setKey set) := by
  induction pools with
  | nil =>
    intro set _
    rfl
  | cons p rest ih =>
    intro set h
    simp only [poolIdLoop, GetPoolId_distinct env p (h p (List.mem_cons_self _ _)), bind,
      Except.bind, List.map_cons, List.foldl_cons]
    exact ih _ (fun p' hp' => h p' (List.mem_cons_of_mem _ hp'))

theorem routeIdLoop_distinct (env : External) (swaps : List Swap) :
    ∀ set : List (List Nat), (∀ p ∈ allPools swaps, hasDistinctCurrencies p) →
      routeIdLoop env swaps set
        = .ok (((allPools swaps).map (poolIdOf env)).foldl setKey set) := by
  induction swaps with
  | nil =>
    intro set _
    rfl
  | cons s rest ih =>
    intro set h
    have hs : ∀ p ∈ s.Route.Pools, hasDistinctCurrencies p := fun p hp =>
      h p (by simp only [allPools, List.flatMap_cons, List.mem_append]; exact Or.inl hp)
    have hrest : ∀ p ∈ allPools rest, hasDistinctCurrencies p := fun p hp =>
      h p (by
        simp only [allPools, List.flatMap_cons, List.mem_append]
        exact Or.inr hp)
    simp only [routeIdLoop, poolIdLoop_distinct env s.Route.Pools set hs, bind, Except.bind]
    rw [ih _ hrest]
    simp only [allPools, List.flatMap_cons, List.map_append, List.foldl_append]

/-- The keys of a map after a run of insertions: no key twice, and the keys it
had together with the keys inserted. -/
theorem foldl_insert_keys (ids : List (List Nat)) :
    ∀ set : List (List Nat), set.Nodup →
      (ids.foldl setKey set).Nodup ∧
        (ids.foldl setKey set).toFinset = set.toFinset ∪ ids.toFinset := by
  induction ids with
  | nil =>
    intro set h
    exact ⟨h, by simp⟩
  | cons id rest ih =>
    intro set h
    have hset : (setKey set id).Nodup ∧ ∀ x, x ∈ setKey set id ↔ x = id ∨ x ∈ set := by
      unfold setKey
      split_ifs with hmem
      · refine ⟨h, fun x => ⟨Or.inr, ?_⟩⟩
        rintro (rfl | hx)
        · exact hmem
        · exact hx
      · exact ⟨List.nodup_cons.2 ⟨hmem, h⟩, fun x => List.mem_cons⟩
    obtain ⟨hn, hf⟩ := ih (setKey set id) hset.1
    refine ⟨hn, ?_⟩
    simp only [List.foldl_cons]
    rw [hf]
    ext x
    simp only [Finset.mem_union, List.mem_toFinset, hset.2, List.mem_cons]
    tauto

theorem foldl_insert_length (ids : List (List Nat)) :
    (ids.foldl setKey []).length = ids.toFinset.card := by
  obtain ⟨hn, hf⟩ := foldl_insert_keys ids [] List.nodup_nil
  rw [← List.toFinset_card_of_nodup hn, hf]
  simp

theorem numPools_eq (swaps : List Swap) :
    ∀ n : Nat, swaps.foldl (fun numPools route => numPools + route.Route.Pools.length) n
      = n + (allPools swaps).length := by
  induction swaps with
  | nil =>
    intro n
    rfl
  | cons s rest ih =>
    intro n
    simp only [List.foldl_cons, ih, allPools, List.flatMap_cons, List.length_append]
    omega

/-- What `newTrade` returns on swaps that agree on their currencies, over pools of
two different currencies each. -/
theorem newTrade_agreeing (env : External) (first : Swap) (rest : List Swap)
    (tradeType : TradeType)
    (hagree : ∀ s ∈ first :: rest, inputAgrees first s = true ∧ outputAgrees first s = true)
    (hpools : ∀ p ∈ allPools (first :: rest), hasDistinctCurrencies p) :
    newTrade env (first :: rest) tradeType
      = if distinctPoolIds env (first :: rest) ≠ (allPools (first :: rest)).length then
          .error .ErrDuplicatePools
        else .ok { Swaps := first :: rest, TradeType := tradeType } := by
  have hnum := numPools_eq (first :: rest) 0
  rw [Nat.zero_add] at hnum
  simp only [newTrade, currencyLoop_ok first (first :: rest) hagree,
    routeIdLoop_distinct env (first :: rest) [] hpools, foldl_insert_length, hnum, bind,
    Except.bind, pure, Except.pure, throw, throwThe, MonadExceptOf.throw, distinctPoolIds]

/-- For a non-empty swap list and any external libraries: when the route of every
swap starts at the currency of the first swap's input amount and ends at the currency of its output
amount (in wrapped form), and every pool has two different currencies of one
chain, `CreateUncheckedTradeWithMultipleRoutes` fails with `ErrDuplicatePools` if
and only if the number of distinct pool ids over all pools of all routes is
smaller than the number of those pools, and otherwise returns the trade that
holds exactly the given swaps and trade type.  When some swap disagrees, the call
fails at the first such swap in order: with `ErrInputCurrencyMismatch` when the
input of its route disagrees, with `ErrOutputCurrencyMismatch` when the input
agrees and the output disagrees. -/
theorem CreateUncheckedTradeWithMultipleRoutes_spec (env : External) (first : Swap)
    (rest : List Swap) (tradeType : TradeType) :
    ((∀ s ∈ first :: rest, inputAgrees first s = true ∧ outputAgrees first s = true) →
        (∀ p ∈ allPools (first :: rest), hasDistinctCurrencies p) →
        (CreateUncheckedTradeWithMultipleRoutes env (first :: rest) tradeType
              = .error .ErrDuplicatePools ↔
            distinctPoolIds env (first :: rest) < (allPools (first :: rest)).length) ∧
          (¬ distinctPoolIds env (first :: rest) < (allPools (first :: rest)).length →
            CreateUncheckedTradeWithMultipleRoutes env (first :: rest) tradeType
              = .ok { Swaps := first :: rest, TradeType := tradeType })) ∧
      (∀ pre s post, first :: rest = pre ++ s :: post →
        (∀ x ∈ pre, inputAgrees first x = true ∧ outputAgrees first x = true) →
        (inputAgrees first s = false →
            CreateUncheckedTradeWithMultipleRoutes env (first :: rest) tradeType
              = .error .ErrInputCurrencyMismatch) ∧
          (inputAgrees first s = true → outputAgrees first s = false →
            CreateUncheckedTradeWithMultipleRoutes env (first :: rest) tradeType
              = .error .ErrOutputCurrencyMismatch)) := by
  constructor
  · intro hagree hpools
    have hle : distinctPoolIds env (first :: rest) ≤ (allPools (first :: rest)).length := by
      unfold distinctPoolIds
      calc ((allPools (first :: rest)).map (poolIdOf env)).toFinset.card
          ≤ ((allPools (first :: rest)).map (poolIdOf env)).length := List.toFinset_card_le _
        _ = (allPools (first :: rest)).length := List.length_map _ _
    unfold CreateUncheckedTradeWithMultipleRoutes
    rw [newTrade_agreeing env first rest tradeType hagree hpools]
    constructor
    · constructor
      · intro h
        split_ifs at h with hne
        · omega
      · intro h
        rw [if_pos (by omega)]
    · intro h
      rw [if_neg (by omega)]
  · intro pre s post hsplit hpre
    have hloop := currencyLoop_first_mismatch first pre s post hpre
    rw [← hsplit] at hloop
    unfold CreateUncheckedTradeWithMultipleRoutes
    constructor
    · intro hi
      simp only [newTrade, hloop.1 hi, bind, Except.bind]
    · intro hi ho
      simp only [newTrade, hloop.2 hi ho, bind, Except.bind]

/-- On the sample libraries, whose stand-in `Pack` accepts the pool key: two swaps
from A to B through the same pool are refused as duplicates, two swaps from A to
B through two pools of different fee make a trade, a swap from B to C after one
from A to B is refused for its input and a swap from A to C after one from A to
B for its output. -/
theorem CreateUncheckedTradeWithMultipleRoutes_spec_witness :
    CreateUncheckedTradeWithMultipleRoutes sampleEnv [swapAB 100 90, swapAB 50 45] .ExactInput
        = .error .ErrDuplicatePools ∧
      CreateUncheckedTradeWithMultipleRoutes sampleEnv [swapAB 100 90, swapAB3000 50 45]
          .ExactInput
        = .ok { Swaps := [swapAB 100 90, swapAB3000 50 45], TradeType := .ExactInput } ∧
      CreateUncheckedTradeWithMultipleRoutes sampleEnv [swapAB 100 90, swapBC 50 45] .ExactInput
        = .error .ErrInputCurrencyMismatch ∧
      CreateUncheckedTradeWithMultipleRoutes sampleEnv [swapAB 100 90, swapABC 50 45] .ExactInput
        = .error .ErrOutputCurrencyMismatch := by
  refine ⟨?_, ?_, ?_, ?_⟩
  · refine ((CreateUncheckedTradeWithMultipleRoutes_spec sampleEnv (swapAB 100 90)
      [swapAB 50 45] .ExactInput).1 ?_ ?_).1.2 (by decide)
    · intro s hs
      simp only [List.mem_cons, List.mem_singleton, List.not_mem_nil, or_false] at hs
      rcases hs with rfl | rfl <;> exact ⟨rfl, rfl⟩
    · intro p hp
      simp only [allPools, List.flatMap_cons, List.flatMap_nil, swapAB, routeAB, List.append_nil,
        List.singleton_append, List.mem_cons, List.mem_singleton, List.not_mem_nil,
        or_false, or_self] at hp
      subst hp
      exact ⟨rfl, by decide⟩
  · refine ((CreateUncheckedTradeWithMultipleRoutes_spec sampleEnv (swapAB 100 90)
      [swapAB3000 50 45] .ExactInput).1 ?_ ?_).2 (by decide)
    · intro s hs
      simp only [List.mem_cons, List.mem_singleton, List.not_mem_nil, or_false] at hs
      rcases hs with rfl | rfl <;> exact ⟨rfl, rfl⟩
    · intro p hp
      simp only [allPools, List.flatMap_cons, List.flatMap_nil, swapAB, swapAB3000, routeAB,
        List.append_nil, List.singleton_append, List.mem_cons, List.mem_singleton,
        List.not_mem_nil, or_false] at hp
      rcases hp with rfl | rfl <;> exact ⟨rfl, by decide⟩
  · exact ((CreateUncheckedTradeWithMultipleRoutes_spec sampleEnv (swapAB 100 90)
      [swapBC 50 45] .ExactInput).2 [swapAB 100 90] (swapBC 50 45) [] rfl
      (by
        intro s hs
        simp only [List.mem_singleton] at hs
        subst hs
        exact ⟨rfl, rfl⟩)).1 rfl
  · exact ((CreateUncheckedTradeWithMultipleRoutes_spec sampleEnv (swapAB 100 90)
      [swapABC 50 45] .ExactInput).2 [swapAB 100 90] (swapABC 50 45) [] rfl
      (by
        intro s hs
        simp only [List.mem_singleton] at hs
        subst hs
        exact ⟨rfl, rfl⟩)).2 rfl rfl

set_option maxRecDepth 8000 in
/-- The pool ids `newTrade` compares are computed from the `TickSpacing` field of
the pools.  Two pools of A and B that `NewPool` builds with the tick spacings 10
and 60 carry different pool ids, but the field is zero in both, and two swaps
through them are refused as duplicates. -/
theorem newTrade_ignores_tick_spacing :
    ∃ p10 p60,
      NewPool sampleEnv tokenA tokenB 3000 10 0 79228162514264337593543950336 (10 ^ 18) 0 noTicks
        = .ok p10 ∧
      NewPool sampleEnv tokenA tokenB 3000 60 0 79228162514264337593543950336 (10 ^ 18) 0 noTicks
        = .ok p60 ∧
      p10.PoolId ≠ p60.PoolId ∧
      CreateUncheckedTradeWithMultipleRoutes sampleEnv
          [swapThrough p10 100 90, swapThrough p60 50 45] .ExactInput
        = .error .ErrDuplicatePools := by
  refine ⟨builtPool sampleEnv tokenA tokenB 3000 10 0 79228162514264337593543950336 (10 ^ 18) 0
      noTicks,
    builtPool sampleEnv tokenA tokenB 3000 60 0 79228162514264337593543950336 (10 ^ 18) 0 noTicks,
    ?_, ?_, by decide, rfl⟩
  · rw [NewPool_cases]
    rfl
  · rw [NewPool_cases]
    rfl

/-! ## The path of a route -/

theorem swapper_ends {α : Type} (a m b : List α) (x y : α) :
    swapper (a ++ x :: (m ++ y :: b)) a.length (a.length + m.length + 1)
      = a ++ y :: (m ++ x :: b) := by
  have h1 : (a ++ x :: (m ++ y :: b))[a.length]? = some x := by
    rw [List.getElem?_append_right (le_refl _)]
    simp
  have h2 : (a ++ x :: (m ++ y :: b))[a.length + m.length + 1]? = some y := by
    rw [List.getElem?_append_right (by omega)]
    have hidx : a.length + m.length + 1 - a.length = m.length + 1 := by omega
    rw [hidx, List.getElem?_cons_succ, List.getElem?_append_right (le_refl _)]
    simp
  unfold swapper
  rw [h1, h2]
  simp only []
  rw [List.set_append_right _ _ (le_refl _), Nat.sub_self, List.set_cons_zero,
    List.set_append_right _ _ (by omega)]
  have hidx : a.length + m.length + 1 - a.length = m.length + 1 := by omega
  rw [hidx, List.set_cons_succ, List.set_append_right _ _ (le_refl _), Nat.sub_self,
    List.set_cons_zero]

/-- The loop of `reverse`, started at the two ends of a middle part of the slice
with enough rounds, reverses that part and leaves the rest. -/
theorem reverseLoop_middle {α : Type} (m : List α) :
    ∀ (a b : List α) (rounds : Nat), m.length ≤ rounds →
      reverseLoop rounds a.length (a.length + m.length - 1) (a ++ (m ++ b))
        = a ++ (m.reverse ++ b) := by
  induction m using List.bidirectionalRec with
  | nil =>
    intro a b rounds _
    cases rounds with
    | zero => rfl
    | succ rounds =>
      have hlt : ¬ a.length < a.length + 0 - 1 := by omega
      simp only [reverseLoop, List.length_nil, hlt, if_false, List.reverse_nil]
  | singleton x =>
    intro a b rounds _
    cases rounds with
    | zero => rfl
    | succ rounds =>
      have hlt : ¬ a.length < a.length + 1 - 1 := by omega
      simp only [reverseLoop, List.length_singleton, hlt, if_false, List.reverse_singleton]
  | cons_append x l y ih =>
    intro a b rounds hrounds
    simp only [List.length_cons, List.length_append, List.length_nil] at hrounds
    cases rounds with
    | zero => omega
    | succ rounds =>
      have hlen : (x :: (l ++ [y])).length = l.length + 2 := by simp
      have hlt : a.length < a.length + (l.length + 2) - 1 := by omega
      have hj : a.length + (l.length + 2) - 1 = a.length + l.length + 1 := by omega
      have hs : a ++ (x :: (l ++ [y]) ++ b) = a ++ x :: (l ++ y :: b) := by simp
      rw [hlen]
      simp only [reverseLoop, hlt, if_true]
      rw [hj, hs, swapper_ends]
      have hnext := ih (a ++ [y]) (x :: b) rounds (by omega)
      have hi : (a ++ [y]).length = a.length + 1 := by simp
      have hj' : a.length + 1 + l.length - 1 = a.length + l.length + 1 - 1 := by omega
      rw [hi, hj'] at hnext
      have hs' : a ++ [y] ++ (l ++ x :: b) = a ++ y :: (l ++ x :: b) := by simp
      rw [hs'] at hnext
      rw [hnext]
      simp

/-- The function `reverse` leaves the slice in reverse order. -/
theorem reverse_eq {α : Type} (s : List α) : reverse s = s.reverse := by
  have h := reverseLoop_middle s [] [] s.length (le_refl _)
  simpa only [reverse, List.length_nil, Nat.zero_add, List.nil_append, List.append_nil] using h

theorem continuousPath_length (pools : List Pool) :
    ∀ path : List Token, continuousPath pools path = true → path.length = pools.length + 1 := by
  induction pools with
  | nil =>
    intro path h
    simpa [continuousPath] using h
  | cons p rest ih =>
    intro path h
    match path, h with
    | [], h => simp [continuousPath] at h
    | [_], h => simp [continuousPath] at h
    | t :: t2 :: path, h =>
      simp only [continuousPath, Bool.and_eq_true] at h
      have := ih (t2 :: path) h.2
      simp only [List.length_cons] at this ⊢
      omega

theorem connects_symm (pool : Pool) (t t2 : Token) : connects pool t t2 = connects pool t2 t := by
  simp only [connects]
  rw [Bool.or_comm, Bool.and_comm (decide (t = pool.Currency1)),
    Bool.and_comm (decide (t = pool.Currency0))]

/-- Along a continuous path the loop of `EncodeRouteToPath` makes one path key per
pool, with the next path entry as its intermediate currency. -/
theorem pathKeyLoop_continuous (pools : List Pool) :
    ∀ (t : Token) (path : List Token) (pathKeys : List PathKey),
      continuousPath pools (t :: path) = true →
      pathKeyLoop (some t) pools pathKeys
        = .ok (pathKeys ++ List.zipWith pathKeyOf pools path) := by
  induction pools with
  | nil =>
    intro t path pathKeys _
    simp [pathKeyLoop]
  | cons p rest ih =>
    intro t path pathKeys h
    cases path with
    | nil => simp [continuousPath] at h
    | cons t2 path =>
      simp only [continuousPath, Bool.and_eq_true] at h
      obtain ⟨hconn, hrest⟩ := h
      have hnext : (if t.Equal (.token p.Currency0) then p.Currency1 else p.Currency0) = t2 := by
        by_cases h0 : t = p.Currency0
        · rw [if_pos ((Token.Equal_token_iff _ _).2 h0)]
          rcases connects_cases hconn with ⟨_, h⟩ | ⟨h1, h⟩
          · exact h.symm
          · rw [h, ← h0, h1]
        · have hne : ¬ t.Equal (.token p.Currency0) = true := fun h =>
            h0 ((Token.Equal_token_iff _ _).1 h)
          rw [if_neg hne]
          rcases connects_cases hconn with ⟨h, _⟩ | ⟨_, h⟩
          · exact absurd h h0
          · exact h.symm
      simp only [pathKeyLoop, hnext]
      rw [ih t2 path _ hrest]
      simp [pathKeyOf]

theorem continuousPath_append (pools : List Pool) (p : Pool) (t t2 : Token) :
    ∀ path : List Token, continuousPath pools (path ++ [t]) = true → connects p t t2 = true →
      continuousPath (pools ++ [p]) (path ++ [t, t2]) = true := by
  induction pools with
  | nil =>
    intro path h hconn
    have hlen := continuousPath_length [] _ h
    simp only [List.length_append, List.length_singleton, List.length_nil, Nat.zero_add,
      add_left_eq_self, List.length_eq_zero] at hlen
    subst hlen
    simp [continuousPath, hconn]
  | cons q rest ih =>
    intro path h hconn
    match path, h with
    | [], h => simp [continuousPath] at h
    | [u], h =>
      simp only [List.singleton_append, continuousPath, Bool.and_eq_true] at h
      have := ih [] (by simpa using h.2) hconn
      simp only [List.nil_append] at this
      simp [continuousPath, h.1, this]
    | u :: u2 :: path, h =>
      simp only [List.cons_append, continuousPath, Bool.and_eq_true] at h
      have := ih (u2 :: path) (by simpa using h.2) hconn
      simp only [List.cons_append] at this
      simp [continuousPath, h.1, this]

/-- A continuous path read backward is a continuous path over the pools in reverse
order. -/
theorem continuousPath_reverse (pools : List Pool) :
    ∀ path : List Token, continuousPath pools path = true →
      continuousPath pools.reverse path.reverse = true := by
  induction pools with
  | nil =>
    intro path h
    have hlen := continuousPath_length [] _ h
    simp [continuousPath, hlen]
  | cons p rest ih =>
    intro path h
    match path, h with
    | [], h => simp [continuousPath] at h
    | [_], h => simp [continuousPath] at h
    | t :: t2 :: path, h =>
      simp only [continuousPath, Bool.and_eq_true] at h
      have hrev := ih (t2 :: path) h.2
      rw [List.reverse_cons] at hrev
      have hconn : connects p t2 t = true := by rw [connects_symm]; exact h.1
      have := continuousPath_append rest.reverse p t2 t path.reverse hrev hconn
      simpa using this

/-- With `exactOutput` false, on a route with a continuous token path whose path
input is the first path entry: one path key per pool, in order, with the next path
entry as intermediate currency; the route is left as it is. -/
theorem EncodeRouteToPath_forward (route : Route)
    (hcont : continuousPath route.Pools route.TokenPath = true)
    (hstart : route.PathInput = route.TokenPath.head?) :
    EncodeRouteToPath route false
      = .ok (List.zipWith pathKeyOf route.Pools route.TokenPath.tail, route) := by
  obtain ⟨pools, tokenPath, input, output, pathInput, pathOutput⟩ := route
  simp only [] at hcont hstart
  cases tokenPath with
  | nil =>
    have := continuousPath_length _ _ hcont
    simp at this
  | cons t path =>
    subst hstart
    simp only [EncodeRouteToPath, Bool.false_eq_true, if_false, List.head?_cons,
      pathKeyLoop_continuous pools t path [] hcont, bind, Except.bind, pure, Except.pure,
      List.nil_append, List.tail_cons]

/-- With `exactOutput` true, on a route with a continuous token path whose path
output is the last path entry: one path key per pool, in the order of the pools
before the call, with the path entry before the pool as intermediate currency; the
pools of the route are left in reverse order. -/
theorem EncodeRouteToPath_backward (route : Route)
    (hcont : continuousPath route.Pools route.TokenPath = true)
    (hend : route.PathOutput = route.TokenPath.getLast?) :
    EncodeRouteToPath route true
      = .ok (List.zipWith pathKeyOf route.Pools route.TokenPath.dropLast,
          { route with Pools := route.Pools.reverse }) := by
  obtain ⟨pools, tokenPath, input, output, pathInput, pathOutput⟩ := route
  simp only [] at hcont hend
  have hlen := continuousPath_length _ _ hcont
  have hrev := continuousPath_reverse _ _ hcont
  cases hT : tokenPath.reverse with
  | nil =>
    have : tokenPath.reverse.length = 0 := by rw [hT]; rfl
    rw [List.length_reverse] at this
    omega
  | cons t path =>
    have hlast : tokenPath.getLast? = some t := by
      rw [List.getLast?_eq_head?_reverse, hT]
      rfl
    have hpath : path = tokenPath.dropLast.reverse := by
      rw [← List.tail_reverse, hT]
      rfl
    rw [hT] at hrev
    have hzip : (List.zipWith pathKeyOf pools.reverse path).reverse
        = List.zipWith pathKeyOf pools tokenPath.dropLast := by
      rw [hpath, ← List.reverse_zipWith, List.reverse_reverse]
      rw [List.length_dropLast]
      omega
    rw [hlast] at hend
    subst hend
    simp only [EncodeRouteToPath, if_true, reverse_eq,
      pathKeyLoop_continuous pools.reverse t path [] hrev, bind, Except.bind, pure,
      Except.pure, List.nil_append, hzip]

/-- C27: on the route from A over B to C, whose pools are the pool of A and B and
then the pool of B and C, `EncodeRouteToPath` with `exactOutput = true` returns
with the pools of the route in the other order, the pool of B and C first; the
route is not left unchanged.  With `exactOutput = false` the pools stay as they
are. -/
theorem EncodeRouteToPath_exact_output_reverses_pools :
    routeABC.Pools = [poolAB, poolBC] ∧
      (∃ pathKeys after, EncodeRouteToPath routeABC true = .ok (pathKeys, after) ∧
        after.Pools = [poolBC, poolAB] ∧ after.Pools ≠ routeABC.Pools) ∧
      (∃ pathKeys after, EncodeRouteToPath routeABC false = .ok (pathKeys, after) ∧
        after.Pools = [poolAB, poolBC]) := by
  refine ⟨rfl, ⟨_, _, EncodeRouteToPath_backward routeABC rfl rfl, rfl, ?_⟩,
    ⟨_, _, EncodeRouteToPath_forward routeABC rfl rfl, rfl⟩⟩
  intro h
  have h0 : poolBC.Currency0 = poolAB.Currency0 := by
    have := congrArg (fun l => (l.map (fun p => p.Currency0)).head?) h
    exact Option.some.inj this
  exact absurd h0 (by decide)

/-- With `exactOutput = true`, whenever `EncodeRouteToPath` returns, the pools of
the route are the pools it had before in reverse order. -/
theorem EncodeRouteToPath_pools_after (route : Route) (pathKeys : List PathKey) (after : Route)
    (h : EncodeRouteToPath route true = .ok (pathKeys, after)) :
    after.Pools = route.Pools.reverse := by
  simp only [EncodeRouteToPath, if_true, reverse_eq, bind, Except.bind, pure, Except.pure] at h
  split at h
  · cases h
  · cases h
    rfl

/-- A second call with `exactOutput = true` on the route as the first call left
it returns another path than the first call: the path keys come out in the other
order. -/
theorem EncodeRouteToPath_second_call_differs :
    ∃ after, EncodeRouteToPath routeABC true
          = .ok ([pathKeyOf poolAB tokenA, pathKeyOf poolBC tokenB], after) ∧
      ∃ after2, EncodeRouteToPath after true
          = .ok ([pathKeyOf poolBC tokenB, pathKeyOf poolAB tokenA], after2) ∧
        after2.Pools = routeABC.Pools := by
  refine ⟨_, EncodeRouteToPath_backward routeABC rfl rfl, ?_⟩
  simp only [EncodeRouteToPath, if_true, reverse_eq, bind, Except.bind, pure, Except.pure]
  exact ⟨_, rfl, rfl⟩

/-- C28: for every route with `n` pools and a continuous token path `T[0..n]`,
`EncodeRouteToPath` returns exactly `n` records, record `i` carrying the fee, tick
spacing and hooks of `pools[i]`, in the order the pools have before the call; its
intermediate currency is the address of `T[i+1]` when `exactOutput` is false (the
path input being `T[0]`), and of `T[i]` when `exactOutput` is true (the path
output being `T[n]`). -/
theorem EncodeRouteToPath_records (route : Route)
    (hcont : continuousPath route.Pools route.TokenPath = true) :
    (route.PathInput = route.TokenPath.head? →
        ∃ (pathKeys : List PathKey) (after : Route),
          EncodeRouteToPath route false = .ok (pathKeys, after) ∧
          pathKeys.length = route.Pools.length ∧
          ∀ (i : Nat) (pool : Pool) (t : Token), route.Pools[i]? = some pool →
            route.TokenPath[i + 1]? = some t → pathKeys[i]? = some (pathKeyOf pool t)) ∧
      (route.PathOutput = route.TokenPath.getLast? →
        ∃ (pathKeys : List PathKey) (after : Route),
          EncodeRouteToPath route true = .ok (pathKeys, after) ∧
          pathKeys.length = route.Pools.length ∧
          ∀ (i : Nat) (pool : Pool) (t : Token), route.Pools[i]? = some pool →
            route.TokenPath[i]? = some t → pathKeys[i]? = some (pathKeyOf pool t)) := by
  have hlen := continuousPath_length _ _ hcont
  constructor
  · intro hstart
    refine ⟨_, _, EncodeRouteToPath_forward route hcont hstart, ?_, ?_⟩
    · rw [List.length_zipWith, List.length_tail]
      omega
    · intro i pool t hp ht
      rw [List.getElem?_zipWith, hp, List.getElem?_tail, ht]
  · intro hend
    refine ⟨_, _, EncodeRouteToPath_backward route hcont hend, ?_, ?_⟩
    · rw [List.length_zipWith, List.length_dropLast]
      omega
    · intro i pool t hp ht
      have hi : i < route.Pools.length := by
        by_contra hge
        rw [List.getElem?_eq_none (by omega)] at hp
        cases hp
      rw [List.getElem?_zipWith, hp, List.getElem?_dropLast, if_pos (by omega), ht]

/-- Witness of C28: the route from A over B to C, in both directions. -/
theorem EncodeRouteToPath_records_witness :
    (∃ after, EncodeRouteToPath routeABC false
        = .ok ([pathKeyOf poolAB tokenB, pathKeyOf poolBC tokenC], after)) ∧
      (∃ after, EncodeRouteToPath routeABC true
        = .ok ([pathKeyOf poolAB tokenA, pathKeyOf poolBC tokenB], after)) := by
  obtain ⟨keys, after, h, hlen, hkeys⟩ := (EncodeRouteToPath_records routeABC rfl).1 rfl
  obtain ⟨keys', after', h', hlen', hkeys'⟩ := (EncodeRouteToPath_records routeABC rfl).2 rfl
  refine ⟨⟨after, ?_⟩, ⟨after', ?_⟩⟩
  · rw [h]
    congr 2
    apply List.ext_getElem?
    intro i
    match i with
    | 0 => exact hkeys 0 poolAB tokenB rfl rfl
    | 1 => exact hkeys 1 poolBC tokenC rfl rfl
    | i + 2 =>
      rw [List.getElem?_eq_none (by rw [hlen]; simp [routeABC])]
      rfl
  · rw [h']
    congr 2
    apply List.ext_getElem?
    intro i
    match i with
    | 0 => exact hkeys' 0 poolAB tokenA rfl rfl
    | 1 => exact hkeys' 1 poolBC tokenB rfl rfl
    | i + 2 =>
      rw [List.getElem?_eq_none (by rw [hlen']; simp [routeABC])]
      rfl

/-! ## The permission map of a hook -/

theorem isHexDigit_eq (c : Char) : isHexDigit c = (hexDigitValue c).isSome := by
  have hc : Char.ofNat c.toNat = c := Char.ofNat_toNat c
  have h0 : ∀ a b : Char, a ≤ b ↔ a.toNat ≤ b.toNat := fun a b => by
    rw [Char.le_def]
    exact Iff.rfl
  unfold hexDigitValue
  simp only [h0]
  by_cases h1 : '0'.toNat ≤ c.toNat ∧ c.toNat ≤ '9'.toNat
  · rw [if_pos h1]
    obtain ⟨ha, hb⟩ := h1
    have ha' : 48 ≤ c.toNat := ha
    have hb' : c.toNat ≤ 57 := hb
    rw [← hc]
    interval_cases c.toNat <;> rfl
  · rw [if_neg h1]
    by_cases h2 : 'a'.toNat ≤ c.toNat ∧ c.toNat ≤ 'f'.toNat
    · rw [if_pos h2]
      obtain ⟨ha, hb⟩ := h2
      have ha' : 97 ≤ c.toNat := ha
      have hb' : c.toNat ≤ 102 := hb
      rw [← hc]
      interval_cases c.toNat <;> rfl
    · rw [if_neg h2]
      by_cases h3 : 'A'.toNat ≤ c.toNat ∧ c.toNat ≤ 'F'.toNat
      · rw [if_pos h3]
        obtain ⟨ha, hb⟩ := h3
        have ha' : 65 ≤ c.toNat := ha
        have hb' : c.toNat ≤ 70 := hb
        rw [← hc]
        interval_cases c.toNat <;> rfl
      · rw [if_neg h3]
        simp only [Option.isSome_none, isHexDigit, decide_eq_false_iff_not]
        intro hmem
        simp only [List.mem_cons, List.mem_singleton, List.mem_nil_iff, or_false] at hmem
        rcases hmem with h | h | h | h | h | h | h | h | h | h | h | h | h | h | h | h | h | h
          | h | h | h | h <;> subst h <;> revert h1 h2 h3 <;> decide

theorem parseHex_foldl (s : List Char)
    (hall : s.all (fun c => (hexDigitValue c).isSome) = true) (acc : Nat) :
    s.foldl (fun acc c => acc.bind (fun n => (hexDigitValue c).map (fun d => n * 16 + d)))
      (some acc)
      = some (s.foldl (fun n c => n * 16 + (hexDigitValue c).getD 0) acc) := by
  induction s generalizing acc with
  | nil => rfl
  | cons c cs ih =>
    simp only [List.all_cons, Bool.and_eq_true] at hall
    obtain ⟨hc, hcs⟩ := hall
    obtain ⟨d, hd⟩ := Option.isSome_iff_exists.mp hc
    simp only [List.foldl_cons, Option.some_bind, hd, Option.map_some', Option.getD_some]
    exact ih hcs _

theorem parseHex_of_digits (s : List Char) (hne : s ≠ [])
    (hall : s.all (fun c => (hexDigitValue c).isSome) = true) :
    parseHex s = some (s.foldl (fun n c => n * 16 + (hexDigitValue c).getD 0) 0) := by
  have hemp : s.isEmpty = false := by
    cases s with
    | nil => exact absurd rfl hne
    | cons c cs => rfl
  simp only [parseHex, hemp, Bool.false_eq_true, if_false]
  exact parseHex_foldl s hall 0

theorem isAddressText_eq (addr : List Char) :
    isAddressText addr = matchesAddressPattern addr := by
  have hfun : isHexDigit = fun c => (hexDigitValue c).isSome := funext isHexDigit_eq
  unfold isAddressText matchesAddressPattern
  rw [hfun]

theorem isAddressText_form (addr : List Char) (h : isAddressText addr = true) :
    ∃ digits, addr = '0' :: 'x' :: digits ∧ digits.length = 40 ∧
      digits.all (fun c => (hexDigitValue c).isSome) = true := by
  rw [isAddressText_eq] at h
  unfold matchesAddressPattern at h
  split at h
  · rename_i digits
    simp only [Bool.and_eq_true, decide_eq_true_eq] at h
    exact ⟨digits, rfl, h.1, h.2⟩
  · cases h

theorem checkAddress_of_text (addr : List Char) (h : isAddressText addr = true) :
    checkAddress addr = none := by
  obtain ⟨digits, rfl, hlen, hall⟩ := isAddressText_form addr h
  rw [isAddressText_eq] at h
  simp only [checkAddress, isAddressValid, h, Bool.not_true, Bool.false_eq_true, if_false,
    List.length_cons, hlen, List.take_succ_cons, List.take_zero, gt_iff_lt, decide_True,
    Bool.and_self, Nat.reduceAdd, Nat.reduceLT]

theorem checkAddress_of_other (addr : List Char) (h : isAddressText addr = false) :
    checkAddress addr = some .invalidAddress := by
  rw [isAddressText_eq] at h
  simp only [checkAddress, isAddressValid, h, Bool.not_false, if_true]

theorem hasPermission_of_text (addr : List Char) (h : isAddressText addr = true)
    (opt : HookOption) (index : Nat) (hidx : hookFlagIndex opt = some index) :
    hasPermission addr opt = .ok ((addressValue addr).testBit index) := by
  obtain ⟨digits, rfl, hlen, hall⟩ := isAddressText_form addr h
  have hne : digits ≠ [] := by
    intro hnil
    rw [hnil] at hlen
    cases hlen
  have hpre : ('0' :: 'x' :: digits).length > 2 ∧ ('0' :: 'x' :: digits).take 2 = ['0', 'x'] := by
    simp [hlen]
  have hdrop : ('0' :: 'x' :: digits).drop 2 = digits := rfl
  simp only [hasPermission, hidx, hpre, and_self, if_true, hdrop,
    parseHex_of_digits digits hne hall, and_shiftLeft_ne_zero, addressValue]

/-- C33: for every string made of `0x` and exactly forty hexadecimal digits and
every hook option, `Hook.HasPermission` returns whether the bit of the option's
flag index is set in the address read as an integer, and the map of
`Hook.Permissions` holds the same value under the option; the flag indices run
from 0 (`afterRemoveLiquidityReturnsDelta`) to 13 (`beforeInitialize`); for every
other string both return the invalid-address error. -/
theorem hook_permissions_spec (addr : List Char) (opt : HookOption) :
    hookOptionsByBit.map hookFlagIndex = (List.range 14).map some ∧
    (isAddressText addr = true →
      ∃ index, hookFlagIndex opt = some index ∧
        Hook.HasPermission addr opt = .ok ((addressValue addr).testBit index) ∧
        ∃ permissions, Hook.Permissions addr = .ok permissions ∧
          permissions opt = (addressValue addr).testBit index) ∧
    (isAddressText addr = false →
      Hook.HasPermission addr opt = .error .invalidAddress ∧
      Hook.Permissions addr = .error .invalidAddress) := by
  refine ⟨rfl, fun h => ?_, fun h => ?_⟩
  · have hidx : ∃ index, hookFlagIndex opt = some index := by
      cases opt <;> exact ⟨_, rfl⟩
    obtain ⟨index, hidx⟩ := hidx
    have hperm := hasPermission_of_text addr h
    have hperm' : ∀ o, hasPermission addr o
        = .ok ((addressValue addr).testBit ((hookFlagIndex o).getD 0)) := by
      intro o
      cases o <;> exact hperm _ _ rfl
    refine ⟨index, hidx, ?_, ?_⟩
    · simp only [Hook.HasPermission, checkAddress_of_text addr h, hperm opt index hidx]
    · simp only [Hook.Permissions, checkAddress_of_text addr h, hperm']
      refine ⟨_, rfl, ?_⟩
      cases opt <;> cases hidx <;> rfl
  · simp only [Hook.HasPermission, Hook.Permissions, checkAddress_of_other addr h, and_self]

set_option maxRecDepth 8000 in
/-- Witness for C33: the address `0x00…0080` has the `beforeSwap` bit and not the
`afterSwap` bit, and the text `0x12` is refused. -/
theorem hook_permissions_spec_witness :
    (isAddressText (addressHex (fun _ => false) 128) = true ∧
      Hook.HasPermission (addressHex (fun _ => false) 128) .BeforeSwap = .ok true ∧
      Hook.HasPermission (addressHex (fun _ => false) 128) .AfterSwap = .ok false) ∧
    (isAddressText ['0', 'x', '1', '2'] = false ∧
      Hook.HasPermission ['0', 'x', '1', '2'] .BeforeSwap = .error .invalidAddress) := by
  have h1 : isAddressText (addressHex (fun _ => false) 128) = true := by decide
  have h2 : isAddressText ['0', 'x', '1', '2'] = false := by decide
  have hv : addressValue (addressHex (fun _ => false) 128) = 128 := by decide
  refine ⟨⟨h1, ?_, ?_⟩, h2, ?_⟩
  · obtain ⟨index, hidx, hperm, _⟩ :=
      (hook_permissions_spec (addressHex (fun _ => false) 128) .BeforeSwap).2.1 h1
    cases hidx
    rw [hperm, hv]
    rfl
  · obtain ⟨index, hidx, hperm, _⟩ :=
      (hook_permissions_spec (addressHex (fun _ => false) 128) .AfterSwap).2.1 h1
    cases hidx
    rw [hperm, hv]
    rfl
  · exact ((hook_permissions_spec ['0', 'x', '1', '2'] .BeforeSwap).2.2 h2).1

/-! ## The order of two tokens -/

theorem beBytes_length (n a : Nat) : (beBytes n a).length = n := by
  induction n generalizing a with
  | zero => rfl
  | succ n ih => simp [beBytes, ih]

theorem beBytes_lt (n a : Nat) : ∀ d ∈ beBytes n a, d < 256 := by
  induction n generalizing a with
  | zero => intro d hd; cases hd
  | succ n ih =>
    intro d hd
    simp only [beBytes, List.mem_append, List.mem_singleton] at hd
    rcases hd with hd | hd
    · exact ih _ d hd
    · rw [hd]
      exact Nat.mod_lt _ (by decide)

theorem beValue_append (l : List Nat) (d : Nat) : beValue (l ++ [d]) = beValue l * 256 + d := by
  induction l with
  | nil => simp [beValue]
  | cons c cs ih =>
    have hlen : (cs ++ [d]).length = cs.length + 1 := by simp
    rw [List.cons_append]
    simp only [beValue]
    rw [ih, hlen, pow_succ]
    ring

theorem beValue_beBytes (n a : Nat) : beValue (beBytes n a) = a % 256 ^ n := by
  induction n generalizing a with
  | zero => simp [beBytes, beValue, Nat.mod_one]
  | succ n ih =>
    simp only [beBytes, beValue_append, ih]
    rw [pow_succ', Nat.mod_mul]
    ring

theorem beValue_lt (l : List Nat) (h : ∀ d ∈ l, d < 256) : beValue l < 256 ^ l.length := by
  induction l with
  | nil => simp [beValue]
  | cons c cs ih =>
    have hc : c < 256 := h c (List.mem_cons_self _ _)
    have hcs := ih (fun d hd => h d (List.mem_cons_of_mem _ hd))
    simp only [beValue, List.length_cons, pow_succ]
    nlinarith

theorem bytesCompare_lt_iff (x y : List Nat) (hlen : x.length = y.length)
    (hx : ∀ d ∈ x, d < 256) (hy : ∀ d ∈ y, d < 256) :
    bytesCompare x y < 0 ↔ beValue x < beValue y := by
  induction x generalizing y with
  | nil =>
    cases y with
    | nil => simp [bytesCompare, beValue]
    | cons b bs => cases hlen
  | cons a as ih =>
    cases y with
    | nil => cases hlen
    | cons b bs =>
      have hlen' : as.length = bs.length := by simpa using hlen
      have has := beValue_lt as (fun d hd => hx d (List.mem_cons_of_mem _ hd))
      have hbs := beValue_lt bs (fun d hd => hy d (List.mem_cons_of_mem _ hd))
      have ih' := ih bs hlen' (fun d hd => hx d (List.mem_cons_of_mem _ hd))
        (fun d hd => hy d (List.mem_cons_of_mem _ hd))
      rw [hlen'] at has
      simp only [bytesCompare, beValue, hlen']
      by_cases h1 : a < b
      · simp only [h1, if_true]
        constructor
        · intro _
          have : (a + 1) * 256 ^ bs.length ≤ b * 256 ^ bs.length :=
            Nat.mul_le_mul_right _ h1
          nlinarith
        · intro _
          decide
      · by_cases h2 : b < a
        · simp only [h1, h2, if_true, if_false]
          constructor
          · intro h
            exact absurd h (by decide)
          · intro h
            have : (b + 1) * 256 ^ bs.length ≤ a * 256 ^ bs.length :=
              Nat.mul_le_mul_right _ h2
            nlinarith
        · have hab : a = b := by omega
          simp only [h1, h2, if_false, hab, ih']
          omega

theorem bytewiseSmaller_iff (x y : List Nat) (hlen : x.length = y.length) :
    bytewiseSmaller x y = true ↔ bytesCompare x y < 0 := by
  induction x generalizing y with
  | nil =>
    cases y with
    | nil => simp [bytewiseSmaller, bytesCompare]
    | cons b bs => cases hlen
  | cons a as ih =>
    cases y with
    | nil => cases hlen
    | cons b bs =>
      have hlen' : as.length = bs.length := by simpa using hlen
      have ih' := ih bs hlen'
      simp only [bytewiseSmaller, List.any_eq_true, List.mem_range, Bool.and_eq_true,
        decide_eq_true_eq] at ih' ⊢
      simp only [bytesCompare]
      constructor
      · rintro ⟨i, hi, ⟨hiy, htake⟩, hget⟩
        cases i with
        | zero =>
          simp only [List.getD_cons_zero] at hget
          simp only [hget, if_true]
          decide
        | succ i =>
          simp only [List.take_succ_cons, List.cons.injEq] at htake
          obtain ⟨hab, htake⟩ := htake
          simp only [List.getD_cons_succ] at hget
          simp only [List.length_cons, Nat.add_lt_add_iff_right] at hi hiy
          have := ih'.mp ⟨i, hi, ⟨hiy, htake⟩, hget⟩
          simp only [hab, lt_irrefl, if_false, this]
      · intro h
        by_cases h1 : a < b
        · exact ⟨0, by simp, ⟨by simp, by simp⟩, by simpa using h1⟩
        · by_cases h2 : b < a
          · simp only [h1, h2, if_true, if_false] at h
            exact absurd h (by decide)
          · simp only [h1, h2, if_false] at h
            obtain ⟨i, hi, ⟨hiy, htake⟩, hget⟩ := ih'.mpr h
            have hab : a = b := by omega
            refine ⟨i + 1, by simpa using hi, ⟨by simpa using hiy, ?_⟩, by simpa using hget⟩
            simp only [List.take_succ_cons, hab, htake]

theorem addressBytes_smaller_iff (a b : Nat) (ha : a < 2 ^ 160) (hb : b < 2 ^ 160) :
    bytewiseSmaller (addressBytes a) (addressBytes b) = true ↔ a < b := by
  have hpow : (256 : Nat) ^ 20 = 2 ^ 160 := by norm_num
  have hlen : (addressBytes a).length = (addressBytes b).length := by
    simp [addressBytes, beBytes_length]
  rw [bytewiseSmaller_iff _ _ hlen,
    bytesCompare_lt_iff _ _ hlen (beBytes_lt 20 a) (beBytes_lt 20 b)]
  simp only [addressBytes, beValue_beBytes, hpow, Nat.mod_eq_of_lt ha, Nat.mod_eq_of_lt hb]

/-- C34: `SortsBefore` of package `utils` is the canonical order of currencies.
A native first argument sorts before anything.  For two tokens that are not
native, on one chain and with different addresses, each call returns whether
its first argument has the byte-wise smaller address, and exactly one of the
two calls returns true.  For equal addresses both calls return false, and
for tokens on different chains both return `ErrDifferentChain`. -/
theorem SortsBefore_canonical_order (isNative : Token → Bool) (a b : Token) :
    (isNative a = true → SortsBefore isNative a b = .ok true) ∧
    (isNative a = false → isNative b = false → a.chainId = b.chainId →
      a.Address ≠ b.Address → a.Address < 2 ^ 160 → b.Address < 2 ^ 160 →
        SortsBefore isNative a b
          = .ok (bytewiseSmaller (addressBytes a.Address) (addressBytes b.Address)) ∧
        SortsBefore isNative b a
          = .ok (bytewiseSmaller (addressBytes b.Address) (addressBytes a.Address)) ∧
        bytewiseSmaller (addressBytes a.Address) (addressBytes b.Address)
          = !bytewiseSmaller (addressBytes b.Address) (addressBytes a.Address)) ∧
    (isNative a = false → isNative b = false → a.chainId = b.chainId →
      a.Address = b.Address →
        SortsBefore isNative a b = .ok false ∧ SortsBefore isNative b a = .ok false) ∧
    (isNative a = false → isNative b = false → a.chainId ≠ b.chainId →
      SortsBefore isNative a b = .error .ErrDifferentChain ∧
      SortsBefore isNative b a = .error .ErrDifferentChain) := by
  refine ⟨fun h => ?_, fun ha hb hchain haddr hla hlb => ?_, fun ha hb hchain haddr => ?_,
    fun ha hb hchain => ?_⟩
  · simp only [SortsBefore, h, if_true]
  · have hcmp : ∀ x y : Nat, x < 2 ^ 160 → y < 2 ^ 160 →
        decide (bytesCompare (addressBytes x) (addressBytes y) < 0)
          = bytewiseSmaller (addressBytes x) (addressBytes y) := by
      intro x y _ _
      rw [Bool.eq_iff_iff, decide_eq_true_eq,
        bytewiseSmaller_iff _ _ (by simp [addressBytes, beBytes_length])]
    have hab := addressBytes_smaller_iff a.Address b.Address hla hlb
    have hba := addressBytes_smaller_iff b.Address a.Address hlb hla
    refine ⟨?_, ?_, ?_⟩
    · simp only [SortsBefore, ha, hb, Token.ChainId, hchain, haddr, ne_eq, not_true_eq_false,
        Bool.false_eq_true, if_false, hcmp _ _ hla hlb]
    · simp only [SortsBefore, ha, hb, Token.ChainId, hchain, Ne.symm haddr, ne_eq,
        not_true_eq_false, Bool.false_eq_true, if_false, hcmp _ _ hlb hla]
    · rw [Bool.eq_iff_iff, hab, Bool.not_eq_true', ← Bool.not_eq_true, hba]
      omega
  · simp only [SortsBefore, ha, hb, Token.ChainId, hchain, haddr, ne_eq, not_true_eq_false,
      Bool.false_eq_true, if_false, if_true, and_self]
  · simp only [SortsBefore, ha, hb, Token.ChainId, hchain, Ne.symm hchain, ne_eq,
      not_false_eq_true, Bool.false_eq_true, if_false, if_true, and_self]

/-- Witness for C34: the native sample token sorts before token B; of the tokens
A and B, A has the smaller address and sorts first; a token does not sort before
itself; and tokens of chains 1 and 5 cannot be ordered. -/
theorem SortsBefore_canonical_order_witness :
    SortsBefore zeroAddressIsNative tokenNative tokenB = .ok true ∧
    (SortsBefore zeroAddressIsNative tokenA tokenB = .ok true ∧
      SortsBefore zeroAddressIsNative tokenB tokenA = .ok false) ∧
    SortsBefore zeroAddressIsNative tokenA tokenA = .ok false ∧
    SortsBefore zeroAddressIsNative tokenA tokenE = .error .ErrDifferentChain := by
  have h := SortsBefore_canonical_order zeroAddressIsNative
  refine ⟨(h tokenNative tokenB).1 rfl, ?_, ((h tokenA tokenA).2.2.1 rfl rfl rfl rfl).1,
    ((h tokenA tokenE).2.2.2 rfl rfl (by decide)).1⟩
  obtain ⟨h1, h2, _⟩ := (h tokenA tokenB).2.1 rfl rfl rfl (by decide)
    (by norm_num [tokenA]) (by norm_num [tokenB])
  exact ⟨h1.trans rfl, h2.trans rfl⟩

/-! ## Prices and ticks -/

/-- C40 (the code departs from it): when `SortsBefore` cannot order the two
tokens, `PriceToClosestTick` reports success with tick 0 for every price, whereas
`TickToPrice` on the same two tokens returns the error of `SortsBefore` for every
tick that has a sqrt price. -/
theorem PriceToClosestTick_swallows_ordering_error (math : TickMath) (isNative : Token → Bool)
    (price : Price) (baseToken quoteToken : Token) (e : Err)
    (h : SortsBefore isNative baseToken quoteToken = .error e) :
    PriceToClosestTick math isNative price baseToken quoteToken = .ok 0 ∧
    ∀ tick sqrtRatioX96, math.GetSqrtRatioAtTick tick = .ok sqrtRatioX96 →
      TickToPrice math isNative baseToken quoteToken tick = .error e := by
  refine ⟨?_, fun tick sqrtRatioX96 hsqrt => ?_⟩
  · simp only [PriceToClosestTick, h]
  · simp only [TickToPrice, hsqrt, liftExternal, h]

/-- Witness for C40: token A of chain 1 and token E of chain 5 cannot be ordered,
yet the closest tick of the price 2/1 between them is reported as tick 0,
and `TickToPrice` refuses the same pair at tick 0. -/
theorem PriceToClosestTick_swallows_ordering_error_witness :
    SortsBefore Token.IsNative tokenA tokenE = .error .ErrDifferentChain ∧
    PriceToClosestTick sampleTickMath Token.IsNative
      (NewPrice (.token tokenA) (.token tokenE) 1 2) tokenA tokenE = .ok 0 ∧
    TickToPrice sampleTickMath Token.IsNative tokenA tokenE 0 = .error .ErrDifferentChain :=
  ⟨rfl,
    (PriceToClosestTick_swallows_ordering_error sampleTickMath Token.IsNative
      (NewPrice (.token tokenA) (.token tokenE) 1 2) tokenA tokenE .ErrDifferentChain rfl).1,
    (PriceToClosestTick_swallows_ordering_error sampleTickMath Token.IsNative
      (NewPrice (.token tokenA) (.token tokenE) 1 2) tokenA tokenE .ErrDifferentChain rfl).2
      0 79228162514264337593543950336 rfl⟩

/-! ## The rounds of a swap -/

theorem swapStep_eq_record (env : External) (p : Pool) (zeroForOne exactInput : Bool)
    (limit : Int) (state : SwapState) :
    swapStep env p zeroForOne exactInput limit state
      = (swapStepRecord env p zeroForOne exactInput limit state).map (fun r => r.after) := by
  unfold swapStep swapStepRecord
  simp only [bind, Except.bind, pure, Except.pure]
  cases hnext : p.TickDataProvider.NextInitializedTickIndex state.tick zeroForOne with
  | error e1 => rfl
  | ok next =>
    obtain ⟨tickNext, initialized⟩ := next
    simp only []
    split
    · rename_i e1 hsqrt
      simp only [hsqrt, Except.map]
    · rename_i sqrtNext hsqrt
      simp only [hsqrt]
      split
      · rename_i e2 hstep
        simp only [hstep, Except.map]
      · rename_i stepResult hstep
        obtain ⟨sqrtPriceX96, amountIn, amountOut, feeAmount⟩ := stepResult
        simp only [hstep]
        by_cases hp : sqrtPriceX96 = sqrtNext
        · simp only [hp, if_true]
          cases initialized
          · simp only [Bool.false_eq_true, if_false, Except.map]
          · simp only [if_true]
            generalize p.TickDataProvider.GetTick _ = got
            cases got <;> rfl
        · simp only [hp, if_false]
          by_cases hs : sqrtPriceX96 = state.sqrtPriceX96
          · simp only [hs, ne_eq, not_true_eq_false, if_false, Except.map]
          · simp only [hs, ne_eq, not_false_eq_true, if_true]
            generalize liftExternal (env.GetTickAtSqrtRatio sqrtPriceX96) = got
            cases got <;> rfl

theorem liftExternal_ok {α : Type} {x : Except Nat α} {a : α}
    (h : liftExternal x = .ok a) : x = .ok a := by
  cases x with
  | error code => cases h
  | ok b =>
    cases h
    rfl

/-- What one round of the swap loop does, read off the record it leaves. -/
theorem swapStepRecord_facts (env : External) (p : Pool) (zeroForOne exactInput : Bool)
    (limit : Int) (state : SwapState) (r : SwapRound)
    (h : swapStepRecord env p zeroForOne exactInput limit state = .ok r) :
    r.before = state ∧
    r.after.amountSpecifiedRemaining
      = (if exactInput then state.amountSpecifiedRemaining - (r.step.AmountIn + r.step.FeeAmount)
         else state.amountSpecifiedRemaining + r.step.AmountOut) ∧
    r.after.amountCalculated
      = (if exactInput then state.amountCalculated - r.step.AmountOut
         else state.amountCalculated + (r.step.AmountIn + r.step.FeeAmount)) ∧
    r.after.crossInitTickLoops
      = state.crossInitTickLoops + (if r.crossesInitializedTick then 1 else 0) ∧
    (∃ reported, p.TickDataProvider.NextInitializedTickIndex state.tick zeroForOne
        = .ok (reported, r.step.Initialized) ∧ r.step.TickNext = clampTick env reported) ∧
    env.GetSqrtRatioAtTick r.step.TickNext = .ok r.step.SqrtPriceNextX96 ∧
    (r.after.sqrtPriceX96 = r.step.SqrtPriceNextX96 →
      r.after.tick = if zeroForOne then r.step.TickNext - 1 else r.step.TickNext) ∧
    (r.crossesInitializedTick = true →
      ∃ tick, p.TickDataProvider.GetTick r.step.TickNext = .ok tick ∧
        r.after.liquidity = env.AddDelta state.liquidity
          (if zeroForOne then tick.LiquidityNet * (-1) else tick.LiquidityNet)) ∧
    (r.crossesInitializedTick = false → r.after.liquidity = state.liquidity) := by
  unfold swapStepRecord at h
  cases hnext : p.TickDataProvider.NextInitializedTickIndex state.tick zeroForOne with
  | error e1 =>
    rw [hnext] at h
    cases h
  | ok next =>
    rw [hnext] at h
    obtain ⟨tickNext, initialized⟩ := next
    simp only [] at h
    split at h
    · cases h
    · rename_i sqrtNext hsqrt
      split at h
      · cases h
      · rename_i sqrtPriceX96 amountIn amountOut feeAmount hstep
        have hsqrt' := liftExternal_ok hsqrt
        by_cases hp : sqrtPriceX96 = sqrtNext
        · simp only [hp, if_true] at h
          cases initialized
          · simp only [Bool.false_eq_true, if_false] at h
            cases h
            simp only [SwapRound.crossesInitializedTick, Bool.and_false, Bool.false_eq_true,
              if_false, add_zero, clampTick, true_and, false_implies, implies_true, and_true]
            exact ⟨⟨_, rfl, rfl⟩, hsqrt'⟩
          · simp only [if_true] at h
            split at h
            · cases h
            · rename_i tick hget
              cases h
              simp only [SwapRound.crossesInitializedTick, decide_True, Bool.and_self, if_true,
                clampTick, true_and, implies_true, Bool.true_eq_false, false_implies, and_true]
              exact ⟨⟨_, rfl, rfl⟩, hsqrt', fun _ => ⟨tick, hget, rfl⟩⟩
        · simp only [hp, if_false] at h
          by_cases hs : sqrtPriceX96 = state.sqrtPriceX96
          · simp only [hs, ne_eq, not_true_eq_false, if_false] at h
            cases h
            have hp' : ¬ state.sqrtPriceX96 = sqrtNext := fun hq => hp (hs.trans hq)
            simp only [SwapRound.crossesInitializedTick, hs, hp', decide_False, Bool.false_and,
              Bool.false_eq_true, if_false, add_zero, clampTick, true_and, false_implies,
              implies_true, and_true]
            exact ⟨⟨_, rfl, rfl⟩, hsqrt'⟩
          · simp only [hs, ne_eq, not_false_eq_true, if_true] at h
            split at h
            · cases h
            · cases h
              simp only [SwapRound.crossesInitializedTick, hp, decide_False, Bool.false_and,
                Bool.false_eq_true, if_false, add_zero, clampTick, true_and, false_implies,
                implies_true, and_true]
              exact ⟨⟨_, rfl, rfl⟩, hsqrt'⟩

theorem swapLoop_eq_rounds (env : External) (p : Pool) (zeroForOne exactInput : Bool)
    (limit : Int) :
    ∀ (rounds : Nat) (state : SwapState),
      swapLoop env p zeroForOne exactInput limit rounds state
        = (swapLoopRounds env p zeroForOne exactInput limit rounds state).map Prod.snd := by
  intro rounds
  induction rounds with
  | zero =>
    intro state
    unfold swapLoop swapLoopRounds
    split <;> rfl
  | succ n ih =>
    intro state
    unfold swapLoop swapLoopRounds
    split
    · simp only [bind, Except.bind]
      rw [swapStep_eq_record]
      cases hstep : swapStepRecord env p zeroForOne exactInput limit state with
      | error e => rfl
      | ok round =>
        simp only [Except.map]
        rw [ih round.after]
        cases hrest : swapLoopRounds env p zeroForOne exactInput limit n round.after with
        | error e => rfl
        | ok rest =>
          obtain ⟨list, final⟩ := rest
          rfl
    · rfl

theorem v3Swap_eq_rounds (env : External) (rounds : Nat) (p : Pool) (zeroForOne : Bool)
    (amountSpecified : Int) (limit : Option Int) :
    p.v3Swap env rounds zeroForOne amountSpecified limit
      = (p.v3SwapRounds env rounds zeroForOne amountSpecified limit).map
          (fun r => r.2.toResult) := by
  unfold Pool.v3Swap Pool.v3SwapRounds
  dsimp only
  split
  · rfl
  · rw [swapLoop_eq_rounds]
    generalize swapLoopRounds env p zeroForOne _ _ rounds _ = looped
    cases looped <;> rfl

/-- The rounds the swap loop lists: they follow one another, each is a round of
the loop entered while an amount remains and the limit is not reached, there
are no more of them than the bound, the loop ends with nothing remaining or at
the limit, and the amounts and the counter of the final state are the sums over
the rounds. -/
theorem swapLoopRounds_facts (env : External) (p : Pool) (zeroForOne exactInput : Bool)
    (limit : Int) :
    ∀ (rounds : Nat) (state : SwapState) (list : List SwapRound) (final : SwapState),
      swapLoopRounds env p zeroForOne exactInput limit rounds state = .ok (list, final) →
      consecutiveRounds state list final ∧
      (∀ r ∈ list, swapStepRecord env p zeroForOne exactInput limit r.before = .ok r ∧
        r.before.amountSpecifiedRemaining ≠ 0 ∧ r.before.sqrtPriceX96 ≠ limit) ∧
      list.length ≤ rounds ∧
      (final.amountSpecifiedRemaining = 0 ∨ final.sqrtPriceX96 = limit) ∧
      final.amountSpecifiedRemaining
        = (if exactInput then state.amountSpecifiedRemaining - sumInAndFee list
           else state.amountSpecifiedRemaining + sumOut list) ∧
      final.amountCalculated
        = (if exactInput then state.amountCalculated - sumOut list
           else state.amountCalculated + sumInAndFee list) ∧
      final.crossInitTickLoops
        = state.crossInitTickLoops
            + ((list.countP SwapRound.crossesInitializedTick : Nat) : Int) := by
  intro rounds
  induction rounds with
  | zero =>
    intro state list final h
    unfold swapLoopRounds at h
    split at h
    · cases h
    · rename_i hcond
      cases h
      refine ⟨rfl, fun r hr => absurd hr (List.not_mem_nil r), le_refl _, ?_, ?_, ?_, ?_⟩
      · by_contra hne
        exact hcond ⟨fun h0 => hne (Or.inl h0), fun h1 => hne (Or.inr h1)⟩
      · cases exactInput <;> simp [sumInAndFee, sumOut]
      · cases exactInput <;> simp [sumInAndFee, sumOut]
      · simp
  | succ n ih =>
    intro state list final h
    unfold swapLoopRounds at h
    split at h
    · rename_i hcond
      simp only [] at h
      split at h
      · cases h
      · rename_i round hstep
        split at h
        · cases h
        · rename_i rest last hrest
          cases h
          obtain ⟨hcons, hall, hlen, hend, hrem, hcalc, hcross⟩ := ih round.after rest final hrest
          obtain ⟨hbefore, hrem1, hcalc1, hcross1, _⟩ :=
            swapStepRecord_facts env p zeroForOne exactInput limit state round hstep
          refine ⟨⟨hbefore, hcons⟩, ?_, ?_, hend, ?_, ?_, ?_⟩
          · intro r hr
            rcases List.mem_cons.mp hr with hr | hr
            · subst hr
              rw [hbefore]
              exact ⟨hstep, hcond.1, hcond.2⟩
            · exact hall r hr
          · simp only [List.length_cons]
            omega
          · rw [hrem, hrem1]
            cases exactInput <;>
              simp only [sumInAndFee, sumOut, List.map_cons, List.sum_cons, if_true,
                Bool.false_eq_true, if_false] <;> ring
          · rw [hcalc, hcalc1]
            cases exactInput <;>
              simp only [sumInAndFee, sumOut, List.map_cons, List.sum_cons, if_true,
                Bool.false_eq_true, if_false] <;> ring
          · rw [hcross, hcross1, List.countP_cons]
            cases round.crossesInitializedTick <;> first | (simp; done) | (simp; ring)
    · rename_i hcond
      cases h
      refine ⟨rfl, fun r hr => absurd hr (List.not_mem_nil r), Nat.zero_le _, ?_, ?_, ?_, ?_⟩
      · by_contra hne
        exact hcond ⟨fun h0 => hne (Or.inl h0), fun h1 => hne (Or.inr h1)⟩
      · cases exactInput <;> simp [sumInAndFee, sumOut]
      · cases exactInput <;> simp [sumInAndFee, sumOut]
      · simp

/-- A run of the swap loop that ends within its bound ends the same way within
every larger bound. -/
theorem swapLoopRounds_more_rounds (env : External) (p : Pool) (zeroForOne exactInput : Bool)
    (limit : Int) (more : Nat) :
    ∀ (rounds : Nat) (state : SwapState) (run : List SwapRound × SwapState),
      swapLoopRounds env p zeroForOne exactInput limit rounds state = .ok run →
      swapLoopRounds env p zeroForOne exactInput limit (rounds + more) state = .ok run := by
  intro rounds
  induction rounds with
  | zero =>
    intro state run h
    unfold swapLoopRounds at h
    split at h
    · cases h
    · rename_i hcond
      unfold swapLoopRounds
      rw [if_neg hcond]
      exact h
  | succ n ih =>
    intro state run h
    unfold swapLoopRounds at h
    split at h
    · rename_i hcond
      simp only [] at h
      split at h
      · cases h
      · rename_i round hstep
        split at h
        · cases h
        · rename_i rest last hrest
          have hmore := ih round.after _ hrest
          have hn : n + 1 + more = (n + more) + 1 := by omega
          rw [hn]
          unfold swapLoopRounds
          rw [if_pos hcond]
          simp only [hstep, hmore]
          exact h
    · rename_i hcond
      unfold swapLoopRounds
      rw [if_neg hcond]
      exact h

/-- C35: a swap that succeeds ran a list of rounds, one after another from the
initial state, and its result is the state after the last of them.  If the
specified amount is not negative, the remaining amount is the specified amount
less the inputs and fees of the rounds and the calculated amount is minus the
sum of their outputs; if it is negative, the remaining amount is the specified
amount plus the outputs and the calculated amount is the sum of the inputs and
fees.  A larger bound on the loop gives the same result.  A swap of the amount
zero whose price limit passes the checks runs no round and returns the price,
liquidity and tick of the pool with nothing calculated. -/
theorem v3Swap_amounts (env : External) (rounds : Nat) (p : Pool) (zeroForOne : Bool)
    (amountSpecified : Int) (limit : Option Int) :
    (∀ result, p.v3Swap env rounds zeroForOne amountSpecified limit = .ok result →
      ∃ list final,
        p.v3SwapRounds env rounds zeroForOne amountSpecified limit = .ok (list, final) ∧
        result = final.toResult ∧
        consecutiveRounds (initialSwapState p amountSpecified) list final ∧
        (amountSpecified ≥ 0 →
          result.RemainingTargetAmount = amountSpecified - sumInAndFee list ∧
          result.AmountCalculated = - sumOut list) ∧
        (amountSpecified < 0 →
          result.RemainingTargetAmount = amountSpecified + sumOut list ∧
          result.AmountCalculated = sumInAndFee list) ∧
        ∀ more, p.v3Swap env (rounds + more) zeroForOne amountSpecified limit = .ok result) ∧
    (amountSpecified = 0 →
      priceLimitError env p zeroForOne (limit.getD (defaultPriceLimit env zeroForOne)) = none →
        p.v3SwapRounds env rounds zeroForOne amountSpecified limit
          = .ok ([], initialSwapState p 0) ∧
        p.v3Swap env rounds zeroForOne amountSpecified limit
          = .ok { AmountCalculated := 0, SqrtRatioX96 := p.SqrtRatioX96,
                  Liquidity := p.Liquidity, RemainingTargetAmount := 0,
                  CurrentTick := p.TickCurrent, CrossInitTickLoops := 0 }) := by
  have hlimit : (match limit with
      | none => defaultPriceLimit env zeroForOne
      | some l => l) = limit.getD (defaultPriceLimit env zeroForOne) := by
    cases limit <;> rfl
  constructor
  · intro result h
    rw [v3Swap_eq_rounds] at h
    cases hrun : p.v3SwapRounds env rounds zeroForOne amountSpecified limit with
    | error e =>
      rw [hrun] at h
      cases h
    | ok run =>
      obtain ⟨list, final⟩ := run
      rw [hrun] at h
      simp only [Except.map, Except.ok.injEq] at h
      have hloop := hrun
      unfold Pool.v3SwapRounds at hloop
      dsimp only at hloop
      rw [hlimit] at hloop
      split at hloop
      · cases hloop
      · rename_i hpass
        obtain ⟨hcons, _, _, _, hrem, hcalc, _⟩ :=
          swapLoopRounds_facts env p zeroForOne _ _ rounds _ list final hloop
        refine ⟨list, final, rfl, h.symm, hcons, ?_, ?_, ?_⟩
        · intro hpos
          rw [← h]
          simp only [SwapState.toResult, hrem, hcalc, hpos, decide_True, if_true,
            initialSwapState, zero_sub, and_self]
        · intro hneg
          have hnot : ¬ amountSpecified ≥ 0 := not_le.mpr hneg
          rw [← h]
          simp only [SwapState.toResult, hrem, hcalc, hnot, decide_False, Bool.false_eq_true,
            if_false, initialSwapState, zero_add, and_self]
        · intro more
          rw [v3Swap_eq_rounds]
          have hmore : p.v3SwapRounds env (rounds + more) zeroForOne amountSpecified limit
              = .ok (list, final) := by
            unfold Pool.v3SwapRounds
            dsimp only
            rw [hlimit]
            rw [hpass]
            exact swapLoopRounds_more_rounds env p zeroForOne _ _ more rounds _ _ hloop
          rw [hmore, ← h]
          rfl
  · intro hzero hcheck
    subst hzero
    have hrun : p.v3SwapRounds env rounds zeroForOne 0 limit
        = .ok ([], initialSwapState p 0) := by
      unfold Pool.v3SwapRounds
      dsimp only
      rw [hlimit, hcheck]
      unfold swapLoopRounds
      simp [initialSwapState]
    refine ⟨hrun, ?_⟩
    rw [v3Swap_eq_rounds, hrun]
    rfl

/-- C36: the counter `CrossInitTickLoops` of a successful swap is the number of
its rounds whose final price is the price of the next tick boundary and whose
tick the tick data provider reported as initialized; it is at most the number
of rounds.  In every round the boundary tick is the tick the provider reported
for the running tick, kept within the tick bounds, and the boundary price is
its sqrt price.  After a round that crosses an initialized tick the running
tick is the boundary tick less one when the swap is zero-for-one and the
boundary tick otherwise, and the liquidity is `AddDelta` of the liquidity before
and the net liquidity of the tick, negated when zero-for-one; after any other
round the liquidity is unchanged. -/
theorem v3Swap_crossings (env : External) (rounds : Nat) (p : Pool) (zeroForOne : Bool)
    (amountSpecified : Int) (limit : Option Int) (result : SwapResult)
    (h : p.v3Swap env rounds zeroForOne amountSpecified limit = .ok result) :
    ∃ list final,
      p.v3SwapRounds env rounds zeroForOne amountSpecified limit = .ok (list, final) ∧
      result = final.toResult ∧
      consecutiveRounds (initialSwapState p amountSpecified) list final ∧
      result.CrossInitTickLoops
        = ((list.countP SwapRound.crossesInitializedTick : Nat) : Int) ∧
      result.CrossInitTickLoops ≤ (list.length : Int) ∧
      ∀ r ∈ list,
        (∃ reported, p.TickDataProvider.NextInitializedTickIndex r.before.tick zeroForOne
            = .ok (reported, r.step.Initialized) ∧ r.step.TickNext = clampTick env reported) ∧
        env.GetSqrtRatioAtTick r.step.TickNext = .ok r.step.SqrtPriceNextX96 ∧
        (r.crossesInitializedTick = true →
          r.after.tick = (if zeroForOne then r.step.TickNext - 1 else r.step.TickNext) ∧
          r.after.crossInitTickLoops = r.before.crossInitTickLoops + 1 ∧
          ∃ tick, p.TickDataProvider.GetTick r.step.TickNext = .ok tick ∧
            r.after.liquidity = env.AddDelta r.before.liquidity
              (if zeroForOne then tick.LiquidityNet * (-1) else tick.LiquidityNet)) ∧
        (r.crossesInitializedTick = false →
          r.after.liquidity = r.before.liquidity ∧
          r.after.crossInitTickLoops = r.before.crossInitTickLoops) := by
  rw [v3Swap_eq_rounds] at h
  cases hrun : p.v3SwapRounds env rounds zeroForOne amountSpecified limit with
  | error e =>
    rw [hrun] at h
    cases h
  | ok run =>
    obtain ⟨list, final⟩ := run
    rw [hrun] at h
    simp only [Except.map, Except.ok.injEq] at h
    have hloop := hrun
    unfold Pool.v3SwapRounds at hloop
    dsimp only at hloop
    split at hloop
    · cases hloop
    · obtain ⟨hcons, hall, _, _, _, _, hcross⟩ :=
        swapLoopRounds_facts env p zeroForOne _ _ rounds _ list final hloop
      have hcount : result.CrossInitTickLoops
          = ((list.countP SwapRound.crossesInitializedTick : Nat) : Int) := by
        rw [← h]
        simp only [SwapState.toResult, hcross, initialSwapState, zero_add]
      refine ⟨list, final, rfl, h.symm, hcons, hcount, ?_, ?_⟩
      · rw [hcount]
        exact_mod_cast List.countP_le_length _
      · intro r hr
        obtain ⟨hstep, _, _⟩ := hall r hr
        obtain ⟨_, _, _, hcr, hrep, hsqrt, htick, hliq, hsame⟩ :=
          swapStepRecord_facts env p zeroForOne _ _ r.before r hstep
        refine ⟨hrep, hsqrt, fun hc => ?_, fun hc => ?_⟩
        · have hprice : r.after.sqrtPriceX96 = r.step.SqrtPriceNextX96 := by
            simp only [SwapRound.crossesInitializedTick, Bool.and_eq_true,
              decide_eq_true_eq] at hc
            exact hc.1
          refine ⟨htick hprice, ?_, hliq hc⟩
          rw [hcr, hc]
          rfl
        · refine ⟨hsame hc, ?_⟩
          rw [hcr, hc]
          simp

set_option maxRecDepth 8000 in
theorem sample_swap_run :
    poolTicked.v3SwapRounds steppingEnv 5 false 15 none
      = .ok ([{ before := initialSwapState poolTicked 15,
                step := { SqrtPriceStartX96 := 79228162514264337593543950336, TickNext := 1,
                          Initialized := true,
                          SqrtPriceNextX96 := 79232123823359799118286999568,
                          AmountIn := 9, AmountOut := 8, FeeAmount := 1 },
                after := { amountSpecifiedRemaining := 5, amountCalculated := -8,
                           sqrtPriceX96 := 79232123823359799118286999568, tick := 1,
                           liquidity := 1000000000000000000000000000005,
                           crossInitTickLoops := 1 } },
              { before := { amountSpecifiedRemaining := 5, amountCalculated := -8,
                            sqrtPriceX96 := 79232123823359799118286999568, tick := 1,
                            liquidity := 1000000000000000000000000000005,
                            crossInitTickLoops := 1 },
                step := { SqrtPriceStartX96 := 79232123823359799118286999568, TickNext := 2,
                          Initialized := false,
                          SqrtPriceNextX96 := 79236085330515764027303304732,
                          AmountIn := 5, AmountOut := 4, FeeAmount := 0 },
                after := { amountSpecifiedRemaining := 0, amountCalculated := -12,
                           sqrtPriceX96 := 79232123823359799118286999568, tick := 1,
                           liquidity := 1000000000000000000000000000005,
                           crossInitTickLoops := 1 } }],
             { amountSpecifiedRemaining := 0, amountCalculated := -12,
               sqrtPriceX96 := 79232123823359799118286999568, tick := 1,
               liquidity := 1000000000000000000000000000005,
               crossInitTickLoops := 1 }) := by
  rfl

set_option maxRecDepth 8000 in
theorem sample_swap_result :
    poolTicked.v3Swap steppingEnv 5 false 15 none
      = .ok { AmountCalculated := -12, SqrtRatioX96 := 79232123823359799118286999568,
              Liquidity := 1000000000000000000000000000005, RemainingTargetAmount := 0,
              CurrentTick := 1, CrossInitTickLoops := 1 } := by
  rfl

set_option maxRecDepth 8000 in
theorem sample_swap_result_exact_output :
    poolTicked.v3Swap steppingEnv 5 false (-8) none
      = .ok { AmountCalculated := 10, SqrtRatioX96 := 79232123823359799118286999568,
              Liquidity := 1000000000000000000000000000005, RemainingTargetAmount := 0,
              CurrentTick := 1, CrossInitTickLoops := 1 } := by
  rfl

set_option maxRecDepth 8000 in
theorem sample_price_limit_passes :
    priceLimitError steppingEnv poolTicked true
      ((none : Option Int).getD (defaultPriceLimit steppingEnv true)) = none := by
  rfl

set_option maxRecDepth 8000 in
/-- Witness for C35: on the sample pool an exact-input swap of 15 runs two rounds
and ends with nothing remaining and 12 calculated; an exact-output swap of 8 ends
with 10 calculated; and a swap of zero returns the state of the pool. -/
theorem v3Swap_amounts_witness :
    (∃ list final,
      poolTicked.v3SwapRounds steppingEnv 5 false 15 none = .ok (list, final) ∧
      list.length = 2 ∧ (0 : Int) = 15 - sumInAndFee list ∧ (-12 : Int) = - sumOut list) ∧
    (∃ list final,
      poolTicked.v3SwapRounds steppingEnv 5 false (-8) none = .ok (list, final) ∧
      (0 : Int) = -8 + sumOut list ∧ (10 : Int) = sumInAndFee list) ∧
    poolTicked.v3Swap steppingEnv 0 true 0 none
      = .ok { AmountCalculated := 0, SqrtRatioX96 := poolTicked.SqrtRatioX96,
              Liquidity := poolTicked.Liquidity, RemainingTargetAmount := 0,
              CurrentTick := poolTicked.TickCurrent, CrossInitTickLoops := 0 } := by
  refine ⟨?_, ?_, ?_⟩
  · obtain ⟨list, final, hrun, _, _, hpos, _, _⟩ :=
      (v3Swap_amounts steppingEnv 5 poolTicked false 15 none).1 _ sample_swap_result
    refine ⟨list, final, hrun, ?_, (hpos (by decide)).1, (hpos (by decide)).2⟩
    rw [sample_swap_run] at hrun
    cases hrun
    rfl
  · obtain ⟨list, final, hrun, _, _, _, hneg, _⟩ :=
      (v3Swap_amounts steppingEnv 5 poolTicked false (-8) none).1 _
        sample_swap_result_exact_output
    exact ⟨list, final, hrun, (hneg (by decide)).1, (hneg (by decide)).2⟩
  · exact ((v3Swap_amounts steppingEnv 0 poolTicked true 0 none).2 rfl
      sample_price_limit_passes).2

set_option maxRecDepth 8000 in
/-- Witness for C36: the sample swap of 15 runs two rounds, of which only the
first crosses an initialized tick, so its counter is 1. -/
theorem v3Swap_crossings_witness :
    poolTicked.v3Swap steppingEnv 5 false 15 none
      = .ok { AmountCalculated := -12, SqrtRatioX96 := 79232123823359799118286999568,
              Liquidity := 1000000000000000000000000000005, RemainingTargetAmount := 0,
              CurrentTick := 1, CrossInitTickLoops := 1 } ∧
    ∃ list final,
      poolTicked.v3SwapRounds steppingEnv 5 false 15 none = .ok (list, final) ∧
      list.length = 2 ∧
      (1 : Int) = ((list.countP SwapRound.crossesInitializedTick : Nat) : Int) ∧
      (1 : Int) ≤ (list.length : Int) := by
  refine ⟨sample_swap_result, ?_⟩
  obtain ⟨list, final, hrun, _, _, hcount, hle, _⟩ :=
    v3Swap_crossings steppingEnv 5 poolTicked false 15 none _ sample_swap_result
  refine ⟨list, final, hrun, ?_, hcount, hle⟩
  rw [sample_swap_run] at hrun
  cases hrun
  rfl

/-! ## The two quotes of a pool -/

theorem Currency.Equal_token_eq (c : Currency) (t : Token) :
    c.Equal (.token t) = decide (c = .token t) := by
  cases c with
  | native chain weth => simp [Currency.Equal]
  | token s =>
    obtain ⟨sc, sa⟩ := s
    obtain ⟨tc, ta⟩ := t
    simp [Currency.Equal]

theorem Pool.involves_iff_hasCurrency (p : Pool) (c : Currency) :
    (c.IsToken && p.InvolvesToken c.Wrapped) = true ↔ p.hasCurrency c := by
  cases c with
  | native chain weth => simp [Currency.IsToken, Pool.hasCurrency]
  | token s =>
    simp only [Currency.IsToken, Currency.Wrapped, Pool.InvolvesToken, Token.Equal,
      Bool.true_and, Bool.or_eq_true, Pool.hasCurrency, Currency.Equal_token_eq,
      decide_eq_true_eq, Currency.token.injEq]
    constructor
    · rintro (h | h)
      · exact Or.inl h.symm
      · exact Or.inr h.symm
    · rintro (h | h)
      · exact Or.inl h.symm
      · exact Or.inr h.symm

theorem Fraction.Quotient_nonneg (f : Fraction) (hn : 0 ≤ f.Numerator)
    (hd : 0 < f.Denominator) : 0 ≤ f.Quotient :=
  Int.ediv_nonneg hn (le_of_lt hd)

theorem GetOutputAmount_not_involved (env : External) (rounds : Nat) (p : Pool)
    (amount : CurrencyAmount) (limit : Option Int) (hnot : ¬ p.hasCurrency amount.Currency) :
    p.GetOutputAmount env rounds amount limit = .error .ErrTokenNotInvolved := by
  have hcheck : (amount.Currency.IsToken && p.InvolvesToken amount.Currency.Wrapped)
      = false := by
    rw [Bool.eq_false_iff]
    exact fun h => hnot ((p.involves_iff_hasCurrency _).mp h)
  unfold Pool.GetOutputAmount
  dsimp only
  generalize p.swap env rounds _ _ limit = swapped
  simp only [hcheck, Bool.not_false, if_true, bind, Except.bind, throw, throwThe,
    MonadExceptOf.throw]

theorem GetInputAmount_not_involved (env : External) (rounds : Nat) (p : Pool)
    (amount : CurrencyAmount) (limit : Option Int) (hnot : ¬ p.hasCurrency amount.Currency) :
    p.GetInputAmount env rounds amount limit = .error .ErrTokenNotInvolved := by
  have hcheck : (amount.Currency.IsToken && p.InvolvesToken amount.Currency.Wrapped)
      = false := by
    rw [Bool.eq_false_iff]
    exact fun h => hnot ((p.involves_iff_hasCurrency _).mp h)
  unfold Pool.GetInputAmount
  dsimp only
  generalize p.swap env rounds _ _ limit = swapped
  simp only [hcheck, Bool.not_false, if_true, bind, Except.bind, throw, throwThe,
    MonadExceptOf.throw]

theorem GetOutputAmount_of_swap_error (env : External) (rounds : Nat) (p : Pool)
    (amount : CurrencyAmount) (limit : Option Int) (hhas : p.hasCurrency amount.Currency)
    (e : Err)
    (hswap : p.swap env rounds (decide (amount.Currency = .token p.Currency0))
      amount.Quotient limit = .error e) :
    p.GetOutputAmount env rounds amount limit = .error e := by
  have hcheck : (amount.Currency.IsToken && p.InvolvesToken amount.Currency.Wrapped)
      = true := (p.involves_iff_hasCurrency _).mpr hhas
  unfold Pool.GetOutputAmount
  dsimp only
  generalize hsw : p.swap env rounds (amount.Currency.Equal (.token p.Currency0))
    amount.Quotient limit = swapped
  rw [Currency.Equal_token_eq] at hsw
  have hsame : swapped = .error e := hsw.symm.trans hswap
  rw [hsame, hcheck]
  rfl

theorem GetOutputAmount_of_swap_ok (env : External) (rounds : Nat) (p : Pool)
    (amount : CurrencyAmount) (limit : Option Int) (hhas : p.hasCurrency amount.Currency)
    (swapResult : SwapResult) (pool : Pool)
    (hswap : p.swap env rounds (decide (amount.Currency = .token p.Currency0))
      amount.Quotient limit = .ok swapResult)
    (hpool : NewPool env p.Currency0 p.Currency1 p.Fee p.TickSpacing p.Hooks
      swapResult.SqrtRatioX96 swapResult.Liquidity swapResult.CurrentTick
      p.TickDataProvider = .ok pool) :
    p.GetOutputAmount env rounds amount limit
      = .ok { ReturnedAmount :=
                CurrencyAmount.FromRawAmount (p.otherCurrency amount.Currency)
                  (- swapResult.AmountCalculated),
              RemainingAmountIn :=
                CurrencyAmount.FromRawAmount amount.Currency swapResult.RemainingTargetAmount,
              NewPoolState := pool,
              CrossInitTickLoops := swapResult.CrossInitTickLoops } := by
  have hcheck : (amount.Currency.IsToken && p.InvolvesToken amount.Currency.Wrapped)
      = true := (p.involves_iff_hasCurrency _).mpr hhas
  have hother : (Currency.token (if decide (amount.Currency = .token p.Currency0) = true
      then p.Currency1 else p.Currency0)) = p.otherCurrency amount.Currency := by
    unfold Pool.otherCurrency
    by_cases h0 : amount.Currency = .token p.Currency0 <;> simp [h0]
  have hneg : swapResult.AmountCalculated * (-1) = - swapResult.AmountCalculated := by ring
  unfold Pool.GetOutputAmount
  dsimp only
  generalize hsw : p.swap env rounds (amount.Currency.Equal (.token p.Currency0))
    amount.Quotient limit = swapped
  rw [Currency.Equal_token_eq] at hsw
  have hsame : swapped = .ok swapResult := hsw.symm.trans hswap
  rw [Currency.Equal_token_eq, hother, hsame, hcheck]
  simp only [Bool.not_true, Bool.false_eq_true, if_false, bind, Except.bind, pure,
    Except.pure, hpool, hneg]

theorem GetInputAmount_of_swap_error (env : External) (rounds : Nat) (p : Pool)
    (amount : CurrencyAmount) (limit : Option Int) (hhas : p.hasCurrency amount.Currency)
    (e : Err)
    (hswap : p.swap env rounds (decide (amount.Currency = .token p.Currency1))
      (- amount.Quotient) limit = .error e) :
    p.GetInputAmount env rounds amount limit = .error e := by
  have hcheck : (amount.Currency.IsToken && p.InvolvesToken amount.Currency.Wrapped)
      = true := (p.involves_iff_hasCurrency _).mpr hhas
  have hneg : amount.Quotient * (-1) = - amount.Quotient := by ring
  unfold Pool.GetInputAmount
  dsimp only
  generalize hsw : p.swap env rounds (amount.Currency.Equal (.token p.Currency1))
    (amount.Quotient * (-1)) limit = swapped
  rw [Currency.Equal_token_eq, hneg] at hsw
  have hsame : swapped = .error e := hsw.symm.trans hswap
  rw [hsame, hcheck]
  rfl

theorem GetInputAmount_of_swap_ok (env : External) (rounds : Nat) (p : Pool)
    (amount : CurrencyAmount) (limit : Option Int) (hhas : p.hasCurrency amount.Currency)
    (swapResult : SwapResult) (pool : Pool)
    (hswap : p.swap env rounds (decide (amount.Currency = .token p.Currency1))
      (- amount.Quotient) limit = .ok swapResult)
    (hpool : NewPool env p.Currency0 p.Currency1 p.Fee p.TickSpacing p.Hooks
      swapResult.SqrtRatioX96 swapResult.Liquidity swapResult.CurrentTick
      p.TickDataProvider = .ok pool) :
    p.GetInputAmount env rounds amount limit
      = .ok { ReturnedAmount :=
                CurrencyAmount.FromRawAmount (p.otherCurrency amount.Currency)
                  swapResult.AmountCalculated,
              RemainingAmountOut :=
                CurrencyAmount.FromRawAmount amount.Currency swapResult.RemainingTargetAmount,
              NewPoolState := pool,
              CrossInitTickLoops := swapResult.CrossInitTickLoops } := by
  have hcheck : (amount.Currency.IsToken && p.InvolvesToken amount.Currency.Wrapped)
      = true := (p.involves_iff_hasCurrency _).mpr hhas
  have hneg : amount.Quotient * (-1) = - amount.Quotient := by ring
  have hother : (Currency.token (if decide (amount.Currency = .token p.Currency1) = true
      then p.Currency0 else p.Currency1)) = p.otherCurrency amount.Currency := by
    unfold Pool.otherCurrency
    by_cases h0 : amount.Currency = .token p.Currency0
    · by_cases h1 : amount.Currency = .token p.Currency1
      · have h01 : p.Currency0 = p.Currency1 := by
          rw [h0] at h1
          exact Currency.token.inj h1
        simp [h0, h01]
      · have h10 : ¬ p.Currency0 = p.Currency1 := by
          intro h
          apply h1
          rw [h0, h]
        simp [h0, h10]
    · rcases hhas with h | h
      · exact absurd h h0
      · have h10 : ¬ p.Currency1 = p.Currency0 := by
          intro h2
          apply h0
          rw [h, h2]
        simp [h, h10]
  unfold Pool.GetInputAmount
  dsimp only
  generalize hsw : p.swap env rounds (amount.Currency.Equal (.token p.Currency1))
    (amount.Quotient * (-1)) limit = swapped
  rw [Currency.Equal_token_eq, hneg] at hsw
  have hsame : swapped = .ok swapResult := hsw.symm.trans hswap
  rw [Currency.Equal_token_eq, hother, hsame, hcheck]
  simp only [Bool.not_true, Bool.false_eq_true, if_false, bind, Except.bind, pure,
    Except.pure, hpool]

/-- C31: `GetOutputAmount` and `GetInputAmount` fail with `ErrTokenNotInvolved`
when the currency of the amount is not one of the two currencies of the pool.
Otherwise `GetOutputAmount` swaps zero-for-one exactly when that currency is
currency 0, with the integer quotient of the amount as the specified amount;
an error of the swap is returned, and when the swap and the rebuilding of the
pool succeed the result holds the negated calculated amount in the other
currency of the pool and the remaining amount in the input currency.
`GetInputAmount` swaps zero-for-one exactly when the currency is currency 1,
with the negated quotient, and returns the calculated amount in the other
currency.  The quotient of an amount that is not negative is not negative. -/
theorem quote_wrappers_spec (env : External) (rounds : Nat) (p : Pool)
    (amount : CurrencyAmount) (limit : Option Int) :
    (¬ p.hasCurrency amount.Currency →
      p.GetOutputAmount env rounds amount limit = .error .ErrTokenNotInvolved ∧
      p.GetInputAmount env rounds amount limit = .error .ErrTokenNotInvolved) ∧
    (p.hasCurrency amount.Currency →
      (∀ e, p.swap env rounds (decide (amount.Currency = .token p.Currency0))
          amount.Quotient limit = .error e →
        p.GetOutputAmount env rounds amount limit = .error e) ∧
      (∀ swapResult pool,
        p.swap env rounds (decide (amount.Currency = .token p.Currency0))
          amount.Quotient limit = .ok swapResult →
        NewPool env p.Currency0 p.Currency1 p.Fee p.TickSpacing p.Hooks
          swapResult.SqrtRatioX96 swapResult.Liquidity swapResult.CurrentTick
          p.TickDataProvider = .ok pool →
        p.GetOutputAmount env rounds amount limit
          = .ok { ReturnedAmount :=
                    CurrencyAmount.FromRawAmount (p.otherCurrency amount.Currency)
                      (- swapResult.AmountCalculated),
                  RemainingAmountIn :=
                    CurrencyAmount.FromRawAmount amount.Currency
                      swapResult.RemainingTargetAmount,
                  NewPoolState := pool,
                  CrossInitTickLoops := swapResult.CrossInitTickLoops }) ∧
      (∀ e, p.swap env rounds (decide (amount.Currency = .token p.Currency1))
          (- amount.Quotient) limit = .error e →
        p.GetInputAmount env rounds amount limit = .error e) ∧
      (∀ swapResult pool,
        p.swap env rounds (decide (amount.Currency = .token p.Currency1))
          (- amount.Quotient) limit = .ok swapResult →
        NewPool env p.Currency0 p.Currency1 p.Fee p.TickSpacing p.Hooks
          swapResult.SqrtRatioX96 swapResult.Liquidity swapResult.CurrentTick
          p.TickDataProvider = .ok pool →
        p.GetInputAmount env rounds amount limit
          = .ok { ReturnedAmount :=
                    CurrencyAmount.FromRawAmount (p.otherCurrency amount.Currency)
                      swapResult.AmountCalculated,
                  RemainingAmountOut :=
                    CurrencyAmount.FromRawAmount amount.Currency
                      swapResult.RemainingTargetAmount,
                  NewPoolState := pool,
                  CrossInitTickLoops := swapResult.CrossInitTickLoops })) ∧
    (0 ≤ amount.Fraction.Numerator → 0 < amount.Fraction.Denominator →
      0 ≤ amount.Quotient ∧ - amount.Quotient ≤ 0) := by
  refine ⟨fun hnot => ⟨GetOutputAmount_not_involved env rounds p amount limit hnot,
    GetInputAmount_not_involved env rounds p amount limit hnot⟩, fun hhas => ?_,
    fun hn hd => ?_⟩
  · exact ⟨fun e hswap => GetOutputAmount_of_swap_error env rounds p amount limit hhas e hswap,
      fun swapResult pool hswap hpool =>
        GetOutputAmount_of_swap_ok env rounds p amount limit hhas swapResult pool hswap hpool,
      fun e hswap => GetInputAmount_of_swap_error env rounds p amount limit hhas e hswap,
      fun swapResult pool hswap hpool =>
        GetInputAmount_of_swap_ok env rounds p amount limit hhas swapResult pool hswap hpool⟩
  · have hq : 0 ≤ amount.Quotient := Fraction.Quotient_nonneg amount.Fraction hn hd
    exact ⟨hq, by omega⟩

set_option maxRecDepth 8000 in
theorem sample_pool_swap :
    poolTicked.swap steppingEnv 5 (decide ((amountOf tokenB 15).Currency
        = .token poolTicked.Currency0)) (amountOf tokenB 15).Quotient none
      = .ok { AmountCalculated := -12, SqrtRatioX96 := 79232123823359799118286999568,
              Liquidity := 1000000000000000000000000000005, RemainingTargetAmount := 0,
              CurrentTick := 1, CrossInitTickLoops := 1 } := by
  unfold Pool.swap
  rw [hookImpactsSwap_eq]
  exact sample_swap_result

set_option maxRecDepth 8000 in
theorem sample_pool_swap_exact_output :
    poolTicked.swap steppingEnv 5 (decide ((amountOf tokenA 8).Currency
        = .token poolTicked.Currency1)) (- (amountOf tokenA 8).Quotient) none
      = .ok { AmountCalculated := 10, SqrtRatioX96 := 79232123823359799118286999568,
              Liquidity := 1000000000000000000000000000005, RemainingTargetAmount := 0,
              CurrentTick := 1, CrossInitTickLoops := 1 } := by
  unfold Pool.swap
  rw [hookImpactsSwap_eq]
  exact sample_swap_result_exact_output

set_option maxRecDepth 8000 in
theorem sample_pool_rebuilt :
    NewPool steppingEnv poolTicked.Currency0 poolTicked.Currency1 poolTicked.Fee
      poolTicked.TickSpacing poolTicked.Hooks 79232123823359799118286999568
      1000000000000000000000000000005 1 poolTicked.TickDataProvider
      = .ok (builtPool steppingEnv tokenA tokenB 0 1 0 79232123823359799118286999568
          1000000000000000000000000000005 1 oneTickAbove) := by
  rw [NewPool_cases]
  rfl

set_option maxRecDepth 8000 in
/-- Witness for C31: on the sample pool of A and B an amount of C is refused; an
input of 15 B is swapped one-for-zero and returns 12 A with nothing remaining;
an output of 8 A is swapped one-for-zero and returns an input of 10 B. -/
theorem quote_wrappers_spec_witness :
    poolTicked.GetOutputAmount steppingEnv 5 (amountOf tokenC 15) none
      = .error .ErrTokenNotInvolved ∧
    (poolTicked.GetOutputAmount steppingEnv 5 (amountOf tokenB 15) none).map
        (fun r => (r.ReturnedAmount, r.RemainingAmountIn, r.CrossInitTickLoops))
      = .ok (amountOf tokenA 12, amountOf tokenB 0, 1) ∧
    (poolTicked.GetInputAmount steppingEnv 5 (amountOf tokenA 8) none).map
        (fun r => (r.ReturnedAmount, r.RemainingAmountOut, r.CrossInitTickLoops))
      = .ok (amountOf tokenB 10, amountOf tokenA 0, 1) := by
  refine ⟨?_, ?_, ?_⟩
  · exact ((quote_wrappers_spec steppingEnv 5 poolTicked (amountOf tokenC 15) none).1
      (by unfold Pool.hasCurrency; decide)).1
  · rw [((quote_wrappers_spec steppingEnv 5 poolTicked (amountOf tokenB 15) none).2.1
      (Or.inr rfl)).2.1 _ _ sample_pool_swap sample_pool_rebuilt]
    rfl
  · rw [((quote_wrappers_spec steppingEnv 5 poolTicked (amountOf tokenA 8) none).2.1
      (Or.inl rfl)).2.2.2 _ _ sample_pool_swap_exact_output sample_pool_rebuilt]
    rfl

/-! ## Errors of a quote inside the best-trade searches -/

theorem BestTradeExactIn_unfold (q : Quoter) (pools : List Pool)
    (currencyAmountIn : CurrencyAmount) (currencyOut : Currency)
    (opts : Option BestTradeOptions) (currentPools : List Pool)
    (nextAmountIn : Option CurrencyAmount) (bestTrades : List Trade) :
    BestTradeExactIn q pools currencyAmountIn currencyOut opts currentPools nextAmountIn
        bestTrades
      = exactInBody q (exactInRecurse q currencyAmountIn currencyOut) pools currencyAmountIn
          currencyOut opts currentPools nextAmountIn bestTrades := by
  unfold BestTradeExactIn
  cases hlen : pools.length with
  | zero =>
    unfold bestTradeExactInBounded
    apply exactInBody_congr
    intro pools' opts' currentPools' amount' bestTrades' hl
    omega
  | succ n =>
    unfold bestTradeExactInBounded
    apply exactInBody_congr
    intro pools' opts' currentPools' amount' bestTrades' hl
    have hn : pools'.length = n := by omega
    unfold exactInRecurse BestTradeExactIn
    rw [hn]

theorem BestTradeExactOut_unfold (q : Quoter) (pools : List Pool) (currencyIn : Currency)
    (currencyAmountOut : CurrencyAmount) (opts : Option BestTradeOptions)
    (currentPools : List Pool) (nextAmountOut : Option CurrencyAmount)
    (bestTrades : List Trade) :
    BestTradeExactOut q pools currencyIn currencyAmountOut opts currentPools nextAmountOut
        bestTrades
      = exactOutBody q (exactOutRecurse q currencyIn currencyAmountOut) pools currencyIn
          currencyAmountOut opts currentPools nextAmountOut bestTrades := by
  unfold BestTradeExactOut
  cases hlen : pools.length with
  | zero =>
    unfold bestTradeExactOutBounded
    apply exactOutBody_congr
    intro pools' opts' currentPools' amount' bestTrades' hl
    omega
  | succ n =>
    unfold bestTradeExactOutBounded
    apply exactOutBody_congr
    intro pools' opts' currentPools' amount' bestTrades' hl
    have hn : pools'.length = n := by omega
    unfold exactOutRecurse BestTradeExactOut
    rw [hn]

/-- A loop over the indices below `n` whose rounds before index `i` return and
whose round at `i` fails, fails with the error of that round. -/
theorem foldlM_range_error {σ : Type} (f : σ → Nat → Except Err σ) (n i : Nat) (init t : σ)
    (e : Err) (hi : i < n) (hfirst : (List.range i).foldlM f init = .ok t)
    (hstep : f t i = .error e) : (List.range n).foldlM f init = .error e := by
  have hn : n = (i + 1) + (n - (i + 1)) := by omega
  rw [hn, List.range_add, List.foldlM_append, List.range_succ, List.foldlM_append, hfirst]
  simp only [bind, Except.bind, List.foldlM_cons, List.foldlM_nil, hstep]

theorem exactInStep_quote_error (q : Quoter) (recurse : BestTradeCall) (pools : List Pool)
    (currencyAmountIn : CurrencyAmount) (currencyOut : Currency) (opts : BestTradeOptions)
    (currentPools : List Pool) (amountIn : CurrencyAmount) (bestTrades : List Trade) (i : Nat)
    (pool : Pool) (e : Err) (hpool : pools[i]? = some pool)
    (htouch : touchesCurrency pool amountIn = true)
    (hquote : q.GetOutputAmount pool amountIn = .error e) :
    exactInStep q recurse pools currencyAmountIn currencyOut opts currentPools amountIn
      bestTrades i = .error e := by
  unfold touchesCurrency at htouch
  have hskip : (!pool.Currency0.Equal amountIn.Currency && !pool.Currency1.Equal amountIn.Currency)
      = false := by
    rcases Bool.or_eq_true _ _ |>.mp htouch with h | h <;> simp [h]
  simp only [exactInStep, hpool, hskip, Bool.false_eq_true, if_false, hquote, bind, Except.bind]

theorem exactInStep_nested (q : Quoter) (recurse : BestTradeCall) (pools : List Pool)
    (currencyAmountIn : CurrencyAmount) (currencyOut : Currency) (opts : BestTradeOptions)
    (currentPools : List Pool) (amountIn : CurrencyAmount) (bestTrades : List Trade) (i : Nat)
    (pool : Pool) (r : GetOutputAmountResult) (hpool : pools[i]? = some pool)
    (htouch : touchesCurrency pool amountIn = true)
    (hquote : q.GetOutputAmount pool amountIn = .ok r)
    (hnot : (r.ReturnedAmount.Currency.Equal (.token currencyOut.Wrapped)
      && r.ReturnedAmount.Currency.IsToken) = false)
    (hhops : opts.MaxHops > 1) (hlen : pools.length > 1) :
    exactInStep q recurse pools currencyAmountIn currencyOut opts currentPools amountIn
      bestTrades i
      = recurse (poolsExcluding pools i) (nestedOptions opts) (currentPools ++ [pool])
          r.ReturnedAmount bestTrades := by
  unfold touchesCurrency at htouch
  have hskip : (!pool.Currency0.Equal amountIn.Currency && !pool.Currency1.Equal amountIn.Currency)
      = false := by
    rcases Bool.or_eq_true _ _ |>.mp htouch with h | h <;> simp [h]
  simp only [exactInStep, hpool, hskip, Bool.false_eq_true, if_false, hquote, bind, Except.bind,
    hnot, hhops, hlen, decide_True, Bool.and_self, if_true, poolsExcluding, nestedOptions]

theorem exactOutStep_quote_error (q : Quoter) (recurse : BestTradeCall) (pools : List Pool)
    (currencyIn : Currency) (currencyAmountOut : CurrencyAmount) (opts : BestTradeOptions)
    (currentPools : List Pool) (amountOut : CurrencyAmount) (bestTrades : List Trade) (i : Nat)
    (pool : Pool) (e : Err) (hpool : pools[i]? = some pool)
    (htouch : touchesCurrency pool amountOut = true)
    (hquote : q.GetInputAmount pool amountOut = .error e) :
    exactOutStep q recurse pools currencyIn currencyAmountOut opts currentPools amountOut
      bestTrades i = .error e := by
  unfold touchesCurrency at htouch
  have hskip : (!pool.Currency0.Equal amountOut.Currency
      && !pool.Currency1.Equal amountOut.Currency) = false := by
    rcases Bool.or_eq_true _ _ |>.mp htouch with h | h <;> simp [h]
  simp only [exactOutStep, hpool, hskip, Bool.false_eq_true, if_false, hquote, bind, Except.bind]

theorem exactOutStep_nested (q : Quoter) (recurse : BestTradeCall) (pools : List Pool)
    (currencyIn : Currency) (currencyAmountOut : CurrencyAmount) (opts : BestTradeOptions)
    (currentPools : List Pool) (amountOut : CurrencyAmount) (bestTrades : List Trade) (i : Nat)
    (pool : Pool) (r : GetInputAmountResult) (hpool : pools[i]? = some pool)
    (htouch : touchesCurrency pool amountOut = true)
    (hquote : q.GetInputAmount pool amountOut = .ok r)
    (hnot : r.ReturnedAmount.Currency.Equal currencyIn = false)
    (hhops : opts.MaxHops > 1) (hlen : pools.length > 1) :
    exactOutStep q recurse pools currencyIn currencyAmountOut opts currentPools amountOut
      bestTrades i
      = recurse (poolsExcluding pools i) (nestedOptions opts) (pool :: currentPools)
          r.ReturnedAmount bestTrades := by
  unfold touchesCurrency at htouch
  have hskip : (!pool.Currency0.Equal amountOut.Currency
      && !pool.Currency1.Equal amountOut.Currency) = false := by
    rcases Bool.or_eq_true _ _ |>.mp htouch with h | h <;> simp [h]
  simp only [exactOutStep, hpool, hskip, Bool.false_eq_true, if_false, hquote, bind,
    Except.bind, hnot, hhops, hlen, decide_True, Bool.and_self, if_true, poolsExcluding,
    nestedOptions]

theorem exactInBody_loop (q : Quoter) (recurse : BestTradeCall) (pools : List Pool)
    (currencyAmountIn : CurrencyAmount) (currencyOut : Currency)
    (opts : Option BestTradeOptions) (currentPools : List Pool)
    (nextAmountIn : CurrencyAmount) (bestTrades : List Trade) (hlen : 0 < pools.length)
    (hguard : (currencyAmountIn.Fraction.EqualTo nextAmountIn.Fraction
      || decide (currentPools.length > 0)) = true) :
    exactInBody q recurse pools currencyAmountIn currencyOut opts currentPools
        (some nextAmountIn) bestTrades
      = (List.range pools.length).foldlM
          (exactInStep q recurse pools currencyAmountIn currencyOut
            (opts.getD defaultBestTradeOptions) currentPools nextAmountIn.Wrapped)
          bestTrades := by
  have hno : ¬ pools.length ≤ 0 := by omega
  simp only [exactInBody, hno, if_false, hguard, Bool.not_true, Bool.false_eq_true]

theorem exactOutBody_loop (q : Quoter) (recurse : BestTradeCall) (pools : List Pool)
    (currencyIn : Currency) (currencyAmountOut : CurrencyAmount)
    (opts : Option BestTradeOptions) (currentPools : List Pool)
    (nextAmountOut : Option CurrencyAmount) (bestTrades : List Trade)
    (hlen : 0 < pools.length) (hhops : 0 < (opts.getD defaultBestTradeOptions).MaxHops)
    (hguard : (currencyAmountOut.Fraction.EqualTo (nextAmountOut.getD currencyAmountOut).Fraction
      || decide (currentPools.length > 0)) = true) :
    exactOutBody q recurse pools currencyIn currencyAmountOut opts currentPools
        nextAmountOut bestTrades
      = (List.range pools.length).foldlM
          (exactOutStep q recurse pools currencyIn currencyAmountOut
            (opts.getD defaultBestTradeOptions) currentPools
            (nextAmountOut.getD currencyAmountOut).Wrapped)
          bestTrades := by
  have hno : ¬ pools.length ≤ 0 := by omega
  have hh : ¬ (opts.getD defaultBestTradeOptions).MaxHops ≤ 0 := by omega
  simp only [exactOutBody, hno, if_false, hguard, Bool.not_true, Bool.false_eq_true, hh]

/-- C37: a failing quote ends a best-trade search with its error.  In a call of
`BestTradeExactIn` whose pool loop comes to a pool that touches the frontier
currency: if `GetOutputAmount` fails on that pool, the call returns that error;
and if the quote succeeds and the search goes on in a nested call on the other
pools, every error of the nested call is the error of the call.  The same
holds for `BestTradeExactOut` with `GetInputAmount`.  So the error of a quote at
any depth is the result of the call at the top, which then returns no list. -/
theorem best_trade_quote_error_propagates (q : Quoter) (pools : List Pool)
    (opts : Option BestTradeOptions) (currentPools : List Pool)
    (bestTrades reached : List Trade) (i : Nat) (pool : Pool) (e : Err)
    (currencyAmountIn : CurrencyAmount) (currencyOut : Currency)
    (nextAmountIn : CurrencyAmount) (currencyIn : Currency)
    (currencyAmountOut : CurrencyAmount) (nextAmountOut : Option CurrencyAmount)
    (hpool : pools[i]? = some pool) :
    ((currencyAmountIn.Fraction.EqualTo nextAmountIn.Fraction
        || decide (currentPools.length > 0)) = true →
      touchesCurrency pool nextAmountIn.Wrapped = true →
      exactInReaches q pools currencyAmountIn currencyOut (opts.getD defaultBestTradeOptions)
        currentPools nextAmountIn.Wrapped bestTrades i reached →
      (q.GetOutputAmount pool nextAmountIn.Wrapped = .error e →
        BestTradeExactIn q pools currencyAmountIn currencyOut opts currentPools
          (some nextAmountIn) bestTrades = .error e) ∧
      (∀ r, q.GetOutputAmount pool nextAmountIn.Wrapped = .ok r →
        (r.ReturnedAmount.Currency.Equal (.token currencyOut.Wrapped)
          && r.ReturnedAmount.Currency.IsToken) = false →
        (opts.getD defaultBestTradeOptions).MaxHops > 1 → pools.length > 1 →
        BestTradeExactIn q (poolsExcluding pools i) currencyAmountIn currencyOut
          (some (nestedOptions (opts.getD defaultBestTradeOptions))) (currentPools ++ [pool])
          (some r.ReturnedAmount) reached = .error e →
        BestTradeExactIn q pools currencyAmountIn currencyOut opts currentPools
          (some nextAmountIn) bestTrades = .error e)) ∧
    (0 < (opts.getD defaultBestTradeOptions).MaxHops →
      (currencyAmountOut.Fraction.EqualTo (nextAmountOut.getD currencyAmountOut).Fraction
        || decide (currentPools.length > 0)) = true →
      touchesCurrency pool (nextAmountOut.getD currencyAmountOut).Wrapped = true →
      exactOutReaches q pools currencyIn currencyAmountOut (opts.getD defaultBestTradeOptions)
        currentPools (nextAmountOut.getD currencyAmountOut).Wrapped bestTrades i reached →
      (q.GetInputAmount pool (nextAmountOut.getD currencyAmountOut).Wrapped = .error e →
        BestTradeExactOut q pools currencyIn currencyAmountOut opts currentPools nextAmountOut
          bestTrades = .error e) ∧
      (∀ r, q.GetInputAmount pool (nextAmountOut.getD currencyAmountOut).Wrapped = .ok r →
        r.ReturnedAmount.Currency.Equal currencyIn = false →
        (opts.getD defaultBestTradeOptions).MaxHops > 1 → pools.length > 1 →
        BestTradeExactOut q (poolsExcluding pools i) currencyIn currencyAmountOut
          (some (nestedOptions (opts.getD defaultBestTradeOptions))) (pool :: currentPools)
          (some r.ReturnedAmount) reached = .error e →
        BestTradeExactOut q pools currencyIn currencyAmountOut opts currentPools nextAmountOut
          bestTrades = .error e)) := by
  have hi : i < pools.length := by
    by_contra hge
    rw [List.getElem?_eq_none (by omega)] at hpool
    cases hpool
  have hlen : 0 < pools.length := by omega
  constructor
  · intro hguard htouch hreach
    unfold exactInReaches at hreach
    constructor
    · intro hquote
      rw [BestTradeExactIn_unfold, exactInBody_loop _ _ _ _ _ _ _ _ _ hlen hguard]
      exact foldlM_range_error _ _ i _ reached e hi hreach
        (exactInStep_quote_error _ _ _ _ _ _ _ _ _ _ pool e hpool htouch hquote)
    · intro r hquote hnot hhops hmany hnested
      rw [BestTradeExactIn_unfold, exactInBody_loop _ _ _ _ _ _ _ _ _ hlen hguard]
      refine foldlM_range_error _ _ i _ reached e hi hreach ?_
      rw [exactInStep_nested _ _ _ _ _ _ _ _ _ _ pool r hpool htouch hquote hnot hhops hmany]
      exact hnested
  · intro hpos hguard htouch hreach
    unfold exactOutReaches at hreach
    constructor
    · intro hquote
      rw [BestTradeExactOut_unfold, exactOutBody_loop _ _ _ _ _ _ _ _ _ hlen hpos hguard]
      exact foldlM_range_error _ _ i _ reached e hi hreach
        (exactOutStep_quote_error _ _ _ _ _ _ _ _ _ _ pool e hpool htouch hquote)
    · intro r hquote hnot hhops hmany hnested
      rw [BestTradeExactOut_unfold, exactOutBody_loop _ _ _ _ _ _ _ _ _ hlen hpos hguard]
      refine foldlM_range_error _ _ i _ reached e hi hreach ?_
      rw [exactOutStep_nested _ _ _ _ _ _ _ _ _ _ pool r hpool htouch hquote hnot hhops hmany]
      exact hnested

/-- Witness for C37: with a quoter that fails on the pool of B and C, the search
for trades from 100 A to D over the pools of A and B and of B and C quotes the
first pool, goes on from B in a nested call, and returns the error of the quote
of the second pool; the search for trades from A to 100 C over the pool of B
and C returns that error at once. -/
theorem best_trade_quote_error_propagates_witness :
    BestTradeExactIn brokenQuoter [poolAB, poolBC] (amountOf tokenA 100) (.token tokenD) none
      [] (some (amountOf tokenA 100)) [] = .error (.ErrExternal 7) ∧
    BestTradeExactOut brokenQuoter [poolBC] (.token tokenA) (amountOf tokenC 100) none [] none
      [] = .error (.ErrExternal 7) := by
  constructor
  · have hnested :=
      ((best_trade_quote_error_propagates brokenQuoter [poolBC]
        (some (nestedOptions defaultBestTradeOptions)) [poolAB] [] [] 0 poolBC (.ErrExternal 7)
        (amountOf tokenA 100) (.token tokenD) (amountOf tokenB 200) (.token tokenA)
        (amountOf tokenC 100) none rfl).1 rfl rfl rfl).1 rfl
    exact ((best_trade_quote_error_propagates brokenQuoter [poolAB, poolBC] none [] [] [] 0
      poolAB (.ErrExternal 7) (amountOf tokenA 100) (.token tokenD) (amountOf tokenA 100)
      (.token tokenA) (amountOf tokenC 100) none rfl).1 rfl rfl rfl).2
      { ReturnedAmount := amountOf tokenB 200,
        RemainingAmountIn := amountOf tokenA 0,
        NewPoolState := poolAB, CrossInitTickLoops := 0 } rfl rfl (by decide) (by decide)
      hnested
  · exact ((best_trade_quote_error_propagates brokenQuoter [poolBC] none [] [] [] 0 poolBC
      (.ErrExternal 7) (amountOf tokenA 100) (.token tokenD) (amountOf tokenA 100)
      (.token tokenA) (amountOf tokenC 100) none rfl).2 (by decide) rfl rfl rfl).1 rfl

/-! ## The planner -/

theorem getActions_foldl (actions : List Nat) :
    ∀ (n start : Nat) (init : List Nat), start + n ≤ actions.length →
      (List.range' start n).foldl
        (fun actionTypes i =>
          match actions[i]? with
          | some b => actionTypes ++ [b]
          | none => actionTypes)
        init
        = init ++ (actions.drop start).take n := by
  intro n
  induction n with
  | zero =>
    intro start init _
    simp
  | succ n ih =>
    intro start init hle
    have hlt : start < actions.length := by omega
    rw [List.range'_succ, List.foldl_cons, List.getElem?_eq_getElem hlt]
    simp only []
    rw [ih (start + 1) _ (by omega), List.drop_eq_getElem_cons hlt, List.take_succ_cons,
      List.append_assoc]
    rfl

theorem getActions_eq_drop (actions : List Nat) : getActions actions = actions.drop 2 := by
  unfold getActions
  by_cases h : 2 ≤ actions.length
  · rw [getActions_foldl actions _ 2 [] (by omega), List.nil_append, List.take_of_length_le]
    simp
  · have h0 : actions.length - 2 = 0 := by omega
    rw [h0, List.drop_eq_nil_of_le (by omega)]
    rfl

theorem AddActions_cases (pack : AbiPack) (p : V4Planner) (typ : Nat)
    (parameters : List ParamValue) :
    (∃ err, createAction pack typ parameters = .error err ∧
      p.AddActions pack typ parameters = (some err, p)) ∨
    (∃ bytes, createAction pack typ parameters = .ok { action := typ, encodedInput := bytes } ∧
      p.AddActions pack typ parameters
        = (none, { Params := p.Params ++ [bytes], Actions := p.Actions ++ [typ] })) := by
  unfold V4Planner.AddActions createAction
  dsimp only
  cases liftExternal (pack ((V4_BASE_ACTIONS_ABI_DEFINITION typ).map (fun v => v.Typ))
      parameters) with
  | error err => exact Or.inl ⟨err, rfl, rfl⟩
  | ok bytes => exact Or.inr ⟨bytes, rfl, rfl⟩

theorem addAll_spec (pack : AbiPack) :
    ∀ (calls : List (Nat × List ParamValue)) (p : V4Planner),
      (addAll pack p calls).Actions
          = p.Actions ++ (successfulActions pack calls).map (fun a => a.action) ∧
      (addAll pack p calls).Params
          = p.Params ++ (successfulActions pack calls).map (fun a => a.encodedInput) := by
  intro calls
  induction calls with
  | nil =>
    intro p
    simp [addAll, successfulActions]
  | cons call rest ih =>
    intro p
    rcases AddActions_cases pack p call.1 call.2 with ⟨err, hcreate, hadd⟩ | ⟨bytes, hcreate, hadd⟩
    · have hsucc : successfulActions pack (call :: rest) = successfulActions pack rest := by
        simp [successfulActions, List.filterMap_cons, hcreate, valueOf]
      simp only [addAll, hadd, hsucc]
      exact ih p
    · have hsucc : successfulActions pack (call :: rest)
          = { action := call.1, encodedInput := bytes } :: successfulActions pack rest := by
        simp [successfulActions, List.filterMap_cons, hcreate, valueOf]
      simp only [addAll, hadd, hsucc, List.map_cons]
      obtain ⟨h1, h2⟩ := ih { Params := p.Params ++ [bytes], Actions := p.Actions ++ [call.1] }
      rw [h1, h2]
      simp

/-- C39: after any sequence of `AddActions` calls on a new planner, `getActions`
of the planner's `Actions` lists the action types of the calls that succeeded,
in order, and `Params` holds exactly their encoded inputs, in order.  A call
succeeds exactly when `createAction` accepts its parameters, and a call that
fails leaves the planner as it was. -/
theorem planner_records_successful_actions (pack : AbiPack)
    (calls : List (Nat × List ParamValue)) :
    getActions (addAll pack NewV4Planner calls).Actions
        = (successfulActions pack calls).map (fun a => a.action) ∧
    (addAll pack NewV4Planner calls).Params
        = (successfulActions pack calls).map (fun a => a.encodedInput) ∧
    (addAll pack NewV4Planner calls).Params.length = (successfulActions pack calls).length ∧
    ∀ (p : V4Planner) (typ : Nat) (parameters : List ParamValue),
      ((p.AddActions pack typ parameters).1 = none ↔
        ∃ bytes, createAction pack typ parameters
          = .ok { action := typ, encodedInput := bytes }) ∧
      ((p.AddActions pack typ parameters).1 ≠ none →
        (p.AddActions pack typ parameters).2 = p) := by
  obtain ⟨hactions, hparams⟩ := addAll_spec pack calls NewV4Planner
  refine ⟨?_, ?_, ?_, ?_⟩
  · rw [getActions_eq_drop, hactions]
    rfl
  · rw [hparams]
    rfl
  · rw [hparams]
    simp [NewV4Planner]
  · intro p typ parameters
    rcases AddActions_cases pack p typ parameters with ⟨err, hcreate, hadd⟩ | ⟨bytes, hcreate, hadd⟩
    · rw [hadd, hcreate]
      simp
    · rw [hadd, hcreate]
      simp

/-- Witness for C39: of three calls on a new planner, of which the second hands
no parameter to an action of one parameter and is refused, the first and the
third are recorded; the refused call leaves a planner as it was. -/
theorem planner_records_successful_actions_witness :
    getActions (addAll countingPack NewV4Planner
        [(TAKE_ALL, [.address 1, .integer 5]), (UNWRAP, []),
         (SETTLE_PAIR, [.address 1, .address 2])]).Actions = [TAKE_ALL, SETTLE_PAIR] ∧
    (addAll countingPack NewV4Planner
        [(TAKE_ALL, [.address 1, .integer 5]), (UNWRAP, []),
         (SETTLE_PAIR, [.address 1, .address 2])]).Params = [[1, 5], [1, 2]] ∧
    (NewV4Planner.AddActions countingPack UNWRAP []).2 = NewV4Planner := by
  have h := planner_records_successful_actions countingPack
    [(TAKE_ALL, [.address 1, .integer 5]), (UNWRAP, []),
     (SETTLE_PAIR, [.address 1, .address 2])]
  refine ⟨h.1.trans rfl, h.2.1.trans rfl, (h.2.2.2 NewV4Planner UNWRAP []).2 ?_⟩
  decide

theorem AddTrade_exact_input (pack : AbiPack) (p planner : V4Planner) (trade : Trade)
    (memo : TradeMemo) (slippageTolerance : Option Fraction)
    (htype : trade.TradeType = .ExactInput)
    (h : p.AddTrade pack trade memo slippageTolerance = .ok planner) :
    ∃ route pathKeys after parameters encodedInput,
      trade.Route = .ok route ∧
      EncodeRouteToPath route true = .ok (pathKeys, after) ∧
      parameters[1]? = some (ParamValue.path pathKeys) ∧
      createAction pack SWAP_EXACT_OUT parameters
        = .ok { action := SWAP_EXACT_OUT, encodedInput := encodedInput } ∧
      planner = { Params := p.Params ++ [encodedInput],
                  Actions := p.Actions ++ [SWAP_EXACT_OUT] } := by
  unfold V4Planner.AddTrade at h
  simp only [htype, if_false, if_true, Bool.true_and, Bool.not_true, Bool.false_eq_true,
    reduceCtorEq] at h
  split at h
  · cases h
  · split at h
    · cases h
    · split at h
      · cases h
      · rename_i r hroute
        split at h
        · cases h
        · rename_i currencyIn hin
          split at h
          · cases h
          · rename_i currencyOut hout
            split at h
            · cases h
            · rename_i encoded after hpath
              split at h
              · cases h
              · rename_i tolerance
                split at h
                · cases h
                · rename_i amountOutMin hmin
                  split at h
                  · cases h
                  · rename_i inputAmount hmemo
                    rcases AddActions_cases pack p SWAP_EXACT_OUT
                      [.address currencyIn, .path encoded, .decimalText inputAmount.Quotient,
                       .amount amountOutMin] with ⟨err, hcreate, hadd⟩ | ⟨bytes, hcreate, hadd⟩
                    · rw [hadd] at h
                      cases h
                    · rw [hadd] at h
                      simp only [Except.ok.injEq] at h
                      exact ⟨r, encoded, after, _, bytes, hroute, hpath, rfl, hcreate, h.symm⟩

theorem AddTrade_exact_output (pack : AbiPack) (p planner : V4Planner) (trade : Trade)
    (memo : TradeMemo) (slippageTolerance : Option Fraction)
    (htype : trade.TradeType = .ExactOutput)
    (h : p.AddTrade pack trade memo slippageTolerance = .ok planner) :
    ∃ route pathKeys after parameters encodedInput,
      trade.Route = .ok route ∧
      EncodeRouteToPath route false = .ok (pathKeys, after) ∧
      parameters[1]? = some (ParamValue.path pathKeys) ∧
      createAction pack SWAP_EXACT_IN parameters
        = .ok { action := SWAP_EXACT_IN, encodedInput := encodedInput } ∧
      planner = { Params := p.Params ++ [encodedInput],
                  Actions := p.Actions ++ [SWAP_EXACT_IN] } := by
  unfold V4Planner.AddTrade at h
  simp only [htype, if_false, if_true, Bool.false_and, Bool.not_false, Bool.false_eq_true,
    reduceCtorEq] at h
  split at h
  · cases h
  · split at h
    · cases h
    · rename_i r hroute
      split at h
      · cases h
      · rename_i currencyIn hin
        split at h
        · cases h
        · rename_i currencyOut hout
          split at h
          · cases h
          · rename_i encoded after hpath
            split at h
            · cases h
            · rename_i tolerance
              split at h
              · cases h
              · rename_i amountInMax hmax
                split at h
                · cases h
                · rename_i outputAmount hmemo
                  rcases AddActions_cases pack p SWAP_EXACT_IN
                    [.address currencyOut, .path encoded, .amount amountInMax,
                     .decimalText outputAmount.Quotient] with
                    ⟨err, hcreate, hadd⟩ | ⟨bytes, hcreate, hadd⟩
                  · rw [hadd] at h
                    cases h
                  · rw [hadd] at h
                    simp only [Except.ok.injEq] at h
                    exact ⟨r, encoded, after, _, bytes, hroute, hpath, rfl, hcreate, h.symm⟩

theorem route_of_single_swap (t : Trade) (route : Route) (h : t.Route = .ok route) :
    t.Swaps.length = 1 := by
  unfold Trade.Route at h
  split at h
  · rename_i hswaps
    rw [hswaps]
    rfl
  · cases h

/-- Whatever the encoder is: whenever `AddTrade` succeeds, the trade has one swap,
and the action it appends is `SWAP_EXACT_OUT` (0x09) for an exact-input trade and
`SWAP_EXACT_IN` (0x07) for an exact-output trade; the path among the parameters
it encodes is the one `EncodeRouteToPath` gives in the exact-output direction
exactly for the exact-input trades.  The flag `exactOutput` of `AddTrade` is true
exactly when the trade is not an exact-output trade. -/
theorem AddTrade_inverts_the_trade_types (pack : AbiPack) (p planner : V4Planner)
    (trade : Trade) (memo : TradeMemo) (slippageTolerance : Option Fraction)
    (h : p.AddTrade pack trade memo slippageTolerance = .ok planner) :
    trade.Swaps.length = 1 ∧
    ∃ route pathKeys after parameters encodedInput,
      trade.Route = .ok route ∧
      EncodeRouteToPath route (decide (trade.TradeType = .ExactInput))
        = .ok (pathKeys, after) ∧
      parameters[1]? = some (ParamValue.path pathKeys) ∧
      createAction pack (if trade.TradeType = .ExactInput then SWAP_EXACT_OUT
          else SWAP_EXACT_IN) parameters
        = .ok { action := if trade.TradeType = .ExactInput then SWAP_EXACT_OUT
                  else SWAP_EXACT_IN,
                encodedInput := encodedInput } ∧
      planner.Actions
        = p.Actions ++ [if trade.TradeType = .ExactInput then 0x09 else 0x07] ∧
      planner.Params = p.Params ++ [encodedInput] := by
  cases htype : trade.TradeType with
  | ExactInput =>
    obtain ⟨route, pathKeys, after, parameters, encodedInput, hroute, hpath, hparam, hcreate,
      hplanner⟩ := AddTrade_exact_input pack p planner trade memo slippageTolerance htype h
    refine ⟨route_of_single_swap trade route hroute, route, pathKeys, after, parameters,
      encodedInput, hroute, hpath, hparam, hcreate, ?_, ?_⟩
    · rw [hplanner]
      rfl
    · rw [hplanner]
  | ExactOutput =>
    obtain ⟨route, pathKeys, after, parameters, encodedInput, hroute, hpath, hparam, hcreate,
      hplanner⟩ := AddTrade_exact_output pack p planner trade memo slippageTolerance htype h
    refine ⟨route_of_single_swap trade route hroute, route, pathKeys, after, parameters,
      encodedInput, hroute, hpath, hparam, hcreate, ?_, ?_⟩
    · rw [hplanner]
      rfl
    · rw [hplanner]

theorem sample_AddTrade_exact_input :
    NewV4Planner.AddTrade listingPack (sampleTrade 100 90)
        { inputAmount := some (amountOf tokenA 100), outputAmount := none }
        (some ⟨1, 100⟩)
      = .ok { Actions := [48, 120, 0x09], Params := [[0xA, 0xA, 100, 89]] } := by
  rfl

theorem sample_AddTrade_exact_output :
    NewV4Planner.AddTrade listingPack (sampleTradeOut 100 90)
        { inputAmount := none, outputAmount := some (amountOf tokenB 90) }
        (some ⟨1, 100⟩)
      = .ok { Actions := [48, 120, 0x07], Params := [[0xB, 0xB, 101, 90]] } := by
  rfl

/-- With a stand-in encoder that lists the values it is given, the exact-input
trade of 100 A for 90 B over the pool of A
and B, with a tolerance of 1%, is planned as the action 0x09 with the path key
of the exact-output direction (the intermediate currency A); the exact-output
trade over the same route is planned as the action 0x07 with the path key of the
exact-input direction (the intermediate currency B). -/
theorem AddTrade_inverts_the_trade_types_sample :
    (NewV4Planner.AddTrade listingPack (sampleTrade 100 90)
        { inputAmount := some (amountOf tokenA 100), outputAmount := none }
        (some ⟨1, 100⟩)
      = .ok { Actions := [48, 120, 0x09], Params := [[0xA, 0xA, 100, 89]] } ∧
      (sampleTrade 100 90).TradeType = .ExactInput ∧
      ∃ pathKeys after, EncodeRouteToPath routeAB true = .ok (pathKeys, after) ∧
        pathKeys.map (fun key => key.IntermediateCurrency) = [0xA]) ∧
    (NewV4Planner.AddTrade listingPack (sampleTradeOut 100 90)
        { inputAmount := none, outputAmount := some (amountOf tokenB 90) }
        (some ⟨1, 100⟩)
      = .ok { Actions := [48, 120, 0x07], Params := [[0xB, 0xB, 101, 90]] } ∧
      (sampleTradeOut 100 90).TradeType = .ExactOutput ∧
      ∃ pathKeys after, EncodeRouteToPath routeAB false = .ok (pathKeys, after) ∧
        pathKeys.map (fun key => key.IntermediateCurrency) = [0xB]) := by
  constructor
  · obtain ⟨_, route, pathKeys, after, _, _, hroute, hpath, _⟩ :=
      AddTrade_inverts_the_trade_types listingPack NewV4Planner _ (sampleTrade 100 90) _ _
        sample_AddTrade_exact_input
    cases hroute
    refine ⟨sample_AddTrade_exact_input, rfl, pathKeys, after, hpath, ?_⟩
    cases hpath
    rfl
  · obtain ⟨_, route, pathKeys, after, _, _, hroute, hpath, _⟩ :=
      AddTrade_inverts_the_trade_types listingPack NewV4Planner _ (sampleTradeOut 100 90) _ _
        sample_AddTrade_exact_output
    cases hroute
    refine ⟨sample_AddTrade_exact_output, rfl, pathKeys, after, hpath, ?_⟩
    cases hpath
    rfl

/-- An encoder that refuses the parameter types of the two swap actions, whatever
the values, leaves `AddTrade` without a planner to return: every call fails. -/
theorem AddTrade_fails_when_swap_types_refused (pack : AbiPack)
    (hin : ∀ parameters, ∃ code,
      pack ((V4_BASE_ACTIONS_ABI_DEFINITION SWAP_EXACT_IN).map (fun v => v.Typ)) parameters
        = .error code)
    (hout : ∀ parameters, ∃ code,
      pack ((V4_BASE_ACTIONS_ABI_DEFINITION SWAP_EXACT_OUT).map (fun v => v.Typ)) parameters
        = .error code)
    (p : V4Planner) (trade : Trade) (memo : TradeMemo) (slippageTolerance : Option Fraction) :
    ∃ err, p.AddTrade pack trade memo slippageTolerance = .error err := by
  cases hcall : p.AddTrade pack trade memo slippageTolerance with
  | error err => exact ⟨err, rfl⟩
  | ok planner =>
    exfalso
    obtain ⟨_, route, pathKeys, after, parameters, encodedInput, _, _, _, hcreate, _⟩ :=
      AddTrade_inverts_the_trade_types pack p planner trade memo slippageTolerance hcall
    unfold createAction at hcreate
    by_cases htype : trade.TradeType = .ExactInput
    · simp only [htype, if_true] at hcreate
      obtain ⟨code, hcode⟩ := hout parameters
      rw [hcode] at hcreate
      simp only [liftExternal] at hcreate
      cases hcreate
    · simp only [htype, if_false] at hcreate
      obtain ⟨code, hcode⟩ := hin parameters
      rw [hcode] at hcreate
      simp only [liftExternal] at hcreate
      cases hcreate

/-- With an encoder that refuses every list of types, `AddTrade` fails on the
exact-input sample trade. -/
theorem AddTrade_fails_with_refusing_encoder :
    ∃ err, NewV4Planner.AddTrade (fun _ _ => .error 1) (sampleTrade 100 90)
        { inputAmount := some (amountOf tokenA 100), outputAmount := none }
        (some ⟨1, 100⟩) = .error err :=
  AddTrade_fails_when_swap_types_refused (fun _ _ => .error 1) (fun _ => ⟨1, rfl⟩)
    (fun _ => ⟨1, rfl⟩) _ _ _ _

/-! ## Pool ids when the packing of the pool key fails -/

theorem abiEncode_of_refused (env : External)
    (hpack : ∀ a b fee tickSpacing hooks,
      ∃ code, env.PackPoolKey a b fee tickSpacing hooks = .error code)
    (a b : Nat) (fee tickSpacing : Int) (hooks : Nat) :
    abiEncode env a b fee tickSpacing hooks = [] := by
  obtain ⟨code, h⟩ := hpack a b fee tickSpacing hooks
  simp only [abiEncode, h]

/-- C23 (the code departs from it): `abiEncode` hands the tick spacing to `Pack`
as an `int64` for the type uint256 and drops the error of `Pack`.  When `Pack`
refuses the pool key, every pool id `newTrade` computes is the hash of no bytes,
and `CreateUncheckedTradeWithMultipleRoutes` fails with `ErrDuplicatePools` on
every list of swaps that agree on their currencies and hold two pools or more,
however different the pools are. -/
theorem newTrade_refuses_distinct_pools (env : External)
    (hpack : ∀ a b fee tickSpacing hooks,
      ∃ code, env.PackPoolKey a b fee tickSpacing hooks = .error code)
    (first : Swap) (rest : List Swap) (tradeType : TradeType)
    (hagree : ∀ s ∈ first :: rest, inputAgrees first s = true ∧ outputAgrees first s = true)
    (hpools : ∀ p ∈ allPools (first :: rest), hasDistinctCurrencies p)
    (htwo : 2 ≤ (allPools (first :: rest)).length) :
    (∀ p ∈ allPools (first :: rest),
      GetPoolId env p.Currency0 p.Currency1 p.Fee p.TickSpacing p.Hooks
        = .ok (env.Keccak256 [])) ∧
    CreateUncheckedTradeWithMultipleRoutes env (first :: rest) tradeType
      = .error .ErrDuplicatePools := by
  have hid : ∀ p : Pool, poolIdOf env p = env.Keccak256 [] := by
    intro p
    simp only [poolIdOf, abiEncode_of_refused env hpack]
  constructor
  · intro p hp
    rw [GetPoolId_distinct env p (hpools p hp), hid]
  · refine ((CreateUncheckedTradeWithMultipleRoutes_spec env first rest tradeType).1 hagree
      hpools).1.2 ?_
    have hmap : (allPools (first :: rest)).map (poolIdOf env)
        = List.replicate (allPools (first :: rest)).length (env.Keccak256 []) := by
      rw [List.eq_replicate_iff]
      refine ⟨List.length_map _ _, fun id hmem => ?_⟩
      obtain ⟨p, _, hp⟩ := List.mem_map.mp hmem
      rw [← hp, hid]
    have hcard : distinctPoolIds env (first :: rest) ≤ 1 := by
      unfold distinctPoolIds
      rw [hmap]
      calc (List.replicate (allPools (first :: rest)).length (env.Keccak256 [])).toFinset.card
          ≤ ({env.Keccak256 []} : Finset (List Nat)).card :=
            Finset.card_le_card (by
              intro x hx
              rw [List.mem_toFinset] at hx
              rw [Finset.mem_singleton]
              exact List.eq_of_mem_replicate hx)
        _ = 1 := Finset.card_singleton _
    omega

/-- Witness for C23: with a `Pack` that refuses the pool key, two swaps from A to
B through the pool of fee 0 and the pool of fee 3000, whose pool keys differ,
are refused as duplicates; both pools get the hash of no bytes as their id. -/
theorem newTrade_refuses_distinct_pools_witness :
    GetPoolKey poolAB.Currency0 poolAB.Currency1 poolAB.Fee poolAB.TickSpacing poolAB.Hooks
      = .ok ⟨0xA, 0xB, 0, 1, 0⟩ ∧
    GetPoolKey poolAB3000.Currency0 poolAB3000.Currency1 poolAB3000.Fee poolAB3000.TickSpacing
        poolAB3000.Hooks
      = .ok ⟨0xA, 0xB, 3000, 1, 0⟩ ∧
    GetPoolId refusingEnv poolAB.Currency0 poolAB.Currency1 poolAB.Fee poolAB.TickSpacing
        poolAB.Hooks = .ok [] ∧
    GetPoolId refusingEnv poolAB3000.Currency0 poolAB3000.Currency1 poolAB3000.Fee
        poolAB3000.TickSpacing poolAB3000.Hooks = .ok [] ∧
    CreateUncheckedTradeWithMultipleRoutes refusingEnv [swapAB 100 90, swapAB3000 50 45]
        .ExactInput
      = .error .ErrDuplicatePools := by
  have h := newTrade_refuses_distinct_pools refusingEnv (fun _ _ _ _ _ => ⟨5, rfl⟩)
    (swapAB 100 90) [swapAB3000 50 45] .ExactInput
    (by
      intro s hs
      simp only [List.mem_cons, List.mem_singleton, List.not_mem_nil, or_false] at hs
      rcases hs with rfl | rfl <;> exact ⟨rfl, rfl⟩)
    (by
      intro p hp
      simp only [allPools, List.flatMap_cons, List.flatMap_nil, swapAB, swapAB3000, routeAB,
        List.append_nil, List.singleton_append, List.mem_cons, List.mem_singleton,
        List.not_mem_nil, or_false] at hp
      rcases hp with rfl | rfl <;> exact ⟨rfl, by decide⟩)
    (by decide)
  exact ⟨rfl, rfl, rfl, rfl, h.2⟩

/-! ## Fractions written with a negative denominator -/

theorem fractionTrade_sameCurrencies (n1 d1 n2 d2 : Int) :
    SameCurrencies (fractionTrade n1 d1) (fractionTrade n2 d2) :=
  ⟨_, _, _, _, rfl, rfl, rfl, rfl, rfl, rfl⟩

/-- C6, counterexample: three trades from 1 A to B with the outputs 1, 2 written
as (-2) over (-1), and 3.  The comparator puts the first before the second and the second
before the third, and the third before the first. -/
theorem tradeComparator_not_transitive :
    SameCurrencies (fractionTrade 1 1) (fractionTrade (-2) (-1)) ∧
    SameCurrencies (fractionTrade (-2) (-1)) (fractionTrade 3 1) ∧
    tradeComparator (fractionTrade 1 1) (fractionTrade (-2) (-1)) = .ok (-1) ∧
    tradeComparator (fractionTrade (-2) (-1)) (fractionTrade 3 1) = .ok (-1) ∧
    tradeComparator (fractionTrade 1 1) (fractionTrade 3 1) = .ok 1 :=
  ⟨fractionTrade_sameCurrencies _ _ _ _, fractionTrade_sameCurrencies _ _ _ _, rfl, rfl, rfl⟩

/-- C7, counterexample: of two trades from 1 A to B, one with the output 1 and one
with the output 2 written as (-2) over (-1), the comparator ranks the one with the lower
output first. -/
theorem tradeComparator_ranks_lower_output_first :
    SameCurrencies (fractionTrade 1 1) (fractionTrade (-2) (-1)) ∧
    (fractionTrade 1 1).OutputAmount = .ok ⟨.token tokenB, ⟨1, 1⟩⟩ ∧
    (fractionTrade (-2) (-1)).OutputAmount = .ok ⟨.token tokenB, ⟨-2, -1⟩⟩ ∧
    (⟨1, 1⟩ : Fraction).toRat < (⟨-2, -1⟩ : Fraction).toRat ∧
    tradeComparator (fractionTrade 1 1) (fractionTrade (-2) (-1)) = .ok (-1) := by
  refine ⟨fractionTrade_sameCurrencies _ _ _ _, rfl, rfl, ?_, rfl⟩
  simp only [Fraction.toRat]
  norm_num

/-- C19, counterexample: the tolerance of one percent written as (-1) over (-100) is not
negative, and `MininumAmountOut` refuses it for the exact-input and for the
exact-output sample trade.  And for the exact-input sample trade with the output
amount -101 B and the tolerance of one percent written as 1 over 100 it returns
-100 B, which is greater than the amount. -/
theorem MininumAmountOut_refuses_positive_tolerance :
    0 ≤ (⟨-1, -100⟩ : Fraction).toRat ∧
    (sampleTrade 1 100).MininumAmountOut ⟨-1, -100⟩ none
      = .error .ErrInvalidSlippageTolerance ∧
    (sampleTradeOut 1 100).MininumAmountOut ⟨-1, -100⟩ none
      = .error .ErrInvalidSlippageTolerance ∧
    (sampleTrade 1 (-101)).MininumAmountOut ⟨1, 100⟩ none = .ok (amountOf tokenB (-100)) ∧
    (amountOf tokenB (-101)).Fraction.toRat < (amountOf tokenB (-100)).Fraction.toRat := by
  refine ⟨?_, rfl, rfl, rfl, ?_⟩
  · simp only [Fraction.toRat]
    norm_num
  · simp only [amountOf, CurrencyAmount.FromRawAmount, Fraction.toRat]
    norm_num

/-- C21, counterexample: the tolerance of one percent written as (-1) over (-100) is not
negative, and both methods fail on it with `ErrInvalidSlippageTolerance`; the
tolerance of minus one percent written as 1 over (-100) is negative, and neither method
fails on it: the minimum output of the exact-input trade with output 100 is then
102 and the maximum input of the exact-output trade with input 100 is 99. -/
theorem slippage_check_reads_the_numerator :
    (0 ≤ (⟨-1, -100⟩ : Fraction).toRat ∧
      (sampleTrade 100 100).MininumAmountOut ⟨-1, -100⟩ none
        = .error .ErrInvalidSlippageTolerance ∧
      (sampleTrade 100 100).MaximumAmountIn ⟨-1, -100⟩ none
        = .error .ErrInvalidSlippageTolerance) ∧
    ((⟨1, -100⟩ : Fraction).toRat < 0 ∧
      (sampleTrade 100 100).MininumAmountOut ⟨1, -100⟩ none = .ok (amountOf tokenB 102) ∧
      (sampleTradeOut 100 100).MaximumAmountIn ⟨1, -100⟩ none = .ok (amountOf tokenA 99)) := by
  refine ⟨⟨?_, rfl, rfl⟩, ?_, rfl, rfl⟩
  · simp only [Fraction.toRat]
    norm_num
  · simp only [Fraction.toRat]
    norm_num

/-! ## The hop budget of the best-trade searches -/

/-- A round of the pool loop of `BestTradeExactIn` makes its nested call only with
more than one hop left, and then with one hop less. -/
theorem exactInStep_congr_hops (q : Quoter) (r1 r2 : BestTradeCall) (opts : BestTradeOptions)
    (h : 1 < opts.MaxHops → ∀ pools' currentPools' amount' bestTrades',
      r1 pools' { MaxNumResults := opts.MaxNumResults, MaxHops := opts.MaxHops - 1 }
          currentPools' amount' bestTrades'
        = r2 pools' { MaxNumResults := opts.MaxNumResults, MaxHops := opts.MaxHops - 1 }
          currentPools' amount' bestTrades')
    (pools : List Pool) (currencyAmountIn : CurrencyAmount) (currencyOut : Currency)
    (currentPools : List Pool) (amountIn : CurrencyAmount) (bestTrades : List Trade) (i : Nat) :
    exactInStep q r1 pools currencyAmountIn currencyOut opts currentPools amountIn bestTrades i
      = exactInStep q r2 pools currencyAmountIn currencyOut opts currentPools amountIn
          bestTrades i := by
  unfold exactInStep
  cases hget : pools[i]? with
  | none => rfl
  | some pool =>
    by_cases hh : 1 < opts.MaxHops
    · simp only [h hh]
    · have hno : decide (opts.MaxHops > 1) = false := by
        rw [decide_eq_false_iff_not]
        exact hh
      simp only [hno, Bool.false_and, Bool.false_eq_true, if_false]

theorem exactInBody_congr_hops (q : Quoter) (r1 r2 : BestTradeCall)
    (opts : Option BestTradeOptions)
    (h : 1 < (opts.getD defaultBestTradeOptions).MaxHops →
      ∀ pools' currentPools' amount' bestTrades',
        r1 pools' { MaxNumResults := (opts.getD defaultBestTradeOptions).MaxNumResults,
                    MaxHops := (opts.getD defaultBestTradeOptions).MaxHops - 1 }
            currentPools' amount' bestTrades'
          = r2 pools' { MaxNumResults := (opts.getD defaultBestTradeOptions).MaxNumResults,
                        MaxHops := (opts.getD defaultBestTradeOptions).MaxHops - 1 }
            currentPools' amount' bestTrades')
    (pools : List Pool) (currencyAmountIn : CurrencyAmount) (currencyOut : Currency)
    (currentPools : List Pool) (nextAmountIn : Option CurrencyAmount)
    (bestTrades : List Trade) :
    exactInBody q r1 pools currencyAmountIn currencyOut opts currentPools nextAmountIn bestTrades
      = exactInBody q r2 pools currencyAmountIn currencyOut opts currentPools nextAmountIn
          bestTrades := by
  unfold exactInBody
  have hstep : ∀ a,
      exactInStep q r1 pools currencyAmountIn currencyOut (opts.getD defaultBestTradeOptions)
          currentPools a
        = exactInStep q r2 pools currencyAmountIn currencyOut
          (opts.getD defaultBestTradeOptions) currentPools a := by
    intro a
    funext bt i
    exact exactInStep_congr_hops q r1 r2 _ h pools currencyAmountIn currencyOut currentPools a
      bt i
  simp only [hstep]

/-- Calls nested deeper than the hops allow are never made: whatever stands in
for them, and however deep the calls are written out beyond that, the result is
the same. -/
theorem exactInNested_depth (q : Quoter) (currencyAmountIn : CurrencyAmount)
    (currencyOut : Currency) (stub1 stub2 : BestTradeCall) :
    ∀ (d1 d2 : Nat) (pools : List Pool) (opts : Option BestTradeOptions)
      (currentPools : List Pool) (nextAmountIn : Option CurrencyAmount)
      (bestTrades : List Trade),
      (opts.getD defaultBestTradeOptions).MaxHops ≤ (d1 : Int) + 1 →
      (opts.getD defaultBestTradeOptions).MaxHops ≤ (d2 : Int) + 1 →
      exactInNested q currencyAmountIn currencyOut stub1 d1 pools opts currentPools
          nextAmountIn bestTrades
        = exactInNested q currencyAmountIn currencyOut stub2 d2 pools opts currentPools
          nextAmountIn bestTrades := by
  intro d1
  induction d1 with
  | zero =>
    intro d2 pools opts currentPools nextAmountIn bestTrades h1 h2
    cases d2 with
    | zero =>
      simp only [exactInNested]
      apply exactInBody_congr_hops
      intro hgt
      simp only [Nat.cast_zero, zero_add] at h1
      omega
    | succ d2 =>
      simp only [exactInNested]
      apply exactInBody_congr_hops
      intro hgt
      simp only [Nat.cast_zero, zero_add] at h1
      omega
  | succ d1 ih =>
    intro d2 pools opts currentPools nextAmountIn bestTrades h1 h2
    cases d2 with
    | zero =>
      simp only [exactInNested]
      apply exactInBody_congr_hops
      intro hgt
      simp only [Nat.cast_zero, zero_add] at h2
      omega
    | succ d2 =>
      simp only [exactInNested]
      apply exactInBody_congr_hops
      intro hgt pools' currentPools' amount' bestTrades'
      apply ih
      · simp only [Option.getD_some]
        push_cast at h1
        omega
      · simp only [Option.getD_some]
        push_cast at h2
        omega

theorem bestTradeExactInBounded_eq_nested (q : Quoter) (currencyAmountIn : CurrencyAmount)
    (currencyOut : Currency) :
    ∀ (depth : Nat) (pools : List Pool) (opts : Option BestTradeOptions)
      (currentPools : List Pool) (nextAmountIn : Option CurrencyAmount)
      (bestTrades : List Trade),
      bestTradeExactInBounded q currencyAmountIn currencyOut depth pools opts currentPools
          nextAmountIn bestTrades
        = exactInNested q currencyAmountIn currencyOut (fun _ _ _ _ _ => .error .recursionBound)
          depth pools opts currentPools nextAmountIn bestTrades := by
  intro depth
  induction depth with
  | zero =>
    intro pools opts currentPools nextAmountIn bestTrades
    rfl
  | succ depth ih =>
    intro pools opts currentPools nextAmountIn bestTrades
    simp only [bestTradeExactInBounded, exactInNested, ih]

/-- With `MaxHops = h >= 1` the result of `BestTradeExactIn` is the result of its
body with the nested calls written out `h - 1` levels deep, whatever stands in
for the calls nested deeper. -/
theorem BestTradeExactIn_eq_nested (q : Quoter) (pools : List Pool)
    (currencyAmountIn : CurrencyAmount) (currencyOut : Currency)
    (opts : Option BestTradeOptions) (currentPools : List Pool)
    (nextAmountIn : Option CurrencyAmount) (bestTrades : List Trade) (h : Int) (hh : 1 ≤ h)
    (hopts : (opts.getD defaultBestTradeOptions).MaxHops = h) (stub : BestTradeCall) :
    BestTradeExactIn q pools currencyAmountIn currencyOut opts currentPools nextAmountIn
        bestTrades
      = exactInNested q currencyAmountIn currencyOut stub (h - 1).toNat pools opts currentPools
          nextAmountIn bestTrades := by
  unfold BestTradeExactIn
  rw [bestTradeExactInBounded_bound_irrelevant q currencyAmountIn currencyOut pools.length
    pools.length (max pools.length (h - 1).toNat) pools opts currentPools nextAmountIn
    bestTrades rfl (le_refl _) (le_max_left _ _), bestTradeExactInBounded_eq_nested]
  apply exactInNested_depth
  · rw [hopts]
    have : (h - 1).toNat ≤ max pools.length (h - 1).toNat := le_max_right _ _
    have h2 : ((h - 1).toNat : Int) = h - 1 := Int.toNat_of_nonneg (by omega)
    omega
  · rw [hopts]
    have h2 : ((h - 1).toNat : Int) = h - 1 := Int.toNat_of_nonneg (by omega)
    omega

/-- A round of the pool loop of `BestTradeExactOut` makes its nested call only with
more than one hop left, and then with one hop less. -/
theorem exactOutStep_congr_hops (q : Quoter) (r1 r2 : BestTradeCall) (opts : BestTradeOptions)
    (h : 1 < opts.MaxHops → ∀ pools' currentPools' amount' bestTrades',
      r1 pools' { MaxNumResults := opts.MaxNumResults, MaxHops := opts.MaxHops - 1 }
          currentPools' amount' bestTrades'
        = r2 pools' { MaxNumResults := opts.MaxNumResults, MaxHops := opts.MaxHops - 1 }
          currentPools' amount' bestTrades')
    (pools : List Pool) (currencyIn : Currency) (currencyAmountOut : CurrencyAmount)
    (currentPools : List Pool) (amountOut : CurrencyAmount) (bestTrades : List Trade) (i : Nat) :
    exactOutStep q r1 pools currencyIn currencyAmountOut opts currentPools amountOut bestTrades i
      = exactOutStep q r2 pools currencyIn currencyAmountOut opts currentPools amountOut
          bestTrades i := by
  unfold exactOutStep
  cases hget : pools[i]? with
  | none => rfl
  | some pool =>
    by_cases hh : 1 < opts.MaxHops
    · simp only [h hh]
    · have hno : decide (opts.MaxHops > 1) = false := by
        rw [decide_eq_false_iff_not]
        exact hh
      simp only [hno, Bool.false_and, Bool.false_eq_true, if_false]

theorem exactOutBody_congr_hops (q : Quoter) (r1 r2 : BestTradeCall)
    (opts : Option BestTradeOptions)
    (h : 1 < (opts.getD defaultBestTradeOptions).MaxHops →
      ∀ pools' currentPools' amount' bestTrades',
        r1 pools' { MaxNumResults := (opts.getD defaultBestTradeOptions).MaxNumResults,
                    MaxHops := (opts.getD defaultBestTradeOptions).MaxHops - 1 }
            currentPools' amount' bestTrades'
          = r2 pools' { MaxNumResults := (opts.getD defaultBestTradeOptions).MaxNumResults,
                        MaxHops := (opts.getD defaultBestTradeOptions).MaxHops - 1 }
            currentPools' amount' bestTrades')
    (pools : List Pool) (currencyIn : Currency) (currencyAmountOut : CurrencyAmount)
    (currentPools : List Pool) (nextAmountOut : Option CurrencyAmount)
    (bestTrades : List Trade) :
    exactOutBody q r1 pools currencyIn currencyAmountOut opts currentPools nextAmountOut bestTrades
      = exactOutBody q r2 pools currencyIn currencyAmountOut opts currentPools nextAmountOut
          bestTrades := by
  unfold exactOutBody
  have hstep : ∀ a,
      exactOutStep q r1 pools currencyIn currencyAmountOut (opts.getD defaultBestTradeOptions)
          currentPools a
        = exactOutStep q r2 pools currencyIn currencyAmountOut
          (opts.getD defaultBestTradeOptions) currentPools a := by
    intro a
    funext bt i
    exact exactOutStep_congr_hops q r1 r2 _ h pools currencyIn currencyAmountOut currentPools a
      bt i
  simp only [hstep]

/-- Calls nested deeper than the hops allow are never made: whatever stands in
for them, and however deep the calls are written out beyond that, the result is
the same. -/
theorem exactOutNested_depth (q : Quoter) (currencyIn : Currency)
    (currencyAmountOut : CurrencyAmount) (stub1 stub2 : BestTradeCall) :
    ∀ (d1 d2 : Nat) (pools : List Pool) (opts : Option BestTradeOptions)
      (currentPools : List Pool) (nextAmountOut : Option CurrencyAmount)
      (bestTrades : List Trade),
      (opts.getD defaultBestTradeOptions).MaxHops ≤ (d1 : Int) + 1 →
      (opts.getD defaultBestTradeOptions).MaxHops ≤ (d2 : Int) + 1 →
      exactOutNested q currencyIn currencyAmountOut stub1 d1 pools opts currentPools
          nextAmountOut bestTrades
        = exactOutNested q currencyIn currencyAmountOut stub2 d2 pools opts currentPools
          nextAmountOut bestTrades := by
  intro d1
  induction d1 with
  | zero =>
    intro d2 pools opts currentPools nextAmountOut bestTrades h1 h2
    cases d2 with
    | zero =>
      simp only [exactOutNested]
      apply exactOutBody_congr_hops
      intro hgt
      simp only [Nat.cast_zero, zero_add] at h1
      omega
    | succ d2 =>
      simp only [exactOutNested]
      apply exactOutBody_congr_hops
      intro hgt
      simp only [Nat.cast_zero, zero_add] at h1
      omega
  | succ d1 ih =>
    intro d2 pools opts currentPools nextAmountOut bestTrades h1 h2
    cases d2 with
    | zero =>
      simp only [exactOutNested]
      apply exactOutBody_congr_hops
      intro hgt
      simp only [Nat.cast_zero, zero_add] at h2
      omega
    | succ d2 =>
      simp only [exactOutNested]
      apply exactOutBody_congr_hops
      intro hgt pools' currentPools' amount' bestTrades'
      apply ih
      · simp only [Option.getD_some]
        push_cast at h1
        omega
      · simp only [Option.getD_some]
        push_cast at h2
        omega

theorem bestTradeExactOutBounded_eq_nested (q : Quoter) (currencyIn : Currency)
    (currencyAmountOut : CurrencyAmount) :
    ∀ (depth : Nat) (pools : List Pool) (opts : Option BestTradeOptions)
      (currentPools : List Pool) (nextAmountOut : Option CurrencyAmount)
      (bestTrades : List Trade),
      bestTradeExactOutBounded q currencyIn currencyAmountOut depth pools opts currentPools
          nextAmountOut bestTrades
        = exactOutNested q currencyIn currencyAmountOut (fun _ _ _ _ _ => .error .recursionBound)
          depth pools opts currentPools nextAmountOut bestTrades := by
  intro depth
  induction depth with
  | zero =>
    intro pools opts currentPools nextAmountOut bestTrades
    rfl
  | succ depth ih =>
    intro pools opts currentPools nextAmountOut bestTrades
    simp only [bestTradeExactOutBounded, exactOutNested, ih]

/-- With `MaxHops = h >= 1` the result of `BestTradeExactOut` is the result of its
body with the nested calls written out `h - 1` levels deep, whatever stands in
for the calls nested deeper. -/
theorem BestTradeExactOut_eq_nested (q : Quoter) (pools : List Pool)
    (currencyIn : Currency) (currencyAmountOut : CurrencyAmount)
    (opts : Option BestTradeOptions) (currentPools : List Pool)
    (nextAmountOut : Option CurrencyAmount) (bestTrades : List Trade) (h : Int) (hh : 1 ≤ h)
    (hopts : (opts.getD defaultBestTradeOptions).MaxHops = h) (stub : BestTradeCall) :
    BestTradeExactOut q pools currencyIn currencyAmountOut opts currentPools nextAmountOut
        bestTrades
      = exactOutNested q currencyIn currencyAmountOut stub (h - 1).toNat pools opts currentPools
          nextAmountOut bestTrades := by
  unfold BestTradeExactOut
  rw [bestTradeExactOutBounded_bound_irrelevant q currencyIn currencyAmountOut pools.length
    pools.length (max pools.length (h - 1).toNat) pools opts currentPools nextAmountOut
    bestTrades rfl (le_refl _) (le_max_left _ _), bestTradeExactOutBounded_eq_nested]
  apply exactOutNested_depth
  · rw [hopts]
    have : (h - 1).toNat ≤ max pools.length (h - 1).toNat := le_max_right _ _
    have h2 : ((h - 1).toNat : Int) = h - 1 := Int.toNat_of_nonneg (by omega)
    omega
  · rw [hopts]
    have h2 : ((h - 1).toNat : Int) = h - 1 := Int.toNat_of_nonneg (by omega)
    omega

/-! ## The hop bound with other callees

The searches with `NewRoute` and `FromRoute` as parameters: at the two functions
of the source they are the searches of the source, and the hop bound holds
whatever the two callees are, as long as the route holds the pools of the path
and the trade holds the route. -/

theorem NewRoute_keepsPools : RouteCall.keepsPools NewRoute :=
  fun pools input output r h => NewRoute_ok_pools pools input output r h

theorem FromRoute_keepsRoute (q : Quoter) : TradeCall.keepsRoute (FromRoute q) :=
  fun route amount tradeType t h => FromRoute_ok_single_swap q route amount tradeType t h

theorem exactInStepWith_source (q : Quoter) :
    exactInStepWith NewRoute (FromRoute q) q = exactInStep q := rfl

theorem exactInBodyWith_source (q : Quoter) :
    exactInBodyWith NewRoute (FromRoute q) q = exactInBody q := rfl

theorem bestTradeExactInBoundedWith_source (q : Quoter) (currencyAmountIn : CurrencyAmount)
    (currencyOut : Currency) (depth : Nat) :
    bestTradeExactInBoundedWith NewRoute (FromRoute q) q currencyAmountIn currencyOut depth
      = bestTradeExactInBounded q currencyAmountIn currencyOut depth := by
  induction depth with
  | zero => rfl
  | succ depth ih =>
    funext pools opts currentPools nextAmountIn bestTrades
    simp only [bestTradeExactInBoundedWith, bestTradeExactInBounded, ih, exactInBodyWith_source]

/-- At `NewRoute` and `FromRoute` the search with callees is `BestTradeExactIn`. -/
theorem BestTradeExactInWith_source (q : Quoter) :
    BestTradeExactInWith NewRoute (FromRoute q) q = BestTradeExactIn q := by
  funext pools currencyAmountIn currencyOut opts currentPools nextAmountIn bestTrades
  simp only [BestTradeExactInWith, BestTradeExactIn, bestTradeExactInBoundedWith_source]

theorem exactOutStepWith_source (q : Quoter) :
    exactOutStepWith NewRoute (FromRoute q) q = exactOutStep q := rfl

theorem exactOutBodyWith_source (q : Quoter) :
    exactOutBodyWith NewRoute (FromRoute q) q = exactOutBody q := rfl

theorem bestTradeExactOutBoundedWith_source (q : Quoter) (currencyIn : Currency)
    (currencyAmountOut : CurrencyAmount) (depth : Nat) :
    bestTradeExactOutBoundedWith NewRoute (FromRoute q) q currencyIn currencyAmountOut depth
      = bestTradeExactOutBounded q currencyIn currencyAmountOut depth := by
  induction depth with
  | zero => rfl
  | succ depth ih =>
    funext pools opts currentPools nextAmountOut bestTrades
    simp only [bestTradeExactOutBoundedWith, bestTradeExactOutBounded, ih,
      exactOutBodyWith_source]

/-- At `NewRoute` and `FromRoute` the search with callees is `BestTradeExactOut`. -/
theorem BestTradeExactOutWith_source (q : Quoter) :
    BestTradeExactOutWith NewRoute (FromRoute q) q = BestTradeExactOut q := by
  funext pools currencyIn currencyAmountOut opts currentPools nextAmountOut bestTrades
  simp only [BestTradeExactOutWith, BestTradeExactOut, bestTradeExactOutBoundedWith_source]

theorem exactInStepWith_hop_bound (newRoute : RouteCall) (fromRoute : TradeCall)
    (hkeepR : newRoute.keepsPools) (hkeepT : fromRoute.keepsRoute) (q : Quoter) (recurse : BestTradeCall) (h : Int)
    (hrec : ∀ pools' opts' currentPools' amount' bestTrades' l', 1 ≤ opts'.MaxHops →
      (currentPools'.length : Int) + opts'.MaxHops ≤ h →
      (∀ t ∈ bestTrades', SingleRouteWithin h t) →
      recurse pools' opts' currentPools' amount' bestTrades' = .ok l' →
      ∀ t ∈ l', SingleRouteWithin h t)
    (pools : List Pool) (currencyAmountIn : CurrencyAmount) (currencyOut : Currency)
    (opts : BestTradeOptions) (currentPools : List Pool) (amountIn : CurrencyAmount)
    (hhops : 1 ≤ opts.MaxHops) (hlen : (currentPools.length : Int) + opts.MaxHops ≤ h)
    (bestTrades : List Trade) (i : Nat) (l : List Trade)
    (hl : exactInStepWith newRoute fromRoute q recurse pools currencyAmountIn currencyOut opts currentPools amountIn
      bestTrades i = .ok l)
    (hbest : ∀ t ∈ bestTrades, SingleRouteWithin h t) : ∀ t ∈ l, SingleRouteWithin h t := by
  unfold exactInStepWith at hl
  split at hl
  · cases hl
  · rename_i pool hget
    simp only [] at hl
    split at hl
    · cases hl
      exact hbest
    · simp only [bind, Except.bind] at hl
      split at hl
      · cases hl
      · rename_i res hres
        split at hl
        · split at hl
          · cases hl
          · rename_i r hr
            split at hl
            · cases hl
            · rename_i trade htrade
              intro t ht
              rcases sortedInsert_mem _ _ _ _ _ hl t ht with hmem | heq
              · exact hbest t hmem
              · obtain ⟨s, hs, hroute⟩ := hkeepT _ _ _ _ htrade
                refine ⟨s, by rw [heq]; exact hs, ?_⟩
                rw [hroute, hkeepR _ _ _ _ hr]
                simp only [List.length_append, List.length_singleton]
                push_cast
                omega
        · split at hl
          · rename_i hcond
            have hgt : 1 < opts.MaxHops := by
              simp only [Bool.and_eq_true, decide_eq_true_eq] at hcond
              exact hcond.1
            refine hrec _ _ _ _ _ l ?_ ?_ hbest hl
            · simp only []
              omega
            · simp only [List.length_append, List.length_singleton]
              push_cast
              omega
          · cases hl
            exact hbest

theorem exactOutStepWith_hop_bound (newRoute : RouteCall) (fromRoute : TradeCall)
    (hkeepR : newRoute.keepsPools) (hkeepT : fromRoute.keepsRoute) (q : Quoter) (recurse : BestTradeCall) (h : Int)
    (hrec : ∀ pools' opts' currentPools' amount' bestTrades' l', 1 ≤ opts'.MaxHops →
      (currentPools'.length : Int) + opts'.MaxHops ≤ h →
      (∀ t ∈ bestTrades', SingleRouteWithin h t) →
      recurse pools' opts' currentPools' amount' bestTrades' = .ok l' →
      ∀ t ∈ l', SingleRouteWithin h t)
    (pools : List Pool) (currencyIn : Currency) (currencyAmountOut : CurrencyAmount)
    (opts : BestTradeOptions) (currentPools : List Pool) (amountOut : CurrencyAmount)
    (hhops : 1 ≤ opts.MaxHops) (hlen : (currentPools.length : Int) + opts.MaxHops ≤ h)
    (bestTrades : List Trade) (i : Nat) (l : List Trade)
    (hl : exactOutStepWith newRoute fromRoute q recurse pools currencyIn currencyAmountOut opts currentPools amountOut
      bestTrades i = .ok l)
    (hbest : ∀ t ∈ bestTrades, SingleRouteWithin h t) : ∀ t ∈ l, SingleRouteWithin h t := by
  unfold exactOutStepWith at hl
  split at hl
  · cases hl
  · rename_i pool hget
    simp only [] at hl
    split at hl
    · cases hl
      exact hbest
    · simp only [bind, Except.bind] at hl
      split at hl
      · cases hl
      · rename_i res hres
        split at hl
        · split at hl
          · cases hl
          · rename_i r hr
            split at hl
            · cases hl
            · rename_i trade htrade
              intro t ht
              rcases sortedInsert_mem _ _ _ _ _ hl t ht with hmem | heq
              · exact hbest t hmem
              · obtain ⟨s, hs, hroute⟩ := hkeepT _ _ _ _ htrade
                refine ⟨s, by rw [heq]; exact hs, ?_⟩
                rw [hroute, hkeepR _ _ _ _ hr]
                simp only [List.length_cons]
                push_cast
                omega
        · split at hl
          · rename_i hcond
            have hgt : 1 < opts.MaxHops := by
              simp only [Bool.and_eq_true, decide_eq_true_eq] at hcond
              exact hcond.1
            refine hrec _ _ _ _ _ l ?_ ?_ hbest hl
            · simp only []
              omega
            · simp only [List.length_cons]
              push_cast
              omega
          · cases hl
            exact hbest

theorem bestTradeExactInBoundedWith_hop_bound (newRoute : RouteCall) (fromRoute : TradeCall)
    (hkeepR : newRoute.keepsPools) (hkeepT : fromRoute.keepsRoute) (q : Quoter) (currencyAmountIn : CurrencyAmount)
    (currencyOut : Currency) (h : Int) :
    ∀ (depth : Nat) (pools : List Pool) (opts : Option BestTradeOptions)
      (currentPools : List Pool) (nextAmountIn : Option CurrencyAmount)
      (bestTrades l : List Trade),
      1 ≤ (opts.getD defaultBestTradeOptions).MaxHops →
      (currentPools.length : Int) + (opts.getD defaultBestTradeOptions).MaxHops ≤ h →
      (∀ t ∈ bestTrades, SingleRouteWithin h t) →
      bestTradeExactInBoundedWith newRoute fromRoute q currencyAmountIn currencyOut depth pools opts currentPools
        nextAmountIn bestTrades = .ok l →
      ∀ t ∈ l, SingleRouteWithin h t := by
  have hbody : ∀ (recurse : BestTradeCall),
      (∀ pools' opts' currentPools' amount' bestTrades' l', 1 ≤ opts'.MaxHops →
        (currentPools'.length : Int) + opts'.MaxHops ≤ h →
        (∀ t ∈ bestTrades', SingleRouteWithin h t) →
        recurse pools' opts' currentPools' amount' bestTrades' = .ok l' →
        ∀ t ∈ l', SingleRouteWithin h t) →
      ∀ (pools : List Pool) (opts : Option BestTradeOptions) (currentPools : List Pool)
        (nextAmountIn : Option CurrencyAmount) (bestTrades l : List Trade),
        1 ≤ (opts.getD defaultBestTradeOptions).MaxHops →
        (currentPools.length : Int) + (opts.getD defaultBestTradeOptions).MaxHops ≤ h →
        (∀ t ∈ bestTrades, SingleRouteWithin h t) →
        exactInBodyWith newRoute fromRoute q recurse pools currencyAmountIn currencyOut opts currentPools nextAmountIn
          bestTrades = .ok l →
        ∀ t ∈ l, SingleRouteWithin h t := by
    intro recurse hrec pools opts currentPools nextAmountIn bestTrades l hhops hlen hbest hl
    unfold exactInBodyWith at hl
    split at hl
    · cases hl
    · simp only [] at hl
      split at hl
      · cases hl
      · split at hl
        · cases hl
        · exact foldlM_invariant _ (fun bt => ∀ t ∈ bt, SingleRouteWithin h t)
            (fun s i s' hs hinv =>
              exactInStepWith_hop_bound newRoute fromRoute hkeepR hkeepT q recurse h hrec pools currencyAmountIn currencyOut _
                currentPools _ hhops hlen s i s' hs hinv)
            _ _ _ hl hbest
  intro depth
  induction depth with
  | zero =>
    intro pools opts currentPools nextAmountIn bestTrades l hhops hlen hbest hl
    exact hbody _ (fun _ _ _ _ _ _ _ _ _ hcall => by cases hcall) pools opts currentPools
      nextAmountIn bestTrades l hhops hlen hbest hl
  | succ depth ih =>
    intro pools opts currentPools nextAmountIn bestTrades l hhops hlen hbest hl
    exact hbody _ (fun pools' opts' currentPools' amount' bestTrades' l' h1 h2 h3 hcall =>
      ih pools' (some opts') currentPools' (some amount') bestTrades' l' h1 h2 h3 hcall)
      pools opts currentPools nextAmountIn bestTrades l hhops hlen hbest hl

theorem bestTradeExactOutBoundedWith_hop_bound (newRoute : RouteCall) (fromRoute : TradeCall)
    (hkeepR : newRoute.keepsPools) (hkeepT : fromRoute.keepsRoute) (q : Quoter) (currencyIn : Currency)
    (currencyAmountOut : CurrencyAmount) (h : Int) :
    ∀ (depth : Nat) (pools : List Pool) (opts : Option BestTradeOptions)
      (currentPools : List Pool) (nextAmountOut : Option CurrencyAmount)
      (bestTrades l : List Trade),
      1 ≤ (opts.getD defaultBestTradeOptions).MaxHops →
      (currentPools.length : Int) + (opts.getD defaultBestTradeOptions).MaxHops ≤ h →
      (∀ t ∈ bestTrades, SingleRouteWithin h t) →
      bestTradeExactOutBoundedWith newRoute fromRoute q currencyIn currencyAmountOut depth pools opts currentPools
        nextAmountOut bestTrades = .ok l →
      ∀ t ∈ l, SingleRouteWithin h t := by
  have hbody : ∀ (recurse : BestTradeCall),
      (∀ pools' opts' currentPools' amount' bestTrades' l', 1 ≤ opts'.MaxHops →
        (currentPools'.length : Int) + opts'.MaxHops ≤ h →
        (∀ t ∈ bestTrades', SingleRouteWithin h t) →
        recurse pools' opts' currentPools' amount' bestTrades' = .ok l' →
        ∀ t ∈ l', SingleRouteWithin h t) →
      ∀ (pools : List Pool) (opts : Option BestTradeOptions) (currentPools : List Pool)
        (nextAmountOut : Option CurrencyAmount) (bestTrades l : List Trade),
        1 ≤ (opts.getD defaultBestTradeOptions).MaxHops →
        (currentPools.length : Int) + (opts.getD defaultBestTradeOptions).MaxHops ≤ h →
        (∀ t ∈ bestTrades, SingleRouteWithin h t) →
        exactOutBodyWith newRoute fromRoute q recurse pools currencyIn currencyAmountOut opts currentPools
          nextAmountOut bestTrades = .ok l →
        ∀ t ∈ l, SingleRouteWithin h t := by
    intro recurse hrec pools opts currentPools nextAmountOut bestTrades l hhops hlen hbest hl
    unfold exactOutBodyWith at hl
    split at hl
    · cases hl
    · simp only [] at hl
      split at hl
      · cases hl
      · split at hl
        · cases hl
        · exact foldlM_invariant _ (fun bt => ∀ t ∈ bt, SingleRouteWithin h t)
            (fun s i s' hs hinv =>
              exactOutStepWith_hop_bound newRoute fromRoute hkeepR hkeepT q recurse h hrec pools currencyIn currencyAmountOut _
                currentPools _ hhops hlen s i s' hs hinv)
            _ _ _ hl hbest
  intro depth
  induction depth with
  | zero =>
    intro pools opts currentPools nextAmountOut bestTrades l hhops hlen hbest hl
    exact hbody _ (fun _ _ _ _ _ _ _ _ _ hcall => by cases hcall) pools opts currentPools
      nextAmountOut bestTrades l hhops hlen hbest hl
  | succ depth ih =>
    intro pools opts currentPools nextAmountOut bestTrades l hhops hlen hbest hl
    exact hbody _ (fun pools' opts' currentPools' amount' bestTrades' l' h1 h2 h3 hcall =>
      ih pools' (some opts') currentPools' (some amount') bestTrades' l' h1 h2 h3 hcall)
      pools opts currentPools nextAmountOut bestTrades l hhops hlen hbest hl

theorem acceptingRoute_keepsPools : acceptingRoute.keepsPools := by
  intro pools input output r h
  cases h
  rfl

theorem acceptingTrade_keepsRoute : acceptingTrade.keepsRoute := by
  intro route amount tradeType t h
  cases h
  exact ⟨_, rfl, rfl⟩

theorem acceptedTrade_two_pools (first second : Pool) (input output : Token)
    (amount : CurrencyAmount) (tradeType : TradeType) :
    ¬ SingleRouteWithin 1 (acceptedTrade [first, second] input output amount tradeType) := by
  rintro ⟨s, hs, hlen⟩
  cases hs
  simp only [List.length_cons, List.length_nil] at hlen
  omega

/-- C11: for `BestTradeExactIn` and `BestTradeExactOut` called at top level (empty
current path, empty best-trades list) with `MaxHops = h >= 1`, every trade in the
returned list has a single route with at most `h` pools; with `MaxHops = 1` every
returned trade has a route of at most one pool.  In this code `NewRoute` returns
no route, so the returned list is empty; the bound is therefore also shown where
it bites.  It holds of the same searches whatever stands where they call
`NewRoute` and `FromRoute`, as long as the route holds the pools of the path and
the trade holds the route (`BestTradeExactInWith` and `BestTradeExactOutWith`,
which at the two functions of the source are the two searches).  And the
searches of the source make their nested calls at most `h - 1` levels deep: the
result is that of the body with the nested calls written out `h - 1` levels,
whatever stands for a call nested deeper, so a path of more than `h` pools is
never tried. -/
theorem BestTrade_hop_bound (q : Quoter) (pools : List Pool) (amount : CurrencyAmount)
    (currency : Currency) (opts : Option BestTradeOptions)
    (nextAmount : Option CurrencyAmount) (h : Int) (hh : 1 ≤ h)
    (hopts : (opts.getD defaultBestTradeOptions).MaxHops = h) :
    (∀ l, BestTradeExactIn q pools amount currency opts [] nextAmount [] = .ok l →
        ∀ t ∈ l, SingleRouteWithin h t) ∧
      (∀ l, BestTradeExactOut q pools currency amount opts [] nextAmount [] = .ok l →
        ∀ t ∈ l, SingleRouteWithin h t) ∧
      (∀ (newRoute : RouteCall) (fromRoute : TradeCall) (l : List Trade),
        newRoute.keepsPools → fromRoute.keepsRoute →
        BestTradeExactInWith newRoute fromRoute q pools amount currency opts [] nextAmount []
          = .ok l →
        ∀ t ∈ l, SingleRouteWithin h t) ∧
      (∀ (newRoute : RouteCall) (fromRoute : TradeCall) (l : List Trade),
        newRoute.keepsPools → fromRoute.keepsRoute →
        BestTradeExactOutWith newRoute fromRoute q pools currency amount opts [] nextAmount []
          = .ok l →
        ∀ t ∈ l, SingleRouteWithin h t) ∧
      (∀ stub : BestTradeCall,
        BestTradeExactIn q pools amount currency opts [] nextAmount []
          = exactInNested q amount currency stub (h - 1).toNat pools opts [] nextAmount []) ∧
      (∀ stub : BestTradeCall,
        BestTradeExactOut q pools currency amount opts [] nextAmount []
          = exactOutNested q currency amount stub (h - 1).toNat pools opts [] nextAmount []) := by
  have hlen : ((([] : List Pool).length : Nat) : Int)
      + (opts.getD defaultBestTradeOptions).MaxHops ≤ h := by
    simp only [List.length_nil]
    push_cast
    omega
  have hone : 1 ≤ (opts.getD defaultBestTradeOptions).MaxHops := by omega
  have hnil : ∀ t ∈ ([] : List Trade), SingleRouteWithin h t :=
    fun t ht => absurd ht (List.not_mem_nil t)
  refine ⟨?_, ?_, ?_, ?_, ?_, ?_⟩
  · intro l hl
    exact bestTradeExactInBounded_hop_bound q amount currency h pools.length pools opts []
      nextAmount [] l hone hlen hnil hl
  · intro l hl
    exact bestTradeExactOutBounded_hop_bound q currency amount h pools.length pools opts []
      nextAmount [] l hone hlen hnil hl
  · intro newRoute fromRoute l hkeepR hkeepT hl
    exact bestTradeExactInBoundedWith_hop_bound newRoute fromRoute hkeepR hkeepT q amount
      currency h pools.length pools opts [] nextAmount [] l hone hlen hnil hl
  · intro newRoute fromRoute l hkeepR hkeepT hl
    exact bestTradeExactOutBoundedWith_hop_bound newRoute fromRoute hkeepR hkeepT q currency
      amount h pools.length pools opts [] nextAmount [] l hone hlen hnil hl
  · intro stub
    exact BestTradeExactIn_eq_nested q pools amount currency opts [] nextAmount [] h hh hopts
      stub
  · intro stub
    exact BestTradeExactOut_eq_nested q pools currency amount opts [] nextAmount [] h hh hopts
      stub

/-- Witness of C11.  With stand-ins that accept every route, the searches from A
to C over the pools of A and B and of B and C return the trade over both pools at
`MaxHops = 2`, which is within two pools and not within one, and return no trade
at `MaxHops = 1`.  The searches of the source, with a quoter that fails on the
pool of B and C, return at `MaxHops = 1`, where they are the body without a
nested call, and fail with the quoter's error at `MaxHops = 2`: the second pool
is tried only when the hops allow it. -/
theorem BestTrade_hop_bound_witness :
    (BestTradeExactInWith acceptingRoute acceptingTrade spotQuoter [poolAB, poolBC]
        (amountOf tokenA 100) (.token tokenC) (hopsOf 2) [] (some (amountOf tokenA 100)) []
        = .ok [acceptedTrade [poolAB, poolBC] tokenA tokenC (amountOf tokenA 100) .ExactInput] ∧
      SingleRouteWithin 2
        (acceptedTrade [poolAB, poolBC] tokenA tokenC (amountOf tokenA 100) .ExactInput) ∧
      ¬ SingleRouteWithin 1
        (acceptedTrade [poolAB, poolBC] tokenA tokenC (amountOf tokenA 100) .ExactInput) ∧
      BestTradeExactInWith acceptingRoute acceptingTrade spotQuoter [poolAB, poolBC]
        (amountOf tokenA 100) (.token tokenC) (hopsOf 1) [] (some (amountOf tokenA 100)) []
        = .ok []) ∧
    (BestTradeExactOutWith acceptingRoute acceptingTrade spotQuoter [poolAB, poolBC]
        (.token tokenC) (amountOf tokenA 100) (hopsOf 2) [] none []
        = .ok [acceptedTrade [poolBC, poolAB] tokenC tokenA (amountOf tokenA 100) .ExactOutput] ∧
      SingleRouteWithin 2
        (acceptedTrade [poolBC, poolAB] tokenC tokenA (amountOf tokenA 100) .ExactOutput) ∧
      ¬ SingleRouteWithin 1
        (acceptedTrade [poolBC, poolAB] tokenC tokenA (amountOf tokenA 100) .ExactOutput) ∧
      BestTradeExactOutWith acceptingRoute acceptingTrade spotQuoter [poolAB, poolBC]
        (.token tokenC) (amountOf tokenA 100) (hopsOf 1) [] none [] = .ok []) ∧
    (BestTradeExactIn brokenQuoter [poolAB, poolBC] (amountOf tokenA 100) (.token tokenD)
        (hopsOf 1) [] (some (amountOf tokenA 100)) []
        = exactInBody brokenQuoter noCall [poolAB, poolBC] (amountOf tokenA 100)
            (.token tokenD) (hopsOf 1) [] (some (amountOf tokenA 100)) [] ∧
      BestTradeExactIn brokenQuoter [poolAB, poolBC] (amountOf tokenA 100) (.token tokenD)
        (hopsOf 1) [] (some (amountOf tokenA 100)) [] = .ok [] ∧
      BestTradeExactIn brokenQuoter [poolAB, poolBC] (amountOf tokenA 100) (.token tokenD)
        (hopsOf 2) [] (some (amountOf tokenA 100)) [] = .error (.ErrExternal 7)) ∧
    (BestTradeExactOut brokenQuoter [poolAB, poolBC] (.token tokenD) (amountOf tokenA 100)
        (hopsOf 1) [] none []
        = exactOutBody brokenQuoter noCall [poolAB, poolBC] (.token tokenD)
            (amountOf tokenA 100) (hopsOf 1) [] none [] ∧
      BestTradeExactOut brokenQuoter [poolAB, poolBC] (.token tokenD) (amountOf tokenA 100)
        (hopsOf 1) [] none [] = .ok [] ∧
      BestTradeExactOut brokenQuoter [poolAB, poolBC] (.token tokenD) (amountOf tokenA 100)
        (hopsOf 2) [] none [] = .error (.ErrExternal 7)) :=
  ⟨⟨rfl,
      (BestTrade_hop_bound spotQuoter [poolAB, poolBC] (amountOf tokenA 100) (.token tokenC)
        (hopsOf 2) (some (amountOf tokenA 100)) 2 (by decide) rfl).2.2.1
        acceptingRoute acceptingTrade _ acceptingRoute_keepsPools acceptingTrade_keepsRoute rfl
        _ (List.mem_singleton_self _),
      acceptedTrade_two_pools _ _ _ _ _ _, rfl⟩,
    ⟨rfl,
      (BestTrade_hop_bound spotQuoter [poolAB, poolBC] (amountOf tokenA 100) (.token tokenC)
        (hopsOf 2) none 2 (by decide) rfl).2.2.2.1
        acceptingRoute acceptingTrade _ acceptingRoute_keepsPools acceptingTrade_keepsRoute rfl
        _ (List.mem_singleton_self _),
      acceptedTrade_two_pools _ _ _ _ _ _, rfl⟩,
    ⟨(BestTrade_hop_bound brokenQuoter [poolAB, poolBC] (amountOf tokenA 100) (.token tokenD)
        (hopsOf 1) (some (amountOf tokenA 100)) 1 (by decide) rfl).2.2.2.2.1 noCall,
      rfl, rfl⟩,
    ⟨(BestTrade_hop_bound brokenQuoter [poolAB, poolBC] (amountOf tokenA 100) (.token tokenD)
        (hopsOf 1) none 1 (by decide) rfl).2.2.2.2.2 noCall,
      rfl, rfl⟩⟩

end UniswapV4
